import Mathlib

/-!
# Oracle database agreements: the license allocation engine

A shallow embedding of `api-service/service/oracle_database_agreements.go`
(functions `assignOracleDatabaseAgreementsToHosts` and everything it calls) and
theorems about it.

Modelling conventions.

* `float64` quantities are exact rationals (`ℚ`); `math.Floor`, `math.Min`, `math.Max`
  are `⌊·⌋`, `min`, `max`.  Theorems about this model are statements about the code with
  its arithmetic taken as exact.  The two passes and the finalizer are embedded a second
  time with `float64` rounding (names ending in `Float64`); that model is used where a
  statement that holds in exact arithmetic fails for the values the code computes.
* Go strings are `String`; Go compares strings bytewise, which for UTF-8 is the
  code point order of `String`.
* A Go `map[K]V` that is only ever looked up is a function `K → Option V`
  (`none` = key absent).
* A `*dto.HostUsingOracleDatabaseLicenses` stored in the hosts map points into the
  `hosts` slice; it is modelled as the index of the element, and the functions that
  mutate hosts through such pointers take and return the `hosts` list.
* Dereferencing the nil pointer that `licenseTypes[id]` yields for an absent id
  panics in Go; functions that can do so return `Option`, `none` being the panic.
* `sort.Slice` belongs to the Go standard library, not to this repository.  It is a
  parameter `srt` of every function that sorts, constrained in theorems by
  `SortSliceContract` (the result is a permutation, and is ordered whenever `less`
  is a strict weak order).  `insertionSortSlice` is one concrete such sort.
* Logging (`as.Log`) has no effect on the data and is omitted.
-/

namespace Ercole

/-! ## Data model (fields used by the allocation code) -/

/-- Modelled from the spec: the constant `model.AgreementPartMetricProcessorPerpetual`
(package `model` is not among the sources), the metric name of section 4.5. -/
def AgreementPartMetricProcessorPerpetual : String := "Processor Perpetual"

/-- Modelled from the spec: the constant `model.AgreementPartMetricNamedUserPlusPerpetual`
(package `model` is not among the sources), the metric name of section 4.5. -/
def AgreementPartMetricNamedUserPlusPerpetual : String := "Named User Plus Perpetual"

/-- Modelled from the spec: the constant `model.AgreementPartMetricComputerPerpetual`
(package `model` is not among the sources), the metric name of section 4.5. -/
def AgreementPartMetricComputerPerpetual : String := "Computer Perpetual"

/-- Modelled from the spec: the type `model.OracleDatabaseLicenseType` (package `model` is
not among the sources), with the fields the allocation code reads. -/
structure OracleDatabaseLicenseType where
  ID : String
  ItemDescription : String
  Metric : String
  Aliases : List String
  deriving DecidableEq

/-- Modelled from the spec: the type `dto.OracleDatabaseAgreementAssociatedHostFE` (package
`dto` is not among the sources), with the fields the allocation code reads or writes. -/
structure OracleDatabaseAgreementAssociatedHostFE where
  Hostname : String
  CoveredLicensesCount : ℚ
  TotalCoveredLicensesCount : ℚ
  ConsumedLicensesCount : ℚ
  deriving DecidableEq

/-- Modelled from the spec: the type `dto.OracleDatabaseAgreementFE` (package `dto` is not
among the sources), with the fields the allocation code reads or writes. -/
structure OracleDatabaseAgreementFE where
  AgreementID : String
  LicenseTypeID : String
  ItemDescription : String
  Metric : String
  Unlimited : Bool
  CatchAll : Bool
  Count : ℚ
  LicensesCount : ℚ
  UsersCount : ℚ
  AvailableCount : ℚ
  Hosts : List OracleDatabaseAgreementAssociatedHostFE
  deriving DecidableEq

/-- Modelled from the spec: the type `dto.HostUsingOracleDatabaseLicenses` (package `dto` is
not among the sources), with the fields the allocation code reads or writes. -/
structure HostUsingOracleDatabaseLicenses where
  LicenseTypeID : String
  Name : String
  LicenseName : String
  LicenseCount : ℚ
  OriginalCount : ℚ
  deriving DecidableEq

/-- The map `map[string]*model.OracleDatabaseLicenseType`, by license type id. -/
abbrev LicenseTypesMap := String → Option OracleDatabaseLicenseType

/-- The map `map[string]map[string]*dto.HostUsingOracleDatabaseLicenses`: license name,
then host name, to a pointer (index) into the hosts slice. -/
abbrev HostsMap := String → Option (String → Option Nat)

/-! ## `sort.Slice` -/

/-- Type of a `sort.Slice` implementation: the comparator and the slice to sort. -/
abbrev SortSlice := (α : Type) → (α → α → Bool) → List α → List α

/-- A strict weak order given as a boolean `less`. -/
structure StrictWeakOrder {α : Type} (less : α → α → Bool) : Prop where
  irrefl : ∀ a, less a a = false
  trans : ∀ a b c, less a b = true → less b c = true → less a c = true
  incomp_trans : ∀ a b c, less a b = false → less b c = false → less a c = false

/-- What `sort.Slice` guarantees: it permutes the slice, and when `less` is a strict
weak order no element is `less` than one placed before it. -/
structure SortSliceContract (srt : SortSlice) : Prop where
  perm : ∀ (α : Type) (less : α → α → Bool) (l : List α), (srt α less l).Perm l
  sorted : ∀ (α : Type) (less : α → α → Bool) (l : List α), StrictWeakOrder less →
    (srt α less l).Pairwise (fun a b => less b a = false)

/-- Insertion of `a` into a list ordered by `less`. -/
def insertOrdered {α : Type} (less : α → α → Bool) (a : α) : List α → List α
  | [] => [a]
  | b :: l => if less b a then b :: insertOrdered less a l else a :: b :: l

/-- Insertion sort, a concrete `sort.Slice`. -/
def insertionSortSlice : SortSlice := fun _ less l =>
  l.foldr (insertOrdered less) []

/-! ## Sorting agreements and hosts -/

/-- The `less` closure of `sortOracleDatabaseAgreements`. -/
def agreementLess (a b : OracleDatabaseAgreementFE) : Bool :=
  if a.CatchAll != b.CatchAll then b.CatchAll
  else if a.Unlimited != b.Unlimited then b.Unlimited
  else if a.UsersCount != b.UsersCount then decide (a.UsersCount > b.UsersCount)
  else decide (a.LicensesCount > b.LicensesCount)

/-- Function `sortOracleDatabaseAgreements`: sort by CatchAll (falses first), Unlimited
(falses first), decreasing UsersCount, decreasing LicensesCount. -/
def sortOracleDatabaseAgreements (srt : SortSlice) (obj : List OracleDatabaseAgreementFE) :
    List OracleDatabaseAgreementFE :=
  srt _ agreementLess obj

/-- The `less` closure of `sortHostsUsingLicenses`. -/
def hostLess (a b : HostUsingOracleDatabaseLicenses) : Bool :=
  if a.LicenseCount != b.LicenseCount then decide (a.LicenseCount > b.LicenseCount)
  else if a.Name != b.Name then decide (a.Name > b.Name)
  else decide (a.LicenseName > b.LicenseName)

/-- Function `sortHostsUsingLicenses`. -/
def sortHostsUsingLicenses (srt : SortSlice) (obj : List HostUsingOracleDatabaseLicenses) :
    List HostUsingOracleDatabaseLicenses :=
  srt _ hostLess obj

/-! ## Lookup maps -/

/-- The body of the loop of `buildHostUsingLicensesMap`: create `res[licenseName]` when it
is absent, then `res[licenseName][name] = &hosts[i]`. -/
def hostsMapInsert (res : HostsMap) (licenseName name : String) (i : Nat) : HostsMap :=
  fun ln =>
    if ln = licenseName then
      some fun n =>
        if n = name then some i
        else
          match res licenseName with
          | some mapHostnamesLicenses => mapHostnamesLicenses n
          | none => none
    else res ln

/-- Function `buildHostUsingLicensesMap`: for every host in slice order,
`res[host.LicenseName][host.Name] = &hosts[i]` (a later host overwrites an earlier one
with the same license name and name). -/
def buildHostUsingLicensesMap (hosts : List HostUsingOracleDatabaseLicenses) : HostsMap :=
  hosts.enum.foldl (fun res ih => hostsMapInsert res ih.2.LicenseName ih.2.Name ih.1)
    (fun _ => none)

/-- Function `buildLicenseTypesMap`: `ltMap[licenseType.ID] = &licenseTypes[i]` in slice
order. -/
def buildLicenseTypesMap (licenseTypes : List OracleDatabaseLicenseType) : LicenseTypesMap :=
  licenseTypes.foldl (fun ltMap licenseType => fun id =>
    if id = licenseType.ID then some licenseType else ltMap id) (fun _ => none)

/-- Function `fillAgreementsInfo`: copy item description and metric from the license type
and derive `LicensesCount` / `UsersCount` from `Count`; an agreement with an unknown license
type is left as it is. -/
def fillAgreementsInfo (agrs : List OracleDatabaseAgreementFE) (licenseTypes : LicenseTypesMap) :
    List OracleDatabaseAgreementFE :=
  agrs.map fun agr =>
    match licenseTypes agr.LicenseTypeID with
    | some licenseType =>
      let agr := { agr with ItemDescription := licenseType.ItemDescription,
                            Metric := licenseType.Metric }
      if agr.Metric = AgreementPartMetricProcessorPerpetual then
        { agr with LicensesCount := agr.Count }
      else if agr.Metric = AgreementPartMetricNamedUserPlusPerpetual then
        { agr with UsersCount := agr.Count }
      else agr
    | none => agr

/-! ## Coverage steps -/

/-- Function `doAssignAgreementLicensesToAssociatedHost`: use the licenses available in
`agreement` to cover `host`, crediting `associatedHost`.  Returns the three records as the
Go code leaves them (`associatedHost` points into `agreement.Hosts`; the step writes only
`agreement.AvailableCount`, `associatedHost.CoveredLicensesCount`, `host.LicenseCount`).
The arithmetic is exact; `doAssignAgreementLicensesToAssociatedHostFloat64` is the same
function with `float64` rounding. -/
def doAssignAgreementLicensesToAssociatedHost
    (agreement : OracleDatabaseAgreementFE)
    (host : HostUsingOracleDatabaseLicenses)
    (associatedHost : OracleDatabaseAgreementAssociatedHostFE) :
    OracleDatabaseAgreementFE × HostUsingOracleDatabaseLicenses ×
      OracleDatabaseAgreementAssociatedHostFE :=
  if agreement.Metric = AgreementPartMetricProcessorPerpetual ∨
      agreement.Metric = AgreementPartMetricComputerPerpetual then
    if agreement.Unlimited then
      let coverableLicenses := host.LicenseCount
      ({ agreement with AvailableCount := 0 },
       { host with LicenseCount := host.LicenseCount - coverableLicenses },
       { associatedHost with
           CoveredLicensesCount := associatedHost.CoveredLicensesCount + coverableLicenses })
    else
      let coverableLicenses := min agreement.AvailableCount host.LicenseCount
      ({ agreement with AvailableCount := agreement.AvailableCount - coverableLicenses },
       { host with LicenseCount := host.LicenseCount - coverableLicenses },
       { associatedHost with
           CoveredLicensesCount := associatedHost.CoveredLicensesCount + coverableLicenses })
  else if agreement.Metric = AgreementPartMetricNamedUserPlusPerpetual then
    if agreement.Unlimited then
      let coverableLicenses := host.LicenseCount
      ({ agreement with AvailableCount := 0 },
       { host with LicenseCount := host.LicenseCount - coverableLicenses },
       { associatedHost with
           CoveredLicensesCount := associatedHost.CoveredLicensesCount + coverableLicenses * 25 })
    else
      let coverableLicenses : ℚ :=
        (⌊min agreement.AvailableCount (host.LicenseCount * 25) / 25⌋ : ℤ)
      ({ agreement with AvailableCount := agreement.AvailableCount - coverableLicenses * 25 },
       { host with LicenseCount := host.LicenseCount - coverableLicenses },
       { associatedHost with
           CoveredLicensesCount := associatedHost.CoveredLicensesCount + coverableLicenses * 25 })
  else
    (agreement, host, associatedHost)

/-- Function `doAssignLicenseFromCatchAllAgreement`: as the step above, without an
associated host to credit.  The arithmetic is exact;
`doAssignLicenseFromCatchAllAgreementFloat64` is the same function with `float64`
rounding. -/
def doAssignLicenseFromCatchAllAgreement
    (agreement : OracleDatabaseAgreementFE)
    (hostUsingLicenses : HostUsingOracleDatabaseLicenses) :
    OracleDatabaseAgreementFE × HostUsingOracleDatabaseLicenses :=
  if agreement.Metric = AgreementPartMetricProcessorPerpetual ∨
      agreement.Metric = AgreementPartMetricComputerPerpetual then
    if agreement.Unlimited then
      let coverableLicenses := hostUsingLicenses.LicenseCount
      ({ agreement with AvailableCount := 0 },
       { hostUsingLicenses with
           LicenseCount := hostUsingLicenses.LicenseCount - coverableLicenses })
    else
      let coverableLicenses := min agreement.AvailableCount hostUsingLicenses.LicenseCount
      ({ agreement with AvailableCount := agreement.AvailableCount - coverableLicenses },
       { hostUsingLicenses with
           LicenseCount := hostUsingLicenses.LicenseCount - coverableLicenses })
  else if agreement.Metric = AgreementPartMetricNamedUserPlusPerpetual then
    if agreement.Unlimited then
      let coverableLicenses := hostUsingLicenses.LicenseCount
      ({ agreement with AvailableCount := 0 },
       { hostUsingLicenses with
           LicenseCount := hostUsingLicenses.LicenseCount - coverableLicenses })
    else
      let coverableLicenses : ℚ :=
        (⌊min agreement.AvailableCount (hostUsingLicenses.LicenseCount * 25) / 25⌋ : ℤ)
      ({ agreement with AvailableCount := agreement.AvailableCount - coverableLicenses * 25 },
       { hostUsingLicenses with
           LicenseCount := hostUsingLicenses.LicenseCount - coverableLicenses })
  else
    (agreement, hostUsingLicenses)

/-! ## Direct-association pass -/

/-- The key computed by the `less` closure of `sortHostsInAgreementByLicenseCount` for the
associated host `hostname`: the maximum of 0 and the license count of its usage records
under the given aliases. -/
def maxLicenseCount (hosts : List HostUsingOracleDatabaseLicenses) (hostsMap : HostsMap)
    (aliases : List String) (hostname : String) : ℚ :=
  aliases.foldl
    (fun maxCount aliasName =>
      match hostsMap aliasName with
      | some mapHostnamesLicenses =>
        match mapHostnamesLicenses hostname with
        | some p =>
          match hosts[p]? with
          | some hostUsingLicenses => max maxCount hostUsingLicenses.LicenseCount
          | none => maxCount
        | none => maxCount
      | none => maxCount)
    0

/-- Function `sortHostsInAgreementByLicenseCount`.  The closure dereferences
`licenseTypes[agr.LicenseTypeID]`, so it panics for an unknown license type as soon as it
is called, which `sort.Slice` does when the slice has two elements or more. -/
def sortHostsInAgreementByLicenseCount (srt : SortSlice) (agr : OracleDatabaseAgreementFE)
    (hosts : List HostUsingOracleDatabaseLicenses) (hostsMap : HostsMap)
    (licenseTypes : LicenseTypesMap) : Option OracleDatabaseAgreementFE :=
  match licenseTypes agr.LicenseTypeID with
  | some licenseType =>
    some { agr with
      Hosts := srt _
        (fun a b => decide (maxLicenseCount hosts hostsMap licenseType.Aliases a.Hostname >
          maxLicenseCount hosts hostsMap licenseType.Aliases b.Hostname))
        agr.Hosts }
  | none => if agr.Hosts.length < 2 then some agr else none

/-- The loop over the aliases in `assignAgreementsLicensesToItsAssociatedHosts`
(source lines 365-400) for one associated host.  `hosts` is the slice the pointers of
`hostsMap` point into; a pointer outside the slice, which a map built from the slice never
holds, is skipped. -/
def assignToAliases (hostsMap : HostsMap) :
    List String → OracleDatabaseAgreementFE → OracleDatabaseAgreementAssociatedHostFE →
    List HostUsingOracleDatabaseLicenses →
    OracleDatabaseAgreementFE × OracleDatabaseAgreementAssociatedHostFE ×
      List HostUsingOracleDatabaseLicenses
  | [], agreement, associatedHost, hosts => (agreement, associatedHost, hosts)
  | aliasName :: aliases, agreement, associatedHost, hosts =>
    if agreement.AvailableCount ≤ 0 ∧ agreement.Unlimited = false then
      (agreement, associatedHost, hosts)
    else
      match hostsMap aliasName with
      | none => assignToAliases hostsMap aliases agreement associatedHost hosts
      | some mapHostnamesLicenses =>
        match mapHostnamesLicenses associatedHost.Hostname with
        | none => assignToAliases hostsMap aliases agreement associatedHost hosts
        | some p =>
          match hosts[p]? with
          | none => assignToAliases hostsMap aliases agreement associatedHost hosts
          | some hostUsingLicenses =>
            if hostUsingLicenses.LicenseCount ≤ 0 then
              assignToAliases hostsMap aliases agreement associatedHost hosts
            else
              let r := doAssignAgreementLicensesToAssociatedHost agreement hostUsingLicenses
                associatedHost
              assignToAliases hostsMap aliases r.1 r.2.2 (hosts.set p r.2.1)

/-- The loop over `agreement.Hosts` in `assignAgreementsLicensesToItsAssociatedHosts`
(source lines 362-405).  The first argument is the part of `agreement.Hosts` still to
visit; the returned list is that part as the loop leaves it.  The range expression
`licenseTypes[agreement.LicenseTypeID].Aliases` panics for an unknown license type. -/
def assignToAssociatedHosts (hostsMap : HostsMap) (licenseTypes : LicenseTypesMap) :
    List OracleDatabaseAgreementAssociatedHostFE → OracleDatabaseAgreementFE →
    List HostUsingOracleDatabaseLicenses →
    Option (List OracleDatabaseAgreementAssociatedHostFE × OracleDatabaseAgreementFE ×
      List HostUsingOracleDatabaseLicenses)
  | [], agreement, hosts => some ([], agreement, hosts)
  | associatedHost :: rest, agreement, hosts =>
    match licenseTypes agreement.LicenseTypeID with
    | none => none
    | some licenseType =>
      let r := assignToAliases hostsMap licenseType.Aliases agreement associatedHost hosts
      if r.1.AvailableCount ≤ 0 ∧ r.1.Unlimited = false then
        some (r.2.1 :: rest, r.1, r.2.2)
      else
        match assignToAssociatedHosts hostsMap licenseTypes rest r.1 r.2.2 with
        | none => none
        | some (rest', agreement', hosts') => some (r.2.1 :: rest', agreement', hosts')

/-- The body of the loop over the agreements in
`assignAgreementsLicensesToItsAssociatedHosts` (source lines 355-405). -/
def assignAgreementLicenses (srt : SortSlice) (hostsMap : HostsMap)
    (licenseTypes : LicenseTypesMap) (agreement : OracleDatabaseAgreementFE)
    (hosts : List HostUsingOracleDatabaseLicenses) :
    Option (OracleDatabaseAgreementFE × List HostUsingOracleDatabaseLicenses) :=
  match sortHostsInAgreementByLicenseCount srt agreement hosts hostsMap licenseTypes with
  | none => none
  | some agreement =>
    match assignToAssociatedHosts hostsMap licenseTypes agreement.Hosts agreement hosts with
    | none => none
    | some (associatedHosts, agreement', hosts') =>
      some ({ agreement' with Hosts := associatedHosts }, hosts')

/-- Function `assignAgreementsLicensesToItsAssociatedHosts`: assign the licenses available
in each agreement to the hosts associated with it. -/
def assignAgreementsLicensesToItsAssociatedHosts (srt : SortSlice) :
    List OracleDatabaseAgreementFE → List HostUsingOracleDatabaseLicenses → HostsMap →
    LicenseTypesMap →
    Option (List OracleDatabaseAgreementFE × List HostUsingOracleDatabaseLicenses)
  | [], hosts, _, _ => some ([], hosts)
  | agreement :: agreements, hosts, hostsMap, licenseTypes =>
    match assignAgreementLicenses srt hostsMap licenseTypes agreement hosts with
    | none => none
    | some (agreement', hosts') =>
      match assignAgreementsLicensesToItsAssociatedHosts srt agreements hosts' hostsMap
          licenseTypes with
      | none => none
      | some (agreements', hosts'') => some (agreement' :: agreements', hosts'')

/-! ## Catch-all pass -/

/-- The loop over the aliases in `assignLicensesFromCatchAllAgreements`
(source lines 504-524). -/
def catchAllAliases :
    List String → OracleDatabaseAgreementFE → HostUsingOracleDatabaseLicenses →
    OracleDatabaseAgreementFE × HostUsingOracleDatabaseLicenses
  | [], agr, host => (agr, host)
  | aliasName :: aliases, agr, host =>
    if agr.AvailableCount ≤ 0 ∧ agr.Unlimited = false then (agr, host)
    else if host.LicenseName ≠ aliasName then catchAllAliases aliases agr host
    else
      let r := doAssignLicenseFromCatchAllAgreement agr host
      catchAllAliases aliases r.1 r.2

/-- The loop over the agreements in `assignLicensesFromCatchAllAgreements`
(source lines 493-525) for one host. -/
def catchAllAgreements (licenseTypes : LicenseTypesMap) :
    List OracleDatabaseAgreementFE → HostUsingOracleDatabaseLicenses →
    Option (List OracleDatabaseAgreementFE × HostUsingOracleDatabaseLicenses)
  | [], host => some ([], host)
  | agr :: agrs, host =>
    if agr.CatchAll = false then
      match catchAllAgreements licenseTypes agrs host with
      | none => none
      | some (agrs', host') => some (agr :: agrs', host')
    else if agr.AvailableCount ≤ 0 ∧ agr.Unlimited = false then
      match catchAllAgreements licenseTypes agrs host with
      | none => none
      | some (agrs', host') => some (agr :: agrs', host')
    else
      match licenseTypes agr.LicenseTypeID with
      | none => none
      | some licenseType =>
        let r := catchAllAliases licenseType.Aliases agr host
        match catchAllAgreements licenseTypes agrs r.2 with
        | none => none
        | some (agrs', host') => some (r.1 :: agrs', host')

/-- Function `assignLicensesFromCatchAllAgreements`: distribute the licenses of the
catch-all agreements to every host that uses that kind of license, in host order. -/
def assignLicensesFromCatchAllAgreements :
    List OracleDatabaseAgreementFE → List HostUsingOracleDatabaseLicenses →
    LicenseTypesMap →
    Option (List OracleDatabaseAgreementFE × List HostUsingOracleDatabaseLicenses)
  | agrs, [], _ => some (agrs, [])
  | agrs, host :: hosts, licenseTypes =>
    if host.LicenseCount ≤ 0 then
      match assignLicensesFromCatchAllAgreements agrs hosts licenseTypes with
      | none => none
      | some (agrs', hosts') => some (agrs', host :: hosts')
    else
      match catchAllAgreements licenseTypes agrs host with
      | none => none
      | some (agrs1, host1) =>
        match assignLicensesFromCatchAllAgreements agrs1 hosts licenseTypes with
        | none => none
        | some (agrs', hosts') => some (agrs', host1 :: hosts')

/-! ## Finalizer -/

/-- Type `coverStatus`. -/
structure coverStatus where
  Covered : ℚ
  Consumed : ℚ
  deriving DecidableEq

/-- Function `calculateCoverStatusByLicenseName`: total consumed and covered per license
name (a name no host uses has the zero value).  The sums are exact;
`calculateCoverStatusByLicenseNameFloat64` is the same function with `float64` rounding. -/
def calculateCoverStatusByLicenseName (hosts : List HostUsingOracleDatabaseLicenses) :
    String → coverStatus :=
  hosts.foldl
    (fun licensesStatus host => fun name =>
      if name = host.LicenseName then
        { Consumed := (licensesStatus host.LicenseName).Consumed + host.OriginalCount,
          Covered := (licensesStatus host.LicenseName).Covered +
            (host.OriginalCount - host.LicenseCount) }
      else licensesStatus name)
    (fun _ => { Covered := 0, Consumed := 0 })

/-- The body of the loop over `agreement.Hosts` in
`calculateTotalCoveredLicensesAndAvailableCount` (source lines 590-614) for one alias and
one associated host: the associated host and `uncoveredLicensesByAssociatedHosts` as the
body leaves them. -/
def coverAssociatedHost (hosts : List HostUsingOracleDatabaseLicenses) (hostsMap : HostsMap)
    (metric : String) (aliasName : String)
    (associatedHost : OracleDatabaseAgreementAssociatedHostFE) (uncovered : ℚ) :
    OracleDatabaseAgreementAssociatedHostFE × ℚ :=
  match hostsMap aliasName with
  | none => (associatedHost, uncovered)
  | some mapHostnamesLicenses =>
    match mapHostnamesLicenses associatedHost.Hostname with
    | none => (associatedHost, uncovered)
    | some p =>
      match hosts[p]? with
      | none => (associatedHost, uncovered)
      | some host =>
        if metric = AgreementPartMetricProcessorPerpetual ∨
            metric = AgreementPartMetricComputerPerpetual then
          ({ associatedHost with
               TotalCoveredLicensesCount := host.OriginalCount - host.LicenseCount,
               ConsumedLicensesCount := host.OriginalCount },
           uncovered + host.LicenseCount)
        else if metric = AgreementPartMetricNamedUserPlusPerpetual then
          ({ associatedHost with
               TotalCoveredLicensesCount := (host.OriginalCount - host.LicenseCount) * 25,
               ConsumedLicensesCount := host.OriginalCount * 25 },
           uncovered + host.LicenseCount * 25)
        else (associatedHost, uncovered)

/-- The loop over `agreement.Hosts` (source lines 589-615) for one alias. -/
def coverAssociatedHosts (hosts : List HostUsingOracleDatabaseLicenses) (hostsMap : HostsMap)
    (metric : String) (aliasName : String) :
    List OracleDatabaseAgreementAssociatedHostFE → ℚ →
    List OracleDatabaseAgreementAssociatedHostFE × ℚ
  | [], uncovered => ([], uncovered)
  | associatedHost :: rest, uncovered =>
    let s := coverAssociatedHost hosts hostsMap metric aliasName associatedHost uncovered
    let r := coverAssociatedHosts hosts hostsMap metric aliasName rest s.2
    (s.1 :: r.1, r.2)

/-- The loop over the aliases (source lines 587-618): the associated hosts,
`uncoveredLicensesByAssociatedHosts` and `uncoveredLicensesByAllHosts` as it leaves
them.  The sums are exact; `coverAliasesFloat64` is the same loop with `float64`
rounding. -/
def coverAliases (hosts : List HostUsingOracleDatabaseLicenses) (hostsMap : HostsMap)
    (licensesCoverStatusByName : String → coverStatus) (metric : String) :
    List String → List OracleDatabaseAgreementAssociatedHostFE → ℚ → ℚ →
    List OracleDatabaseAgreementAssociatedHostFE × ℚ × ℚ
  | [], associatedHosts, byAssociated, byAll => (associatedHosts, byAssociated, byAll)
  | aliasName :: aliases, associatedHosts, byAssociated, byAll =>
    let r := coverAssociatedHosts hosts hostsMap metric aliasName associatedHosts byAssociated
    coverAliases hosts hostsMap licensesCoverStatusByName metric aliases r.1 r.2
      (byAll + ((licensesCoverStatusByName aliasName).Consumed -
        (licensesCoverStatusByName aliasName).Covered))

/-- The body of the loop over the agreements in
`calculateTotalCoveredLicensesAndAvailableCount` (source lines 582-636).  The range
expression `licenseTypes[agreement.LicenseTypeID].Aliases` panics for an unknown license
type. -/
def calculateAgreement (hosts : List HostUsingOracleDatabaseLicenses) (hostsMap : HostsMap)
    (licenseTypes : LicenseTypesMap) (licensesCoverStatusByName : String → coverStatus)
    (agreement : OracleDatabaseAgreementFE) : Option OracleDatabaseAgreementFE :=
  match licenseTypes agreement.LicenseTypeID with
  | none => none
  | some licenseType =>
    let r := coverAliases hosts hostsMap licensesCoverStatusByName agreement.Metric
      licenseType.Aliases agreement.Hosts 0 0
    let agreement := { agreement with Hosts := r.1 }
    let uncoveredLicenses := if agreement.CatchAll then r.2.2 else r.2.1
    if uncoveredLicenses > 0 then
      some { agreement with AvailableCount := agreement.AvailableCount - uncoveredLicenses }
    else some agreement

/-- Function `calculateTotalCoveredLicensesAndAvailableCount`. -/
def calculateTotalCoveredLicensesAndAvailableCount (agrs : List OracleDatabaseAgreementFE)
    (hosts : List HostUsingOracleDatabaseLicenses) (hostsMap : HostsMap)
    (licenseTypes : LicenseTypesMap) : Option (List OracleDatabaseAgreementFE) :=
  agrs.mapM (calculateAgreement hosts hostsMap licenseTypes
    (calculateCoverStatusByLicenseName hosts))

/-! ## The allocation run -/

/-- The alias resolution loop of `assignOracleDatabaseAgreementsToHosts`
(source lines 215-229) for one host: the id of the first license type one of whose aliases
is the host's license name. -/
def resolveLicenseType (licenseTypes : List OracleDatabaseLicenseType)
    (host : HostUsingOracleDatabaseLicenses) : HostUsingOracleDatabaseLicenses :=
  match licenseTypes.find? (fun licenseType =>
      licenseType.Aliases.any (fun aliasName => host.LicenseName = aliasName)) with
  | some licenseType => { host with LicenseTypeID := licenseType.ID }
  | none => host

/-- Function `assignOracleDatabaseAgreementsToHosts`, given the license types that
`GetOracleDatabaseLicenseTypes` returned: the agreements and the hosts as the run leaves
them, or `none` when it panics. -/
def assignOracleDatabaseAgreementsToHosts (srt : SortSlice)
    (licenseTypes : List OracleDatabaseLicenseType)
    (agrs : List OracleDatabaseAgreementFE) (hosts : List HostUsingOracleDatabaseLicenses) :
    Option (List OracleDatabaseAgreementFE × List HostUsingOracleDatabaseLicenses) :=
  let hosts := hosts.map (resolveLicenseType licenseTypes)
  let agrs := sortOracleDatabaseAgreements srt agrs
  let hosts := sortHostsUsingLicenses srt hosts
  let hostsMap := buildHostUsingLicensesMap hosts
  let licenseTypesMap := buildLicenseTypesMap licenseTypes
  let agrs := fillAgreementsInfo agrs licenseTypesMap
  match assignAgreementsLicensesToItsAssociatedHosts srt agrs hosts hostsMap
      licenseTypesMap with
  | none => none
  | some (agrs, hosts) =>
    let hosts := sortHostsUsingLicenses srt hosts
    let hostsMap := buildHostUsingLicensesMap hosts
    match assignLicensesFromCatchAllAgreements agrs hosts licenseTypesMap with
    | none => none
    | some (agrs, hosts) =>
      match calculateTotalCoveredLicensesAndAvailableCount agrs hosts hostsMap
          licenseTypesMap with
      | none => none
      | some agrs => some (agrs, hosts)

/-! ## The orders of the specification -/

/-- The key chain for agreements in the words of the specification: `a` strictly precedes
`b` when it comes first by `CatchAll` (false before true), then `Unlimited` (false before
true), then `UsersCount` descending, then `LicensesCount` descending. -/
def agreementPrecedes (a b : OracleDatabaseAgreementFE) : Prop :=
  (a.CatchAll = false ∧ b.CatchAll = true) ∨
  (a.CatchAll = b.CatchAll ∧
    ((a.Unlimited = false ∧ b.Unlimited = true) ∨
     (a.Unlimited = b.Unlimited ∧
       (a.UsersCount > b.UsersCount ∨
        (a.UsersCount = b.UsersCount ∧ a.LicensesCount > b.LicensesCount)))))

/-- The key chain for hosts in the words of the specification: `LicenseCount` descending,
then `Name` descending, then `LicenseName` descending. -/
def hostPrecedes (a b : HostUsingOracleDatabaseLicenses) : Prop :=
  a.LicenseCount > b.LicenseCount ∨
  (a.LicenseCount = b.LicenseCount ∧
    (a.Name > b.Name ∨ (a.Name = b.Name ∧ a.LicenseName > b.LicenseName)))

/-- The sort key of an agreement as an element of a lexicographic product (used in proofs
only). -/
def agreementKey (a : OracleDatabaseAgreementFE) : Bool ×ₗ Bool ×ₗ ℚᵒᵈ ×ₗ ℚᵒᵈ :=
  toLex (a.CatchAll, toLex (a.Unlimited, toLex (OrderDual.toDual a.UsersCount,
    OrderDual.toDual a.LicensesCount)))

/-- The sort key of a host as an element of a lexicographic product (used in proofs
only). -/
def hostKey (a : HostUsingOracleDatabaseLicenses) : ℚᵒᵈ ×ₗ Stringᵒᵈ ×ₗ Stringᵒᵈ :=
  toLex (OrderDual.toDual a.LicenseCount, toLex (OrderDual.toDual a.Name,
    OrderDual.toDual a.LicenseName))

/-! ## Sample data -/

/-- Agreement A of the sort scenario: not catch-all, not unlimited, 20 licenses. -/
def sampleAgreementA : OracleDatabaseAgreementFE :=
  ⟨"A", "L1", "", AgreementPartMetricProcessorPerpetual, false, false, 20, 20, 0, 20, []⟩

/-- Agreement B of the sort scenario: not catch-all, unlimited, 5 licenses. -/
def sampleAgreementB : OracleDatabaseAgreementFE :=
  ⟨"B", "L1", "", AgreementPartMetricProcessorPerpetual, true, false, 5, 5, 0, 5, []⟩

/-- Agreement C of the sort scenario: catch-all. -/
def sampleAgreementC : OracleDatabaseAgreementFE :=
  ⟨"C", "L1", "", AgreementPartMetricProcessorPerpetual, false, true, 10, 10, 0, 10, []⟩

/-- A license type with processor metric and two aliases. -/
def sampleLicenseType : OracleDatabaseLicenseType :=
  ⟨"L1", "Oracle Database Enterprise Edition", AgreementPartMetricProcessorPerpetual,
    ["Oracle ENT", "Oracle EXE"]⟩

/-- Three host usages with distinct sort keys. -/
def sampleHosts : List HostUsingOracleDatabaseLicenses :=
  [⟨"", "alpha", "Oracle ENT", 2, 2⟩, ⟨"", "beta", "Oracle ENT", 4, 4⟩,
   ⟨"", "alpha", "Oracle EXE", 2, 2⟩]

/-! ## Predicates used in the statements -/

/-- The invariant of a host usage: `0 ≤ LicenseCount ≤ OriginalCount`. -/
def hostInvariant (h : HostUsingOracleDatabaseLicenses) : Prop :=
  0 ≤ h.LicenseCount ∧ h.LicenseCount ≤ h.OriginalCount

/-- Every agreement's license type id is a key of the license types map. -/
def licenseTypesKnown (licenseTypes : LicenseTypesMap)
    (agrs : List OracleDatabaseAgreementFE) : Prop :=
  ∀ agr ∈ agrs, ∃ licenseType, licenseTypes agr.LicenseTypeID = some licenseType

/-- Relation between a host usage before and after some coverage: only `LicenseCount`
may differ, it does not grow, and it stays non-negative if it was. -/
def hostCovered (h h' : HostUsingOracleDatabaseLicenses) : Prop :=
  h' = { h with LicenseCount := h'.LicenseCount } ∧
  h'.LicenseCount ≤ h.LicenseCount ∧
  (0 ≤ h.LicenseCount → 0 ≤ h'.LicenseCount)

/-- Relation between an associated host before and after the direct pass: only
`CoveredLicensesCount` may differ, and it does not shrink. -/
def associatedHostCredited (a a' : OracleDatabaseAgreementAssociatedHostFE) : Prop :=
  a' = { a with CoveredLicensesCount := a'.CoveredLicensesCount } ∧
  a.CoveredLicensesCount ≤ a'.CoveredLicensesCount

/-- Sum of `CoveredLicensesCount` over associated hosts. -/
def totalCredited (l : List OracleDatabaseAgreementAssociatedHostFE) : ℚ :=
  (l.map fun a => a.CoveredLicensesCount).sum

/-- Relation between an agreement before and after its turn in the direct pass: only
`AvailableCount` and `Hosts` may differ; the hosts are reordered and credited; a
non-negative `AvailableCount` stays non-negative and does not grow; for a limited agreement
`AvailableCount` plus the credited total is unchanged. -/
def agreementAssigned (a a' : OracleDatabaseAgreementFE) : Prop :=
  a' = { a with AvailableCount := a'.AvailableCount, Hosts := a'.Hosts } ∧
  (∃ sortedHosts : List OracleDatabaseAgreementAssociatedHostFE,
    sortedHosts.Perm a.Hosts ∧ List.Forall₂ associatedHostCredited sortedHosts a'.Hosts) ∧
  (0 ≤ a.AvailableCount → 0 ≤ a'.AvailableCount ∧ a'.AvailableCount ≤ a.AvailableCount) ∧
  (a.Unlimited = false →
    a'.AvailableCount + totalCredited a'.Hosts = a.AvailableCount + totalCredited a.Hosts)

/-- Relation between an agreement before and after the catch-all pass: only
`AvailableCount` may differ; an agreement that is not catch-all is untouched; a
non-negative `AvailableCount` stays non-negative and does not grow. -/
def agreementDrawn (a a' : OracleDatabaseAgreementFE) : Prop :=
  a' = { a with AvailableCount := a'.AvailableCount } ∧
  (a.CatchAll = false → a' = a) ∧
  (0 ≤ a.AvailableCount → 0 ≤ a'.AvailableCount ∧ a'.AvailableCount ≤ a.AvailableCount)

instance (h : HostUsingOracleDatabaseLicenses) : Decidable (hostInvariant h) :=
  inferInstanceAs (Decidable (_ ∧ _))

instance (licenseTypes : LicenseTypesMap) (agrs : List OracleDatabaseAgreementFE) :
    Decidable (licenseTypesKnown licenseTypes agrs) :=
  decidable_of_iff (∀ agr ∈ agrs, (licenseTypes agr.LicenseTypeID).isSome = true)
    (forall₂_congr fun _ _ => Option.isSome_iff_exists)

/-- A license type with named-user metric. -/
def sampleLicenseTypeNamedUser : OracleDatabaseLicenseType :=
  ⟨"L2", "Oracle Database Standard Edition", AgreementPartMetricNamedUserPlusPerpetual,
    ["Oracle STD"]⟩

/-- The license types of the allocation scenario. -/
def scenarioLicenseTypes : List OracleDatabaseLicenseType :=
  [sampleLicenseType, sampleLicenseTypeNamedUser]

/-- The agreements of the allocation scenario: a processor agreement for `alpha` and
`beta`, a named-user agreement for `alpha`, and a catch-all processor agreement. -/
def scenarioAgreements : List OracleDatabaseAgreementFE :=
  [⟨"A1", "L1", "", AgreementPartMetricProcessorPerpetual, false, false, 10, 10, 0, 10,
      [⟨"alpha", 0, 0, 0⟩, ⟨"beta", 0, 0, 0⟩]⟩,
   ⟨"A2", "L2", "", AgreementPartMetricNamedUserPlusPerpetual, false, false, 100, 0, 100, 100,
      [⟨"alpha", 0, 0, 0⟩]⟩,
   ⟨"A3", "L1", "", AgreementPartMetricProcessorPerpetual, false, true, 3, 3, 0, 3, []⟩]

/-- The host usages of the allocation scenario. -/
def scenarioHosts : List HostUsingOracleDatabaseLicenses :=
  [⟨"L1", "beta", "Oracle ENT", 15, 15⟩, ⟨"L2", "alpha", "Oracle STD", 3, 3⟩,
   ⟨"L1", "gamma", "Oracle ENT", 2, 2⟩, ⟨"L1", "alpha", "Oracle EXE", 2, 2⟩,
   ⟨"L1", "alpha", "Oracle ENT", 2, 2⟩]

/-- The agreements of the allocation scenario after the direct pass. -/
def scenarioAgreementsAfterDirect : List OracleDatabaseAgreementFE :=
  [⟨"A1", "L1", "", AgreementPartMetricProcessorPerpetual, false, false, 10, 10, 0, 0,
      [⟨"beta", 10, 0, 0⟩, ⟨"alpha", 0, 0, 0⟩]⟩,
   ⟨"A2", "L2", "", AgreementPartMetricNamedUserPlusPerpetual, false, false, 100, 0, 100, 25,
      [⟨"alpha", 75, 0, 0⟩]⟩,
   ⟨"A3", "L1", "", AgreementPartMetricProcessorPerpetual, false, true, 3, 3, 0, 3, []⟩]

/-- The host usages of the allocation scenario after the direct pass. -/
def scenarioHostsAfterDirect : List HostUsingOracleDatabaseLicenses :=
  [⟨"L1", "beta", "Oracle ENT", 5, 15⟩, ⟨"L2", "alpha", "Oracle STD", 0, 3⟩,
   ⟨"L1", "gamma", "Oracle ENT", 2, 2⟩, ⟨"L1", "alpha", "Oracle EXE", 2, 2⟩,
   ⟨"L1", "alpha", "Oracle ENT", 2, 2⟩]

/-! ## Quantities of the finalizer -/

/-- The usage record that `hostsMap[aliasName][hostname]` points to, if there is one. -/
def usageRecord (hosts : List HostUsingOracleDatabaseLicenses) (hostsMap : HostsMap)
    (aliasName hostname : String) : Option HostUsingOracleDatabaseLicenses :=
  match hostsMap aliasName with
  | none => none
  | some mapHostnamesLicenses =>
    match mapHostnamesLicenses hostname with
    | none => none
    | some p => hosts[p]?

/-- The sum `uncoveredLicensesByAssociatedHosts` the finalizer accumulates for the
processor and computer metrics (source lines 587-615): one term for each alias of the list
and each entry of the list of associated hosts, namely the `LicenseCount` of the usage
record the hosts map holds for that alias and host name, if any. -/
def remainingOfAssociatedHosts (hosts : List HostUsingOracleDatabaseLicenses)
    (hostsMap : HostsMap) (aliases : List String)
    (associatedHosts : List OracleDatabaseAgreementAssociatedHostFE) : ℚ :=
  (aliases.map fun aliasName =>
    (associatedHosts.map fun associatedHost =>
      match usageRecord hosts hostsMap aliasName associatedHost.Hostname with
      | some host => host.LicenseCount
      | none => 0).sum).sum

/-- What one visit of the finalizer adds to `uncoveredLicensesByAssociatedHosts` for an
alias and a host name (used in proofs). -/
def uncoveredContribution (hosts : List HostUsingOracleDatabaseLicenses) (hostsMap : HostsMap)
    (metric aliasName hostname : String) : ℚ :=
  match usageRecord hosts hostsMap aliasName hostname with
  | none => 0
  | some host =>
    if metric = AgreementPartMetricProcessorPerpetual ∨
        metric = AgreementPartMetricComputerPerpetual then host.LicenseCount
    else if metric = AgreementPartMetricNamedUserPlusPerpetual then host.LicenseCount * 25
    else 0

/-- The values one visit of the finalizer writes to `TotalCoveredLicensesCount` and
`ConsumedLicensesCount` for an alias and a host name, if it writes any (used in proofs). -/
def coverValues (hosts : List HostUsingOracleDatabaseLicenses) (hostsMap : HostsMap)
    (metric aliasName hostname : String) : Option (ℚ × ℚ) :=
  match usageRecord hosts hostsMap aliasName hostname with
  | none => none
  | some host =>
    if metric = AgreementPartMetricProcessorPerpetual ∨
        metric = AgreementPartMetricComputerPerpetual then
      some (host.OriginalCount - host.LicenseCount, host.OriginalCount)
    else if metric = AgreementPartMetricNamedUserPlusPerpetual then
      some ((host.OriginalCount - host.LicenseCount) * 25, host.OriginalCount * 25)
    else none

/-- Writing such values to an associated host (used in proofs). -/
def applyCover (associatedHost : OracleDatabaseAgreementAssociatedHostFE)
    (v : Option (ℚ × ℚ)) : OracleDatabaseAgreementAssociatedHostFE :=
  match v with
  | none => associatedHost
  | some (t, c) =>
    { associatedHost with TotalCoveredLicensesCount := t, ConsumedLicensesCount := c }

/-- The last values the finalizer writes for a host name over a list of aliases, starting
from `init` (used in proofs). -/
def lastCover (hosts : List HostUsingOracleDatabaseLicenses) (hostsMap : HostsMap)
    (metric : String) (hostname : String) : List String → Option (ℚ × ℚ) → Option (ℚ × ℚ)
  | [], init => init
  | aliasName :: aliases, init =>
    lastCover hosts hostsMap metric hostname aliases
      (match coverValues hosts hostsMap metric aliasName hostname with
       | some v => some v
       | none => init)

/-- The shortfall the finalizer computes for an agreement with license type aliases
`aliases` (used in proofs). -/
def uncoveredLicenses (hosts : List HostUsingOracleDatabaseLicenses) (hostsMap : HostsMap)
    (aliases : List String) (agreement : OracleDatabaseAgreementFE) : ℚ :=
  if agreement.CatchAll then
    (aliases.map fun aliasName =>
      (calculateCoverStatusByLicenseName hosts aliasName).Consumed -
        (calculateCoverStatusByLicenseName hosts aliasName).Covered).sum
  else
    (aliases.map fun aliasName =>
      (agreement.Hosts.map fun associatedHost =>
        uncoveredContribution hosts hostsMap agreement.Metric aliasName
          associatedHost.Hostname).sum).sum

/-- The shortfall scenario: an agreement with nothing left for a host that still has 4
uncovered licenses. -/
def shortfallAgreements : List OracleDatabaseAgreementFE :=
  [⟨"A1", "L1", "", AgreementPartMetricProcessorPerpetual, false, false, 10, 10, 0, 0,
    [⟨"beta", 10, 0, 0⟩]⟩]

/-- The host usages of the shortfall scenario. -/
def shortfallHosts : List HostUsingOracleDatabaseLicenses :=
  [⟨"L1", "beta", "Oracle ENT", 4, 14⟩]

/-- The agreements of the shortfall scenario after one run of the finalizer. -/
def shortfallAgreementsOnce : List OracleDatabaseAgreementFE :=
  [⟨"A1", "L1", "", AgreementPartMetricProcessorPerpetual, false, false, 10, 10, 0, -4,
    [⟨"beta", 10, 10, 14⟩]⟩]

/-- The pointer a hosts map holds for a license name and a host name. -/
def keysLookup (m : HostsMap) (ln n : String) : Option Nat :=
  match m ln with
  | none => none
  | some inner => inner n

/-- The hosts map built from a list of `(LicenseName, Name)` keys. -/
def buildKeysMap (keys : List (String × String)) : HostsMap :=
  keys.enum.foldl (fun res ik => hostsMapInsert res ik.2.1 ik.2.2 ik.1) (fun _ => none)

/-- The index of the last key equal to `k`. -/
def lastIndexOfKey (k : String × String) : List (String × String) → Option Nat
  | [] => none
  | k' :: keys =>
    match lastIndexOfKey k keys with
    | some i => some (i + 1)
    | none => if k' = k then some 0 else none

/-- The state a limited agreement is left in by its turn in the direct pass: if it still
has capacity, every usage record of its associated hosts under the aliases is fully
covered (used in proofs). -/
def saturated (hostsMap : HostsMap) (aliases : List String) (a : OracleDatabaseAgreementFE)
    (hosts : List HostUsingOracleDatabaseLicenses) : Prop :=
  0 < a.AvailableCount → ∀ associatedHost ∈ a.Hosts, ∀ aliasName ∈ aliases, ∀ host,
    usageRecord hosts hostsMap aliasName associatedHost.Hostname = some host →
    host.LicenseCount = 0

/-! ## Quantities of the shortfall statement -/

/-- The `(LicenseName, Name)` keys of the host usages, in order. -/
def hostKeys (hosts : List HostUsingOracleDatabaseLicenses) : List (String × String) :=
  hosts.map fun h => (h.LicenseName, h.Name)

/-- The license name is an alias of no license type of the map (used in proofs). -/
def noAliasInMap (licenseTypes : LicenseTypesMap) (licenseName : String) : Prop :=
  ∀ id licenseType, licenseTypes id = some licenseType → licenseName ∉ licenseType.Aliases

/-- A non-negative `AvailableCount` stays non-negative and does not grow from `a` to
`a'`. -/
def availableCountKept (a a' : OracleDatabaseAgreementFE) : Prop :=
  0 ≤ a.AvailableCount → 0 ≤ a'.AvailableCount ∧ a'.AvailableCount ≤ a.AvailableCount

/-- Every pointer of the hosts map points to a host usage whose license name is the key the
pointer is stored under (used in proofs). -/
def pointersNamed (hostsMap : HostsMap) (hosts : List HostUsingOracleDatabaseLicenses) :
    Prop :=
  ∀ aliasName hostname p h, keysLookup hostsMap aliasName hostname = some p →
    hosts[p]? = some h → h.LicenseName = aliasName

/-- In the words of the specification: the host usage is unresolved, its `LicenseName`
equals no alias of any license type in the catalog. -/
def unresolved (licenseTypes : List OracleDatabaseLicenseType)
    (h : HostUsingOracleDatabaseLicenses) : Prop :=
  ∀ licenseType ∈ licenseTypes, h.LicenseName ∉ licenseType.Aliases

instance (licenseTypes : List OracleDatabaseLicenseType)
    (h : HostUsingOracleDatabaseLicenses) : Decidable (unresolved licenseTypes h) :=
  inferInstanceAs (Decidable (∀ licenseType ∈ licenseTypes, _))

/-- The host usages of the allocation scenario, with a usage of a product no license type
of the scenario has among its aliases. -/
def scenarioHostsWithUnresolved : List HostUsingOracleDatabaseLicenses :=
  ⟨"", "alpha", "Oracle XYZ", 7, 7⟩ :: scenarioHosts

/-- The metric is one of the three the coverage steps know. -/
def knownMetric (metric : String) : Prop :=
  metric = AgreementPartMetricProcessorPerpetual ∨
  metric = AgreementPartMetricComputerPerpetual ∨
  metric = AgreementPartMetricNamedUserPlusPerpetual

instance (metric : String) : Decidable (knownMetric metric) :=
  inferInstanceAs (Decidable (_ ∨ _))

/-- The usage record the hosts map holds for an alias and a host name, if it had
`LicenseCount ≥ 0` in `hosts`, has `LicenseCount = 0` in `hosts'`. -/
def zeroedIfNonneg (hostsMap : HostsMap) (aliasName hostname : String)
    (hosts hosts' : List HostUsingOracleDatabaseLicenses) : Prop :=
  ∀ r0, usageRecord hosts hostsMap aliasName hostname = some r0 → 0 ≤ r0.LicenseCount →
    ∃ r, usageRecord hosts' hostsMap aliasName hostname = some r ∧ r.LicenseCount = 0

/-- An unlimited processor agreement for `alpha` with nothing available. -/
def sampleUnlimitedAgreement : OracleDatabaseAgreementFE :=
  ⟨"U1", "L1", "", AgreementPartMetricProcessorPerpetual, true, false, 0, 0, 0, 0,
    [⟨"alpha", 0, 0, 0⟩]⟩

/-- An agreement whose license type `L9` is not in the catalog of the scenario. -/
def sampleAgreementUnknownLicenseType : OracleDatabaseAgreementFE :=
  ⟨"A9", "L9", "", "", false, false, 5, 0, 0, 5, []⟩

/-- Modelled from the spec: the errors of package `utils` that the agreement service names;
`other` stands for any other error a dependency returns. -/
inductive AdvancedError where
  | AerrHostNotFound
  | AerrOracleDatabaseAgreementNotFound
  | AerrOracleDatabaseAssociatedPartNotFound
  | other (message : String)
  deriving DecidableEq

/-- Modelled from the spec: `primitive.NilObjectID`; an object id is modelled by its hex
string. -/
def NilObjectID : String := "000000000000000000000000"

/-- Modelled from the spec: `utils.Str2oid`, the object id with the given hex string. -/
def Str2oid (s : String) : String := s

/-- Modelled from the spec: type `model.AssociatedLicenseType`, with the fields the service
reads and writes. -/
structure AssociatedLicenseType where
  ID : String
  LicenseTypeID : String
  ReferenceNumber : String
  Unlimited : Bool
  Count : ℚ
  CatchAll : Bool
  Hosts : List String
  deriving DecidableEq

/-- Modelled from the spec: type `model.OracleDatabaseAgreement`, with the fields the
service reads and writes. -/
structure OracleDatabaseAgreement where
  ID : String
  AgreementID : String
  CSI : String
  LicenseTypes : List AssociatedLicenseType
  deriving DecidableEq

/-- Modelled from the spec: type `dto.AssociatedLicenseTypeInOracleDbAgreementRequest`,
with the fields the service reads. -/
structure AssociatedLicenseTypeInOracleDbAgreementRequest where
  ID : String
  AgreementID : String
  CSI : String
  LicenseTypeID : String
  ReferenceNumber : String
  Unlimited : Bool
  Count : ℚ
  CatchAll : Bool
  Hosts : List String
  deriving DecidableEq

/-- Modelled from the spec: the operations of `as.Database` that the agreement service
calls, over a store of type `σ`.  A read returns its result; a write returns the store as
it leaves it and its result. -/
structure MongoDatabaseInterface (σ : Type) where
  GetOracleDatabaseAgreement : σ → String → Except AdvancedError OracleDatabaseAgreement
  GetOracleDatabaseAgreementByAssociatedLicenseType :
    σ → String → Except AdvancedError OracleDatabaseAgreement
  InsertOracleDatabaseAgreement :
    σ → OracleDatabaseAgreement → σ × Except AdvancedError String
  UpdateOracleDatabaseAgreement : σ → OracleDatabaseAgreement → σ × Option AdvancedError
  RemoveOracleDatabaseAgreement : σ → String → σ × Option AdvancedError

/-- Modelled from the spec: what the agreement service uses of `APIService`: the database,
the host names of the hosts `SearchHosts("hostnames", ...)` returns, the license type
lookup, and the object ids `NewObjectID` returns at its successive calls. -/
structure APIService (σ : Type) where
  Database : MongoDatabaseInterface σ
  SearchHosts : σ → Except AdvancedError (List String)
  GetOracleDatabaseLicenseType : σ → String → Except AdvancedError OracleDatabaseLicenseType
  NewObjectID : Nat → String

/-- The loop `hosts_loop` of `checkHosts`: the first host that is none of the host names
returned stops it with `AerrHostNotFound`. -/
def checkHostsLoop (notInClusterHostnames : List String) :
    List String → Option AdvancedError
  | [] => none
  | host :: hosts =>
    if notInClusterHostnames.any (fun notInClusterHostname => host = notInClusterHostname)
    then checkHostsLoop notInClusterHostnames hosts
    else some AdvancedError.AerrHostNotFound

/-- Function `checkHosts`: `none` is the nil error. -/
def checkHosts {σ : Type} (as : APIService σ) (store : σ) (hosts : List String) :
    Option AdvancedError :=
  match as.SearchHosts store with
  | Except.error aerr => some aerr
  | Except.ok notInClusterHostnames => checkHostsLoop notInClusterHostnames hosts

/-- Function `addAssociatedLicenseType`: the agreement with the new associated license
type appended, or the error of the license type lookup. -/
def addAssociatedLicenseType {σ : Type} (as : APIService σ) (store : σ)
    (agreement : OracleDatabaseAgreement)
    (req : AssociatedLicenseTypeInOracleDbAgreementRequest) :
    Except AdvancedError OracleDatabaseAgreement :=
  match as.GetOracleDatabaseLicenseType store req.LicenseTypeID with
  | Except.error err => Except.error err
  | Except.ok part =>
    Except.ok { agreement with
      LicenseTypes := agreement.LicenseTypes ++
        [{ ID := as.NewObjectID 0,
           LicenseTypeID := part.ID,
           ReferenceNumber := req.ReferenceNumber,
           Unlimited := req.Unlimited,
           Count := req.Count,
           CatchAll := req.CatchAll,
           Hosts := req.Hosts }] }

/-- Function `AddAssociatedLicenseTypeToOracleDbAgreement`: the store as the call leaves
it, and the hex id of the agreement or the error. -/
def AddAssociatedLicenseTypeToOracleDbAgreement {σ : Type} (as : APIService σ) (store : σ)
    (request : AssociatedLicenseTypeInOracleDbAgreementRequest) :
    σ × Except AdvancedError String :=
  match checkHosts as store request.Hosts with
  | some err => (store, Except.error err)
  | none =>
    let found : Except AdvancedError OracleDatabaseAgreement :=
      match as.Database.GetOracleDatabaseAgreement store request.AgreementID with
      | Except.error err =>
        if err = AdvancedError.AerrOracleDatabaseAgreementNotFound then
          Except.ok { ID := NilObjectID, AgreementID := request.AgreementID,
                      CSI := request.CSI, LicenseTypes := [] }
        else Except.error err
      | Except.ok agreement => Except.ok agreement
    match found with
    | Except.error err => (store, Except.error err)
    | Except.ok agreement =>
      match addAssociatedLicenseType as store agreement request with
      | Except.error err => (store, Except.error err)
      | Except.ok agreement =>
        if agreement.ID = NilObjectID then
          let agreement := { agreement with ID := as.NewObjectID 1 }
          match as.Database.InsertOracleDatabaseAgreement store agreement with
          | (store', Except.error err) => (store', Except.error err)
          | (store', Except.ok insertedID) => (store', Except.ok insertedID)
        else
          match as.Database.UpdateOracleDatabaseAgreement store agreement with
          | (store', some err) => (store', Except.error err)
          | (store', none) => (store', Except.ok agreement.ID)

/-- Function `updateAssociatedPart`: the agreement with the fields of the associated
license type `req.ID` overwritten (`AssociatedLicenseTypeByID` is modelled from the spec:
the first associated license type with the id), or the error. -/
def updateAssociatedPart {σ : Type} (as : APIService σ) (store : σ)
    (agreement : OracleDatabaseAgreement)
    (req : AssociatedLicenseTypeInOracleDbAgreementRequest) :
    Except AdvancedError OracleDatabaseAgreement :=
  let reqID := Str2oid req.ID
  match agreement.LicenseTypes.findIdx? (fun lt => lt.ID = reqID) with
  | none => Except.error AdvancedError.AerrOracleDatabaseAssociatedPartNotFound
  | some i =>
    match as.GetOracleDatabaseLicenseType store req.LicenseTypeID with
    | Except.error err => Except.error err
    | Except.ok licenseType =>
      Except.ok { agreement with
        LicenseTypes := agreement.LicenseTypes.modify
          (fun associatedLicenseType =>
            { associatedLicenseType with
              LicenseTypeID := licenseType.ID,
              ReferenceNumber := req.ReferenceNumber,
              Unlimited := req.Unlimited,
              Count := req.Count,
              CatchAll := req.CatchAll,
              Hosts := req.Hosts }) i }

/-- Function `UpdateAssociatedLicenseTypeOfOracleDbAgreement`: the store as the call
leaves it, and the error (`none` is nil). -/
def UpdateAssociatedLicenseTypeOfOracleDbAgreement {σ : Type} (as : APIService σ)
    (store : σ) (request : AssociatedLicenseTypeInOracleDbAgreementRequest) :
    σ × Option AdvancedError :=
  match checkHosts as store request.Hosts with
  | some err => (store, some err)
  | none =>
    let associateLicenseTypeID := Str2oid request.ID
    match as.Database.GetOracleDatabaseAgreementByAssociatedLicenseType store
        associateLicenseTypeID with
    | Except.error err => (store, some err)
    | Except.ok agreement =>
      match updateAssociatedPart as store agreement request with
      | Except.error err => (store, some err)
      | Except.ok agreement => as.Database.UpdateOracleDatabaseAgreement store agreement

/-- The loop of `DeleteAssociatedLicenseTypeFromOracleDatabaseAgreement` (source lines
689-694): at the first index `i` with `LicenseTypes[i].ID == associateLicenseTypeID` the
slice becomes `append(LicenseTypes[:i], LicenseTypes[i+1])`, that is the first `i`
elements followed by the single element at `i+1`; the index expression `LicenseTypes[i+1]`
panics (`none`) when `i` is the last index. -/
def deleteAssociatedLicenseTypeLoop (licenseTypes : List AssociatedLicenseType)
    (associateLicenseTypeID : String) : Option (List AssociatedLicenseType) :=
  match licenseTypes.findIdx? (fun lt => lt.ID = associateLicenseTypeID) with
  | none => some licenseTypes
  | some i =>
    match licenseTypes[i + 1]? with
    | none => none
    | some next => some (licenseTypes.take i ++ [next])

/-- Function `DeleteAssociatedLicenseTypeFromOracleDatabaseAgreement`: the store as the
call leaves it and the error (`none` is nil), or `none` when the call panics. -/
def DeleteAssociatedLicenseTypeFromOracleDatabaseAgreement {σ : Type} (as : APIService σ)
    (store : σ) (associateLicenseTypeID : String) : Option (σ × Option AdvancedError) :=
  match as.Database.GetOracleDatabaseAgreementByAssociatedLicenseType store
      associateLicenseTypeID with
  | Except.error err => some (store, some err)
  | Except.ok agreement =>
    if agreement.LicenseTypes.length ≤ 1 then
      some (as.Database.RemoveOracleDatabaseAgreement store agreement.ID)
    else
      match deleteAssociatedLicenseTypeLoop agreement.LicenseTypes
          associateLicenseTypeID with
      | none => none
      | some licenseTypes =>
        some (as.Database.UpdateOracleDatabaseAgreement store
          { agreement with LicenseTypes := licenseTypes })

/-- An in-memory store used to run the service on concrete inputs: the host names of the
inventory, the license types and the agreements. -/
structure MemoryStore where
  hostnames : List String
  licenseTypes : List OracleDatabaseLicenseType
  agreements : List OracleDatabaseAgreement
  deriving DecidableEq

/-- The service over the in-memory store: an agreement is found by its `AgreementID` or by
the id of one of its associated license types, inserted at the end, updated in place by its
`ID`, removed by its `ID`; no operation fails otherwise. -/
def memoryService : APIService MemoryStore where
  Database :=
    { GetOracleDatabaseAgreement := fun store agreementID =>
        match store.agreements.find? (fun a => a.AgreementID = agreementID) with
        | some a => Except.ok a
        | none => Except.error AdvancedError.AerrOracleDatabaseAgreementNotFound
      GetOracleDatabaseAgreementByAssociatedLicenseType := fun store id =>
        match store.agreements.find?
            (fun a => a.LicenseTypes.any (fun lt => lt.ID = id)) with
        | some a => Except.ok a
        | none => Except.error AdvancedError.AerrOracleDatabaseAgreementNotFound
      InsertOracleDatabaseAgreement := fun store a =>
        ({ store with agreements := store.agreements ++ [a] }, Except.ok a.ID)
      UpdateOracleDatabaseAgreement := fun store a =>
        ({ store with
            agreements := store.agreements.map (fun b => if b.ID = a.ID then a else b) },
          none)
      RemoveOracleDatabaseAgreement := fun store id =>
        ({ store with agreements := store.agreements.filter (fun b => b.ID ≠ id) }, none) }
  SearchHosts := fun store => Except.ok store.hostnames
  GetOracleDatabaseLicenseType := fun store id =>
    match store.licenseTypes.find? (fun lt => lt.ID = id) with
    | some lt => Except.ok lt
    | none => Except.error (AdvancedError.other "license type not found")
  NewObjectID := fun n =>
    if n = 0 then "00000000000000000000000a" else "00000000000000000000000b"

/-- Three associated license types with ids `1`, `2`, `3`. -/
def sampleAssociatedLicenseTypes : List AssociatedLicenseType :=
  [⟨"1", "L1", "R1", false, 10, false, ["alpha"]⟩,
   ⟨"2", "L2", "R2", false, 100, false, ["alpha"]⟩,
   ⟨"3", "L1", "R3", false, 3, true, []⟩]

/-- A store with the hosts `alpha` and `beta`, the license types of the scenario and one
agreement with the three associated license types. -/
def sampleStore : MemoryStore :=
  ⟨["alpha", "beta"], scenarioLicenseTypes,
    [⟨"aa", "AGR-1", "CSI-1", sampleAssociatedLicenseTypes⟩]⟩

/-- A request that names the host `gamma`, absent from the inventory of the store. -/
def sampleRequestAbsentHost : AssociatedLicenseTypeInOracleDbAgreementRequest :=
  ⟨"1", "AGR-1", "CSI-1", "L1", "R1", false, 10, false, ["alpha", "gamma"]⟩

/-! ## The finalizer with its log -/

/-- The value of the variable `uncoveredLicenses` of
`calculateTotalCoveredLicensesAndAvailableCount` (source lines 620-625) for an agreement
and the aliases of its license type. -/
def finalizerUncoveredLicenses (hosts : List HostUsingOracleDatabaseLicenses)
    (hostsMap : HostsMap) (licensesCoverStatusByName : String → coverStatus)
    (aliases : List String) (agreement : OracleDatabaseAgreementFE) : ℚ :=
  let r := coverAliases hosts hostsMap licensesCoverStatusByName agreement.Metric
    aliases agreement.Hosts 0 0
  if agreement.CatchAll then r.2.2 else r.2.1

/-- The body of the loop over the agreements in
`calculateTotalCoveredLicensesAndAvailableCount` (source lines 582-636) with its log: the
agreement as the body leaves it, and whether the body logged "Agreement has still some
available licenses but hosts are uncovered" (source lines 628-633). -/
def calculateAgreementLogged (hosts : List HostUsingOracleDatabaseLicenses)
    (hostsMap : HostsMap) (licenseTypes : LicenseTypesMap)
    (licensesCoverStatusByName : String → coverStatus)
    (agreement : OracleDatabaseAgreementFE) : Option (OracleDatabaseAgreementFE × Bool) :=
  match licenseTypes agreement.LicenseTypeID with
  | none => none
  | some licenseType =>
    let r := coverAliases hosts hostsMap licensesCoverStatusByName agreement.Metric
      licenseType.Aliases agreement.Hosts 0 0
    let agreement := { agreement with Hosts := r.1 }
    let uncoveredLicenses := if agreement.CatchAll then r.2.2 else r.2.1
    if uncoveredLicenses > 0 then
      let logged := decide
        ((agreement.AvailableCount > 0 ∧
            agreement.Metric ≠ AgreementPartMetricNamedUserPlusPerpetual) ∨
          (agreement.AvailableCount > 25 ∧
            agreement.Metric = AgreementPartMetricNamedUserPlusPerpetual))
      some ({ agreement with AvailableCount := agreement.AvailableCount - uncoveredLicenses },
        logged)
    else some (agreement, false)

/-- Function `calculateTotalCoveredLicensesAndAvailableCount` with its log: every agreement
as the function leaves it, with whether the anomaly was logged for it. -/
def calculateTotalCoveredLicensesAndAvailableCountLogged
    (agrs : List OracleDatabaseAgreementFE)
    (hosts : List HostUsingOracleDatabaseLicenses) (hostsMap : HostsMap)
    (licenseTypes : LicenseTypesMap) : Option (List (OracleDatabaseAgreementFE × Bool)) :=
  agrs.mapM (calculateAgreementLogged hosts hostsMap licenseTypes
    (calculateCoverStatusByLicenseName hosts))

/-- A catch-all Named User Plus agreement with 100 users available and no associated
host. -/
def sampleCatchAllNamedUser : OracleDatabaseAgreementFE :=
  ⟨"A4", "L2", "", AgreementPartMetricNamedUserPlusPerpetual, false, true, 100, 0, 100, 100,
    []⟩

/-- Sum of `AvailableCount` over agreements. -/
def totalAvailableCount (agrs : List OracleDatabaseAgreementFE) : ℚ :=
  (agrs.map fun a => a.AvailableCount).sum

/-- Sum of `LicenseCount` over host usages. -/
def totalLicenseCount (hosts : List HostUsingOracleDatabaseLicenses) : ℚ :=
  (hosts.map fun h => h.LicenseCount).sum

/-- The agreement is limited with the processor or the computer metric. -/
def limitedProcessor (a : OracleDatabaseAgreementFE) : Prop :=
  a.Unlimited = false ∧
  (a.Metric = AgreementPartMetricProcessorPerpetual ∨
    a.Metric = AgreementPartMetricComputerPerpetual)

instance (a : OracleDatabaseAgreementFE) : Decidable (limitedProcessor a) :=
  inferInstanceAs (Decidable (_ ∧ _))

/-- The processor agreements of the allocation scenario: `A1` for `alpha` and `beta`, and
the catch-all `A3`. -/
def scenarioProcessorAgreements : List OracleDatabaseAgreementFE :=
  [⟨"A1", "L1", "", AgreementPartMetricProcessorPerpetual, false, false, 10, 10, 0, 10,
      [⟨"alpha", 0, 0, 0⟩, ⟨"beta", 0, 0, 0⟩]⟩,
   ⟨"A3", "L1", "", AgreementPartMetricProcessorPerpetual, false, true, 3, 3, 0, 3, []⟩]

/-- Two host usages of the license type `L1`, one host each. -/
def sampleTwoHosts : List HostUsingOracleDatabaseLicenses :=
  [⟨"L1", "alpha", "Oracle EXE", 2, 2⟩, ⟨"L1", "beta", "Oracle ENT", 4, 4⟩]

/-- A limited processor agreement with 5 licenses available, associated with `alpha` and
`beta`, the host consuming less listed first. -/
def sampleTwoHostsAgreement : OracleDatabaseAgreementFE :=
  ⟨"A5", "L1", "", AgreementPartMetricProcessorPerpetual, false, false, 5, 5, 0, 5,
    [⟨"alpha", 0, 0, 0⟩, ⟨"beta", 0, 0, 0⟩]⟩

/-! ## The arithmetic of `float64`

The Go language specification makes `float64` the IEEE 754 binary64 format: a finite value
is `m * 2 ^ e` with an integer `|m| < 2 ^ 53` and `-1074 ≤ e ≤ 971`, and `+`, `-`, `*`, `/`
return the exact result rounded to the nearest such value, ties to the even `m`.  A
`float64` is modelled here by the rational it denotes.  Infinities, NaN and the sign of
zero are not modelled: the functions below are the Go operations as long as the exact
result is below `2 ^ 1024` in absolute value. -/

/-- The power `2 ^ e` for an integer exponent. -/
def pow2 (e : ℤ) : ℚ :=
  if 0 ≤ e then ((2 ^ e.toNat : ℕ) : ℚ) else 1 / ((2 ^ (-e).toNat : ℕ) : ℚ)

/-- The loop of `natLog2`: the number of halvings that bring `n` below 2, at most `fuel`
of them. -/
def natLog2Loop : Nat → Nat → Nat
  | 0, _ => 0
  | fuel + 1, n => if n < 2 then 0 else natLog2Loop fuel (n / 2) + 1

/-- The integer `⌊log₂ n⌋` for a natural number `n > 0`. -/
def natLog2 (n : Nat) : Nat := natLog2Loop n n

/-- The integer `⌊log₂ q⌋` for a rational `q > 0`: with `k` the difference of `⌊log₂ ·⌋` of
numerator and denominator, `2 ^ (k - 1) < q < 2 ^ (k + 1)`. -/
def floorLog2 (q : ℚ) : ℤ :=
  let k : ℤ := (natLog2 q.num.natAbs : ℤ) - (natLog2 q.den : ℤ)
  if pow2 k ≤ q then k else k - 1

/-- Rounding to the nearest integer, ties to the even one. -/
def roundHalfEven (m : ℚ) : ℤ :=
  let n : ℤ := ⌊m⌋
  if m - n < 1 / 2 then n
  else if 1 / 2 < m - n then n + 1
  else if n % 2 = 0 then n
  else n + 1

/-- The `float64` nearest to the rational `q` (ties to even): `q` is scaled by the power of
two that brings it into `[2 ^ 52, 2 ^ 53)`, or by `2 ^ 1074` when it is below the normal
range, and rounded to an integer. -/
def roundFloat64 (q : ℚ) : ℚ :=
  if q = 0 then 0
  else
    let a : ℚ := if q < 0 then -q else q
    let e : ℤ := max (floorLog2 a - 52) (-1074)
    let r : ℚ := (roundHalfEven (a / pow2 e) : ℚ) * pow2 e
    if q < 0 then -r else r

/-- The `float64` sum `x + y`. -/
def float64Add (x y : ℚ) : ℚ := roundFloat64 (x + y)

/-- The `float64` difference `x - y`. -/
def float64Sub (x y : ℚ) : ℚ := roundFloat64 (x - y)

/-- The `float64` product `x * y`. -/
def float64Mul (x y : ℚ) : ℚ := roundFloat64 (x * y)

/-- The `float64` quotient `x / y`. -/
def float64Div (x y : ℚ) : ℚ := roundFloat64 (x / y)


/-! ## The passes and the finalizer in `float64` arithmetic

The functions of this section are the functions of the same name above, with every
arithmetic operation of the Go code rounded as `float64` does.  Comparisons, `math.Min`,
`math.Max` and `math.Floor` are exact on `float64` values, so the loops and the guards are
those of the exact model.  Every product is rounded on its own; a compiler that fuses
`x * y + z` into one rounding, which Go allows, can differ in the Named User Plus branches
only. -/

/-- Function `doAssignAgreementLicensesToAssociatedHost` in `float64` arithmetic. -/
def doAssignAgreementLicensesToAssociatedHostFloat64
    (agreement : OracleDatabaseAgreementFE)
    (host : HostUsingOracleDatabaseLicenses)
    (associatedHost : OracleDatabaseAgreementAssociatedHostFE) :
    OracleDatabaseAgreementFE × HostUsingOracleDatabaseLicenses ×
      OracleDatabaseAgreementAssociatedHostFE :=
  if agreement.Metric = AgreementPartMetricProcessorPerpetual ∨
      agreement.Metric = AgreementPartMetricComputerPerpetual then
    if agreement.Unlimited then
      let coverableLicenses := host.LicenseCount
      ({ agreement with AvailableCount := 0 },
       { host with LicenseCount := float64Sub host.LicenseCount coverableLicenses },
       { associatedHost with
           CoveredLicensesCount :=
             float64Add associatedHost.CoveredLicensesCount coverableLicenses })
    else
      let coverableLicenses := min agreement.AvailableCount host.LicenseCount
      ({ agreement with
           AvailableCount := float64Sub agreement.AvailableCount coverableLicenses },
       { host with LicenseCount := float64Sub host.LicenseCount coverableLicenses },
       { associatedHost with
           CoveredLicensesCount :=
             float64Add associatedHost.CoveredLicensesCount coverableLicenses })
  else if agreement.Metric = AgreementPartMetricNamedUserPlusPerpetual then
    if agreement.Unlimited then
      let coverableLicenses := host.LicenseCount
      ({ agreement with AvailableCount := 0 },
       { host with LicenseCount := float64Sub host.LicenseCount coverableLicenses },
       { associatedHost with
           CoveredLicensesCount :=
             float64Add associatedHost.CoveredLicensesCount
               (float64Mul coverableLicenses 25) })
    else
      let coverableLicenses : ℚ :=
        (⌊float64Div (min agreement.AvailableCount (float64Mul host.LicenseCount 25)) 25⌋ : ℤ)
      ({ agreement with
           AvailableCount :=
             float64Sub agreement.AvailableCount (float64Mul coverableLicenses 25) },
       { host with LicenseCount := float64Sub host.LicenseCount coverableLicenses },
       { associatedHost with
           CoveredLicensesCount :=
             float64Add associatedHost.CoveredLicensesCount
               (float64Mul coverableLicenses 25) })
  else
    (agreement, host, associatedHost)

/-- Function `doAssignLicenseFromCatchAllAgreement` in `float64` arithmetic. -/
def doAssignLicenseFromCatchAllAgreementFloat64
    (agreement : OracleDatabaseAgreementFE)
    (hostUsingLicenses : HostUsingOracleDatabaseLicenses) :
    OracleDatabaseAgreementFE × HostUsingOracleDatabaseLicenses :=
  if agreement.Metric = AgreementPartMetricProcessorPerpetual ∨
      agreement.Metric = AgreementPartMetricComputerPerpetual then
    if agreement.Unlimited then
      let coverableLicenses := hostUsingLicenses.LicenseCount
      ({ agreement with AvailableCount := 0 },
       { hostUsingLicenses with
           LicenseCount := float64Sub hostUsingLicenses.LicenseCount coverableLicenses })
    else
      let coverableLicenses := min agreement.AvailableCount hostUsingLicenses.LicenseCount
      ({ agreement with
           AvailableCount := float64Sub agreement.AvailableCount coverableLicenses },
       { hostUsingLicenses with
           LicenseCount := float64Sub hostUsingLicenses.LicenseCount coverableLicenses })
  else if agreement.Metric = AgreementPartMetricNamedUserPlusPerpetual then
    if agreement.Unlimited then
      let coverableLicenses := hostUsingLicenses.LicenseCount
      ({ agreement with AvailableCount := 0 },
       { hostUsingLicenses with
           LicenseCount := float64Sub hostUsingLicenses.LicenseCount coverableLicenses })
    else
      let coverableLicenses : ℚ :=
        (⌊float64Div
            (min agreement.AvailableCount (float64Mul hostUsingLicenses.LicenseCount 25))
            25⌋ : ℤ)
      ({ agreement with
           AvailableCount :=
             float64Sub agreement.AvailableCount (float64Mul coverableLicenses 25) },
       { hostUsingLicenses with
           LicenseCount := float64Sub hostUsingLicenses.LicenseCount coverableLicenses })
  else
    (agreement, hostUsingLicenses)

/-- The loop over the aliases in `assignAgreementsLicensesToItsAssociatedHosts`
(source lines 365-400) for one associated host, in `float64` arithmetic. -/
def assignToAliasesFloat64 (hostsMap : HostsMap) :
    List String → OracleDatabaseAgreementFE → OracleDatabaseAgreementAssociatedHostFE →
    List HostUsingOracleDatabaseLicenses →
    OracleDatabaseAgreementFE × OracleDatabaseAgreementAssociatedHostFE ×
      List HostUsingOracleDatabaseLicenses
  | [], agreement, associatedHost, hosts => (agreement, associatedHost, hosts)
  | aliasName :: aliases, agreement, associatedHost, hosts =>
    if agreement.AvailableCount ≤ 0 ∧ agreement.Unlimited = false then
      (agreement, associatedHost, hosts)
    else
      match hostsMap aliasName with
      | none => assignToAliasesFloat64 hostsMap aliases agreement associatedHost hosts
      | some mapHostnamesLicenses =>
        match mapHostnamesLicenses associatedHost.Hostname with
        | none => assignToAliasesFloat64 hostsMap aliases agreement associatedHost hosts
        | some p =>
          match hosts[p]? with
          | none => assignToAliasesFloat64 hostsMap aliases agreement associatedHost hosts
          | some hostUsingLicenses =>
            if hostUsingLicenses.LicenseCount ≤ 0 then
              assignToAliasesFloat64 hostsMap aliases agreement associatedHost hosts
            else
              let r := doAssignAgreementLicensesToAssociatedHostFloat64 agreement
                hostUsingLicenses associatedHost
              assignToAliasesFloat64 hostsMap aliases r.1 r.2.2 (hosts.set p r.2.1)

/-- The loop over `agreement.Hosts` in `assignAgreementsLicensesToItsAssociatedHosts`
(source lines 362-405), in `float64` arithmetic. -/
def assignToAssociatedHostsFloat64 (hostsMap : HostsMap) (licenseTypes : LicenseTypesMap) :
    List OracleDatabaseAgreementAssociatedHostFE → OracleDatabaseAgreementFE →
    List HostUsingOracleDatabaseLicenses →
    Option (List OracleDatabaseAgreementAssociatedHostFE × OracleDatabaseAgreementFE ×
      List HostUsingOracleDatabaseLicenses)
  | [], agreement, hosts => some ([], agreement, hosts)
  | associatedHost :: rest, agreement, hosts =>
    match licenseTypes agreement.LicenseTypeID with
    | none => none
    | some licenseType =>
      let r := assignToAliasesFloat64 hostsMap licenseType.Aliases agreement associatedHost
        hosts
      if r.1.AvailableCount ≤ 0 ∧ r.1.Unlimited = false then
        some (r.2.1 :: rest, r.1, r.2.2)
      else
        match assignToAssociatedHostsFloat64 hostsMap licenseTypes rest r.1 r.2.2 with
        | none => none
        | some (rest', agreement', hosts') => some (r.2.1 :: rest', agreement', hosts')

/-- The body of the loop over the agreements in
`assignAgreementsLicensesToItsAssociatedHosts` (source lines 355-405), in `float64`
arithmetic. -/
def assignAgreementLicensesFloat64 (srt : SortSlice) (hostsMap : HostsMap)
    (licenseTypes : LicenseTypesMap) (agreement : OracleDatabaseAgreementFE)
    (hosts : List HostUsingOracleDatabaseLicenses) :
    Option (OracleDatabaseAgreementFE × List HostUsingOracleDatabaseLicenses) :=
  match sortHostsInAgreementByLicenseCount srt agreement hosts hostsMap licenseTypes with
  | none => none
  | some agreement =>
    match assignToAssociatedHostsFloat64 hostsMap licenseTypes agreement.Hosts agreement
        hosts with
    | none => none
    | some (associatedHosts, agreement', hosts') =>
      some ({ agreement' with Hosts := associatedHosts }, hosts')

/-- Function `assignAgreementsLicensesToItsAssociatedHosts` in `float64` arithmetic. -/
def assignAgreementsLicensesToItsAssociatedHostsFloat64 (srt : SortSlice) :
    List OracleDatabaseAgreementFE → List HostUsingOracleDatabaseLicenses → HostsMap →
    LicenseTypesMap →
    Option (List OracleDatabaseAgreementFE × List HostUsingOracleDatabaseLicenses)
  | [], hosts, _, _ => some ([], hosts)
  | agreement :: agreements, hosts, hostsMap, licenseTypes =>
    match assignAgreementLicensesFloat64 srt hostsMap licenseTypes agreement hosts with
    | none => none
    | some (agreement', hosts') =>
      match assignAgreementsLicensesToItsAssociatedHostsFloat64 srt agreements hosts'
          hostsMap licenseTypes with
      | none => none
      | some (agreements', hosts'') => some (agreement' :: agreements', hosts'')

/-- The loop over the aliases in `assignLicensesFromCatchAllAgreements`
(source lines 504-524), in `float64` arithmetic. -/
def catchAllAliasesFloat64 :
    List String → OracleDatabaseAgreementFE → HostUsingOracleDatabaseLicenses →
    OracleDatabaseAgreementFE × HostUsingOracleDatabaseLicenses
  | [], agr, host => (agr, host)
  | aliasName :: aliases, agr, host =>
    if agr.AvailableCount ≤ 0 ∧ agr.Unlimited = false then (agr, host)
    else if host.LicenseName ≠ aliasName then catchAllAliasesFloat64 aliases agr host
    else
      let r := doAssignLicenseFromCatchAllAgreementFloat64 agr host
      catchAllAliasesFloat64 aliases r.1 r.2

/-- The loop over the agreements in `assignLicensesFromCatchAllAgreements`
(source lines 493-525) for one host, in `float64` arithmetic. -/
def catchAllAgreementsFloat64 (licenseTypes : LicenseTypesMap) :
    List OracleDatabaseAgreementFE → HostUsingOracleDatabaseLicenses →
    Option (List OracleDatabaseAgreementFE × HostUsingOracleDatabaseLicenses)
  | [], host => some ([], host)
  | agr :: agrs, host =>
    if agr.CatchAll = false then
      match catchAllAgreementsFloat64 licenseTypes agrs host with
      | none => none
      | some (agrs', host') => some (agr :: agrs', host')
    else if agr.AvailableCount ≤ 0 ∧ agr.Unlimited = false then
      match catchAllAgreementsFloat64 licenseTypes agrs host with
      | none => none
      | some (agrs', host') => some (agr :: agrs', host')
    else
      match licenseTypes agr.LicenseTypeID with
      | none => none
      | some licenseType =>
        let r := catchAllAliasesFloat64 licenseType.Aliases agr host
        match catchAllAgreementsFloat64 licenseTypes agrs r.2 with
        | none => none
        | some (agrs', host') => some (r.1 :: agrs', host')

/-- Function `assignLicensesFromCatchAllAgreements` in `float64` arithmetic. -/
def assignLicensesFromCatchAllAgreementsFloat64 :
    List OracleDatabaseAgreementFE → List HostUsingOracleDatabaseLicenses →
    LicenseTypesMap →
    Option (List OracleDatabaseAgreementFE × List HostUsingOracleDatabaseLicenses)
  | agrs, [], _ => some (agrs, [])
  | agrs, host :: hosts, licenseTypes =>
    if host.LicenseCount ≤ 0 then
      match assignLicensesFromCatchAllAgreementsFloat64 agrs hosts licenseTypes with
      | none => none
      | some (agrs', hosts') => some (agrs', host :: hosts')
    else
      match catchAllAgreementsFloat64 licenseTypes agrs host with
      | none => none
      | some (agrs1, host1) =>
        match assignLicensesFromCatchAllAgreementsFloat64 agrs1 hosts licenseTypes with
        | none => none
        | some (agrs', hosts') => some (agrs', host1 :: hosts')

/-- Function `calculateCoverStatusByLicenseName` in `float64` arithmetic. -/
def calculateCoverStatusByLicenseNameFloat64 (hosts : List HostUsingOracleDatabaseLicenses) :
    String → coverStatus :=
  hosts.foldl
    (fun licensesStatus host => fun name =>
      if name = host.LicenseName then
        { Consumed := float64Add (licensesStatus host.LicenseName).Consumed
            host.OriginalCount,
          Covered := float64Add (licensesStatus host.LicenseName).Covered
            (float64Sub host.OriginalCount host.LicenseCount) }
      else licensesStatus name)
    (fun _ => { Covered := 0, Consumed := 0 })

/-- The body of the loop over `agreement.Hosts` in
`calculateTotalCoveredLicensesAndAvailableCount` (source lines 590-614) for one alias and
one associated host, in `float64` arithmetic. -/
def coverAssociatedHostFloat64 (hosts : List HostUsingOracleDatabaseLicenses)
    (hostsMap : HostsMap) (metric : String) (aliasName : String)
    (associatedHost : OracleDatabaseAgreementAssociatedHostFE) (uncovered : ℚ) :
    OracleDatabaseAgreementAssociatedHostFE × ℚ :=
  match hostsMap aliasName with
  | none => (associatedHost, uncovered)
  | some mapHostnamesLicenses =>
    match mapHostnamesLicenses associatedHost.Hostname with
    | none => (associatedHost, uncovered)
    | some p =>
      match hosts[p]? with
      | none => (associatedHost, uncovered)
      | some host =>
        if metric = AgreementPartMetricProcessorPerpetual ∨
            metric = AgreementPartMetricComputerPerpetual then
          ({ associatedHost with
               TotalCoveredLicensesCount := float64Sub host.OriginalCount host.LicenseCount,
               ConsumedLicensesCount := host.OriginalCount },
           float64Add uncovered host.LicenseCount)
        else if metric = AgreementPartMetricNamedUserPlusPerpetual then
          ({ associatedHost with
               TotalCoveredLicensesCount :=
                 float64Mul (float64Sub host.OriginalCount host.LicenseCount) 25,
               ConsumedLicensesCount := float64Mul host.OriginalCount 25 },
           float64Add uncovered (float64Mul host.LicenseCount 25))
        else (associatedHost, uncovered)

/-- The loop over `agreement.Hosts` (source lines 589-615) for one alias, in `float64`
arithmetic. -/
def coverAssociatedHostsFloat64 (hosts : List HostUsingOracleDatabaseLicenses)
    (hostsMap : HostsMap) (metric : String) (aliasName : String) :
    List OracleDatabaseAgreementAssociatedHostFE → ℚ →
    List OracleDatabaseAgreementAssociatedHostFE × ℚ
  | [], uncovered => ([], uncovered)
  | associatedHost :: rest, uncovered =>
    let s := coverAssociatedHostFloat64 hosts hostsMap metric aliasName associatedHost
      uncovered
    let r := coverAssociatedHostsFloat64 hosts hostsMap metric aliasName rest s.2
    (s.1 :: r.1, r.2)

/-- The loop over the aliases (source lines 587-618), in `float64` arithmetic. -/
def coverAliasesFloat64 (hosts : List HostUsingOracleDatabaseLicenses) (hostsMap : HostsMap)
    (licensesCoverStatusByName : String → coverStatus) (metric : String) :
    List String → List OracleDatabaseAgreementAssociatedHostFE → ℚ → ℚ →
    List OracleDatabaseAgreementAssociatedHostFE × ℚ × ℚ
  | [], associatedHosts, byAssociated, byAll => (associatedHosts, byAssociated, byAll)
  | aliasName :: aliases, associatedHosts, byAssociated, byAll =>
    let r := coverAssociatedHostsFloat64 hosts hostsMap metric aliasName associatedHosts
      byAssociated
    coverAliasesFloat64 hosts hostsMap licensesCoverStatusByName metric aliases r.1 r.2
      (float64Add byAll
        (float64Sub (licensesCoverStatusByName aliasName).Consumed
          (licensesCoverStatusByName aliasName).Covered))

/-- The body of the loop over the agreements in
`calculateTotalCoveredLicensesAndAvailableCount` (source lines 582-636), in `float64`
arithmetic. -/
def calculateAgreementFloat64 (hosts : List HostUsingOracleDatabaseLicenses)
    (hostsMap : HostsMap) (licenseTypes : LicenseTypesMap)
    (licensesCoverStatusByName : String → coverStatus)
    (agreement : OracleDatabaseAgreementFE) : Option OracleDatabaseAgreementFE :=
  match licenseTypes agreement.LicenseTypeID with
  | none => none
  | some licenseType =>
    let r := coverAliasesFloat64 hosts hostsMap licensesCoverStatusByName agreement.Metric
      licenseType.Aliases agreement.Hosts 0 0
    let agreement := { agreement with Hosts := r.1 }
    let uncoveredLicenses := if agreement.CatchAll then r.2.2 else r.2.1
    if uncoveredLicenses > 0 then
      some { agreement with
        AvailableCount := float64Sub agreement.AvailableCount uncoveredLicenses }
    else some agreement

/-- Function `calculateTotalCoveredLicensesAndAvailableCount` in `float64` arithmetic. -/
def calculateTotalCoveredLicensesAndAvailableCountFloat64
    (agrs : List OracleDatabaseAgreementFE) (hosts : List HostUsingOracleDatabaseLicenses)
    (hostsMap : HostsMap) (licenseTypes : LicenseTypesMap) :
    Option (List OracleDatabaseAgreementFE) :=
  agrs.mapM (calculateAgreementFloat64 hosts hostsMap licenseTypes
    (calculateCoverStatusByLicenseNameFloat64 hosts))

/-- The `float64` sum of a list, added from left to right. -/
def float64Sum (l : List ℚ) : ℚ := l.foldl float64Add 0

/-- The scenario of three tenths: a limited processor agreement with `Count = 2.4`, all of
it available, associated with hosts that consume 0.9, 0.8 and 0.7. -/
def tenthsAgreements : List OracleDatabaseAgreementFE :=
  [⟨"T1", "L1", "", AgreementPartMetricProcessorPerpetual, false, false,
    roundFloat64 (24 / 10), roundFloat64 (24 / 10), 0, roundFloat64 (24 / 10),
    [⟨"alpha", 0, 0, 0⟩, ⟨"beta", 0, 0, 0⟩, ⟨"gamma", 0, 0, 0⟩]⟩]

/-- The host usages of the scenario of three tenths. -/
def tenthsHosts : List HostUsingOracleDatabaseLicenses :=
  [⟨"L1", "alpha", "Oracle ENT", roundFloat64 (9 / 10), roundFloat64 (9 / 10)⟩,
   ⟨"L1", "beta", "Oracle ENT", roundFloat64 (8 / 10), roundFloat64 (8 / 10)⟩,
   ⟨"L1", "gamma", "Oracle ENT", roundFloat64 (7 / 10), roundFloat64 (7 / 10)⟩]


/-- The scenario of three tenths after the direct pass in `float64` arithmetic: the three
hosts are fully covered and nothing is left available. -/
def tenthsAgreementsAfterDirect : List OracleDatabaseAgreementFE :=
  [⟨"T1", "L1", "", AgreementPartMetricProcessorPerpetual, false, false,
    roundFloat64 (24 / 10), roundFloat64 (24 / 10), 0, 0,
    [⟨"alpha", roundFloat64 (9 / 10), 0, 0⟩, ⟨"beta", roundFloat64 (8 / 10), 0, 0⟩,
     ⟨"gamma", roundFloat64 (7 / 10), 0, 0⟩]⟩]

/-- The host usages of the scenario of three tenths after the direct pass. -/
def tenthsHostsAfterDirect : List HostUsingOracleDatabaseLicenses :=
  [⟨"L1", "alpha", "Oracle ENT", 0, roundFloat64 (9 / 10)⟩,
   ⟨"L1", "beta", "Oracle ENT", 0, roundFloat64 (8 / 10)⟩,
   ⟨"L1", "gamma", "Oracle ENT", 0, roundFloat64 (7 / 10)⟩]

/-- The scenario of two units: a limited processor agreement with `Count = 2`, all of it
available, associated with hosts that consume 0.9, 0.8 and 0.3. -/
def twoUnitsAgreements : List OracleDatabaseAgreementFE :=
  [⟨"T2", "L1", "", AgreementPartMetricProcessorPerpetual, false, false, 2, 2, 0, 2,
    [⟨"alpha", 0, 0, 0⟩, ⟨"beta", 0, 0, 0⟩, ⟨"gamma", 0, 0, 0⟩]⟩]

/-- The host usages of the scenario of two units. -/
def twoUnitsHosts : List HostUsingOracleDatabaseLicenses :=
  [⟨"L1", "alpha", "Oracle ENT", roundFloat64 (9 / 10), roundFloat64 (9 / 10)⟩,
   ⟨"L1", "beta", "Oracle ENT", roundFloat64 (8 / 10), roundFloat64 (8 / 10)⟩,
   ⟨"L1", "gamma", "Oracle ENT", roundFloat64 (3 / 10), roundFloat64 (3 / 10)⟩]

/-- The scenario of two units after the direct pass in `float64` arithmetic: the three
hosts are fully covered and `2 ^ (-54)` is left available. -/
def twoUnitsAgreementsAfterDirect : List OracleDatabaseAgreementFE :=
  [⟨"T2", "L1", "", AgreementPartMetricProcessorPerpetual, false, false, 2, 2, 0,
    pow2 (-54),
    [⟨"alpha", roundFloat64 (9 / 10), 0, 0⟩, ⟨"beta", roundFloat64 (8 / 10), 0, 0⟩,
     ⟨"gamma", roundFloat64 (3 / 10), 0, 0⟩]⟩]

/-- The host usages of the scenario of two units after the direct pass, which is also
their order after `sortHostsUsingLicenses` (by name, descending). -/
def twoUnitsHostsAfterDirect : List HostUsingOracleDatabaseLicenses :=
  [⟨"L1", "alpha", "Oracle ENT", 0, roundFloat64 (9 / 10)⟩,
   ⟨"L1", "beta", "Oracle ENT", 0, roundFloat64 (8 / 10)⟩,
   ⟨"L1", "gamma", "Oracle ENT", 0, roundFloat64 (3 / 10)⟩]

/-- A catch-all processor agreement with nothing available and no associated host. -/
def sampleCatchAllExhausted : OracleDatabaseAgreementFE :=
  ⟨"A6", "L1", "", AgreementPartMetricProcessorPerpetual, false, true, 0, 0, 0, 0, []⟩

/-- Two host usages under the same alias: one of 0.1 with nothing covered, one of 0.2
fully covered. -/
def sampleHostsOneUncovered : List HostUsingOracleDatabaseLicenses :=
  [⟨"L1", "alpha", "Oracle ENT", roundFloat64 (1 / 10), roundFloat64 (1 / 10)⟩,
   ⟨"L1", "beta", "Oracle ENT", 0, roundFloat64 (2 / 10)⟩]

/-! ## The usage records of the associated hosts -/

/-- A catch-all processor agreement with 3 licenses available and no associated host. -/
def sampleCatchAllThree : OracleDatabaseAgreementFE :=
  ⟨"A7", "L1", "", AgreementPartMetricProcessorPerpetual, false, true, 3, 3, 0, 3, []⟩

/-- Two host usages of 2 licenses under the same alias, associated with no agreement. -/
def sampleHostsTwoMatching : List HostUsingOracleDatabaseLicenses :=
  [⟨"L1", "alpha", "Oracle ENT", 2, 2⟩, ⟨"L1", "beta", "Oracle ENT", 2, 2⟩]

theorem processor_ne_namedUser :
    AgreementPartMetricProcessorPerpetual ≠ AgreementPartMetricNamedUserPlusPerpetual := by
  decide

theorem computer_ne_namedUser :
    AgreementPartMetricComputerPerpetual ≠ AgreementPartMetricNamedUserPlusPerpetual := by
  decide

/-- C3: for a non-unlimited agreement with Processor Perpetual or Computer Perpetual metric,
one direct coverage step with `AvailableCount = a` and host `LicenseCount = h` covers
`c = min a h`: it leaves `AvailableCount = a - c`, the host's `LicenseCount = h - c`, the
associated host's `CoveredLicensesCount` grown by `c`, and nothing else changed. -/
theorem direct_step_processor_covers_min
    (agreement : OracleDatabaseAgreementFE) (host : HostUsingOracleDatabaseLicenses)
    (associatedHost : OracleDatabaseAgreementAssociatedHostFE)
    (hm : agreement.Metric = AgreementPartMetricProcessorPerpetual ∨
      agreement.Metric = AgreementPartMetricComputerPerpetual)
    (hu : agreement.Unlimited = false) :
    doAssignAgreementLicensesToAssociatedHost agreement host associatedHost =
      ({ agreement with AvailableCount :=
           agreement.AvailableCount - min agreement.AvailableCount host.LicenseCount },
       { host with LicenseCount :=
           host.LicenseCount - min agreement.AvailableCount host.LicenseCount },
       { associatedHost with CoveredLicensesCount :=
           associatedHost.CoveredLicensesCount +
             (min agreement.AvailableCount host.LicenseCount) }) := by
  simp [doAssignAgreementLicensesToAssociatedHost, hm, hu]

/-- C3, the scenario of the specification: `a = 10`, `h = 15` gives covered 10,
`AvailableCount` 0 and host `LicenseCount` 5. -/
theorem direct_step_processor_covers_min_witness :
    doAssignAgreementLicensesToAssociatedHost
      ⟨"A", "L", "", AgreementPartMetricProcessorPerpetual, false, false, 10, 10, 0, 10,
        [⟨"h1", 0, 0, 0⟩]⟩
      ⟨"L", "h1", "Oracle ENT", 15, 15⟩ ⟨"h1", 0, 0, 0⟩ =
      (⟨"A", "L", "", AgreementPartMetricProcessorPerpetual, false, false, 10, 10, 0, 0,
        [⟨"h1", 0, 0, 0⟩]⟩,
       ⟨"L", "h1", "Oracle ENT", 5, 15⟩, ⟨"h1", 10, 0, 0⟩) :=
  (direct_step_processor_covers_min _ _ _ (Or.inl rfl) rfl).trans (by decide!)

/-- C4: for a non-unlimited agreement with Named User Plus Perpetual metric, one direct
coverage step with `AvailableCount = a` and host `LicenseCount = h` covers
`c = ⌊min a (25 h) / 25⌋`: it leaves `AvailableCount = a - 25 c`, the associated host's
`CoveredLicensesCount` grown by `25 c`, the host's `LicenseCount = h - c`, and nothing else
changed. -/
theorem direct_step_namedUser_covers_floor
    (agreement : OracleDatabaseAgreementFE) (host : HostUsingOracleDatabaseLicenses)
    (associatedHost : OracleDatabaseAgreementAssociatedHostFE)
    (hm : agreement.Metric = AgreementPartMetricNamedUserPlusPerpetual)
    (hu : agreement.Unlimited = false) :
    doAssignAgreementLicensesToAssociatedHost agreement host associatedHost =
      ({ agreement with AvailableCount := agreement.AvailableCount -
           25 * (⌊min agreement.AvailableCount (25 * host.LicenseCount) / 25⌋ : ℤ) },
       { host with LicenseCount := host.LicenseCount -
           (⌊min agreement.AvailableCount (25 * host.LicenseCount) / 25⌋ : ℤ) },
       { associatedHost with CoveredLicensesCount :=
           associatedHost.CoveredLicensesCount +
             25 * (⌊min agreement.AvailableCount (25 * host.LicenseCount) / 25⌋ : ℤ) }) := by
  have h1 : AgreementPartMetricNamedUserPlusPerpetual ≠ AgreementPartMetricProcessorPerpetual :=
    fun h => processor_ne_namedUser h.symm
  have h2 : AgreementPartMetricNamedUserPlusPerpetual ≠ AgreementPartMetricComputerPerpetual :=
    fun h => computer_ne_namedUser h.symm
  simp [doAssignAgreementLicensesToAssociatedHost, hm, hu, h1, h2, mul_comm]

/-- C4, the scenario of the specification: `a = 100`, `h = 3` gives `c = 3`,
`AvailableCount` 25, host `LicenseCount` 0 and `CoveredLicensesCount` grown by 75. -/
theorem direct_step_namedUser_covers_floor_witness :
    doAssignAgreementLicensesToAssociatedHost
      ⟨"A", "L", "", AgreementPartMetricNamedUserPlusPerpetual, false, false, 100, 0, 100, 100,
        [⟨"h1", 0, 0, 0⟩]⟩
      ⟨"L", "h1", "Oracle ENT", 3, 3⟩ ⟨"h1", 0, 0, 0⟩ =
      (⟨"A", "L", "", AgreementPartMetricNamedUserPlusPerpetual, false, false, 100, 0, 100, 25,
        [⟨"h1", 0, 0, 0⟩]⟩,
       ⟨"L", "h1", "Oracle ENT", 0, 3⟩, ⟨"h1", 75, 0, 0⟩) :=
  (direct_step_namedUser_covers_floor _ _ _ rfl rfl).trans (by decide!)

/-! ## Sorting -/

theorem insertOrdered_perm {α : Type} (less : α → α → Bool) (a : α) (l : List α) :
    (insertOrdered less a l).Perm (a :: l) := by
  induction l with
  | nil => simp [insertOrdered]
  | cons b l ih =>
    unfold insertOrdered
    split
    · exact (ih.cons b).trans (List.Perm.swap a b l)
    · exact List.Perm.refl _

theorem insertOrdered_sorted {α : Type} (less : α → α → Bool) (hl : StrictWeakOrder less)
    (a : α) (l : List α) (h : l.Pairwise (fun x y => less y x = false)) :
    (insertOrdered less a l).Pairwise (fun x y => less y x = false) := by
  induction l with
  | nil => simp [insertOrdered]
  | cons b l ih =>
    rw [List.pairwise_cons] at h
    unfold insertOrdered
    split
    · rename_i hba
      rw [List.pairwise_cons]
      refine ⟨?_, ih h.2⟩
      intro c hc
      have hasym : ∀ x, less x b = true → less b x = true → False := by
        intro x h1 h2
        have := hl.trans _ _ _ h1 h2
        rw [hl.irrefl] at this
        cases this
      have hc' := (insertOrdered_perm less a l).mem_iff.mp hc
      rw [List.mem_cons] at hc'
      rcases hc' with hc' | hc'
      · subst hc'
        cases hab : less c b
        · rfl
        · exact (hasym c hab hba).elim
      · exact h.1 c hc'
    · rename_i hba
      have hba' : less b a = false := by simpa using hba
      rw [List.pairwise_cons]
      refine ⟨?_, List.pairwise_cons.mpr h⟩
      intro c hc
      rw [List.mem_cons] at hc
      rcases hc with hc | hc
      · subst hc; exact hba'
      · exact hl.incomp_trans _ _ _ (h.1 c hc) hba'

/-- Insertion sort meets the contract of `sort.Slice`. -/
theorem insertionSortSlice_contract : SortSliceContract insertionSortSlice where
  perm := by
    intro α less l
    induction l with
    | nil => exact List.Perm.refl _
    | cons a l ih => exact (insertOrdered_perm less a _).trans (ih.cons a)
  sorted := by
    intro α less l hl
    induction l with
    | nil => exact List.Pairwise.nil
    | cons a l ih => exact insertOrdered_sorted less hl a _ ih

theorem strictWeakOrder_of_key {α κ : Type} [LinearOrder κ] (key : α → κ) (less : α → α → Bool)
    (h : ∀ a b, less a b = true ↔ key a < key b) : StrictWeakOrder less where
  irrefl a := by
    cases hc : less a a
    · rfl
    · exact absurd ((h a a).mp hc) (lt_irrefl _)
  trans a b c hab hbc := (h a c).mpr (lt_trans ((h a b).mp hab) ((h b c).mp hbc))
  incomp_trans a b c hab hbc := by
    cases hc : less a c
    · rfl
    · have h1 : ¬ key a < key b := fun hh => by rw [(h a b).mpr hh] at hab; cases hab
      have h2 : ¬ key b < key c := fun hh => by rw [(h b c).mpr hh] at hbc; cases hbc
      exact absurd ((h a c).mp hc) (not_lt.mpr ((not_lt.mp h2).trans (not_lt.mp h1)))

/-- The comparator of `sortOracleDatabaseAgreements` is the key chain of the
specification. -/
theorem agreementLess_iff (a b : OracleDatabaseAgreementFE) :
    agreementLess a b = true ↔ agreementPrecedes a b := by
  unfold agreementLess agreementPrecedes
  cases hca : a.CatchAll <;> cases hcb : b.CatchAll <;>
    cases hua : a.Unlimited <;> cases hub : b.Unlimited <;>
    by_cases hU : a.UsersCount = b.UsersCount <;> simp [hU]

/-- The comparator of `sortHostsUsingLicenses` is the key chain of the specification. -/
theorem hostLess_iff (a b : HostUsingOracleDatabaseLicenses) :
    hostLess a b = true ↔ hostPrecedes a b := by
  unfold hostLess hostPrecedes
  by_cases h1 : a.LicenseCount = b.LicenseCount <;> by_cases h2 : a.Name = b.Name <;>
    simp [h1, h2]

theorem agreementPrecedes_iff_key (a b : OracleDatabaseAgreementFE) :
    agreementPrecedes a b ↔ agreementKey a < agreementKey b := by
  unfold agreementPrecedes agreementKey
  simp only [Prod.Lex.lt_iff, OrderDual.toDual_lt_toDual, Bool.lt_iff, gt_iff_lt,
    EmbeddingLike.apply_eq_iff_eq]

theorem hostPrecedes_iff_key (a b : HostUsingOracleDatabaseLicenses) :
    hostPrecedes a b ↔ hostKey a < hostKey b := by
  unfold hostPrecedes hostKey
  simp only [Prod.Lex.lt_iff, OrderDual.toDual_lt_toDual, gt_iff_lt,
    EmbeddingLike.apply_eq_iff_eq]

theorem agreementLess_strictWeakOrder : StrictWeakOrder agreementLess :=
  strictWeakOrder_of_key agreementKey agreementLess fun a b =>
    (agreementLess_iff a b).trans (agreementPrecedes_iff_key a b)

theorem hostLess_strictWeakOrder : StrictWeakOrder hostLess :=
  strictWeakOrder_of_key hostKey hostLess fun a b =>
    (hostLess_iff a b).trans (hostPrecedes_iff_key a b)

/-- Two orderings of the same elements agree when distinct elements are never tied. -/
theorem sorted_perm_unique {α : Type} (less : α → α → Bool) :
    ∀ (l₁ l₂ : List α), l₁.Perm l₂ →
      l₁.Pairwise (fun x y => less y x = false) → l₂.Pairwise (fun x y => less y x = false) →
      (∀ a ∈ l₁, ∀ b ∈ l₁, less a b = false → less b a = false → a = b) → l₁ = l₂
  | [], _, hp, _, _, _ => List.Perm.nil_eq hp
  | _ :: _, [], hp, _, _, _ => by
    have := List.Perm.nil_eq hp.symm
    cases this
  | a :: t₁, b :: t₂, hp, h₁, h₂, hanti => by
    rw [List.pairwise_cons] at h₁ h₂
    have hab : a = b := by
      by_contra hne
      have ha : a ∈ b :: t₂ := hp.mem_iff.mp (List.mem_cons_self _ _)
      have hb : b ∈ a :: t₁ := hp.mem_iff.mpr (List.mem_cons_self _ _)
      rw [List.mem_cons] at ha hb
      have ha' : a ∈ t₂ := ha.resolve_left hne
      have hb' : b ∈ t₁ := hb.resolve_left (fun h => hne h.symm)
      exact hne (hanti a (List.mem_cons_self _ _) b (List.mem_cons_of_mem _ hb')
        (h₂.1 a ha') (h₁.1 b hb'))
    subst hab
    have ht := sorted_perm_unique less t₁ t₂ (List.Perm.cons_inv hp) h₁.2 h₂.2
      (fun x hx y hy => hanti x (List.mem_cons_of_mem _ hx) y (List.mem_cons_of_mem _ hy))
    rw [ht]

theorem less_false_iff_not {α : Type} {p : α → α → Prop} {less : α → α → Bool}
    (h : ∀ a b, less a b = true ↔ p a b) (a b : α) : less a b = false ↔ ¬ p a b := by
  rw [← h a b]; simp

/-- C9: for every list of agreements, `sortOracleDatabaseAgreements` (with any `sort.Slice`
meeting the contract) returns a permutation of the list in which no agreement strictly
precedes, under the key chain of the specification, one placed before it; and three
agreements A (not catch-all, not unlimited), B (not catch-all, unlimited) and C (catch-all),
given in any order, come out as A, B, C. -/
theorem sortOracleDatabaseAgreements_sorted_perm (srt : SortSlice)
    (hs : SortSliceContract srt) (obj : List OracleDatabaseAgreementFE) :
    (sortOracleDatabaseAgreements srt obj).Perm obj ∧
    (sortOracleDatabaseAgreements srt obj).Pairwise (fun x y => ¬ agreementPrecedes y x) ∧
    ∀ A B C : OracleDatabaseAgreementFE,
      A.CatchAll = false → A.Unlimited = false →
      B.CatchAll = false → B.Unlimited = true →
      C.CatchAll = true →
      obj.Perm [A, B, C] → sortOracleDatabaseAgreements srt obj = [A, B, C] := by
  have hsorted := hs.sorted _ agreementLess obj agreementLess_strictWeakOrder
  refine ⟨hs.perm _ _ _, ?_, ?_⟩
  · exact hsorted.imp fun {x y} h => (less_false_iff_not agreementLess_iff y x).mp h
  · intro A B C hA1 hA2 hB1 hB2 hC hp
    have hAB : agreementLess A B = true := by simp [agreementLess, hA1, hA2, hB1, hB2]
    have hAC : agreementLess A C = true := by simp [agreementLess, hA1, hC]
    have hBC : agreementLess B C = true := by simp [agreementLess, hB1, hC]
    have hasym : ∀ x y, agreementLess x y = true → agreementLess y x = false := by
      intro x y hxy
      cases hyx : agreementLess y x
      · rfl
      · have := agreementLess_strictWeakOrder.trans _ _ _ hxy hyx
        rw [agreementLess_strictWeakOrder.irrefl] at this
        cases this
    refine (sorted_perm_unique agreementLess [A, B, C] _ ((hs.perm _ _ _).trans hp).symm
      ?_ hsorted ?_).symm
    · simp [hasym _ _ hAB, hasym _ _ hAC, hasym _ _ hBC]
    · intro a ha b hb h1 h2
      simp only [List.mem_cons, List.mem_singleton, List.not_mem_nil, or_false] at ha hb
      rcases ha with rfl | rfl | rfl <;> rcases hb with rfl | rfl | rfl <;>
        first
        | rfl
        | (rw [hAB] at h1; cases h1)
        | (rw [hAB] at h2; cases h2)
        | (rw [hAC] at h1; cases h1)
        | (rw [hAC] at h2; cases h2)
        | (rw [hBC] at h1; cases h1)
        | (rw [hBC] at h2; cases h2)

/-- C9, the scenario of the specification with insertion sort: C, A, B come out as
A, B, C. -/
theorem sortOracleDatabaseAgreements_sorted_perm_witness :
    sortOracleDatabaseAgreements insertionSortSlice
      [sampleAgreementC, sampleAgreementA, sampleAgreementB] =
      [sampleAgreementA, sampleAgreementB, sampleAgreementC] :=
  (sortOracleDatabaseAgreements_sorted_perm insertionSortSlice insertionSortSlice_contract
    [sampleAgreementC, sampleAgreementA, sampleAgreementB]).2.2
    sampleAgreementA sampleAgreementB sampleAgreementC rfl rfl rfl rfl rfl
    ((List.Perm.swap _ _ _).trans ((List.Perm.swap _ _ _).cons _))

/-- C10: for every list of host usages, `sortHostsUsingLicenses` (with any `sort.Slice`
meeting the contract) returns a permutation of the list ordered by `LicenseCount`
descending, then `Name` descending, then `LicenseName` descending; and when the hosts have
pairwise distinct `(LicenseCount, Name, LicenseName)`, that order is the only ordered
permutation of the list, so the result is the same for every order of the input and every
such sort. -/
theorem sortHostsUsingLicenses_sorted_perm (srt : SortSlice)
    (hs : SortSliceContract srt) (obj : List HostUsingOracleDatabaseLicenses) :
    (sortHostsUsingLicenses srt obj).Perm obj ∧
    (sortHostsUsingLicenses srt obj).Pairwise (fun x y => ¬ hostPrecedes y x) ∧
    ((obj.map fun h => (h.LicenseCount, h.Name, h.LicenseName)).Nodup →
      (∀ l : List HostUsingOracleDatabaseLicenses, l.Perm obj →
        l.Pairwise (fun x y => ¬ hostPrecedes y x) → l = sortHostsUsingLicenses srt obj) ∧
      (∀ (srt' : SortSlice) (obj' : List HostUsingOracleDatabaseLicenses),
        SortSliceContract srt' → obj'.Perm obj →
        sortHostsUsingLicenses srt' obj' = sortHostsUsingLicenses srt obj)) := by
  have hsorted := hs.sorted _ hostLess obj hostLess_strictWeakOrder
  have hperm : (sortHostsUsingLicenses srt obj).Perm obj := hs.perm _ _ _
  have himp : ∀ l : List HostUsingOracleDatabaseLicenses,
      l.Pairwise (fun x y => hostLess y x = false) ↔ l.Pairwise (fun x y => ¬ hostPrecedes y x) :=
    fun l => ⟨fun h => h.imp fun {x y} h => (less_false_iff_not hostLess_iff y x).mp h,
      fun h => h.imp fun {x y} h => (less_false_iff_not hostLess_iff y x).mpr h⟩
  refine ⟨hperm, (himp _).mp hsorted, ?_⟩
  intro hnd
  have huniq : ∀ l : List HostUsingOracleDatabaseLicenses, l.Perm obj →
      l.Pairwise (fun x y => ¬ hostPrecedes y x) → l = sortHostsUsingLicenses srt obj := by
    intro l hl hlsorted
    refine sorted_perm_unique hostLess l _ (hl.trans hperm.symm) ((himp _).mpr hlsorted)
      hsorted ?_
    intro a ha b hb h1 h2
    have hnd' : (l.map fun h => (h.LicenseCount, h.Name, h.LicenseName)).Nodup :=
      (hl.map _).nodup_iff.mpr hnd
    have h1' := (less_false_iff_not hostLess_iff a b).mp h1
    have h2' := (less_false_iff_not hostLess_iff b a).mp h2
    have hkey : (a.LicenseCount, a.Name, a.LicenseName) =
        (b.LicenseCount, b.Name, b.LicenseName) := by
      unfold hostPrecedes at h1' h2'
      push_neg at h1' h2'
      have e1 : a.LicenseCount = b.LicenseCount := le_antisymm h1'.1 h2'.1
      have e2 : a.Name = b.Name := le_antisymm (h1'.2 e1).1 (h2'.2 e1.symm).1
      have e3 : a.LicenseName = b.LicenseName :=
        le_antisymm ((h1'.2 e1).2 e2) ((h2'.2 e1.symm).2 e2.symm)
      rw [e1, e2, e3]
    exact List.inj_on_of_nodup_map hnd' ha hb hkey
  refine ⟨huniq, ?_⟩
  intro srt' obj' hs' hp'
  exact huniq _ ((hs'.perm _ _ _).trans hp')
    ((himp _).mp (hs'.sorted _ hostLess obj' hostLess_strictWeakOrder))

/-- C10 at a concrete input with insertion sort: the order of three hosts with distinct
keys, and the same result for the reversed input. -/
theorem sortHostsUsingLicenses_sorted_perm_witness :
    sortHostsUsingLicenses insertionSortSlice sampleHosts.reverse =
      sortHostsUsingLicenses insertionSortSlice sampleHosts :=
  ((sortHostsUsingLicenses_sorted_perm insertionSortSlice insertionSortSlice_contract
    sampleHosts).2.2 (by decide!)).2 insertionSortSlice sampleHosts.reverse
    insertionSortSlice_contract (List.reverse_perm _)

/-! ## Effect of one coverage step -/

theorem namedUser_ne_processor :
    AgreementPartMetricNamedUserPlusPerpetual ≠ AgreementPartMetricProcessorPerpetual := by
  decide

theorem namedUser_ne_computer :
    AgreementPartMetricNamedUserPlusPerpetual ≠ AgreementPartMetricComputerPerpetual := by
  decide

/-- The direct step treats agreement and host as the catch-all step does. -/
theorem doAssign_eq_catchAll (agreement : OracleDatabaseAgreementFE)
    (host : HostUsingOracleDatabaseLicenses)
    (associatedHost : OracleDatabaseAgreementAssociatedHostFE) :
    ((doAssignAgreementLicensesToAssociatedHost agreement host associatedHost).1,
      (doAssignAgreementLicensesToAssociatedHost agreement host associatedHost).2.1) =
    doAssignLicenseFromCatchAllAgreement agreement host := by
  unfold doAssignAgreementLicensesToAssociatedHost doAssignLicenseFromCatchAllAgreement
  split_ifs <;> rfl

/-- A coverage step writes only `AvailableCount` in the agreement. -/
theorem catchAllStep_agreement_frame (agreement : OracleDatabaseAgreementFE)
    (host : HostUsingOracleDatabaseLicenses) :
    (doAssignLicenseFromCatchAllAgreement agreement host).1 =
      { agreement with AvailableCount :=
          (doAssignLicenseFromCatchAllAgreement agreement host).1.AvailableCount } := by
  unfold doAssignLicenseFromCatchAllAgreement
  split_ifs <;> rfl

/-- A coverage step writes only `LicenseCount` in the host. -/
theorem catchAllStep_host_frame (agreement : OracleDatabaseAgreementFE)
    (host : HostUsingOracleDatabaseLicenses) :
    (doAssignLicenseFromCatchAllAgreement agreement host).2 =
      { host with LicenseCount :=
          (doAssignLicenseFromCatchAllAgreement agreement host).2.LicenseCount } := by
  unfold doAssignLicenseFromCatchAllAgreement
  split_ifs <;> rfl

/-- A direct step writes only `CoveredLicensesCount` in the associated host. -/
theorem doAssign_associatedHost_frame (agreement : OracleDatabaseAgreementFE)
    (host : HostUsingOracleDatabaseLicenses)
    (associatedHost : OracleDatabaseAgreementAssociatedHostFE) :
    (doAssignAgreementLicensesToAssociatedHost agreement host associatedHost).2.2 =
      { associatedHost with CoveredLicensesCount :=
          (doAssignAgreementLicensesToAssociatedHost agreement host
            associatedHost).2.2.CoveredLicensesCount } := by
  unfold doAssignAgreementLicensesToAssociatedHost
  split_ifs <;> rfl

theorem floor_div25_bounds (a h : ℚ) (ha : 0 < a) (hh : 0 ≤ h) :
    (0 : ℚ) ≤ (⌊min a (h * 25) / 25⌋ : ℤ) ∧ ((⌊min a (h * 25) / 25⌋ : ℤ) : ℚ) ≤ h ∧
      ((⌊min a (h * 25) / 25⌋ : ℤ) : ℚ) * 25 ≤ a := by
  have h0 : (0 : ℚ) ≤ min a (h * 25) / 25 := by
    apply div_nonneg _ (by norm_num)
    exact le_min ha.le (by positivity)
  have hfl : ((⌊min a (h * 25) / 25⌋ : ℤ) : ℚ) ≤ min a (h * 25) / 25 := Int.floor_le _
  refine ⟨?_, ?_, ?_⟩
  · exact_mod_cast Int.floor_nonneg.mpr h0
  · have : min a (h * 25) / 25 ≤ h := by
      rw [div_le_iff₀ (by norm_num : (0 : ℚ) < 25)]
      exact min_le_right _ _
    exact hfl.trans this
  · have : min a (h * 25) / 25 * 25 ≤ a := by
      rw [div_mul_cancel₀ _ (by norm_num : (25 : ℚ) ≠ 0)]
      exact min_le_left _ _
    exact (mul_le_mul_of_nonneg_right hfl (by norm_num)).trans this

/-- A coverage step with a host of non-negative `LicenseCount`, made while the agreement
has capacity, leaves the host's `LicenseCount` between 0 and its previous value. -/
theorem catchAllStep_host_bounds (agreement : OracleDatabaseAgreementFE)
    (host : HostUsingOracleDatabaseLicenses) (hh : 0 ≤ host.LicenseCount)
    (hc : ¬ (agreement.AvailableCount ≤ 0 ∧ agreement.Unlimited = false)) :
    0 ≤ (doAssignLicenseFromCatchAllAgreement agreement host).2.LicenseCount ∧
    (doAssignLicenseFromCatchAllAgreement agreement host).2.LicenseCount ≤
      host.LicenseCount := by
  unfold doAssignLicenseFromCatchAllAgreement
  split_ifs with h1 h2 h3 h4
  · simp [hh]
  · have ha : 0 < agreement.AvailableCount := by
      by_contra hn
      exact hc ⟨not_lt.mp hn, by simpa using h2⟩
    simp only [sub_nonneg, sub_le_self_iff]
    exact ⟨min_le_right _ _, le_min ha.le hh⟩
  · simp [hh]
  · have ha : 0 < agreement.AvailableCount := by
      by_contra hn
      exact hc ⟨not_lt.mp hn, by simpa using h4⟩
    have := floor_div25_bounds agreement.AvailableCount host.LicenseCount ha hh
    simp only [sub_nonneg, sub_le_self_iff]
    exact ⟨this.2.1, this.1⟩
  · exact ⟨hh, le_refl _⟩

/-- A coverage step preserves the host invariant. -/
theorem catchAllStep_hostInvariant (agreement : OracleDatabaseAgreementFE)
    (host : HostUsingOracleDatabaseLicenses) (hh : hostInvariant host)
    (hc : ¬ (agreement.AvailableCount ≤ 0 ∧ agreement.Unlimited = false)) :
    hostInvariant (doAssignLicenseFromCatchAllAgreement agreement host).2 := by
  have hb := catchAllStep_host_bounds agreement host hh.1 hc
  have hf := catchAllStep_host_frame agreement host
  refine ⟨hb.1, hb.2.trans ?_⟩
  rw [hf]
  exact hh.2

theorem hostCovered_refl (h : HostUsingOracleDatabaseLicenses) : hostCovered h h :=
  ⟨rfl, le_refl _, fun h0 => h0⟩

theorem hostCovered_trans {a b c : HostUsingOracleDatabaseLicenses}
    (h1 : hostCovered a b) (h2 : hostCovered b c) : hostCovered a c := by
  refine ⟨?_, h2.2.1.trans h1.2.1, fun h0 => h2.2.2 (h1.2.2 h0)⟩
  rw [h2.1, h1.1]

theorem hostCovered_invariant {a b : HostUsingOracleDatabaseLicenses}
    (h : hostCovered a b) (ha : hostInvariant a) : hostInvariant b := by
  refine ⟨h.2.2 ha.1, h.2.1.trans ?_⟩
  rw [h.1]
  exact ha.2

theorem forall₂_hostCovered_refl (l : List HostUsingOracleDatabaseLicenses) :
    List.Forall₂ hostCovered l l :=
  List.forall₂_same.mpr fun h _ => hostCovered_refl h

theorem forall₂_hostCovered_trans {l₁ l₂ l₃ : List HostUsingOracleDatabaseLicenses}
    (h1 : List.Forall₂ hostCovered l₁ l₂) (h2 : List.Forall₂ hostCovered l₂ l₃) :
    List.Forall₂ hostCovered l₁ l₃ := by
  induction h1 generalizing l₃ with
  | nil => cases h2; exact List.Forall₂.nil
  | cons hab _ ih =>
    cases h2 with
    | cons hbc h2' => exact List.Forall₂.cons (hostCovered_trans hab hbc) (ih h2')

theorem forall₂_hostCovered_set : ∀ (l : List HostUsingOracleDatabaseLicenses) (p : Nat)
    (h h' : HostUsingOracleDatabaseLicenses), l[p]? = some h → hostCovered h h' →
    List.Forall₂ hostCovered l (l.set p h')
  | [], _, _, _, hp, _ => by simp at hp
  | x :: l, 0, h, h', hp, hc => by
    simp at hp
    subst hp
    exact List.Forall₂.cons hc (forall₂_hostCovered_refl l)
  | x :: l, p + 1, h, h', hp, hc => by
    simp at hp
    exact List.Forall₂.cons (hostCovered_refl x) (forall₂_hostCovered_set l p h h' hp hc)

theorem forall₂_hostCovered_invariant {l₁ l₂ : List HostUsingOracleDatabaseLicenses}
    (h : List.Forall₂ hostCovered l₁ l₂) (h1 : ∀ x ∈ l₁, hostInvariant x) :
    ∀ x ∈ l₂, hostInvariant x := by
  induction h with
  | nil => simp
  | cons hab _ ih =>
    intro x hx
    rw [List.mem_cons] at hx
    rcases hx with rfl | hx
    · exact hostCovered_invariant hab (h1 _ (List.mem_cons_self _ _))
    · exact ih (fun y hy => h1 y (List.mem_cons_of_mem _ hy)) x hx

/-- A coverage step made while the agreement has capacity, on a host of positive
`LicenseCount`, relates the host before and after by `hostCovered`. -/
theorem catchAllStep_hostCovered (agreement : OracleDatabaseAgreementFE)
    (host : HostUsingOracleDatabaseLicenses) (hh : 0 ≤ host.LicenseCount)
    (hc : ¬ (agreement.AvailableCount ≤ 0 ∧ agreement.Unlimited = false)) :
    hostCovered host (doAssignLicenseFromCatchAllAgreement agreement host).2 :=
  ⟨catchAllStep_host_frame agreement host,
    (catchAllStep_host_bounds agreement host hh hc).2,
    fun _ => (catchAllStep_host_bounds agreement host hh hc).1⟩

/-- Accounting of a direct step made while the agreement has capacity, on a host of
non-negative `LicenseCount`: the credit is non-negative; a non-negative `AvailableCount`
stays non-negative and does not grow; and for a limited agreement `AvailableCount` plus
the credited `CoveredLicensesCount` is unchanged. -/
theorem doAssign_accounting (agreement : OracleDatabaseAgreementFE)
    (host : HostUsingOracleDatabaseLicenses)
    (associatedHost : OracleDatabaseAgreementAssociatedHostFE)
    (hh : 0 ≤ host.LicenseCount)
    (hc : ¬ (agreement.AvailableCount ≤ 0 ∧ agreement.Unlimited = false)) :
    associatedHost.CoveredLicensesCount ≤
      (doAssignAgreementLicensesToAssociatedHost agreement host
        associatedHost).2.2.CoveredLicensesCount ∧
    (0 ≤ agreement.AvailableCount →
      0 ≤ (doAssignAgreementLicensesToAssociatedHost agreement host
        associatedHost).1.AvailableCount ∧
      (doAssignAgreementLicensesToAssociatedHost agreement host
        associatedHost).1.AvailableCount ≤ agreement.AvailableCount) ∧
    (agreement.Unlimited = false →
      (doAssignAgreementLicensesToAssociatedHost agreement host
        associatedHost).1.AvailableCount +
      (doAssignAgreementLicensesToAssociatedHost agreement host
        associatedHost).2.2.CoveredLicensesCount =
      agreement.AvailableCount + associatedHost.CoveredLicensesCount) := by
  unfold doAssignAgreementLicensesToAssociatedHost
  split_ifs with h1 h2 h3 h4
  · simp [hh, h2]
  · have ha : 0 < agreement.AvailableCount := by
      by_contra hn
      exact hc ⟨not_lt.mp hn, by simpa using h2⟩
    have hm : 0 ≤ min agreement.AvailableCount host.LicenseCount := le_min ha.le hh
    refine ⟨by simpa using hm, fun _ => ⟨?_, ?_⟩, fun _ => ?_⟩
    · simp only [sub_nonneg]; exact min_le_left _ _
    · simp only [sub_le_self_iff]; exact hm
    · simp only; ring
  · simp [hh, h4]
  · have ha : 0 < agreement.AvailableCount := by
      by_contra hn
      exact hc ⟨not_lt.mp hn, by simpa using h4⟩
    have hb := floor_div25_bounds agreement.AvailableCount host.LicenseCount ha hh
    refine ⟨?_, fun _ => ⟨?_, ?_⟩, fun _ => ?_⟩
    · simp only [le_add_iff_nonneg_right]
      exact mul_nonneg hb.1 (by norm_num)
    · simp only [sub_nonneg]; exact hb.2.2
    · simp only [sub_le_self_iff]; exact mul_nonneg hb.1 (by norm_num)
    · simp only; ring
  · simp

theorem doAssign_agreement_frame (agreement : OracleDatabaseAgreementFE)
    (host : HostUsingOracleDatabaseLicenses)
    (associatedHost : OracleDatabaseAgreementAssociatedHostFE) :
    (doAssignAgreementLicensesToAssociatedHost agreement host associatedHost).1 =
      { agreement with AvailableCount :=
          (doAssignAgreementLicensesToAssociatedHost agreement host
            associatedHost).1.AvailableCount } := by
  have h := congrArg Prod.fst (doAssign_eq_catchAll agreement host associatedHost)
  simp only at h
  rw [h]
  exact catchAllStep_agreement_frame agreement host

theorem doAssign_hostCovered (agreement : OracleDatabaseAgreementFE)
    (host : HostUsingOracleDatabaseLicenses)
    (associatedHost : OracleDatabaseAgreementAssociatedHostFE)
    (hh : 0 ≤ host.LicenseCount)
    (hc : ¬ (agreement.AvailableCount ≤ 0 ∧ agreement.Unlimited = false)) :
    hostCovered host
      (doAssignAgreementLicensesToAssociatedHost agreement host associatedHost).2.1 := by
  have h := congrArg Prod.snd (doAssign_eq_catchAll agreement host associatedHost)
  simp only at h
  rw [h]
  exact catchAllStep_hostCovered agreement host hh hc

/-- What the loop over the aliases does to the agreement, the associated host and the
hosts: frames, host coverage and accounting. -/
theorem assignToAliases_spec (hostsMap : HostsMap) :
    ∀ (aliases : List String) (agreement : OracleDatabaseAgreementFE)
      (associatedHost : OracleDatabaseAgreementAssociatedHostFE)
      (hosts : List HostUsingOracleDatabaseLicenses),
      (assignToAliases hostsMap aliases agreement associatedHost hosts).1 =
        { agreement with AvailableCount :=
            (assignToAliases hostsMap aliases agreement associatedHost
              hosts).1.AvailableCount } ∧
      (assignToAliases hostsMap aliases agreement associatedHost hosts).2.1 =
        { associatedHost with CoveredLicensesCount :=
            (assignToAliases hostsMap aliases agreement associatedHost
              hosts).2.1.CoveredLicensesCount } ∧
      List.Forall₂ hostCovered hosts
        (assignToAliases hostsMap aliases agreement associatedHost hosts).2.2 ∧
      associatedHost.CoveredLicensesCount ≤
        (assignToAliases hostsMap aliases agreement associatedHost
          hosts).2.1.CoveredLicensesCount ∧
      (0 ≤ agreement.AvailableCount →
        0 ≤ (assignToAliases hostsMap aliases agreement associatedHost
          hosts).1.AvailableCount ∧
        (assignToAliases hostsMap aliases agreement associatedHost
          hosts).1.AvailableCount ≤ agreement.AvailableCount) ∧
      (agreement.Unlimited = false →
        (assignToAliases hostsMap aliases agreement associatedHost
          hosts).1.AvailableCount +
        (assignToAliases hostsMap aliases agreement associatedHost
          hosts).2.1.CoveredLicensesCount =
        agreement.AvailableCount + associatedHost.CoveredLicensesCount)
  | [], agreement, associatedHost, hosts => by
    exact ⟨rfl, rfl, forall₂_hostCovered_refl _, le_refl _, fun h => ⟨h, le_refl _⟩,
      fun _ => rfl⟩
  | aliasName :: aliases, agreement, associatedHost, hosts => by
    have hrefl : agreement = { agreement with AvailableCount := agreement.AvailableCount } ∧
        associatedHost = { associatedHost with
          CoveredLicensesCount := associatedHost.CoveredLicensesCount } ∧
        List.Forall₂ hostCovered hosts hosts ∧
        associatedHost.CoveredLicensesCount ≤ associatedHost.CoveredLicensesCount ∧
        (0 ≤ agreement.AvailableCount →
          0 ≤ agreement.AvailableCount ∧ agreement.AvailableCount ≤ agreement.AvailableCount) ∧
        (agreement.Unlimited = false →
          agreement.AvailableCount + associatedHost.CoveredLicensesCount =
          agreement.AvailableCount + associatedHost.CoveredLicensesCount) :=
      ⟨rfl, rfl, forall₂_hostCovered_refl _, le_refl _, fun h => ⟨h, le_refl _⟩, fun _ => rfl⟩
    have ih := assignToAliases_spec hostsMap aliases
    unfold assignToAliases
    split_ifs with hcap
    · exact hrefl
    · split
      · exact ih _ _ _
      · split
        · exact ih _ _ _
        · rename_i m _ p hp
          split
          · exact ih _ _ _
          · rename_i hostUsingLicenses hget
            split_ifs with hpos
            · exact ih _ _ _
            · have hpos' : 0 ≤ hostUsingLicenses.LicenseCount := (not_le.mp hpos).le
              have hacc := doAssign_accounting agreement hostUsingLicenses associatedHost
                hpos' hcap
              have hfa := doAssign_agreement_frame agreement hostUsingLicenses associatedHost
              have hfh := doAssign_associatedHost_frame agreement hostUsingLicenses
                associatedHost
              have hhc := doAssign_hostCovered agreement hostUsingLicenses associatedHost
                hpos' hcap
              have hu : (doAssignAgreementLicensesToAssociatedHost agreement
                  hostUsingLicenses associatedHost).1.Unlimited = agreement.Unlimited := by
                rw [hfa]
              have ih' := ih
                (doAssignAgreementLicensesToAssociatedHost agreement hostUsingLicenses
                  associatedHost).1
                (doAssignAgreementLicensesToAssociatedHost agreement hostUsingLicenses
                  associatedHost).2.2
                (hosts.set p (doAssignAgreementLicensesToAssociatedHost agreement
                  hostUsingLicenses associatedHost).2.1)
              obtain ⟨i1, i2, i3, i4, i5, i6⟩ := ih'
              refine ⟨?_, ?_, ?_, ?_, ?_, ?_⟩
              · rw [i1, hfa]
              · rw [i2, hfh]
              · exact forall₂_hostCovered_trans
                  (forall₂_hostCovered_set hosts p hostUsingLicenses _ hget hhc) i3
              · exact hacc.1.trans i4
              · intro h0
                have h1 := hacc.2.1 h0
                have h2 := i5 h1.1
                exact ⟨h2.1, h2.2.trans h1.2⟩
              · intro hun
                rw [i6 (hu.trans hun), hacc.2.2 hun]

theorem associatedHostCredited_refl (a : OracleDatabaseAgreementAssociatedHostFE) :
    associatedHostCredited a a := ⟨rfl, le_refl _⟩

/-- What the loop over the associated hosts does, for an agreement whose license type is
known: it does not panic; frames, host coverage and accounting. -/
theorem assignToAssociatedHosts_spec (hostsMap : HostsMap) (licenseTypes : LicenseTypesMap) :
    ∀ (associatedHosts : List OracleDatabaseAgreementAssociatedHostFE)
      (agreement : OracleDatabaseAgreementFE) (hosts : List HostUsingOracleDatabaseLicenses),
      (∃ licenseType, licenseTypes agreement.LicenseTypeID = some licenseType) →
      ∃ associatedHosts' agreement' hosts',
        assignToAssociatedHosts hostsMap licenseTypes associatedHosts agreement hosts =
          some (associatedHosts', agreement', hosts') ∧
        agreement' = { agreement with AvailableCount := agreement'.AvailableCount } ∧
        List.Forall₂ associatedHostCredited associatedHosts associatedHosts' ∧
        List.Forall₂ hostCovered hosts hosts' ∧
        (0 ≤ agreement.AvailableCount →
          0 ≤ agreement'.AvailableCount ∧
          agreement'.AvailableCount ≤ agreement.AvailableCount) ∧
        (agreement.Unlimited = false →
          agreement'.AvailableCount + totalCredited associatedHosts' =
          agreement.AvailableCount + totalCredited associatedHosts)
  | [], agreement, hosts, _ =>
    ⟨[], agreement, hosts, rfl, rfl, List.Forall₂.nil, forall₂_hostCovered_refl _,
      fun h => ⟨h, le_refl _⟩, fun _ => rfl⟩
  | associatedHost :: rest, agreement, hosts, hlt => by
    obtain ⟨licenseType, hlt'⟩ := hlt
    obtain ⟨s1, s2, s3, s4, s5, s6⟩ := assignToAliases_spec hostsMap licenseType.Aliases
      agreement associatedHost hosts
    unfold assignToAssociatedHosts
    simp only [hlt']
    split_ifs with hbreak
    · refine ⟨_, _, _, rfl, s1, ?_, s3, s5, ?_⟩
      · exact List.Forall₂.cons ⟨s2, s4⟩ (List.forall₂_same.mpr fun a _ =>
          associatedHostCredited_refl a)
      · intro hun
        simp only [totalCredited, List.map_cons, List.sum_cons] at *
        linarith [s6 hun]
    · have hlt1 : ∃ lt, licenseTypes (assignToAliases hostsMap licenseType.Aliases agreement
          associatedHost hosts).1.LicenseTypeID = some lt := by
        rw [s1]; exact ⟨licenseType, hlt'⟩
      obtain ⟨hs', a', hosts', e, r1, r2, r3, r4, r5⟩ :=
        assignToAssociatedHosts_spec hostsMap licenseTypes rest
          (assignToAliases hostsMap licenseType.Aliases agreement associatedHost hosts).1
          (assignToAliases hostsMap licenseType.Aliases agreement associatedHost hosts).2.2
          hlt1
      rw [e]
      refine ⟨_, _, _, rfl, ?_, List.Forall₂.cons ⟨s2, s4⟩ r2,
        forall₂_hostCovered_trans s3 r3, ?_, ?_⟩
      · rw [r1, s1]
      · intro h0
        have h1 := s5 h0
        have h2 := r4 h1.1
        exact ⟨h2.1, h2.2.trans h1.2⟩
      · intro hun
        have hu : (assignToAliases hostsMap licenseType.Aliases agreement associatedHost
            hosts).1.Unlimited = false := by rw [s1]; exact hun
        have h5 := r5 hu
        have h6 := s6 hun
        simp only [totalCredited, List.map_cons, List.sum_cons] at *
        linarith

theorem totalCredited_perm {l₁ l₂ : List OracleDatabaseAgreementAssociatedHostFE}
    (h : l₁.Perm l₂) : totalCredited l₁ = totalCredited l₂ :=
  (h.map _).sum_eq

/-- What the turn of one agreement in the direct pass does, for an agreement whose
license type is known. -/
theorem assignAgreementLicenses_spec (srt : SortSlice) (hs : SortSliceContract srt)
    (hostsMap : HostsMap) (licenseTypes : LicenseTypesMap)
    (agreement : OracleDatabaseAgreementFE) (hosts : List HostUsingOracleDatabaseLicenses)
    (hlt : ∃ licenseType, licenseTypes agreement.LicenseTypeID = some licenseType) :
    ∃ agreement' hosts',
      assignAgreementLicenses srt hostsMap licenseTypes agreement hosts =
        some (agreement', hosts') ∧
      agreementAssigned agreement agreement' ∧ List.Forall₂ hostCovered hosts hosts' := by
  obtain ⟨licenseType, hlt'⟩ := hlt
  unfold assignAgreementLicenses sortHostsInAgreementByLicenseCount
  simp only [hlt']
  obtain ⟨hs', a', hosts', e, r1, r2, r3, r4, r5⟩ :=
    assignToAssociatedHosts_spec hostsMap licenseTypes
      (srt _ (fun a b => decide (maxLicenseCount hosts hostsMap licenseType.Aliases a.Hostname >
          maxLicenseCount hosts hostsMap licenseType.Aliases b.Hostname)) agreement.Hosts)
      { agreement with
        Hosts := srt _ (fun a b =>
          decide (maxLicenseCount hosts hostsMap licenseType.Aliases a.Hostname >
            maxLicenseCount hosts hostsMap licenseType.Aliases b.Hostname)) agreement.Hosts }
      hosts ⟨licenseType, hlt'⟩
  rw [e]
  refine ⟨_, _, rfl, ⟨?_, ⟨_, hs.perm _ _ _, r2⟩, r4, ?_⟩, r3⟩
  · simp only
    rw [r1]
  · intro hun
    have := r5 hun
    simp only at this ⊢
    rw [this, totalCredited_perm (hs.perm _ _ _)]

/-- What the direct pass does when every agreement's license type is known: it does not
panic, every agreement is related to its result by `agreementAssigned` and every host by
`hostCovered`, position by position. -/
theorem assignAgreementsLicenses_spec (srt : SortSlice) (hs : SortSliceContract srt)
    (hostsMap : HostsMap) (licenseTypes : LicenseTypesMap) :
    ∀ (agrs : List OracleDatabaseAgreementFE) (hosts : List HostUsingOracleDatabaseLicenses),
      licenseTypesKnown licenseTypes agrs →
      ∃ agrs' hosts',
        assignAgreementsLicensesToItsAssociatedHosts srt agrs hosts hostsMap licenseTypes =
          some (agrs', hosts') ∧
        List.Forall₂ agreementAssigned agrs agrs' ∧ List.Forall₂ hostCovered hosts hosts'
  | [], hosts, _ => ⟨[], hosts, rfl, List.Forall₂.nil, forall₂_hostCovered_refl _⟩
  | agreement :: agrs, hosts, hk => by
    obtain ⟨a', hosts1, e1, ha, hh1⟩ := assignAgreementLicenses_spec srt hs hostsMap
      licenseTypes agreement hosts (hk agreement (List.mem_cons_self _ _))
    obtain ⟨agrs', hosts2, e2, has, hh2⟩ := assignAgreementsLicenses_spec srt hs hostsMap
      licenseTypes agrs hosts1 (fun a h => hk a (List.mem_cons_of_mem _ h))
    unfold assignAgreementsLicensesToItsAssociatedHosts
    rw [e1]
    simp only
    rw [e2]
    exact ⟨_, _, rfl, List.Forall₂.cons ha has, forall₂_hostCovered_trans hh1 hh2⟩

theorem forall₂_trans_of {α : Type} {R : α → α → Prop}
    (ht : ∀ a b c, R a b → R b c → R a c) :
    ∀ {l₁ l₂ l₃ : List α}, List.Forall₂ R l₁ l₂ → List.Forall₂ R l₂ l₃ → List.Forall₂ R l₁ l₃
  | _, _, _, List.Forall₂.nil, List.Forall₂.nil => List.Forall₂.nil
  | _, _, _, List.Forall₂.cons hab h1, List.Forall₂.cons hbc h2 =>
    List.Forall₂.cons (ht _ _ _ hab hbc) (forall₂_trans_of ht h1 h2)

theorem agreementDrawn_refl (a : OracleDatabaseAgreementFE) : agreementDrawn a a :=
  ⟨rfl, fun _ => rfl, fun h => ⟨h, le_refl _⟩⟩

theorem agreementDrawn_trans (a b c : OracleDatabaseAgreementFE)
    (h1 : agreementDrawn a b) (h2 : agreementDrawn b c) : agreementDrawn a c := by
  refine ⟨?_, ?_, ?_⟩
  · rw [h2.1, h1.1]
  · intro hc
    have hb := h1.2.1 hc
    subst hb
    exact h2.2.1 hc
  · intro h0
    have hb := h1.2.2 h0
    have hcc := h2.2.2 hb.1
    exact ⟨hcc.1, hcc.2.trans hb.2⟩

theorem forall₂_agreementDrawn_refl (l : List OracleDatabaseAgreementFE) :
    List.Forall₂ agreementDrawn l l :=
  List.forall₂_same.mpr fun a _ => agreementDrawn_refl a

theorem licenseTypesKnown_of_drawn (licenseTypes : LicenseTypesMap)
    {l₁ l₂ : List OracleDatabaseAgreementFE} (h : List.Forall₂ agreementDrawn l₁ l₂)
    (hk : licenseTypesKnown licenseTypes l₁) : licenseTypesKnown licenseTypes l₂ := by
  induction h with
  | nil => intro a ha; cases ha
  | cons hab _ ih =>
    intro a ha
    rw [List.mem_cons] at ha
    rcases ha with rfl | ha
    · have hid := congrArg OracleDatabaseAgreementFE.LicenseTypeID hab.1
      simp only at hid
      rw [hid]
      exact hk _ (List.mem_cons_self _ _)
    · exact ih (fun x hx => hk x (List.mem_cons_of_mem _ hx)) a ha

/-- Accounting of a catch-all step made while the agreement has capacity, on a host of
non-negative `LicenseCount`: a non-negative `AvailableCount` stays non-negative and does not
grow. -/
theorem catchAllStep_available (agreement : OracleDatabaseAgreementFE)
    (host : HostUsingOracleDatabaseLicenses) (hh : 0 ≤ host.LicenseCount)
    (hc : ¬ (agreement.AvailableCount ≤ 0 ∧ agreement.Unlimited = false))
    (h0 : 0 ≤ agreement.AvailableCount) :
    0 ≤ (doAssignLicenseFromCatchAllAgreement agreement host).1.AvailableCount ∧
    (doAssignLicenseFromCatchAllAgreement agreement host).1.AvailableCount ≤
      agreement.AvailableCount := by
  have h := congrArg Prod.fst (doAssign_eq_catchAll agreement host ⟨"", 0, 0, 0⟩)
  simp only at h
  rw [← h]
  exact (doAssign_accounting agreement host ⟨"", 0, 0, 0⟩ hh hc).2.1 h0

/-- What the catch-all loop over the aliases does for a host of non-negative
`LicenseCount`. -/
theorem catchAllAliases_spec :
    ∀ (aliases : List String) (agr : OracleDatabaseAgreementFE)
      (host : HostUsingOracleDatabaseLicenses), 0 ≤ host.LicenseCount →
      (catchAllAliases aliases agr host).1 =
        { agr with AvailableCount := (catchAllAliases aliases agr host).1.AvailableCount } ∧
      hostCovered host (catchAllAliases aliases agr host).2 ∧
      (0 ≤ agr.AvailableCount →
        0 ≤ (catchAllAliases aliases agr host).1.AvailableCount ∧
        (catchAllAliases aliases agr host).1.AvailableCount ≤ agr.AvailableCount)
  | [], agr, host, _ => ⟨rfl, hostCovered_refl _, fun h => ⟨h, le_refl _⟩⟩
  | aliasName :: aliases, agr, host, hh => by
    unfold catchAllAliases
    split_ifs with hcap hne
    · exact ⟨rfl, hostCovered_refl _, fun h => ⟨h, le_refl _⟩⟩
    · exact catchAllAliases_spec aliases agr host hh
    · have hhc := catchAllStep_hostCovered agr host hh hcap
      have hfa := catchAllStep_agreement_frame agr host
      obtain ⟨i1, i2, i3⟩ := catchAllAliases_spec aliases
        (doAssignLicenseFromCatchAllAgreement agr host).1
        (doAssignLicenseFromCatchAllAgreement agr host).2 (hhc.2.2 hh)
      refine ⟨?_, hostCovered_trans hhc i2, ?_⟩
      · rw [i1, hfa]
      · intro h0
        have h1 := catchAllStep_available agr host hh hcap h0
        have h2 := i3 h1.1
        exact ⟨h2.1, h2.2.trans h1.2⟩

/-- What the catch-all loop over the agreements does for one host of non-negative
`LicenseCount`, when every agreement's license type is known. -/
theorem catchAllAgreements_spec (licenseTypes : LicenseTypesMap) :
    ∀ (agrs : List OracleDatabaseAgreementFE) (host : HostUsingOracleDatabaseLicenses),
      licenseTypesKnown licenseTypes agrs → 0 ≤ host.LicenseCount →
      ∃ agrs' host', catchAllAgreements licenseTypes agrs host = some (agrs', host') ∧
        List.Forall₂ agreementDrawn agrs agrs' ∧ hostCovered host host'
  | [], host, _, _ => ⟨[], host, rfl, List.Forall₂.nil, hostCovered_refl _⟩
  | agr :: agrs, host, hk, hh => by
    have hk' : licenseTypesKnown licenseTypes agrs :=
      fun a h => hk a (List.mem_cons_of_mem _ h)
    unfold catchAllAgreements
    split_ifs with hca hcap
    · obtain ⟨agrs', host', e, h1, h2⟩ := catchAllAgreements_spec licenseTypes agrs host hk' hh
      rw [e]
      exact ⟨_, _, rfl, List.Forall₂.cons (agreementDrawn_refl _) h1, h2⟩
    · obtain ⟨agrs', host', e, h1, h2⟩ := catchAllAgreements_spec licenseTypes agrs host hk' hh
      rw [e]
      exact ⟨_, _, rfl, List.Forall₂.cons (agreementDrawn_refl _) h1, h2⟩
    · obtain ⟨licenseType, hlt⟩ := hk agr (List.mem_cons_self _ _)
      simp only [hlt]
      obtain ⟨s1, s2, s3⟩ := catchAllAliases_spec licenseType.Aliases agr host hh
      obtain ⟨agrs', host', e, h1, h2⟩ := catchAllAgreements_spec licenseTypes agrs
        (catchAllAliases licenseType.Aliases agr host).2 hk' (s2.2.2 hh)
      rw [e]
      refine ⟨_, _, rfl, List.Forall₂.cons ⟨s1, fun hf => absurd hf hca, s3⟩ h1,
        hostCovered_trans s2 h2⟩

/-- What the catch-all pass does when every agreement's license type is known: it does
not panic, every agreement is related to its result by `agreementDrawn` and every host by
`hostCovered`, position by position. -/
theorem assignLicensesFromCatchAllAgreements_spec (licenseTypes : LicenseTypesMap) :
    ∀ (hosts : List HostUsingOracleDatabaseLicenses) (agrs : List OracleDatabaseAgreementFE),
      licenseTypesKnown licenseTypes agrs →
      ∃ agrs' hosts',
        assignLicensesFromCatchAllAgreements agrs hosts licenseTypes = some (agrs', hosts') ∧
        List.Forall₂ agreementDrawn agrs agrs' ∧ List.Forall₂ hostCovered hosts hosts'
  | [], agrs, _ => ⟨agrs, [], by unfold assignLicensesFromCatchAllAgreements; rfl,
      forall₂_agreementDrawn_refl _, List.Forall₂.nil⟩
  | host :: hosts, agrs, hk => by
    unfold assignLicensesFromCatchAllAgreements
    split_ifs with hpos
    · obtain ⟨agrs', hosts', e, h1, h2⟩ :=
        assignLicensesFromCatchAllAgreements_spec licenseTypes hosts agrs hk
      rw [e]
      exact ⟨_, _, rfl, h1, List.Forall₂.cons (hostCovered_refl _) h2⟩
    · obtain ⟨agrs1, host1, e1, a1, c1⟩ := catchAllAgreements_spec licenseTypes agrs host hk
        (not_le.mp hpos).le
      obtain ⟨agrs', hosts', e, h1, h2⟩ :=
        assignLicensesFromCatchAllAgreements_spec licenseTypes hosts agrs1
          (licenseTypesKnown_of_drawn licenseTypes a1 hk)
      rw [e1]
      simp only
      rw [e]
      exact ⟨_, _, rfl, forall₂_trans_of agreementDrawn_trans a1 h1, List.Forall₂.cons c1 h2⟩

theorem licenseTypesKnown_of_assigned (licenseTypes : LicenseTypesMap)
    {l₁ l₂ : List OracleDatabaseAgreementFE} (h : List.Forall₂ agreementAssigned l₁ l₂)
    (hk : licenseTypesKnown licenseTypes l₁) : licenseTypesKnown licenseTypes l₂ := by
  induction h with
  | nil => intro a ha; cases ha
  | cons hab _ ih =>
    intro a ha
    rw [List.mem_cons] at ha
    rcases ha with rfl | ha
    · have hid := congrArg OracleDatabaseAgreementFE.LicenseTypeID hab.1
      simp only at hid
      rw [hid]
      exact hk _ (List.mem_cons_self _ _)
    · exact ih (fun x hx => hk x (List.mem_cons_of_mem _ hx)) a ha

/-- C1: when every host usage starts with `0 ≤ LicenseCount ≤ OriginalCount` and every
agreement's license type is in the catalog, the direct-association pass (with any hosts
map) completes and every host usage satisfies the invariant after it, and the catch-all
pass run on its result (hosts re-sorted, as the allocation run does) completes and every
host usage satisfies the invariant again; nothing is assumed about the agreements' metric,
`AvailableCount` or `Unlimited`. -/
theorem hostInvariant_after_allocation_passes (srt : SortSlice) (hs : SortSliceContract srt)
    (licenseTypes : LicenseTypesMap) (hostsMap : HostsMap)
    (agrs : List OracleDatabaseAgreementFE) (hosts : List HostUsingOracleDatabaseLicenses)
    (hinv : ∀ h ∈ hosts, hostInvariant h) (hk : licenseTypesKnown licenseTypes agrs) :
    ∃ agrs1 hosts1,
      assignAgreementsLicensesToItsAssociatedHosts srt agrs hosts hostsMap licenseTypes =
        some (agrs1, hosts1) ∧
      (∀ h ∈ hosts1, hostInvariant h) ∧
      ∃ agrs2 hosts2,
        assignLicensesFromCatchAllAgreements agrs1 (sortHostsUsingLicenses srt hosts1)
          licenseTypes = some (agrs2, hosts2) ∧
        ∀ h ∈ hosts2, hostInvariant h := by
  obtain ⟨agrs1, hosts1, e1, ha1, hh1⟩ :=
    assignAgreementsLicenses_spec srt hs hostsMap licenseTypes agrs hosts hk
  have hinv1 := forall₂_hostCovered_invariant hh1 hinv
  have hinv1' : ∀ h ∈ sortHostsUsingLicenses srt hosts1, hostInvariant h :=
    fun h hh => hinv1 h ((hs.perm _ hostLess hosts1).mem_iff.mp hh)
  obtain ⟨agrs2, hosts2, e2, _, hh2⟩ :=
    assignLicensesFromCatchAllAgreements_spec licenseTypes
      (sortHostsUsingLicenses srt hosts1) agrs1
      (licenseTypesKnown_of_assigned licenseTypes ha1 hk)
  exact ⟨agrs1, hosts1, e1, hinv1, agrs2, hosts2, e2,
    forall₂_hostCovered_invariant hh2 hinv1'⟩

/-- C1 on the allocation scenario with insertion sort. -/
theorem hostInvariant_after_allocation_passes_witness :
    ∃ agrs1 hosts1,
      assignAgreementsLicensesToItsAssociatedHosts insertionSortSlice scenarioAgreements
        scenarioHosts (buildHostUsingLicensesMap scenarioHosts)
        (buildLicenseTypesMap scenarioLicenseTypes) = some (agrs1, hosts1) ∧
      (∀ h ∈ hosts1, hostInvariant h) ∧
      ∃ agrs2 hosts2,
        assignLicensesFromCatchAllAgreements agrs1
          (sortHostsUsingLicenses insertionSortSlice hosts1)
          (buildLicenseTypesMap scenarioLicenseTypes) = some (agrs2, hosts2) ∧
        ∀ h ∈ hosts2, hostInvariant h :=
  hostInvariant_after_allocation_passes insertionSortSlice insertionSortSlice_contract
    (buildLicenseTypesMap scenarioLicenseTypes) (buildHostUsingLicensesMap scenarioHosts)
    scenarioAgreements scenarioHosts (by decide!) (by decide!)

theorem agreementAssigned_refl (a : OracleDatabaseAgreementFE) : agreementAssigned a a :=
  ⟨rfl, ⟨a.Hosts, List.Perm.refl _,
    List.forall₂_same.mpr fun x _ => associatedHostCredited_refl x⟩,
    fun h => ⟨h, le_refl _⟩, fun _ => rfl⟩

/-- The turn of one agreement in the direct pass, whenever it does not panic. -/
theorem assignAgreementLicenses_some (srt : SortSlice) (hs : SortSliceContract srt)
    (hostsMap : HostsMap) (licenseTypes : LicenseTypesMap)
    (agreement agreement' : OracleDatabaseAgreementFE)
    (hosts hosts' : List HostUsingOracleDatabaseLicenses)
    (h : assignAgreementLicenses srt hostsMap licenseTypes agreement hosts =
      some (agreement', hosts')) :
    agreementAssigned agreement agreement' ∧ List.Forall₂ hostCovered hosts hosts' := by
  cases hlt : licenseTypes agreement.LicenseTypeID with
  | some licenseType =>
    obtain ⟨a'', hosts'', e, h1, h2⟩ := assignAgreementLicenses_spec srt hs hostsMap
      licenseTypes agreement hosts ⟨licenseType, hlt⟩
    rw [e] at h
    cases h
    exact ⟨h1, h2⟩
  | none =>
    unfold assignAgreementLicenses sortHostsInAgreementByLicenseCount at h
    simp only [hlt] at h
    split_ifs at h with hlen
    · simp only at h
      cases hH : agreement.Hosts with
      | nil =>
        rw [hH] at h
        simp only [assignToAssociatedHosts, Option.some.injEq, Prod.mk.injEq] at h
        obtain ⟨h1, h2⟩ := h
        subst h2
        have : agreement' = agreement := by
          rw [← h1]
          cases agreement
          simp only at hH
          subst hH
          rfl
        rw [this]
        exact ⟨agreementAssigned_refl _, forall₂_hostCovered_refl _⟩
      | cons x rest =>
        rw [hH] at h
        simp [assignToAssociatedHosts, hlt] at h

/-- The direct pass, whenever it does not panic: every agreement is related to its result
by `agreementAssigned` and every host by `hostCovered`, position by position. -/
theorem assignAgreementsLicenses_some (srt : SortSlice) (hs : SortSliceContract srt)
    (hostsMap : HostsMap) (licenseTypes : LicenseTypesMap) :
    ∀ (agrs agrs' : List OracleDatabaseAgreementFE)
      (hosts hosts' : List HostUsingOracleDatabaseLicenses),
      assignAgreementsLicensesToItsAssociatedHosts srt agrs hosts hostsMap licenseTypes =
        some (agrs', hosts') →
      List.Forall₂ agreementAssigned agrs agrs' ∧ List.Forall₂ hostCovered hosts hosts'
  | [], agrs', hosts, hosts', h => by
    simp only [assignAgreementsLicensesToItsAssociatedHosts, Option.some.injEq,
      Prod.mk.injEq] at h
    obtain ⟨h1, h2⟩ := h
    subst h1 h2
    exact ⟨List.Forall₂.nil, forall₂_hostCovered_refl _⟩
  | agreement :: agrs, agrs', hosts, hosts', h => by
    unfold assignAgreementsLicensesToItsAssociatedHosts at h
    cases e1 : assignAgreementLicenses srt hostsMap licenseTypes agreement hosts with
    | none => simp [e1] at h
    | some r1 =>
      obtain ⟨a', hosts1⟩ := r1
      simp only [e1] at h
      cases e2 : assignAgreementsLicensesToItsAssociatedHosts srt agrs hosts1 hostsMap
          licenseTypes with
      | none => simp [e2] at h
      | some r2 =>
        obtain ⟨agrs2, hosts2⟩ := r2
        simp only [e2, Option.some.injEq, Prod.mk.injEq] at h
        obtain ⟨h1, h2⟩ := h
        subst h1 h2
        have s1 := assignAgreementLicenses_some srt hs hostsMap licenseTypes _ _ _ _ e1
        have s2 := assignAgreementsLicenses_some srt hs hostsMap licenseTypes _ _ _ _ e2
        exact ⟨List.Forall₂.cons s1.1 s2.1, forall₂_hostCovered_trans s1.2 s2.2⟩

/-- C2 (amended): with the arithmetic taken as exact, after the direct-association pass,
for every non-unlimited, non-catch-all agreement whose `AvailableCount` started equal to
its `Count ≥ 0` and whose associated hosts all started with `CoveredLicensesCount = 0`, the
sum of `CoveredLicensesCount` over its associated hosts is at most `Count` (which the pass
leaves as it was).  The sum is in the agreement's unit, since the step credits
`covered * 25` for Named User Plus. -/
theorem credited_total_le_count (srt : SortSlice) (hs : SortSliceContract srt)
    (licenseTypes : LicenseTypesMap) (hostsMap : HostsMap)
    (agrs agrs' : List OracleDatabaseAgreementFE)
    (hosts hosts' : List HostUsingOracleDatabaseLicenses)
    (hrun : assignAgreementsLicensesToItsAssociatedHosts srt agrs hosts hostsMap
      licenseTypes = some (agrs', hosts')) :
    List.Forall₂
      (fun a a' =>
        a.Unlimited = false → a.CatchAll = false → a.AvailableCount = a.Count →
        0 ≤ a.Count → (∀ h ∈ a.Hosts, h.CoveredLicensesCount = 0) →
        a'.Count = a.Count ∧ totalCredited a'.Hosts ≤ a.Count)
      agrs agrs' := by
  have h := (assignAgreementsLicenses_some srt hs hostsMap licenseTypes _ _ _ _ hrun).1
  refine h.imp ?_
  intro a a' haa hun _ hav hc h0
  have hcount : a'.Count = a.Count := by rw [haa.1]
  refine ⟨hcount, ?_⟩
  have hzero : totalCredited a.Hosts = 0 := by
    unfold totalCredited
    apply List.sum_eq_zero
    intro x hx
    obtain ⟨y, hy, rfl⟩ := List.mem_map.mp hx
    exact h0 y hy
  have hnn := (haa.2.2.1 (hav ▸ hc)).1
  have hsum := haa.2.2.2 hun
  rw [hzero, hav] at hsum
  linarith

/-- C2 (amended) on the allocation scenario with insertion sort: 10 of 10 licenses and 75
of 100 users are credited. -/
theorem credited_total_le_count_witness :
    List.Forall₂
      (fun a a' =>
        a.Unlimited = false → a.CatchAll = false → a.AvailableCount = a.Count →
        0 ≤ a.Count → (∀ h ∈ a.Hosts, h.CoveredLicensesCount = 0) →
        a'.Count = a.Count ∧ totalCredited a'.Hosts ≤ a.Count)
      scenarioAgreements scenarioAgreementsAfterDirect :=
  credited_total_le_count insertionSortSlice insertionSortSlice_contract
    (buildLicenseTypesMap scenarioLicenseTypes) (buildHostUsingLicensesMap scenarioHosts)
    scenarioAgreements scenarioAgreementsAfterDirect scenarioHosts scenarioHostsAfterDirect
    (by decide!)

theorem catchAllAliases_no_match :
    ∀ (aliases : List String) (agr : OracleDatabaseAgreementFE)
      (host : HostUsingOracleDatabaseLicenses), host.LicenseName ∉ aliases →
      catchAllAliases aliases agr host = (agr, host)
  | [], _, _, _ => rfl
  | aliasName :: aliases, agr, host, hn => by
    rw [List.mem_cons, not_or] at hn
    unfold catchAllAliases
    split_ifs with hcap hne
    · rfl
    · exact catchAllAliases_no_match aliases agr host hn.2
    · exact absurd (not_not.mp hne) hn.1

/-- A catch-all step of a limited agreement with processor or computer metric covers
`min a h`. -/
theorem catchAllStep_processor (agr : OracleDatabaseAgreementFE)
    (host : HostUsingOracleDatabaseLicenses)
    (hm : agr.Metric = AgreementPartMetricProcessorPerpetual ∨
      agr.Metric = AgreementPartMetricComputerPerpetual)
    (hu : agr.Unlimited = false) :
    doAssignLicenseFromCatchAllAgreement agr host =
      ({ agr with AvailableCount :=
           agr.AvailableCount - min agr.AvailableCount host.LicenseCount },
       { host with LicenseCount :=
           host.LicenseCount - min agr.AvailableCount host.LicenseCount }) := by
  simp [doAssignLicenseFromCatchAllAgreement, hm, hu]

/-- Once a limited processor agreement is exhausted or the host is fully covered, the
catch-all loop over the aliases changes nothing. -/
theorem catchAllAliases_saturated :
    ∀ (aliases : List String) (agr : OracleDatabaseAgreementFE)
      (host : HostUsingOracleDatabaseLicenses),
      (agr.Metric = AgreementPartMetricProcessorPerpetual ∨
        agr.Metric = AgreementPartMetricComputerPerpetual) →
      agr.Unlimited = false → (agr.AvailableCount ≤ 0 ∨ host.LicenseCount = 0) →
      catchAllAliases aliases agr host = (agr, host)
  | [], _, _, _, _, _ => rfl
  | aliasName :: aliases, agr, host, hm, hu, hsat => by
    unfold catchAllAliases
    split_ifs with hcap hne
    · rfl
    · exact catchAllAliases_saturated aliases agr host hm hu hsat
    · have ha : 0 < agr.AvailableCount := by
        by_contra hn
        exact hcap ⟨not_lt.mp hn, hu⟩
      have hh : host.LicenseCount = 0 := hsat.resolve_left (not_le.mpr ha)
      have hstep : doAssignLicenseFromCatchAllAgreement agr host = (agr, host) := by
        rw [catchAllStep_processor agr host hm hu, hh, min_eq_right ha.le]
        cases agr
        cases host
        simp only at hh
        simp [hh]
      rw [hstep]
      exact catchAllAliases_saturated aliases agr host hm hu hsat

/-- The catch-all loop over the aliases of a limited processor agreement with capacity,
for a host whose license name is one of the aliases, covers `min a h`. -/
theorem catchAllAliases_match :
    ∀ (aliases : List String) (agr : OracleDatabaseAgreementFE)
      (host : HostUsingOracleDatabaseLicenses),
      (agr.Metric = AgreementPartMetricProcessorPerpetual ∨
        agr.Metric = AgreementPartMetricComputerPerpetual) →
      agr.Unlimited = false → 0 < agr.AvailableCount → 0 ≤ host.LicenseCount →
      host.LicenseName ∈ aliases →
      catchAllAliases aliases agr host =
        ({ agr with AvailableCount :=
             agr.AvailableCount - min agr.AvailableCount host.LicenseCount },
         { host with LicenseCount :=
             host.LicenseCount - min agr.AvailableCount host.LicenseCount })
  | [], _, _, _, _, _, _, hmem => by cases hmem
  | aliasName :: aliases, agr, host, hm, hu, ha, hh, hmem => by
    unfold catchAllAliases
    split_ifs with hcap hne
    · exact absurd hcap.1 (not_le.mpr ha)
    · rw [List.mem_cons] at hmem
      exact catchAllAliases_match aliases agr host hm hu ha hh (hmem.resolve_left hne)
    · rw [catchAllStep_processor agr host hm hu]
      apply catchAllAliases_saturated
      · exact hm
      · exact hu
      · simp only
        rcases le_total agr.AvailableCount host.LicenseCount with h | h
        · left; rw [min_eq_left h]; simp
        · right; rw [min_eq_right h]; simp

theorem catchAllAgreements_not_catchAll (licenseTypes : LicenseTypesMap) :
    ∀ (agrs : List OracleDatabaseAgreementFE) (host : HostUsingOracleDatabaseLicenses),
      (∀ a ∈ agrs, a.CatchAll = false) →
      catchAllAgreements licenseTypes agrs host = some (agrs, host)
  | [], _, _ => rfl
  | agr :: agrs, host, h => by
    unfold catchAllAgreements
    rw [if_pos (h agr (List.mem_cons_self _ _)),
      catchAllAgreements_not_catchAll licenseTypes agrs host
        (fun a ha => h a (List.mem_cons_of_mem _ ha))]

/-- The catch-all loop over the agreements for one host, when the only catch-all
agreement is `agr` and `r` is what the loop over the aliases makes of `agr` and the
host. -/
theorem catchAllAgreements_single (licenseTypes : LicenseTypesMap)
    (licenseType : OracleDatabaseLicenseType) (agr : OracleDatabaseAgreementFE)
    (A₂ : List OracleDatabaseAgreementFE) (hA₂ : ∀ a ∈ A₂, a.CatchAll = false)
    (hlt : licenseTypes agr.LicenseTypeID = some licenseType) (hc : agr.CatchAll = true)
    (r : OracleDatabaseAgreementFE × HostUsingOracleDatabaseLicenses) :
    ∀ (A₁ : List OracleDatabaseAgreementFE) (host : HostUsingOracleDatabaseLicenses),
      (∀ a ∈ A₁, a.CatchAll = false) →
      ((agr.AvailableCount ≤ 0 ∧ agr.Unlimited = false) → r = (agr, host)) →
      catchAllAliases licenseType.Aliases agr host = r →
      catchAllAgreements licenseTypes (A₁ ++ agr :: A₂) host = some (A₁ ++ r.1 :: A₂, r.2)
  | [], host, _, hskip, hr => by
    simp only [List.nil_append]
    unfold catchAllAgreements
    split_ifs with hca hcap
    · rw [hc] at hca
      cases hca
    · rw [catchAllAgreements_not_catchAll licenseTypes A₂ host hA₂, hskip hcap]
    · simp only [hlt, hr]
      rw [catchAllAgreements_not_catchAll licenseTypes A₂ r.2 hA₂]
  | a :: A₁, host, hA₁, hskip, hr => by
    simp only [List.cons_append]
    unfold catchAllAgreements
    rw [if_pos (hA₁ a (List.mem_cons_self _ _)),
      catchAllAgreements_single licenseTypes licenseType agr A₂ hA₂ hlt hc r A₁ host
        (fun x hx => hA₁ x (List.mem_cons_of_mem _ hx)) hskip hr]

theorem assignLicensesFromCatchAllAgreements_nil (agrs : List OracleDatabaseAgreementFE)
    (licenseTypes : LicenseTypesMap) :
    assignLicensesFromCatchAllAgreements agrs [] licenseTypes = some (agrs, []) := by
  unfold assignLicensesFromCatchAllAgreements
  rfl

theorem assignLicensesFromCatchAllAgreements_cons (agrs : List OracleDatabaseAgreementFE)
    (host : HostUsingOracleDatabaseLicenses) (hosts : List HostUsingOracleDatabaseLicenses)
    (licenseTypes : LicenseTypesMap) :
    assignLicensesFromCatchAllAgreements agrs (host :: hosts) licenseTypes =
      if host.LicenseCount ≤ 0 then
        (assignLicensesFromCatchAllAgreements agrs hosts licenseTypes).map
          (fun r => (r.1, host :: r.2))
      else
        (catchAllAgreements licenseTypes agrs host).bind fun r1 =>
          (assignLicensesFromCatchAllAgreements r1.1 hosts licenseTypes).map
            (fun r => (r.1, r1.2 :: r.2)) := by
  conv_lhs => unfold assignLicensesFromCatchAllAgreements
  split_ifs with hpos
  · cases assignLicensesFromCatchAllAgreements agrs hosts licenseTypes <;> rfl
  · cases h1 : catchAllAgreements licenseTypes agrs host with
    | none => rfl
    | some r1 =>
      obtain ⟨a1, h1⟩ := r1
      simp only [Option.some_bind]
      cases assignLicensesFromCatchAllAgreements a1 hosts licenseTypes <;> rfl

/-- Hosts whose license name is no alias of the only catch-all agreement pass through
the catch-all pass unchanged and leave the agreements unchanged. -/
theorem assignLicensesFromCatchAllAgreements_no_match (licenseTypes : LicenseTypesMap)
    (licenseType : OracleDatabaseLicenseType) (agr : OracleDatabaseAgreementFE)
    (A₁ A₂ : List OracleDatabaseAgreementFE)
    (hA₁ : ∀ a ∈ A₁, a.CatchAll = false) (hA₂ : ∀ a ∈ A₂, a.CatchAll = false)
    (hlt : licenseTypes agr.LicenseTypeID = some licenseType) (hc : agr.CatchAll = true)
    (rest : List HostUsingOracleDatabaseLicenses) :
    ∀ (H : List HostUsingOracleDatabaseLicenses),
      (∀ h ∈ H, h.LicenseName ∉ licenseType.Aliases) →
      assignLicensesFromCatchAllAgreements (A₁ ++ agr :: A₂) (H ++ rest) licenseTypes =
        (assignLicensesFromCatchAllAgreements (A₁ ++ agr :: A₂) rest licenseTypes).map
          (fun r => (r.1, H ++ r.2))
  | [], _ => by
    simp only [List.nil_append]
    cases assignLicensesFromCatchAllAgreements (A₁ ++ agr :: A₂) rest licenseTypes <;> rfl
  | h :: H, hH => by
    have ih := assignLicensesFromCatchAllAgreements_no_match licenseTypes licenseType agr
      A₁ A₂ hA₁ hA₂ hlt hc rest H (fun x hx => hH x (List.mem_cons_of_mem _ hx))
    have hstep : catchAllAgreements licenseTypes (A₁ ++ agr :: A₂) h =
        some (A₁ ++ agr :: A₂, h) :=
      catchAllAgreements_single licenseTypes licenseType agr A₂ hA₂ hlt hc (agr, h) A₁ h hA₁
        (fun _ => rfl)
        (catchAllAliases_no_match _ agr h (hH h (List.mem_cons_self _ _)))
    simp only [List.cons_append]
    rw [assignLicensesFromCatchAllAgreements_cons, hstep]
    simp only [Option.some_bind, ite_self]
    rw [ih]
    cases assignLicensesFromCatchAllAgreements (A₁ ++ agr :: A₂) rest licenseTypes <;> rfl

/-- C5 (amended): in the catch-all pass, when the only catch-all agreement `agr` is limited, has
processor (or computer) metric and `AvailableCount = a > 0`, and `host` is the only host
whose license name is an alias of the license type of `agr` and has `LicenseCount = h > 0`,
the pass leaves the host with `LicenseCount = h - min a h`, the agreement with
`AvailableCount = a - min a h`, and everything else as it was.  Whether the host is
associated with an agreement plays no part in this pass. -/
theorem catchAll_pass_covers_host (licenseTypes : LicenseTypesMap)
    (licenseType : OracleDatabaseLicenseType) (agr : OracleDatabaseAgreementFE)
    (host : HostUsingOracleDatabaseLicenses)
    (A₁ A₂ : List OracleDatabaseAgreementFE) (H₁ H₂ : List HostUsingOracleDatabaseLicenses)
    (hlt : licenseTypes agr.LicenseTypeID = some licenseType)
    (hm : agr.Metric = AgreementPartMetricProcessorPerpetual ∨
      agr.Metric = AgreementPartMetricComputerPerpetual)
    (hu : agr.Unlimited = false) (hc : agr.CatchAll = true)
    (ha : 0 < agr.AvailableCount) (hh : 0 < host.LicenseCount)
    (halias : host.LicenseName ∈ licenseType.Aliases)
    (hA₁ : ∀ a ∈ A₁, a.CatchAll = false) (hA₂ : ∀ a ∈ A₂, a.CatchAll = false)
    (hH₁ : ∀ h ∈ H₁, h.LicenseName ∉ licenseType.Aliases)
    (hH₂ : ∀ h ∈ H₂, h.LicenseName ∉ licenseType.Aliases) :
    assignLicensesFromCatchAllAgreements (A₁ ++ agr :: A₂) (H₁ ++ host :: H₂) licenseTypes =
      some
        (A₁ ++ { agr with AvailableCount :=
            agr.AvailableCount - min agr.AvailableCount host.LicenseCount } :: A₂,
         H₁ ++ { host with LicenseCount :=
            host.LicenseCount - min agr.AvailableCount host.LicenseCount } :: H₂) := by
  rw [assignLicensesFromCatchAllAgreements_no_match licenseTypes licenseType agr A₁ A₂ hA₁ hA₂
    hlt hc (host :: H₂) H₁ hH₁]
  have hstep := catchAllAgreements_single licenseTypes licenseType agr A₂ hA₂ hlt hc _ A₁ host
    hA₁ (fun hcap => absurd hcap.1 (not_le.mpr ha))
    (catchAllAliases_match licenseType.Aliases agr host hm hu ha hh.le halias)
  have hrest := assignLicensesFromCatchAllAgreements_no_match licenseTypes licenseType
    { agr with AvailableCount :=
        agr.AvailableCount - min agr.AvailableCount host.LicenseCount }
    A₁ A₂ hA₁ hA₂ hlt hc [] H₂ hH₂
  rw [List.append_nil, assignLicensesFromCatchAllAgreements_nil] at hrest
  rw [assignLicensesFromCatchAllAgreements_cons, if_neg (not_le.mpr hh), hstep]
  simp only [Option.some_bind]
  rw [hrest]
  simp

/-- C5, the scenario of the specification: `h = 2`, `a = 10` gives host `LicenseCount` 0
and `AvailableCount` 8. -/
theorem catchAll_pass_covers_host_witness :
    assignLicensesFromCatchAllAgreements
      [⟨"C", "L1", "", AgreementPartMetricProcessorPerpetual, false, true, 10, 10, 0, 10, []⟩]
      [⟨"L1", "delta", "Oracle EXE", 2, 2⟩] (buildLicenseTypesMap scenarioLicenseTypes) =
      some
        ([⟨"C", "L1", "", AgreementPartMetricProcessorPerpetual, false, true, 10, 10, 0, 8, []⟩],
         [⟨"L1", "delta", "Oracle EXE", 0, 2⟩]) :=
  (catchAll_pass_covers_host (buildLicenseTypesMap scenarioLicenseTypes) sampleLicenseType
    ⟨"C", "L1", "", AgreementPartMetricProcessorPerpetual, false, true, 10, 10, 0, 10, []⟩
    ⟨"L1", "delta", "Oracle EXE", 2, 2⟩ [] [] [] [] (by decide!) (Or.inl rfl) rfl rfl
    (by decide!) (by decide!) (by decide!) (by simp) (by simp) (by simp) (by simp)).trans
    (by decide!)

/-- C5 as stated fails when a second host usage matches the aliases.  A single limited
processor catch-all agreement with `AvailableCount = 3` and two host usages of 2 licenses
under the same alias, associated with no agreement: the pass leaves the agreement with
`AvailableCount = 0` and the second host with `LicenseCount = 1`, where the claim gives
`3 - min 3 2 = 1` and `2 - min 3 2 = 0`. -/
theorem catchAll_pass_covers_host_counterexample :
    sampleCatchAllThree.CatchAll = true ∧ sampleCatchAllThree.Unlimited = false ∧
    sampleCatchAllThree.Metric = AgreementPartMetricProcessorPerpetual ∧
    sampleCatchAllThree.Hosts = [] ∧
    buildLicenseTypesMap scenarioLicenseTypes sampleCatchAllThree.LicenseTypeID =
      some sampleLicenseType ∧
    (∀ h ∈ sampleHostsTwoMatching, h.LicenseName ∈ sampleLicenseType.Aliases) ∧
    assignLicensesFromCatchAllAgreements [sampleCatchAllThree] sampleHostsTwoMatching
      (buildLicenseTypesMap scenarioLicenseTypes) =
      some
        ([{ sampleCatchAllThree with AvailableCount := 0 }],
         [⟨"L1", "alpha", "Oracle ENT", 0, 2⟩, ⟨"L1", "beta", "Oracle ENT", 1, 2⟩]) ∧
    (3 : ℚ) - min 3 2 ≠ 0 ∧ (2 : ℚ) - min 3 2 ≠ 1 := by
  decide!

/-! ## Finalizer -/

theorem coverAssociatedHost_eq (hosts : List HostUsingOracleDatabaseLicenses)
    (hostsMap : HostsMap) (metric aliasName : String)
    (associatedHost : OracleDatabaseAgreementAssociatedHostFE) (uncovered : ℚ) :
    coverAssociatedHost hosts hostsMap metric aliasName associatedHost uncovered =
      (applyCover associatedHost
        (coverValues hosts hostsMap metric aliasName associatedHost.Hostname),
       uncovered + uncoveredContribution hosts hostsMap metric aliasName
         associatedHost.Hostname) := by
  unfold coverAssociatedHost coverValues uncoveredContribution usageRecord applyCover
  cases hostsMap aliasName with
  | none => simp
  | some m =>
    simp only
    cases m associatedHost.Hostname with
    | none => simp
    | some p =>
      simp only
      cases hosts[p]? with
      | none => simp
      | some host =>
        simp only
        split_ifs <;> simp

theorem applyCover_hostname (a : OracleDatabaseAgreementAssociatedHostFE)
    (v : Option (ℚ × ℚ)) : (applyCover a v).Hostname = a.Hostname := by
  unfold applyCover
  cases v <;> rfl

theorem coverAssociatedHosts_eq (hosts : List HostUsingOracleDatabaseLicenses)
    (hostsMap : HostsMap) (metric aliasName : String) :
    ∀ (associatedHosts : List OracleDatabaseAgreementAssociatedHostFE) (uncovered : ℚ),
      coverAssociatedHosts hosts hostsMap metric aliasName associatedHosts uncovered =
        (associatedHosts.map fun a =>
          applyCover a (coverValues hosts hostsMap metric aliasName a.Hostname),
         uncovered + (associatedHosts.map fun a =>
           uncoveredContribution hosts hostsMap metric aliasName a.Hostname).sum)
  | [], uncovered => by simp [coverAssociatedHosts]
  | a :: rest, uncovered => by
    unfold coverAssociatedHosts
    simp only [coverAssociatedHost_eq, coverAssociatedHosts_eq hosts hostsMap metric aliasName
      rest, List.map_cons, List.sum_cons, Prod.mk.injEq, true_and]
    ring

theorem applyCover_applyCover_some (a : OracleDatabaseAgreementAssociatedHostFE)
    (init : Option (ℚ × ℚ)) (v : ℚ × ℚ) :
    applyCover (applyCover a init) (some v) = applyCover a (some v) := by
  unfold applyCover
  cases init <;> rfl

theorem applyCover_lastCover (hosts : List HostUsingOracleDatabaseLicenses)
    (hostsMap : HostsMap) (metric : String) :
    ∀ (aliases : List String) (a : OracleDatabaseAgreementAssociatedHostFE)
      (init : Option (ℚ × ℚ)),
      applyCover a (lastCover hosts hostsMap metric a.Hostname aliases init) =
        applyCover (applyCover a init)
          (lastCover hosts hostsMap metric a.Hostname aliases none)
  | [], a, init => by simp [lastCover, applyCover]
  | aliasName :: aliases, a, init => by
    have ih := applyCover_lastCover hosts hostsMap metric aliases
    cases hcv : coverValues hosts hostsMap metric aliasName a.Hostname with
    | none =>
      simp only [lastCover, hcv]
      exact ih a init
    | some v =>
      simp only [lastCover, hcv]
      have h1 := ih a (some v)
      have h2 := ih (applyCover a init) (some v)
      rw [applyCover_hostname, applyCover_applyCover_some] at h2
      rw [h1, h2]

/-- What the finalizer's loop over the aliases leaves: every associated host with the last
values written for its host name, and the two sums. -/
theorem coverAliases_eq (hosts : List HostUsingOracleDatabaseLicenses)
    (hostsMap : HostsMap) (status : String → coverStatus) (metric : String) :
    ∀ (aliases : List String) (associatedHosts : List OracleDatabaseAgreementAssociatedHostFE)
      (byAssociated byAll : ℚ),
      coverAliases hosts hostsMap status metric aliases associatedHosts byAssociated byAll =
        (associatedHosts.map fun a =>
          applyCover a (lastCover hosts hostsMap metric a.Hostname aliases none),
         byAssociated + (aliases.map fun aliasName =>
           (associatedHosts.map fun a =>
             uncoveredContribution hosts hostsMap metric aliasName a.Hostname).sum).sum,
         byAll + (aliases.map fun aliasName =>
           (status aliasName).Consumed - (status aliasName).Covered).sum)
  | [], associatedHosts, byAssociated, byAll => by
    simp [coverAliases, lastCover, applyCover]
  | aliasName :: aliases, associatedHosts, byAssociated, byAll => by
    unfold coverAliases
    simp only [coverAssociatedHosts_eq, coverAliases_eq hosts hostsMap status metric aliases,
      List.map_map, List.map_cons, List.sum_cons, Prod.mk.injEq]
    refine ⟨?_, ?_, by ring⟩
    · apply List.map_congr_left
      intro a _
      simp only [Function.comp_def, applyCover_hostname]
      cases hcv : coverValues hosts hostsMap metric aliasName a.Hostname with
      | none => simp only [lastCover, hcv, applyCover]
      | some v =>
        simp only [lastCover, hcv]
        exact (applyCover_lastCover hosts hostsMap metric aliases a (some v)).symm
    · simp only [Function.comp_def, applyCover_hostname, add_assoc]

/-- The body of the finalizer for one agreement in closed form. -/
theorem calculateAgreement_eq (hosts : List HostUsingOracleDatabaseLicenses)
    (hostsMap : HostsMap) (licenseTypes : LicenseTypesMap)
    (agreement : OracleDatabaseAgreementFE) (licenseType : OracleDatabaseLicenseType)
    (hlt : licenseTypes agreement.LicenseTypeID = some licenseType) :
    calculateAgreement hosts hostsMap licenseTypes (calculateCoverStatusByLicenseName hosts)
        agreement =
      some { agreement with
        Hosts := agreement.Hosts.map fun a =>
          applyCover a (lastCover hosts hostsMap agreement.Metric a.Hostname
            licenseType.Aliases none),
        AvailableCount :=
          if 0 < uncoveredLicenses hosts hostsMap licenseType.Aliases agreement then
            agreement.AvailableCount -
              uncoveredLicenses hosts hostsMap licenseType.Aliases agreement
          else agreement.AvailableCount } := by
  unfold calculateAgreement uncoveredLicenses
  simp only [hlt, coverAliases_eq, zero_add, gt_iff_lt]
  cases hc : agreement.CatchAll <;> simp only [Bool.false_eq_true, if_false, if_true] <;>
    split_ifs <;> rfl

theorem mapM_option_eq_some {α β : Type} (f : α → Option β) :
    ∀ (l : List α) (l' : List β),
      l.mapM f = some l' ↔ List.Forall₂ (fun a b => f a = some b) l l'
  | [], l' => by
    simp only [List.mapM_nil]
    constructor
    · intro h
      cases h
      exact List.Forall₂.nil
    · intro h
      cases h
      rfl
  | a :: l, l' => by
    rw [List.mapM_cons]
    cases hfa : f a with
    | none =>
      simp only [Option.bind_eq_bind, Option.none_bind]
      constructor
      · intro h; cases h
      · intro h
        cases h with
        | cons h1 _ => rw [hfa] at h1; cases h1
    | some b =>
      simp only [Option.bind_eq_bind, Option.some_bind]
      cases hl : l.mapM f with
      | none =>
        simp only [Option.none_bind]
        constructor
        · intro h; cases h
        · intro h
          cases h with
          | cons h1 h2 =>
            rw [(mapM_option_eq_some f l _).mpr h2] at hl
            cases hl
      | some bs =>
        simp only [Option.some_bind]
        have ih := (mapM_option_eq_some f l bs).mp hl
        constructor
        · intro h
          cases h
          exact List.Forall₂.cons hfa ih
        · intro h
          cases h with
          | cons h1 h2 =>
            rw [hfa] at h1
            cases h1
            rw [(mapM_option_eq_some f l _).mpr h2] at hl
            cases hl
            rfl

/-- The finalizer does not panic when every agreement's license type is known. -/
theorem calculateTotal_some_of_known (agrs : List OracleDatabaseAgreementFE)
    (hosts : List HostUsingOracleDatabaseLicenses) (hostsMap : HostsMap)
    (licenseTypes : LicenseTypesMap) (hk : licenseTypesKnown licenseTypes agrs) :
    ∃ agrs', calculateTotalCoveredLicensesAndAvailableCount agrs hosts hostsMap licenseTypes =
      some agrs' := by
  unfold calculateTotalCoveredLicensesAndAvailableCount
  induction agrs with
  | nil => exact ⟨[], rfl⟩
  | cons a agrs ih =>
    obtain ⟨lt, hlt⟩ := hk a (List.mem_cons_self _ _)
    obtain ⟨agrs', e⟩ := ih (fun x hx => hk x (List.mem_cons_of_mem _ hx))
    rw [List.mapM_cons, calculateAgreement_eq hosts hostsMap licenseTypes a lt hlt, e]
    exact ⟨_, rfl⟩

/-- The finalizer in closed form, agreement by agreement, whenever it does not panic. -/
theorem calculateTotal_forall₂ (agrs agrs' : List OracleDatabaseAgreementFE)
    (hosts : List HostUsingOracleDatabaseLicenses) (hostsMap : HostsMap)
    (licenseTypes : LicenseTypesMap)
    (h : calculateTotalCoveredLicensesAndAvailableCount agrs hosts hostsMap licenseTypes =
      some agrs') :
    List.Forall₂
      (fun a a' => ∃ licenseType, licenseTypes a.LicenseTypeID = some licenseType ∧
        a' = { a with
          Hosts := a.Hosts.map fun x =>
            applyCover x (lastCover hosts hostsMap a.Metric x.Hostname
              licenseType.Aliases none),
          AvailableCount :=
            if 0 < uncoveredLicenses hosts hostsMap licenseType.Aliases a then
              a.AvailableCount - uncoveredLicenses hosts hostsMap licenseType.Aliases a
            else a.AvailableCount })
      agrs agrs' := by
  unfold calculateTotalCoveredLicensesAndAvailableCount at h
  refine ((mapM_option_eq_some _ _ _).mp h).imp ?_
  intro a a' ha
  cases hlt : licenseTypes a.LicenseTypeID with
  | none => simp [calculateAgreement, hlt] at ha
  | some lt =>
    rw [calculateAgreement_eq hosts hostsMap licenseTypes a lt hlt] at ha
    exact ⟨lt, rfl, (Option.some.inj ha).symm⟩

theorem uncoveredLicenses_processor (hosts : List HostUsingOracleDatabaseLicenses)
    (hostsMap : HostsMap) (aliases : List String) (a : OracleDatabaseAgreementFE)
    (hc : a.CatchAll = false)
    (hm : a.Metric = AgreementPartMetricProcessorPerpetual ∨
      a.Metric = AgreementPartMetricComputerPerpetual) :
    uncoveredLicenses hosts hostsMap aliases a =
      remainingOfAssociatedHosts hosts hostsMap aliases a.Hosts := by
  unfold uncoveredLicenses remainingOfAssociatedHosts uncoveredContribution
  simp only [hc, Bool.false_eq_true, if_false, hm, if_true]
  congr 1
  apply List.map_congr_left
  intro aliasName _
  congr 1
  apply List.map_congr_left
  intro x _
  cases usageRecord hosts hostsMap aliasName x.Hostname <;> rfl

theorem forall₂_getElem_opt {α β : Type} {R : α → β → Prop} :
    ∀ {l₁ : List α} {l₂ : List β}, List.Forall₂ R l₁ l₂ →
      ∀ (i : Nat) (a : α) (b : β), l₁[i]? = some a → l₂[i]? = some b → R a b
  | _, _, List.Forall₂.nil, i, a, b, h1, _ => by simp at h1
  | _, _, List.Forall₂.cons hab _, 0, a, b, h1, h2 => by
    simp only [List.getElem?_cons_zero, Option.some.injEq] at h1 h2
    subst h1 h2
    exact hab
  | _, _, List.Forall₂.cons _ ht, i + 1, a, b, h1, h2 => by
    simp only [List.getElem?_cons_succ] at h1 h2
    exact forall₂_getElem_opt ht i a b h1 h2

theorem buildHostUsingLicensesMap_eq_keys (hosts : List HostUsingOracleDatabaseLicenses) :
    buildHostUsingLicensesMap hosts =
      buildKeysMap (hosts.map fun h => (h.LicenseName, h.Name)) := by
  unfold buildHostUsingLicensesMap buildKeysMap
  rw [List.enum_map, List.foldl_map]
  rfl

theorem keysLookup_insert (res : HostsMap) (licenseName name : String) (i : Nat)
    (ln n : String) :
    keysLookup (hostsMapInsert res licenseName name i) ln n =
      if ln = licenseName ∧ n = name then some i else keysLookup res ln n := by
  unfold keysLookup hostsMapInsert
  by_cases h1 : ln = licenseName
  · subst h1
    by_cases h2 : n = name
    · simp [h2]
    · simp only [if_true, h2, and_false, if_false]
      cases res ln <;> rfl
  · simp [h1]

theorem buildKeysMap_snoc (keys : List (String × String)) (k : String × String) (ln n : String) :
    keysLookup (buildKeysMap (keys ++ [k])) ln n =
      if ln = k.1 ∧ n = k.2 then some keys.length else keysLookup (buildKeysMap keys) ln n := by
  unfold buildKeysMap
  rw [List.enum_append, List.foldl_append]
  simp only [List.enumFrom_singleton, List.foldl_cons, List.foldl_nil, keysLookup_insert,
    List.enum_length]

theorem lastIndexOfKey_append_singleton (k k' : String × String) :
    ∀ keys : List (String × String),
      lastIndexOfKey k (keys ++ [k']) =
        if k' = k then some keys.length else lastIndexOfKey k keys
  | [] => by simp [lastIndexOfKey]
  | x :: keys => by
    have ih := lastIndexOfKey_append_singleton k k' keys
    simp only [List.cons_append, lastIndexOfKey, List.length_cons]
    rw [show keys.append [k'] = keys ++ [k'] from rfl, ih]
    by_cases h : k' = k
    · simp [h]
    · simp [h]

theorem keysLookup_buildKeysMap (ln n : String) (keys : List (String × String)) :
    keysLookup (buildKeysMap keys) ln n = lastIndexOfKey (ln, n) keys := by
  induction keys using List.reverseRecOn with
  | nil => rfl
  | append_singleton keys k ih =>
    rw [buildKeysMap_snoc, lastIndexOfKey_append_singleton, ih]
    have : (ln = k.1 ∧ n = k.2) ↔ k = (ln, n) := by
      rw [Prod.ext_iff]
      constructor
      · rintro ⟨h1, h2⟩; exact ⟨h1.symm, h2.symm⟩
      · rintro ⟨h1, h2⟩; exact ⟨h1.symm, h2.symm⟩
    simp only [this]

theorem lastIndexOfKey_spec (k : String × String) :
    ∀ (keys : List (String × String)) (i : Nat), lastIndexOfKey k keys = some i →
      keys[i]? = some k
  | [], i, h => by simp [lastIndexOfKey] at h
  | k' :: keys, i, h => by
    unfold lastIndexOfKey at h
    cases hl : lastIndexOfKey k keys with
    | some j =>
      rw [hl] at h
      simp only [Option.some.injEq] at h
      subst h
      simpa using lastIndexOfKey_spec k keys j hl
    | none =>
      rw [hl] at h
      simp only at h
      split_ifs at h with hk
      simp only [Option.some.injEq] at h
      subst h
      simp [hk]

theorem lastIndexOfKey_none (k : String × String) :
    ∀ (keys : List (String × String)), lastIndexOfKey k keys = none → k ∉ keys
  | [], _ => by simp
  | k' :: keys, h => by
    unfold lastIndexOfKey at h
    cases hl : lastIndexOfKey k keys with
    | some j => rw [hl] at h; cases h
    | none =>
      rw [hl] at h
      simp only at h
      split_ifs at h with hk
      rw [List.mem_cons, not_or]
      exact ⟨fun e => hk e.symm, lastIndexOfKey_none k keys hl⟩

/-! ## Saturation in the direct pass -/

/-- A direct step of a limited agreement with processor or computer metric, in closed
form. -/
theorem doAssign_processor_limited
    (agreement : OracleDatabaseAgreementFE) (host : HostUsingOracleDatabaseLicenses)
    (associatedHost : OracleDatabaseAgreementAssociatedHostFE)
    (hm : agreement.Metric = AgreementPartMetricProcessorPerpetual ∨
      agreement.Metric = AgreementPartMetricComputerPerpetual)
    (hu : agreement.Unlimited = false) :
    doAssignAgreementLicensesToAssociatedHost agreement host associatedHost =
      ({ agreement with AvailableCount :=
           agreement.AvailableCount - min agreement.AvailableCount host.LicenseCount },
       { host with LicenseCount :=
           host.LicenseCount - min agreement.AvailableCount host.LicenseCount },
       { associatedHost with CoveredLicensesCount :=
           associatedHost.CoveredLicensesCount +
             (min agreement.AvailableCount host.LicenseCount) }) := by
  simp [doAssignAgreementLicensesToAssociatedHost, hm, hu]


theorem forall₂_hostCovered_zero {l l' : List HostUsingOracleDatabaseLicenses}
    (h : List.Forall₂ hostCovered l l') (p : Nat) (x x' : HostUsingOracleDatabaseLicenses)
    (hx : l[p]? = some x) (hx' : l'[p]? = some x') (h0 : x.LicenseCount = 0) :
    x'.LicenseCount = 0 := by
  have hc := forall₂_getElem_opt h p x x' hx hx'
  exact le_antisymm (h0 ▸ hc.2.1) (hc.2.2 h0.ge)

theorem forall₂_hostCovered_nonneg {l l' : List HostUsingOracleDatabaseLicenses}
    (h : List.Forall₂ hostCovered l l') (h0 : ∀ x ∈ l, 0 ≤ x.LicenseCount) :
    ∀ x ∈ l', 0 ≤ x.LicenseCount := by
  induction h with
  | nil => simp
  | cons hab _ ih =>
    intro x hx
    rw [List.mem_cons] at hx
    rcases hx with rfl | hx
    · exact hab.2.2 (h0 _ (List.mem_cons_self _ _))
    · exact ih (fun y hy => h0 y (List.mem_cons_of_mem _ hy)) x hx

theorem forall₂_getElem_opt_left {α β : Type} {R : α → β → Prop}
    {l₁ : List α} {l₂ : List β} (h : List.Forall₂ R l₁ l₂)
    (i : Nat) (b : β) (hb : l₂[i]? = some b) : ∃ a, l₁[i]? = some a := by
  have hi : i < l₁.length := by
    rw [h.length_eq]
    exact (List.getElem?_eq_some_iff.mp hb).1
  exact ⟨l₁[i], List.getElem?_eq_getElem hi⟩

theorem usageRecord_eq (hosts : List HostUsingOracleDatabaseLicenses) (hostsMap : HostsMap)
    (aliasName hostname : String) :
    usageRecord hosts hostsMap aliasName hostname =
      (keysLookup hostsMap aliasName hostname).bind fun p => hosts[p]? := by
  unfold usageRecord keysLookup
  cases hostsMap aliasName with
  | none => rfl
  | some m =>
    simp only
    cases h : m hostname <;> simp [h]

/-- The loop over the aliases leaves a limited processor agreement either without
capacity or with every visited usage record fully covered. -/
theorem assignToAliases_saturated (hostsMap : HostsMap) :
    ∀ (aliases : List String) (agreement : OracleDatabaseAgreementFE)
      (associatedHost : OracleDatabaseAgreementAssociatedHostFE)
      (hosts : List HostUsingOracleDatabaseLicenses),
      (agreement.Metric = AgreementPartMetricProcessorPerpetual ∨
        agreement.Metric = AgreementPartMetricComputerPerpetual) →
      agreement.Unlimited = false → 0 ≤ agreement.AvailableCount →
      (∀ h ∈ hosts, 0 ≤ h.LicenseCount) →
      0 < (assignToAliases hostsMap aliases agreement associatedHost hosts).1.AvailableCount →
      ∀ aliasName ∈ aliases, ∀ host,
        usageRecord (assignToAliases hostsMap aliases agreement associatedHost hosts).2.2
          hostsMap aliasName associatedHost.Hostname = some host →
        host.LicenseCount = 0
  | [], _, _, _, _, _, _, _ => by simp
  | aliasName :: aliases, agreement, associatedHost, hosts, hm, hu, h0, hnn => by
    have ih := assignToAliases_saturated hostsMap aliases
    have hspec := assignToAliases_spec hostsMap aliases
    unfold assignToAliases
    split_ifs with hcap
    · intro hpos
      exact absurd hcap.1 (not_le.mpr hpos)
    · -- the loop continues with this alias
      have key : ∀ (agreement' : OracleDatabaseAgreementFE)
          (associatedHost' : OracleDatabaseAgreementAssociatedHostFE)
          (hosts' : List HostUsingOracleDatabaseLicenses),
          (agreement'.Metric = AgreementPartMetricProcessorPerpetual ∨
            agreement'.Metric = AgreementPartMetricComputerPerpetual) →
          agreement'.Unlimited = false → 0 ≤ agreement'.AvailableCount →
          (∀ h ∈ hosts', 0 ≤ h.LicenseCount) →
          associatedHost'.Hostname = associatedHost.Hostname →
          (0 < agreement'.AvailableCount → ∀ host,
            usageRecord hosts' hostsMap aliasName associatedHost.Hostname = some host →
            host.LicenseCount = 0) →
          0 < (assignToAliases hostsMap aliases agreement' associatedHost'
            hosts').1.AvailableCount →
          ∀ a ∈ aliasName :: aliases, ∀ host,
            usageRecord (assignToAliases hostsMap aliases agreement' associatedHost'
              hosts').2.2 hostsMap a associatedHost.Hostname = some host →
            host.LicenseCount = 0 := by
        intro agreement' associatedHost' hosts' hm' hu' h0' hnn' hname hhead hpos a ha host hrec
        obtain ⟨_, _, s3, _, s5, _⟩ := hspec agreement' associatedHost' hosts'
        rw [List.mem_cons] at ha
        rcases ha with rfl | ha
        · rw [usageRecord_eq] at hrec
          cases hk : keysLookup hostsMap a associatedHost.Hostname with
          | none => rw [hk] at hrec; cases hrec
          | some p =>
            rw [hk] at hrec
            simp only [Option.some_bind] at hrec
            obtain ⟨x, hx⟩ := forall₂_getElem_opt_left s3 p host hrec
            have hx0 : x.LicenseCount = 0 := by
              apply hhead (lt_of_lt_of_le hpos (s5 h0').2)
              rw [usageRecord_eq, hk]
              exact hx
            exact forall₂_hostCovered_zero s3 p x host hx hrec hx0
        · have := ih agreement' associatedHost' hosts' hm' hu' h0' hnn' hpos a ha host
          rw [hname] at this
          exact this hrec
      split
      · rename_i hnone
        refine key agreement associatedHost hosts hm hu h0 hnn rfl ?_
        intro _ host hrec
        simp [usageRecord, hnone] at hrec
      · rename_i m hm1
        split
        · rename_i hnone
          refine key agreement associatedHost hosts hm hu h0 hnn rfl ?_
          intro _ host hrec
          simp [usageRecord, hm1, hnone] at hrec
        · rename_i p hp
          split
          · rename_i hnone
            refine key agreement associatedHost hosts hm hu h0 hnn rfl ?_
            intro _ host hrec
            simp [usageRecord, hm1, hp, hnone] at hrec
          · rename_i hostUsingLicenses hget
            split_ifs with hle
            · refine key agreement associatedHost hosts hm hu h0 hnn rfl ?_
              intro _ host hrec
              simp only [usageRecord, hm1, hp, hget, Option.some.injEq] at hrec
              subst hrec
              exact le_antisymm hle (hnn _ (List.getElem?_mem hget))
            · have hpos' : 0 ≤ hostUsingLicenses.LicenseCount := (not_le.mp hle).le
              have hstep := doAssign_processor_limited agreement hostUsingLicenses
                associatedHost hm hu
              have hhc := doAssign_hostCovered agreement hostUsingLicenses associatedHost
                hpos' hcap
              have hacc := doAssign_accounting agreement hostUsingLicenses associatedHost
                hpos' hcap
              have hplen : p < hosts.length := by
                rw [List.getElem?_eq_some_iff] at hget
                exact hget.1
              refine key _ _ _ ?_ ?_ (hacc.2.1 h0).1 ?_ ?_ ?_
              · rw [hstep]; exact hm
              · rw [hstep]; exact hu
              · exact forall₂_hostCovered_nonneg
                  (forall₂_hostCovered_set hosts p hostUsingLicenses _ hget hhc) hnn
              · rw [hstep]
              · intro hav host hrec
                simp only [usageRecord, hm1, hp, List.getElem?_set_self hplen,
                  Option.some.injEq] at hrec
                subst hrec
                rw [hstep] at hav ⊢
                simp only at hav ⊢
                have : ¬ agreement.AvailableCount ≤ hostUsingLicenses.LicenseCount := by
                  intro hle'
                  rw [min_eq_left hle'] at hav
                  simp at hav
                rw [min_eq_right (not_le.mp this).le]
                simp

theorem usageRecord_zero_lift {l l' : List HostUsingOracleDatabaseLicenses}
    (h : List.Forall₂ hostCovered l l') (hostsMap : HostsMap) (aliasName hostname : String)
    (hz : ∀ host, usageRecord l hostsMap aliasName hostname = some host →
      host.LicenseCount = 0) :
    ∀ host, usageRecord l' hostsMap aliasName hostname = some host →
      host.LicenseCount = 0 := by
  intro host hrec
  rw [usageRecord_eq] at hrec
  cases hk : keysLookup hostsMap aliasName hostname with
  | none => rw [hk] at hrec; cases hrec
  | some p =>
    rw [hk] at hrec
    simp only [Option.some_bind] at hrec
    obtain ⟨x, hx⟩ := forall₂_getElem_opt_left h p host hrec
    have hx0 : x.LicenseCount = 0 := by
      apply hz
      rw [usageRecord_eq, hk]
      exact hx
    exact forall₂_hostCovered_zero h p x host hx hrec hx0

/-- The loop over the associated hosts leaves a limited processor agreement either
without capacity or with every usage record of the visited hosts fully covered. -/
theorem assignToAssociatedHosts_saturated (hostsMap : HostsMap)
    (licenseTypes : LicenseTypesMap) (licenseType : OracleDatabaseLicenseType) :
    ∀ (associatedHosts : List OracleDatabaseAgreementAssociatedHostFE)
      (agreement : OracleDatabaseAgreementFE) (hosts : List HostUsingOracleDatabaseLicenses)
      (associatedHosts' : List OracleDatabaseAgreementAssociatedHostFE)
      (agreement' : OracleDatabaseAgreementFE)
      (hosts' : List HostUsingOracleDatabaseLicenses),
      licenseTypes agreement.LicenseTypeID = some licenseType →
      (agreement.Metric = AgreementPartMetricProcessorPerpetual ∨
        agreement.Metric = AgreementPartMetricComputerPerpetual) →
      agreement.Unlimited = false → 0 ≤ agreement.AvailableCount →
      (∀ h ∈ hosts, 0 ≤ h.LicenseCount) →
      assignToAssociatedHosts hostsMap licenseTypes associatedHosts agreement hosts =
        some (associatedHosts', agreement', hosts') →
      0 < agreement'.AvailableCount →
      ∀ associatedHost ∈ associatedHosts, ∀ aliasName ∈ licenseType.Aliases, ∀ host,
        usageRecord hosts' hostsMap aliasName associatedHost.Hostname = some host →
        host.LicenseCount = 0
  | [], _, _, _, _, _, _, _, _, _, _, _, _ => by simp
  | associatedHost :: rest, agreement, hosts, associatedHosts', agreement', hosts',
      hlt, hm, hu, h0, hnn, hrun, hpos => by
    obtain ⟨s1, s2, s3, s4, s5, s6⟩ := assignToAliases_spec hostsMap licenseType.Aliases
      agreement associatedHost hosts
    have hsat := assignToAliases_saturated hostsMap licenseType.Aliases agreement
      associatedHost hosts hm hu h0 hnn
    unfold assignToAssociatedHosts at hrun
    simp only [hlt] at hrun
    split_ifs at hrun with hbreak
    · simp only [Option.some.injEq, Prod.mk.injEq] at hrun
      obtain ⟨_, h2, _⟩ := hrun
      rw [← h2] at hpos
      exact absurd hbreak.1 (not_le.mpr hpos)
    · have hu1 : (assignToAliases hostsMap licenseType.Aliases agreement associatedHost
          hosts).1.Unlimited = false := by rw [s1]; exact hu
      have hm1 : (assignToAliases hostsMap licenseType.Aliases agreement associatedHost
          hosts).1.Metric = AgreementPartMetricProcessorPerpetual ∨
          (assignToAliases hostsMap licenseType.Aliases agreement associatedHost
          hosts).1.Metric = AgreementPartMetricComputerPerpetual := by rw [s1]; exact hm
      have hlt1 : licenseTypes (assignToAliases hostsMap licenseType.Aliases agreement
          associatedHost hosts).1.LicenseTypeID = some licenseType := by rw [s1]; exact hlt
      have hpos1 : 0 < (assignToAliases hostsMap licenseType.Aliases agreement
          associatedHost hosts).1.AvailableCount := by
        by_contra hn
        exact hbreak ⟨not_lt.mp hn, hu1⟩
      have hnn1 := forall₂_hostCovered_nonneg s3 hnn
      cases hrest : assignToAssociatedHosts hostsMap licenseTypes rest
          (assignToAliases hostsMap licenseType.Aliases agreement associatedHost hosts).1
          (assignToAliases hostsMap licenseType.Aliases agreement associatedHost hosts).2.2 with
      | none => rw [hrest] at hrun; cases hrun
      | some r =>
        obtain ⟨rest', a'', hosts''⟩ := r
        rw [hrest] at hrun
        simp only [Option.some.injEq, Prod.mk.injEq] at hrun
        obtain ⟨_, h2, h3⟩ := hrun
        subst h2 h3
        obtain ⟨_, _, _, e, _, _, r3, _, _⟩ := assignToAssociatedHosts_spec hostsMap
          licenseTypes rest _ _ ⟨licenseType, hlt1⟩
        rw [hrest] at e
        simp only [Option.some.injEq, Prod.mk.injEq] at e
        obtain ⟨_, _, e3⟩ := e
        subst e3
        intro ah hah aliasName halias host hrec
        rw [List.mem_cons] at hah
        rcases hah with rfl | hah
        · exact usageRecord_zero_lift r3 hostsMap aliasName ah.Hostname
            (hsat hpos1 aliasName halias) host hrec
        · exact assignToAssociatedHosts_saturated hostsMap licenseTypes licenseType rest _ _
            _ _ _ hlt1 hm1 hu1 (s5 h0).1 hnn1 hrest hpos ah hah aliasName halias host hrec

theorem forall₂_credited_hostname {l l' : List OracleDatabaseAgreementAssociatedHostFE}
    (h : List.Forall₂ associatedHostCredited l l') :
    ∀ a' ∈ l', ∃ a ∈ l, a'.Hostname = a.Hostname := by
  induction h with
  | nil => simp
  | cons hab _ ih =>
    intro a' ha'
    rw [List.mem_cons] at ha'
    rcases ha' with rfl | ha'
    · exact ⟨_, List.mem_cons_self _ _, by rw [hab.1]⟩
    · obtain ⟨a, ha, e⟩ := ih a' ha'
      exact ⟨a, List.mem_cons_of_mem _ ha, e⟩

/-- The turn of a limited processor agreement in the direct pass leaves it saturated. -/
theorem assignAgreementLicenses_saturated (srt : SortSlice)
    (hostsMap : HostsMap) (licenseTypes : LicenseTypesMap)
    (licenseType : OracleDatabaseLicenseType)
    (agreement agreement' : OracleDatabaseAgreementFE)
    (hosts hosts' : List HostUsingOracleDatabaseLicenses)
    (hlt : licenseTypes agreement.LicenseTypeID = some licenseType)
    (hm : agreement.Metric = AgreementPartMetricProcessorPerpetual ∨
      agreement.Metric = AgreementPartMetricComputerPerpetual)
    (hu : agreement.Unlimited = false) (h0 : 0 ≤ agreement.AvailableCount)
    (hnn : ∀ h ∈ hosts, 0 ≤ h.LicenseCount)
    (hrun : assignAgreementLicenses srt hostsMap licenseTypes agreement hosts =
      some (agreement', hosts')) :
    saturated hostsMap licenseType.Aliases agreement' hosts' := by
  unfold assignAgreementLicenses sortHostsInAgreementByLicenseCount at hrun
  simp only [hlt] at hrun
  generalize srt _ (fun a b =>
    decide (maxLicenseCount hosts hostsMap licenseType.Aliases a.Hostname >
      maxLicenseCount hosts hostsMap licenseType.Aliases b.Hostname)) agreement.Hosts = S
    at hrun
  cases hloop : assignToAssociatedHosts hostsMap licenseTypes S
      { agreement with Hosts := S } hosts with
  | none => rw [hloop] at hrun; cases hrun
  | some r =>
    obtain ⟨hs', a'', hosts''⟩ := r
    rw [hloop] at hrun
    simp only [Option.some.injEq, Prod.mk.injEq] at hrun
    obtain ⟨h1, h2⟩ := hrun
    subst h1 h2
    obtain ⟨_, _, _, e, _, r2, _, _, _⟩ := assignToAssociatedHosts_spec hostsMap
      licenseTypes S { agreement with Hosts := S } hosts ⟨licenseType, hlt⟩
    rw [hloop] at e
    simp only [Option.some.injEq, Prod.mk.injEq] at e
    obtain ⟨e1, _, _⟩ := e
    subst e1
    intro hpos ah hah aliasName halias host hrec
    simp only at hah hpos
    obtain ⟨ah0, hah0, hname⟩ := forall₂_credited_hostname r2 ah hah
    rw [hname] at hrec
    exact assignToAssociatedHosts_saturated hostsMap licenseTypes licenseType S
      { agreement with Hosts := S } hosts _ _ _
      hlt hm hu h0 hnn hloop hpos ah0 hah0 aliasName halias host hrec

/-- Saturation survives further coverage of the hosts. -/
theorem saturated_lift {l l' : List HostUsingOracleDatabaseLicenses}
    (h : List.Forall₂ hostCovered l l') (hostsMap : HostsMap) (aliases : List String)
    (a : OracleDatabaseAgreementFE) (hsat : saturated hostsMap aliases a l) :
    saturated hostsMap aliases a l' := by
  intro hpos ah hah aliasName halias
  exact usageRecord_zero_lift h hostsMap aliasName ah.Hostname
    (hsat hpos ah hah aliasName halias)

/-- After the direct pass every limited processor agreement that started with a
non-negative `AvailableCount` is saturated with respect to the hosts as the pass leaves
them. -/
theorem assignAgreementsLicenses_saturated (srt : SortSlice) (hs : SortSliceContract srt)
    (hostsMap : HostsMap) (licenseTypes : LicenseTypesMap) :
    ∀ (agrs agrs' : List OracleDatabaseAgreementFE)
      (hosts hosts' : List HostUsingOracleDatabaseLicenses),
      (∀ h ∈ hosts, 0 ≤ h.LicenseCount) →
      assignAgreementsLicensesToItsAssociatedHosts srt agrs hosts hostsMap licenseTypes =
        some (agrs', hosts') →
      List.Forall₂
        (fun a a' => ∀ licenseType, licenseTypes a.LicenseTypeID = some licenseType →
          (a.Metric = AgreementPartMetricProcessorPerpetual ∨
            a.Metric = AgreementPartMetricComputerPerpetual) →
          a.Unlimited = false → 0 ≤ a.AvailableCount →
          saturated hostsMap licenseType.Aliases a' hosts')
        agrs agrs'
  | [], agrs', hosts, hosts', _, h => by
    simp only [assignAgreementsLicensesToItsAssociatedHosts, Option.some.injEq,
      Prod.mk.injEq] at h
    obtain ⟨h1, _⟩ := h
    subst h1
    exact List.Forall₂.nil
  | agreement :: agrs, agrs', hosts, hosts', hnn, h => by
    unfold assignAgreementsLicensesToItsAssociatedHosts at h
    cases e1 : assignAgreementLicenses srt hostsMap licenseTypes agreement hosts with
    | none => simp [e1] at h
    | some r1 =>
      obtain ⟨a', hosts1⟩ := r1
      simp only [e1] at h
      cases e2 : assignAgreementsLicensesToItsAssociatedHosts srt agrs hosts1 hostsMap
          licenseTypes with
      | none => simp [e2] at h
      | some r2 =>
        obtain ⟨agrs2, hosts2⟩ := r2
        simp only [e2, Option.some.injEq, Prod.mk.injEq] at h
        obtain ⟨h1, h2⟩ := h
        subst h1 h2
        have s1 := assignAgreementLicenses_some srt hs hostsMap licenseTypes _ _ _ _ e1
        have s2 := assignAgreementsLicenses_some srt hs hostsMap licenseTypes _ _ _ _ e2
        have hnn1 := forall₂_hostCovered_nonneg s1.2 hnn
        refine List.Forall₂.cons ?_
          (assignAgreementsLicenses_saturated srt hs hostsMap licenseTypes agrs agrs2 hosts1
            hosts2 hnn1 e2)
        intro lt hlt hm hu h0
        exact saturated_lift s2.2 hostsMap lt.Aliases a'
          (assignAgreementLicenses_saturated srt hostsMap licenseTypes lt agreement a'
            hosts hosts1 hlt hm hu h0 hnn e1)

/-! ## Usage records under pairwise distinct keys -/

theorem hostKeys_of_covered {l l' : List HostUsingOracleDatabaseLicenses}
    (h : List.Forall₂ hostCovered l l') : hostKeys l' = hostKeys l := by
  unfold hostKeys
  induction h with
  | nil => rfl
  | cons hab _ ih =>
    simp only [List.map_cons, ih, List.cons.injEq, and_true]
    rw [hab.1]

theorem lastIndexOfKey_of_getElem_opt (k : String × String) :
    ∀ (keys : List (String × String)) (i : Nat), keys.Nodup → keys[i]? = some k →
      lastIndexOfKey k keys = some i
  | [], i, _, h => by simp at h
  | k' :: keys, i, hnd, h => by
    rw [List.nodup_cons] at hnd
    unfold lastIndexOfKey
    cases i with
    | zero =>
      simp only [List.getElem?_cons_zero, Option.some.injEq] at h
      subst h
      cases hl : lastIndexOfKey k' keys with
      | some j => exact absurd (List.getElem?_mem (lastIndexOfKey_spec k' keys j hl)) hnd.1
      | none => simp
    | succ i =>
      simp only [List.getElem?_cons_succ] at h
      rw [lastIndexOfKey_of_getElem_opt k keys i hnd.2 h]

/-- With pairwise distinct keys, the usage record the hosts map holds for a license name
and a host name is the host usage with that license name and name. -/
theorem usageRecord_iff (hosts₀ hosts : List HostUsingOracleDatabaseLicenses)
    (hkeys : hostKeys hosts = hostKeys hosts₀) (hnd : (hostKeys hosts₀).Nodup)
    (aliasName hostname : String) (r : HostUsingOracleDatabaseLicenses) :
    usageRecord hosts (buildHostUsingLicensesMap hosts₀) aliasName hostname = some r ↔
      r ∈ hosts ∧ r.LicenseName = aliasName ∧ r.Name = hostname := by
  rw [usageRecord_eq, buildHostUsingLicensesMap_eq_keys, keysLookup_buildKeysMap]
  change (lastIndexOfKey (aliasName, hostname) (hostKeys hosts₀)).bind _ = _ ↔ _
  rw [← hkeys]
  rw [← hkeys] at hnd
  constructor
  · intro h
    cases hl : lastIndexOfKey (aliasName, hostname) (hostKeys hosts) with
    | none => rw [hl] at h; cases h
    | some i =>
      rw [hl] at h
      simp only [Option.some_bind] at h
      have hk := lastIndexOfKey_spec _ _ _ hl
      unfold hostKeys at hk
      rw [List.getElem?_map, h] at hk
      simp only [Option.map_some', Option.some.injEq, Prod.mk.injEq] at hk
      exact ⟨List.getElem?_mem h, hk.1, hk.2⟩
  · rintro ⟨hmem, h1, h2⟩
    obtain ⟨i, hi⟩ := List.getElem?_of_mem hmem
    have hk : (hostKeys hosts)[i]? = some (aliasName, hostname) := by
      unfold hostKeys
      rw [List.getElem?_map, hi]
      simp [h1, h2]
    rw [lastIndexOfKey_of_getElem_opt _ _ _ hnd hk]
    exact hi

theorem sum_filter_eq_sum_ite {α : Type} (p : α → Prop) [DecidablePred p] (f : α → ℚ) :
    ∀ l : List α, ((l.filter fun x => decide (p x)).map f).sum =
      (l.map fun x => if p x then f x else 0).sum
  | [] => rfl
  | x :: l => by
    rw [List.filter_cons, List.map_cons, List.sum_cons, ← sum_filter_eq_sum_ite p f l]
    by_cases hp : p x
    · simp [hp]
    · simp [hp]

theorem sum_indicator_of_nodup (x : String) (c : ℚ) :
    ∀ (aliases : List String), aliases.Nodup →
      (aliases.map fun a => if x = a then c else 0).sum = if x ∈ aliases then c else 0
  | [], _ => by simp
  | a :: aliases, hnd => by
    rw [List.nodup_cons] at hnd
    rw [List.map_cons, List.sum_cons, sum_indicator_of_nodup x c aliases hnd.2]
    by_cases h : x = a
    · subst h
      simp [hnd.1]
    · simp [h]

theorem sum_map_sum_comm {α β : Type} (f : α → β → ℚ) :
    ∀ (l₁ : List α) (l₂ : List β),
      (l₁.map fun a => (l₂.map fun b => f a b).sum).sum =
        (l₂.map fun b => (l₁.map fun a => f a b).sum).sum
  | [], l₂ => by simp
  | a :: l₁, l₂ => by
    simp only [List.map_cons, List.sum_cons, sum_map_sum_comm f l₁ l₂, List.sum_map_add]

theorem buildLicenseTypesMap_snoc (licenseTypes : List OracleDatabaseLicenseType)
    (x : OracleDatabaseLicenseType) (id : String) :
    buildLicenseTypesMap (licenseTypes ++ [x]) id =
      if id = x.ID then some x else buildLicenseTypesMap licenseTypes id := by
  unfold buildLicenseTypesMap
  rw [List.foldl_append]
  rfl

/-- A license type found in the license types map is one of the catalog, with that id. -/
theorem buildLicenseTypesMap_mem (licenseTypes : List OracleDatabaseLicenseType)
    (id : String) (licenseType : OracleDatabaseLicenseType)
    (h : buildLicenseTypesMap licenseTypes id = some licenseType) :
    licenseType ∈ licenseTypes ∧ licenseType.ID = id := by
  induction licenseTypes using List.reverseRecOn with
  | nil => cases h
  | append_singleton l x ih =>
    rw [buildLicenseTypesMap_snoc] at h
    split_ifs at h with hid
    · cases h
      exact ⟨by simp, hid.symm⟩
    · obtain ⟨h1, h2⟩ := ih h
      exact ⟨List.mem_append_left _ h1, h2⟩

/-- Function `fillAgreementsInfo` writes only `ItemDescription`, `Metric`, `LicensesCount`
and `UsersCount`. -/
theorem fillAgreementsInfo_frame (licenseTypes : LicenseTypesMap) :
    ∀ (agrs : List OracleDatabaseAgreementFE),
      List.Forall₂
        (fun a a' => a' =
          { a with ItemDescription := a'.ItemDescription, Metric := a'.Metric,
                   LicensesCount := a'.LicensesCount, UsersCount := a'.UsersCount })
        agrs (fillAgreementsInfo agrs licenseTypes)
  | [] => List.Forall₂.nil
  | a :: agrs => by
    unfold fillAgreementsInfo
    rw [List.map_cons]
    refine List.Forall₂.cons ?_ (fillAgreementsInfo_frame licenseTypes agrs)
    cases licenseTypes a.LicenseTypeID with
    | none => rfl
    | some lt =>
      simp only
      split_ifs <;> rfl

theorem resolveLicenseType_frame (licenseTypes : List OracleDatabaseLicenseType)
    (host : HostUsingOracleDatabaseLicenses) :
    resolveLicenseType licenseTypes host =
      { host with LicenseTypeID := (resolveLicenseType licenseTypes host).LicenseTypeID } := by
  unfold resolveLicenseType
  split <;> rfl

theorem forall₂_mem_right {α β : Type} {R : α → β → Prop} {l₁ : List α} {l₂ : List β}
    (h : List.Forall₂ R l₁ l₂) : ∀ b ∈ l₂, ∃ a ∈ l₁, R a b := by
  induction h with
  | nil => simp
  | cons hab _ ih =>
    intro b hb
    rw [List.mem_cons] at hb
    rcases hb with rfl | hb
    · exact ⟨_, List.mem_cons_self _ _, hab⟩
    · obtain ⟨a, ha, hr⟩ := ih b hb
      exact ⟨a, List.mem_cons_of_mem _ ha, hr⟩

theorem forall₂_conj {α β : Type} {R S : α → β → Prop} {l₁ : List α} {l₂ : List β}
    (h : List.Forall₂ R l₁ l₂) (h' : List.Forall₂ S l₁ l₂) :
    List.Forall₂ (fun a b => R a b ∧ S a b) l₁ l₂ := by
  induction h with
  | nil => exact List.Forall₂.nil
  | cons hab _ ih =>
    cases h' with
    | cons hab' ht' => exact List.Forall₂.cons ⟨hab, hab'⟩ (ih ht')

theorem forall₂_comp {α β γ : Type} {R : α → β → Prop} {S : β → γ → Prop} :
    ∀ {l₁ : List α} {l₂ : List β} {l₃ : List γ}, List.Forall₂ R l₁ l₂ →
      List.Forall₂ S l₂ l₃ → List.Forall₂ (fun a c => ∃ b, R a b ∧ S b c) l₁ l₃
  | _, _, _, List.Forall₂.nil, List.Forall₂.nil => List.Forall₂.nil
  | _, _, _, List.Forall₂.cons hab h1, List.Forall₂.cons hbc h2 =>
    List.Forall₂.cons ⟨_, hab, hbc⟩ (forall₂_comp h1 h2)

/-- The allocation run as the composition of its steps. -/
theorem assignOracleDatabaseAgreementsToHosts_eq (srt : SortSlice)
    (licenseTypes : List OracleDatabaseLicenseType)
    (agrs : List OracleDatabaseAgreementFE) (hosts : List HostUsingOracleDatabaseLicenses) :
    assignOracleDatabaseAgreementsToHosts srt licenseTypes agrs hosts =
      (assignAgreementsLicensesToItsAssociatedHosts srt
        (fillAgreementsInfo (sortOracleDatabaseAgreements srt agrs)
          (buildLicenseTypesMap licenseTypes))
        (sortHostsUsingLicenses srt (hosts.map (resolveLicenseType licenseTypes)))
        (buildHostUsingLicensesMap
          (sortHostsUsingLicenses srt (hosts.map (resolveLicenseType licenseTypes))))
        (buildLicenseTypesMap licenseTypes)).bind fun r1 =>
      (assignLicensesFromCatchAllAgreements r1.1 (sortHostsUsingLicenses srt r1.2)
        (buildLicenseTypesMap licenseTypes)).bind fun r2 =>
      (calculateTotalCoveredLicensesAndAvailableCount r2.1 r2.2
        (buildHostUsingLicensesMap (sortHostsUsingLicenses srt r1.2))
        (buildLicenseTypesMap licenseTypes)).map fun a => (a, r2.2) := by
  unfold assignOracleDatabaseAgreementsToHosts
  simp only
  cases assignAgreementsLicensesToItsAssociatedHosts srt
      (fillAgreementsInfo (sortOracleDatabaseAgreements srt agrs)
        (buildLicenseTypesMap licenseTypes))
      (sortHostsUsingLicenses srt (hosts.map (resolveLicenseType licenseTypes)))
      (buildHostUsingLicensesMap
        (sortHostsUsingLicenses srt (hosts.map (resolveLicenseType licenseTypes))))
      (buildLicenseTypesMap licenseTypes) with
  | none => rfl
  | some r1 =>
    obtain ⟨a1, h1⟩ := r1
    simp only [Option.some_bind]
    cases assignLicensesFromCatchAllAgreements a1 (sortHostsUsingLicenses srt h1)
        (buildLicenseTypesMap licenseTypes) with
    | none => rfl
    | some r2 =>
      obtain ⟨a2, h2⟩ := r2
      simp only [Option.some_bind]
      cases calculateTotalCoveredLicensesAndAvailableCount a2 h2
        (buildHostUsingLicensesMap (sortHostsUsingLicenses srt h1))
        (buildLicenseTypesMap licenseTypes) <;> rfl

theorem hostKeys_perm {l l' : List HostUsingOracleDatabaseLicenses} (h : l.Perm l') :
    (hostKeys l).Perm (hostKeys l') := h.map _

theorem hostKeys_resolve (licenseTypes : List OracleDatabaseLicenseType)
    (hosts : List HostUsingOracleDatabaseLicenses) :
    hostKeys (hosts.map (resolveLicenseType licenseTypes)) = hostKeys hosts := by
  unfold hostKeys
  rw [List.map_map]
  apply List.map_congr_left
  intro h _
  simp only [Function.comp]
  rw [resolveLicenseType_frame]

/-- C16: for an agreement whose metric is none of per-processor, per-computer and
named-user-plus, a coverage step of either kind (both are total functions) applies no
coverage: the direct step returns the agreement, the host usage and the associated host it
was given, and the catch-all step returns the agreement and the host usage it was given, so
`AvailableCount`, `LicenseCount` and `CoveredLicensesCount` are unchanged, whatever the
`Unlimited` flag. -/
theorem unknown_metric_step_applies_no_coverage
    (agreement : OracleDatabaseAgreementFE) (host : HostUsingOracleDatabaseLicenses)
    (associatedHost : OracleDatabaseAgreementAssociatedHostFE)
    (hp : agreement.Metric ≠ AgreementPartMetricProcessorPerpetual)
    (hc : agreement.Metric ≠ AgreementPartMetricComputerPerpetual)
    (hn : agreement.Metric ≠ AgreementPartMetricNamedUserPlusPerpetual) :
    doAssignAgreementLicensesToAssociatedHost agreement host associatedHost =
      (agreement, host, associatedHost) ∧
    doAssignLicenseFromCatchAllAgreement agreement host = (agreement, host) := by
  constructor
  · unfold doAssignAgreementLicensesToAssociatedHost
    rw [if_neg (by rintro (h | h); exacts [hp h, hc h]), if_neg hn]
  · unfold doAssignLicenseFromCatchAllAgreement
    rw [if_neg (by rintro (h | h); exacts [hp h, hc h]), if_neg hn]

theorem unknown_metric_step_applies_no_coverage_witness :
    doAssignAgreementLicensesToAssociatedHost
        ⟨"A9", "L9", "", "Application User Perpetual", true, false, 5, 0, 0, 5,
          [⟨"alpha", 0, 0, 0⟩]⟩
        ⟨"L9", "alpha", "Oracle ENT", 2, 2⟩ ⟨"alpha", 0, 0, 0⟩ =
      (⟨"A9", "L9", "", "Application User Perpetual", true, false, 5, 0, 0, 5,
          [⟨"alpha", 0, 0, 0⟩]⟩,
        ⟨"L9", "alpha", "Oracle ENT", 2, 2⟩, ⟨"alpha", 0, 0, 0⟩) ∧
    doAssignLicenseFromCatchAllAgreement
        ⟨"A9", "L9", "", "Application User Perpetual", true, false, 5, 0, 0, 5,
          [⟨"alpha", 0, 0, 0⟩]⟩
        ⟨"L9", "alpha", "Oracle ENT", 2, 2⟩ =
      (⟨"A9", "L9", "", "Application User Perpetual", true, false, 5, 0, 0, 5,
          [⟨"alpha", 0, 0, 0⟩]⟩,
        ⟨"L9", "alpha", "Oracle ENT", 2, 2⟩) :=
  unknown_metric_step_applies_no_coverage _ _ _ (by decide) (by decide) (by decide)

/-! ## Alias resolution -/

/-- C11: the alias resolution step maps every host usage to a record that differs from it
at most in `LicenseTypeID`; when the catalog splits as `pre ++ licenseType :: post` with
the host's `LicenseName` among the aliases of `licenseType` and among the aliases of no
license type of `pre`, the new `LicenseTypeID` is `licenseType.ID`; when no license type of
the catalog has the name among its aliases, the record is unchanged. -/
theorem resolveLicenseType_first_match (licenseTypes : List OracleDatabaseLicenseType)
    (hosts : List HostUsingOracleDatabaseLicenses) :
    List.Forall₂
      (fun h h' =>
        h' = { h with LicenseTypeID := h'.LicenseTypeID } ∧
        (∀ pre licenseType post, licenseTypes = pre ++ licenseType :: post →
          h.LicenseName ∈ licenseType.Aliases →
          (∀ lt ∈ pre, h.LicenseName ∉ lt.Aliases) →
          h'.LicenseTypeID = licenseType.ID) ∧
        ((∀ lt ∈ licenseTypes, h.LicenseName ∉ lt.Aliases) → h' = h))
      hosts (hosts.map (resolveLicenseType licenseTypes)) := by
  rw [List.forall₂_map_right_iff]
  refine List.forall₂_same.mpr fun h _ => ⟨resolveLicenseType_frame licenseTypes h, ?_, ?_⟩
  · intro pre licenseType post hsplit hmem hpre
    unfold resolveLicenseType
    have hfind : licenseTypes.find? (fun licenseType =>
        licenseType.Aliases.any (fun aliasName => h.LicenseName = aliasName)) =
        some licenseType := by
      rw [hsplit, List.find?_append]
      have hnone : pre.find? (fun licenseType =>
          licenseType.Aliases.any (fun aliasName => h.LicenseName = aliasName)) = none := by
        rw [List.find?_eq_none]
        intro lt hlt
        simp only [List.any_eq_true, decide_eq_true_eq, not_exists, not_and]
        intro x hx hxe
        exact hpre lt hlt (hxe ▸ hx)
      rw [hnone]
      simp only [Option.none_or, List.find?_cons]
      have : (licenseType.Aliases.any fun aliasName => decide (h.LicenseName = aliasName)) =
          true := by
        simp only [List.any_eq_true, decide_eq_true_eq]
        exact ⟨_, hmem, rfl⟩
      rw [this]
    rw [hfind]
  · intro hno
    unfold resolveLicenseType
    have hnone : licenseTypes.find? (fun licenseType =>
        licenseType.Aliases.any (fun aliasName => h.LicenseName = aliasName)) = none := by
      rw [List.find?_eq_none]
      intro lt hlt
      simp only [List.any_eq_true, decide_eq_true_eq, not_exists, not_and]
      intro x hx hxe
      exact hno lt hlt (hxe ▸ hx)
    rw [hnone]

/-! ## The catch-all pass whenever it returns -/

theorem catchAllAliases_untouched :
    ∀ (aliases : List String) (agr : OracleDatabaseAgreementFE)
      (host : HostUsingOracleDatabaseLicenses), host.LicenseName ∉ aliases →
      catchAllAliases aliases agr host = (agr, host)
  | [], _, _, _ => rfl
  | aliasName :: aliases, agr, host, hne => by
    rw [List.mem_cons, not_or] at hne
    unfold catchAllAliases
    split_ifs with hcap hn
    · rfl
    · exact catchAllAliases_untouched aliases agr host hne.2
    · exact absurd hne.1 hn

theorem catchAllAgreements_some (licenseTypes : LicenseTypesMap) :
    ∀ (agrs agrs' : List OracleDatabaseAgreementFE)
      (host host' : HostUsingOracleDatabaseLicenses), 0 ≤ host.LicenseCount →
      catchAllAgreements licenseTypes agrs host = some (agrs', host') →
      List.Forall₂ agreementDrawn agrs agrs' ∧ hostCovered host host' ∧
      (noAliasInMap licenseTypes host.LicenseName → host' = host)
  | [], agrs', host, host', _, h => by
    simp only [catchAllAgreements, Option.some.injEq, Prod.mk.injEq] at h
    obtain ⟨rfl, rfl⟩ := h
    exact ⟨List.Forall₂.nil, hostCovered_refl _, fun _ => rfl⟩
  | agr :: agrs, agrs', host, host', hh, h => by
    unfold catchAllAgreements at h
    have skip : ∀ (r : Option (List OracleDatabaseAgreementFE ×
        HostUsingOracleDatabaseLicenses)),
        r = catchAllAgreements licenseTypes agrs host →
        (match r with
          | none => none
          | some (agrs', host') => some (agr :: agrs', host')) = some (agrs', host') →
        List.Forall₂ agreementDrawn (agr :: agrs) agrs' ∧ hostCovered host host' ∧
        (noAliasInMap licenseTypes host.LicenseName → host' = host) := by
      intro r hr h
      cases r with
      | none => cases h
      | some r =>
        obtain ⟨agrs1, host1⟩ := r
        simp only [Option.some.injEq, Prod.mk.injEq] at h
        obtain ⟨rfl, rfl⟩ := h
        obtain ⟨h1, h2, h3⟩ := catchAllAgreements_some licenseTypes agrs agrs1 host host1 hh
          hr.symm
        exact ⟨List.Forall₂.cons (agreementDrawn_refl _) h1, h2, h3⟩
    split_ifs at h with hca hcap
    · exact skip _ rfl h
    · exact skip _ rfl h
    · cases hlt : licenseTypes agr.LicenseTypeID with
      | none => rw [hlt] at h; cases h
      | some licenseType =>
        rw [hlt] at h
        simp only at h
        obtain ⟨s1, s2, s3⟩ := catchAllAliases_spec licenseType.Aliases agr host hh
        cases hr : catchAllAgreements licenseTypes agrs
            (catchAllAliases licenseType.Aliases agr host).2 with
        | none => rw [hr] at h; cases h
        | some r =>
          obtain ⟨agrs1, host1⟩ := r
          rw [hr] at h
          simp only [Option.some.injEq, Prod.mk.injEq] at h
          obtain ⟨rfl, rfl⟩ := h
          obtain ⟨h1, h2, h3⟩ := catchAllAgreements_some licenseTypes agrs agrs1 _ host1
            (s2.2.2 hh) hr
          refine ⟨List.Forall₂.cons ⟨s1, fun hf => absurd hf hca, s3⟩ h1,
            hostCovered_trans s2 h2, ?_⟩
          intro hno
          have hu := catchAllAliases_untouched licenseType.Aliases agr host
            (hno _ _ hlt)
          rw [hu] at h3
          exact h3 hno

/-- What the catch-all pass does whenever it returns: every agreement is related to its
result by `agreementDrawn` and every host by `hostCovered`, position by position, and a
host whose license name is an alias of no license type of the map is returned as it
was. -/
theorem assignLicensesFromCatchAllAgreements_some (licenseTypes : LicenseTypesMap) :
    ∀ (hosts hosts' : List HostUsingOracleDatabaseLicenses)
      (agrs agrs' : List OracleDatabaseAgreementFE),
      assignLicensesFromCatchAllAgreements agrs hosts licenseTypes = some (agrs', hosts') →
      List.Forall₂ agreementDrawn agrs agrs' ∧
      List.Forall₂ (fun h h' => hostCovered h h' ∧
        (noAliasInMap licenseTypes h.LicenseName → h' = h)) hosts hosts'
  | [], hosts', agrs, agrs', h => by
    have : assignLicensesFromCatchAllAgreements agrs [] licenseTypes = some (agrs, []) := by
      unfold assignLicensesFromCatchAllAgreements; rfl
    rw [this] at h
    simp only [Option.some.injEq, Prod.mk.injEq] at h
    obtain ⟨rfl, rfl⟩ := h
    exact ⟨forall₂_agreementDrawn_refl _, List.Forall₂.nil⟩
  | host :: hosts, hosts', agrs, agrs', h => by
    unfold assignLicensesFromCatchAllAgreements at h
    split_ifs at h with hpos
    · cases hr : assignLicensesFromCatchAllAgreements agrs hosts licenseTypes with
      | none => rw [hr] at h; cases h
      | some r =>
        obtain ⟨agrs1, hosts1⟩ := r
        rw [hr] at h
        simp only [Option.some.injEq, Prod.mk.injEq] at h
        obtain ⟨rfl, rfl⟩ := h
        obtain ⟨h1, h2⟩ := assignLicensesFromCatchAllAgreements_some licenseTypes hosts
          hosts1 agrs agrs1 hr
        exact ⟨h1, List.Forall₂.cons ⟨hostCovered_refl _, fun _ => rfl⟩ h2⟩
    · cases hc : catchAllAgreements licenseTypes agrs host with
      | none => rw [hc] at h; cases h
      | some c =>
        obtain ⟨agrsC, hostC⟩ := c
        rw [hc] at h
        simp only at h
        cases hr : assignLicensesFromCatchAllAgreements agrsC hosts licenseTypes with
        | none => rw [hr] at h; cases h
        | some r =>
          obtain ⟨agrs1, hosts1⟩ := r
          rw [hr] at h
          simp only [Option.some.injEq, Prod.mk.injEq] at h
          obtain ⟨rfl, rfl⟩ := h
          obtain ⟨c1, c2, c3⟩ := catchAllAgreements_some licenseTypes agrs agrsC host hostC
            (not_le.mp hpos).le hc
          obtain ⟨h1, h2⟩ := assignLicensesFromCatchAllAgreements_some licenseTypes hosts
            hosts1 agrsC agrs1 hr
          exact ⟨forall₂_trans_of agreementDrawn_trans c1 h1,
            List.Forall₂.cons ⟨c2, c3⟩ h2⟩

/-- C15: the catch-all pass returns when every agreement's license type is known, and
whenever it returns it has changed only `LicenseCount` of host usages and `AvailableCount`
of agreements: every agreement comes back in its position equal to the input one except
for `AvailableCount`, with the same associated hosts (so `CoveredLicensesCount`,
`TotalCoveredLicensesCount` and `ConsumedLicensesCount` of each are unchanged), an
agreement that is not catch-all comes back entirely unchanged, and every host usage comes
back in its position equal to the input one except for `LicenseCount`. -/
theorem catchAll_pass_frame (licenseTypes : LicenseTypesMap)
    (agrs : List OracleDatabaseAgreementFE) (hosts : List HostUsingOracleDatabaseLicenses) :
    (licenseTypesKnown licenseTypes agrs →
      ∃ agrs' hosts',
        assignLicensesFromCatchAllAgreements agrs hosts licenseTypes =
          some (agrs', hosts')) ∧
    ∀ agrs' hosts',
      assignLicensesFromCatchAllAgreements agrs hosts licenseTypes = some (agrs', hosts') →
      List.Forall₂
        (fun a a' =>
          a' = { a with AvailableCount := a'.AvailableCount } ∧
          a'.Hosts = a.Hosts ∧
          (a.CatchAll = false → a' = a))
        agrs agrs' ∧
      List.Forall₂ (fun h h' => h' = { h with LicenseCount := h'.LicenseCount })
        hosts hosts' := by
  constructor
  · intro hk
    obtain ⟨agrs', hosts', e, _⟩ :=
      assignLicensesFromCatchAllAgreements_spec licenseTypes hosts agrs hk
    exact ⟨agrs', hosts', e⟩
  · intro agrs' hosts' h
    obtain ⟨h1, h2⟩ := assignLicensesFromCatchAllAgreements_some licenseTypes hosts hosts'
      agrs agrs' h
    constructor
    · refine h1.imp ?_
      intro a a' hd
      refine ⟨hd.1, ?_, hd.2.1⟩
      rw [hd.1]
    · exact h2.imp fun h h' hc => hc.1.1

/-! ## AvailableCount never grows -/

theorem calculateAgreement_available (hosts : List HostUsingOracleDatabaseLicenses)
    (hostsMap : HostsMap) (licenseTypes : LicenseTypesMap)
    (licensesCoverStatusByName : String → coverStatus)
    (agreement agreement' : OracleDatabaseAgreementFE)
    (h : calculateAgreement hosts hostsMap licenseTypes licensesCoverStatusByName agreement =
      some agreement') :
    agreement'.AvailableCount ≤ agreement.AvailableCount := by
  unfold calculateAgreement at h
  cases hlt : licenseTypes agreement.LicenseTypeID with
  | none => rw [hlt] at h; cases h
  | some licenseType =>
    rw [hlt] at h
    simp only at h
    split_ifs at h <;>
      (simp only [Option.some.injEq] at h
       subst h
       simp only
       linarith)

/-- The run whenever it returns: the three passes returned, in turn. -/
theorem run_some_steps (srt : SortSlice) (licenseTypes : List OracleDatabaseLicenseType)
    (agrs agrs' : List OracleDatabaseAgreementFE)
    (hosts hosts' : List HostUsingOracleDatabaseLicenses)
    (h : assignOracleDatabaseAgreementsToHosts srt licenseTypes agrs hosts =
      some (agrs', hosts')) :
    ∃ agrsD hostsD agrsC,
      assignAgreementsLicensesToItsAssociatedHosts srt
        (fillAgreementsInfo (sortOracleDatabaseAgreements srt agrs)
          (buildLicenseTypesMap licenseTypes))
        (sortHostsUsingLicenses srt (hosts.map (resolveLicenseType licenseTypes)))
        (buildHostUsingLicensesMap
          (sortHostsUsingLicenses srt (hosts.map (resolveLicenseType licenseTypes))))
        (buildLicenseTypesMap licenseTypes) = some (agrsD, hostsD) ∧
      assignLicensesFromCatchAllAgreements agrsD (sortHostsUsingLicenses srt hostsD)
        (buildLicenseTypesMap licenseTypes) = some (agrsC, hosts') ∧
      calculateTotalCoveredLicensesAndAvailableCount agrsC hosts'
        (buildHostUsingLicensesMap (sortHostsUsingLicenses srt hostsD))
        (buildLicenseTypesMap licenseTypes) = some agrs' := by
  rw [assignOracleDatabaseAgreementsToHosts_eq] at h
  simp only [Option.bind_eq_some, Option.map_eq_some', Prod.exists, Prod.mk.injEq] at h
  obtain ⟨agrsD, hostsD, eD, agrsC, hostsC, eC, a, eF, rfl, rfl⟩ := h
  exact ⟨agrsD, hostsD, agrsC, eD, eC, eF⟩

/-- C13: `AvailableCount` of an agreement that starts at its entitlement
(`AvailableCount = Count ≥ 0`) never grows in a run.  A direct coverage step and a
catch-all coverage step, called as the passes call them (the agreement is unlimited or has
`AvailableCount > 0`, the host usage has `LicenseCount ≥ 0`) with `AvailableCount ≥ 0`,
leave `AvailableCount` non-negative and at most its value before; the finalizer leaves
`AvailableCount` of every agreement at most its value before; and whenever the run returns,
its three passes returned in turn, each leaving `AvailableCount` of every agreement that had
it non-negative at most its value before (the direct and the catch-all pass also leaving it
non-negative), so every agreement, taken in the priority order, ends with `AvailableCount`
at most its initial value. -/
theorem availableCount_never_grows (srt : SortSlice) (hs : SortSliceContract srt) :
    (∀ (agreement : OracleDatabaseAgreementFE) (host : HostUsingOracleDatabaseLicenses)
        (associatedHost : OracleDatabaseAgreementAssociatedHostFE),
      ¬ (agreement.AvailableCount ≤ 0 ∧ agreement.Unlimited = false) →
      0 ≤ host.LicenseCount →
      availableCountKept agreement
        (doAssignAgreementLicensesToAssociatedHost agreement host associatedHost).1) ∧
    (∀ (agreement : OracleDatabaseAgreementFE) (host : HostUsingOracleDatabaseLicenses),
      ¬ (agreement.AvailableCount ≤ 0 ∧ agreement.Unlimited = false) →
      0 ≤ host.LicenseCount →
      availableCountKept agreement (doAssignLicenseFromCatchAllAgreement agreement host).1) ∧
    (∀ (hosts : List HostUsingOracleDatabaseLicenses) (hostsMap : HostsMap)
        (licenseTypes : LicenseTypesMap) (licensesCoverStatusByName : String → coverStatus)
        (agreement agreement' : OracleDatabaseAgreementFE),
      calculateAgreement hosts hostsMap licenseTypes licensesCoverStatusByName agreement =
        some agreement' →
      agreement'.AvailableCount ≤ agreement.AvailableCount) ∧
    (∀ (licenseTypes : List OracleDatabaseLicenseType)
        (agrs agrs' : List OracleDatabaseAgreementFE)
        (hosts hosts' : List HostUsingOracleDatabaseLicenses),
      assignOracleDatabaseAgreementsToHosts srt licenseTypes agrs hosts =
        some (agrs', hosts') →
      ∃ agrsD hostsD agrsC,
        assignAgreementsLicensesToItsAssociatedHosts srt
          (fillAgreementsInfo (sortOracleDatabaseAgreements srt agrs)
            (buildLicenseTypesMap licenseTypes))
          (sortHostsUsingLicenses srt (hosts.map (resolveLicenseType licenseTypes)))
          (buildHostUsingLicensesMap
            (sortHostsUsingLicenses srt (hosts.map (resolveLicenseType licenseTypes))))
          (buildLicenseTypesMap licenseTypes) = some (agrsD, hostsD) ∧
        assignLicensesFromCatchAllAgreements agrsD (sortHostsUsingLicenses srt hostsD)
          (buildLicenseTypesMap licenseTypes) = some (agrsC, hosts') ∧
        calculateTotalCoveredLicensesAndAvailableCount agrsC hosts'
          (buildHostUsingLicensesMap (sortHostsUsingLicenses srt hostsD))
          (buildLicenseTypesMap licenseTypes) = some agrs' ∧
        List.Forall₂ availableCountKept (sortOracleDatabaseAgreements srt agrs) agrsD ∧
        List.Forall₂ availableCountKept agrsD agrsC ∧
        List.Forall₂ (fun a a' => a'.AvailableCount ≤ a.AvailableCount) agrsC agrs' ∧
        List.Forall₂
          (fun a a' => a.AvailableCount = a.Count → 0 ≤ a.Count →
            a'.AvailableCount ≤ a.AvailableCount)
          (sortOracleDatabaseAgreements srt agrs) agrs') := by
  refine ⟨?_, ?_, ?_, ?_⟩
  · intro agreement host associatedHost hc hh
    exact (doAssign_accounting agreement host associatedHost hh hc).2.1
  · intro agreement host hc hh h0
    exact catchAllStep_available agreement host hh hc h0
  · intro hosts hostsMap licenseTypes status agreement agreement' h
    exact calculateAgreement_available hosts hostsMap licenseTypes status agreement
      agreement' h
  · intro licenseTypes agrs agrs' hosts hosts' h
    obtain ⟨agrsD, hostsD, agrsC, eD, eC, eF⟩ := run_some_steps srt licenseTypes agrs agrs'
      hosts hosts' h
    have hfill := fillAgreementsInfo_frame (buildLicenseTypesMap licenseTypes)
      (sortOracleDatabaseAgreements srt agrs)
    have hD := (assignAgreementsLicenses_some srt hs _ _ _ _ _ _ eD).1
    have hC := (assignLicensesFromCatchAllAgreements_some _ _ _ _ _ eC).1
    have hF : List.Forall₂ (fun a a' => a'.AvailableCount ≤ a.AvailableCount) agrsC agrs' := by
      unfold calculateTotalCoveredLicensesAndAvailableCount at eF
      rw [mapM_option_eq_some] at eF
      exact eF.imp fun a a' e => calculateAgreement_available _ _ _ _ a a' e
    have h1 : List.Forall₂ availableCountKept (sortOracleDatabaseAgreements srt agrs)
        agrsD := by
      refine (forall₂_comp hfill hD).imp ?_
      rintro a aD ⟨b, hab, hbD⟩ h0
      have : b.AvailableCount = a.AvailableCount := by rw [hab]
      rw [← this]
      exact hbD.2.2.1 (this ▸ h0)
    have h2 : List.Forall₂ availableCountKept agrsD agrsC := hC.imp fun a a' hd => hd.2.2
    refine ⟨agrsD, hostsD, agrsC, eD, eC, eF, h1, h2, hF, ?_⟩
    refine (forall₂_comp (forall₂_comp h1 h2) hF).imp ?_
    rintro a a' ⟨c, ⟨d, had, hdc⟩, hca⟩ he h0
    have ha0 : 0 ≤ a.AvailableCount := he ▸ h0
    have h3 := had ha0
    have h4 := hdc h3.1
    linarith [h3.2, h4.2]

theorem availableCount_never_grows_witness :
    SortSliceContract insertionSortSlice ∧
    ∃ agrs' hosts',
      assignOracleDatabaseAgreementsToHosts insertionSortSlice scenarioLicenseTypes
        scenarioAgreements scenarioHosts = some (agrs', hosts') ∧
      List.Forall₂
        (fun a a' => a.AvailableCount = a.Count → 0 ≤ a.Count →
          a'.AvailableCount ≤ a.AvailableCount)
        (sortOracleDatabaseAgreements insertionSortSlice scenarioAgreements) agrs' := by
  refine ⟨insertionSortSlice_contract, ?_⟩
  have hrun : ∃ r, assignOracleDatabaseAgreementsToHosts insertionSortSlice
      scenarioLicenseTypes scenarioAgreements scenarioHosts = some r := by
    rw [← Option.isSome_iff_exists]
    decide!
  obtain ⟨⟨agrs', hosts'⟩, e⟩ := hrun
  obtain ⟨_, _, _, _, _, _, _, _, _, h⟩ :=
    (availableCount_never_grows insertionSortSlice insertionSortSlice_contract).2.2.2
      scenarioLicenseTypes scenarioAgreements agrs' scenarioHosts hosts' e
  exact ⟨agrs', hosts', e, h⟩

/-! ## Host usages the passes do not reach -/

theorem forall₂_set_of {α : Type} {R : α → α → Prop} (hr : ∀ x, R x x) :
    ∀ (l : List α) (p : Nat) (h h' : α), l[p]? = some h → R h h' →
      List.Forall₂ R l (l.set p h')
  | [], _, _, _, hp, _ => by simp at hp
  | x :: l, 0, h, h', hp, hc => by
    simp at hp
    subst hp
    exact List.Forall₂.cons hc (List.forall₂_same.mpr fun x _ => hr x)
  | x :: l, p + 1, h, h', hp, hc => by
    simp at hp
    exact List.Forall₂.cons (hr x) (forall₂_set_of hr l p h h' hp hc)

theorem forall₂_untouched_trans {α : Type} {P : α → Prop} {l₁ l₂ l₃ : List α}
    (h1 : List.Forall₂ (fun a b => P a → b = a) l₁ l₂)
    (h2 : List.Forall₂ (fun a b => P a → b = a) l₂ l₃) :
    List.Forall₂ (fun a b => P a → b = a) l₁ l₃ := by
  refine forall₂_trans_of ?_ h1 h2
  intro a b c hab hbc hp
  have hb := hab hp
  subst hb
  exact hbc hp

theorem pointersNamed_build (hosts : List HostUsingOracleDatabaseLicenses) :
    pointersNamed (buildHostUsingLicensesMap hosts) hosts := by
  intro aliasName hostname p h hk hp
  rw [buildHostUsingLicensesMap_eq_keys, keysLookup_buildKeysMap] at hk
  have := lastIndexOfKey_spec _ _ _ hk
  rw [List.getElem?_map, hp] at this
  simp only [Option.map_some', Option.some.injEq, Prod.mk.injEq] at this
  exact this.1

theorem pointersNamed_of_covered {hostsMap : HostsMap}
    {l l' : List HostUsingOracleDatabaseLicenses} (h : List.Forall₂ hostCovered l l')
    (hp : pointersNamed hostsMap l) : pointersNamed hostsMap l' := by
  intro aliasName hostname p x' hk hx'
  obtain ⟨x, hx⟩ := forall₂_getElem_opt_left h p x' hx'
  have hc := forall₂_getElem_opt h p x x' hx hx'
  have : x'.LicenseName = x.LicenseName := by rw [hc.1]
  rw [this]
  exact hp aliasName hostname p x hk hx

theorem assignToAliases_untouched (hostsMap : HostsMap) :
    ∀ (aliases : List String) (agreement : OracleDatabaseAgreementFE)
      (associatedHost : OracleDatabaseAgreementAssociatedHostFE)
      (hosts : List HostUsingOracleDatabaseLicenses),
      pointersNamed hostsMap hosts →
      List.Forall₂ (fun h h' => h.LicenseName ∉ aliases → h' = h) hosts
        (assignToAliases hostsMap aliases agreement associatedHost hosts).2.2
  | [], _, _, hosts, _ => List.forall₂_same.mpr fun _ _ _ => rfl
  | aliasName :: aliases, agreement, associatedHost, hosts, hp => by
    have same : ∀ (agreement' : OracleDatabaseAgreementFE)
        (associatedHost' : OracleDatabaseAgreementAssociatedHostFE),
        List.Forall₂ (fun h h' => h.LicenseName ∉ aliasName :: aliases → h' = h) hosts
          (assignToAliases hostsMap aliases agreement' associatedHost' hosts).2.2 := by
      intro agreement' associatedHost'
      refine (assignToAliases_untouched hostsMap aliases agreement' associatedHost' hosts
        hp).imp ?_
      intro h h' hh hn
      exact hh fun hm => hn (List.mem_cons_of_mem _ hm)
    unfold assignToAliases
    split_ifs with hcap
    · exact List.forall₂_same.mpr fun _ _ _ => rfl
    · split
      · exact same _ _
      · rename_i m hm1
        split
        · exact same _ _
        · rename_i p hp1
          split
          · exact same _ _
          · rename_i hostUsingLicenses hget
            split_ifs with hle
            · exact same _ _
            · have hpos : 0 ≤ hostUsingLicenses.LicenseCount := (not_le.mp hle).le
              have hhc := doAssign_hostCovered agreement hostUsingLicenses associatedHost
                hpos hcap
              have hcov := forall₂_hostCovered_set hosts p hostUsingLicenses _ hget hhc
              have hname : hostUsingLicenses.LicenseName = aliasName :=
                hp aliasName associatedHost.Hostname p hostUsingLicenses
                  (by simp only [keysLookup, hm1, hp1]) hget
              have hA : List.Forall₂
                  (fun h h' => h.LicenseName ∉ aliasName :: aliases → h' = h) hosts
                  (hosts.set p (doAssignAgreementLicensesToAssociatedHost agreement
                    hostUsingLicenses associatedHost).2.1) := by
                refine forall₂_set_of (fun _ _ => rfl) hosts p hostUsingLicenses _ hget ?_
                intro hn
                exact absurd (hname ▸ List.mem_cons_self _ _) hn
              have hB := (assignToAliases_untouched hostsMap aliases
                (doAssignAgreementLicensesToAssociatedHost agreement hostUsingLicenses
                  associatedHost).1
                (doAssignAgreementLicensesToAssociatedHost agreement hostUsingLicenses
                  associatedHost).2.2
                (hosts.set p (doAssignAgreementLicensesToAssociatedHost agreement
                  hostUsingLicenses associatedHost).2.1)
                (pointersNamed_of_covered hcov hp)).imp
                (fun (h h' : HostUsingOracleDatabaseLicenses)
                  (hh : h.LicenseName ∉ aliases → h' = h)
                  (hn : h.LicenseName ∉ aliasName :: aliases) =>
                  hh fun hm => hn (List.mem_cons_of_mem _ hm))
              exact forall₂_untouched_trans hA hB

theorem assignToAssociatedHosts_untouched (hostsMap : HostsMap)
    (licenseTypes : LicenseTypesMap) :
    ∀ (associatedHosts associatedHosts' : List OracleDatabaseAgreementAssociatedHostFE)
      (agreement agreement' : OracleDatabaseAgreementFE)
      (hosts hosts' : List HostUsingOracleDatabaseLicenses),
      assignToAssociatedHosts hostsMap licenseTypes associatedHosts agreement hosts =
        some (associatedHosts', agreement', hosts') →
      pointersNamed hostsMap hosts →
      List.Forall₂ (fun h h' => noAliasInMap licenseTypes h.LicenseName → h' = h) hosts hosts'
  | [], associatedHosts', agreement, agreement', hosts, hosts', h, _ => by
    simp only [assignToAssociatedHosts, Option.some.injEq, Prod.mk.injEq] at h
    obtain ⟨_, _, rfl⟩ := h
    exact List.forall₂_same.mpr fun _ _ _ => rfl
  | associatedHost :: rest, associatedHosts', agreement, agreement', hosts, hosts', h, hp => by
    unfold assignToAssociatedHosts at h
    cases hlt : licenseTypes agreement.LicenseTypeID with
    | none => rw [hlt] at h; cases h
    | some licenseType =>
      rw [hlt] at h
      simp only at h
      have h1 : List.Forall₂
          (fun h h' => noAliasInMap licenseTypes h.LicenseName → h' = h) hosts
          (assignToAliases hostsMap licenseType.Aliases agreement associatedHost
            hosts).2.2 :=
        (assignToAliases_untouched hostsMap licenseType.Aliases agreement associatedHost
          hosts hp).imp fun h h' hh hn => hh (hn _ _ hlt)
      obtain ⟨_, _, s3, _⟩ := assignToAliases_spec hostsMap licenseType.Aliases agreement
        associatedHost hosts
      split_ifs at h with hcap
      · simp only [Option.some.injEq, Prod.mk.injEq] at h
        obtain ⟨_, _, rfl⟩ := h
        exact h1
      · cases hr : assignToAssociatedHosts hostsMap licenseTypes rest
            (assignToAliases hostsMap licenseType.Aliases agreement associatedHost hosts).1
            (assignToAliases hostsMap licenseType.Aliases agreement associatedHost
              hosts).2.2 with
        | none => rw [hr] at h; cases h
        | some r =>
          obtain ⟨rest', agreement1, hosts1⟩ := r
          rw [hr] at h
          simp only [Option.some.injEq, Prod.mk.injEq] at h
          obtain ⟨_, _, rfl⟩ := h
          exact forall₂_untouched_trans h1
            (assignToAssociatedHosts_untouched hostsMap licenseTypes rest rest' _ agreement1
              _ hosts1 hr (pointersNamed_of_covered s3 hp))

theorem assignAgreementLicenses_untouched (srt : SortSlice) (hostsMap : HostsMap)
    (licenseTypes : LicenseTypesMap) (agreement agreement' : OracleDatabaseAgreementFE)
    (hosts hosts' : List HostUsingOracleDatabaseLicenses)
    (h : assignAgreementLicenses srt hostsMap licenseTypes agreement hosts =
      some (agreement', hosts'))
    (hp : pointersNamed hostsMap hosts) :
    List.Forall₂ (fun h h' => noAliasInMap licenseTypes h.LicenseName → h' = h)
      hosts hosts' := by
  unfold assignAgreementLicenses at h
  cases hs : sortHostsInAgreementByLicenseCount srt agreement hosts hostsMap licenseTypes with
  | none => rw [hs] at h; cases h
  | some agreement1 =>
    rw [hs] at h
    simp only at h
    cases hr : assignToAssociatedHosts hostsMap licenseTypes agreement1.Hosts agreement1
        hosts with
    | none => rw [hr] at h; cases h
    | some r =>
      obtain ⟨associatedHosts, agreement2, hosts2⟩ := r
      rw [hr] at h
      simp only [Option.some.injEq, Prod.mk.injEq] at h
      obtain ⟨_, rfl⟩ := h
      exact assignToAssociatedHosts_untouched hostsMap licenseTypes _ _ _ _ _ _ hr hp

/-- Whenever the direct pass returns, a host usage whose license name is an alias of no
license type of the map is returned as it was. -/
theorem assignAgreementsLicenses_untouched (srt : SortSlice) (hs : SortSliceContract srt)
    (hostsMap : HostsMap) (licenseTypes : LicenseTypesMap) :
    ∀ (agrs agrs' : List OracleDatabaseAgreementFE)
      (hosts hosts' : List HostUsingOracleDatabaseLicenses),
      assignAgreementsLicensesToItsAssociatedHosts srt agrs hosts hostsMap licenseTypes =
        some (agrs', hosts') →
      pointersNamed hostsMap hosts →
      List.Forall₂ (fun h h' => noAliasInMap licenseTypes h.LicenseName → h' = h)
        hosts hosts'
  | [], agrs', hosts, hosts', h, _ => by
    simp only [assignAgreementsLicensesToItsAssociatedHosts, Option.some.injEq,
      Prod.mk.injEq] at h
    obtain ⟨_, rfl⟩ := h
    exact List.forall₂_same.mpr fun _ _ _ => rfl
  | agreement :: agrs, agrs', hosts, hosts', h, hp => by
    unfold assignAgreementsLicensesToItsAssociatedHosts at h
    cases e1 : assignAgreementLicenses srt hostsMap licenseTypes agreement hosts with
    | none => simp [e1] at h
    | some r1 =>
      obtain ⟨a', hosts1⟩ := r1
      simp only [e1] at h
      cases e2 : assignAgreementsLicensesToItsAssociatedHosts srt agrs hosts1 hostsMap
          licenseTypes with
      | none => simp [e2] at h
      | some r2 =>
        obtain ⟨agrs2, hosts2⟩ := r2
        simp only [e2, Option.some.injEq, Prod.mk.injEq] at h
        obtain ⟨_, rfl⟩ := h
        have hc := (assignAgreementLicenses_some srt hs hostsMap licenseTypes agreement a'
          hosts hosts1 e1).2
        exact forall₂_untouched_trans
          (assignAgreementLicenses_untouched srt hostsMap licenseTypes agreement a' hosts
            hosts1 e1 hp)
          (assignAgreementsLicenses_untouched srt hs hostsMap licenseTypes agrs agrs2 hosts1
            hosts2 e2 (pointersNamed_of_covered hc hp))

/-- The run returns when every agreement's license type is in the catalog. -/
theorem run_some_of_known (srt : SortSlice) (hs : SortSliceContract srt)
    (licenseTypes : List OracleDatabaseLicenseType)
    (agrs : List OracleDatabaseAgreementFE) (hosts : List HostUsingOracleDatabaseLicenses)
    (hknown : licenseTypesKnown (buildLicenseTypesMap licenseTypes) agrs) :
    ∃ agrs' hosts',
      assignOracleDatabaseAgreementsToHosts srt licenseTypes agrs hosts =
        some (agrs', hosts') := by
  have hpermA : (sortOracleDatabaseAgreements srt agrs).Perm agrs := hs.perm _ _ _
  have hfill := fillAgreementsInfo_frame (buildLicenseTypesMap licenseTypes)
    (sortOracleDatabaseAgreements srt agrs)
  have hF : licenseTypesKnown (buildLicenseTypesMap licenseTypes)
      (fillAgreementsInfo (sortOracleDatabaseAgreements srt agrs)
        (buildLicenseTypesMap licenseTypes)) := by
    intro a ha
    obtain ⟨a0, ha0, hfr⟩ := forall₂_mem_right hfill a ha
    have e2 : a.LicenseTypeID = a0.LicenseTypeID := by rw [hfr]
    rw [e2]
    exact hknown a0 (hpermA.mem_iff.mp ha0)
  obtain ⟨agrsD, hostsD, eD, hDa, _⟩ := assignAgreementsLicenses_spec srt hs
    (buildHostUsingLicensesMap (sortHostsUsingLicenses srt
      (hosts.map (resolveLicenseType licenseTypes))))
    (buildLicenseTypesMap licenseTypes) _
    (sortHostsUsingLicenses srt (hosts.map (resolveLicenseType licenseTypes))) hF
  have hknownD := licenseTypesKnown_of_assigned (buildLicenseTypesMap licenseTypes) hDa hF
  obtain ⟨agrsC, hostsC, eC, hCa, _⟩ := assignLicensesFromCatchAllAgreements_spec
    (buildLicenseTypesMap licenseTypes) (sortHostsUsingLicenses srt hostsD) agrsD hknownD
  have hknownC := licenseTypesKnown_of_drawn (buildLicenseTypesMap licenseTypes) hCa hknownD
  obtain ⟨agrs', eF⟩ := calculateTotal_some_of_known agrsC hostsC
    (buildHostUsingLicensesMap (sortHostsUsingLicenses srt hostsD))
    (buildLicenseTypesMap licenseTypes) hknownC
  refine ⟨agrs', hostsC, ?_⟩
  rw [assignOracleDatabaseAgreementsToHosts_eq, eD]
  simp only [Option.some_bind]
  rw [eC]
  simp only [Option.some_bind]
  rw [eF]
  rfl

theorem filter_eq_of_untouched {α : Type} (U : α → Bool) :
    ∀ {l l' : List α}, List.Forall₂ (fun a b => U b = U a ∧ (U a = true → b = a)) l l' →
      l'.filter U = l.filter U
  | _, _, List.Forall₂.nil => rfl
  | _, _, List.Forall₂.cons (a := a) (b := b) hab ht => by
    rw [List.filter_cons, List.filter_cons, hab.1, filter_eq_of_untouched U ht]
    cases hu : U a with
    | false => rfl
    | true => simp only [if_true]; rw [hab.2 hu]

theorem unresolved_noAliasInMap (licenseTypes : List OracleDatabaseLicenseType)
    (h : HostUsingOracleDatabaseLicenses) (hu : unresolved licenseTypes h) :
    noAliasInMap (buildLicenseTypesMap licenseTypes) h.LicenseName := by
  intro id licenseType hlt
  exact hu licenseType (buildLicenseTypesMap_mem licenseTypes id licenseType hlt).1

theorem filter_unresolved_of_passes (licenseTypes : List OracleDatabaseLicenseType)
    {l l' : List HostUsingOracleDatabaseLicenses}
    (hc : List.Forall₂ hostCovered l l')
    (hu : List.Forall₂
      (fun h h' => noAliasInMap (buildLicenseTypesMap licenseTypes) h.LicenseName → h' = h)
      l l') :
    l'.filter (fun h => decide (unresolved licenseTypes h)) =
      l.filter (fun h => decide (unresolved licenseTypes h)) := by
  apply filter_eq_of_untouched
  refine (forall₂_conj hc hu).imp ?_
  rintro h h' ⟨hcov, hun⟩
  have hname : h'.LicenseName = h.LicenseName := by rw [hcov.1]
  constructor
  · simp only [unresolved, hname]
  · intro hd
    exact hun (unresolved_noAliasInMap licenseTypes h (of_decide_eq_true hd))

theorem filter_unresolved_resolve (licenseTypes : List OracleDatabaseLicenseType)
    (hosts : List HostUsingOracleDatabaseLicenses) :
    (hosts.map (resolveLicenseType licenseTypes)).filter
        (fun h => decide (unresolved licenseTypes h)) =
      hosts.filter (fun h => decide (unresolved licenseTypes h)) := by
  apply filter_eq_of_untouched
  rw [List.forall₂_map_right_iff]
  refine List.forall₂_same.mpr fun h _ => ?_
  have hname : (resolveLicenseType licenseTypes h).LicenseName = h.LicenseName := by
    rw [resolveLicenseType_frame]
  constructor
  · simp only [unresolved, hname]
  · intro hd
    have hu : unresolved licenseTypes h := of_decide_eq_true hd
    unfold resolveLicenseType
    have hnone : licenseTypes.find? (fun licenseType =>
        licenseType.Aliases.any (fun aliasName => h.LicenseName = aliasName)) = none := by
      rw [List.find?_eq_none]
      intro lt hlt
      simp only [List.any_eq_true, decide_eq_true_eq, not_exists, not_and]
      intro x hx hxe
      exact hu lt hlt (hxe ▸ hx)
    rw [hnone]

/-- C12: when every agreement's license type is in the catalog the run returns, and the
host usages whose `LicenseName` equals no alias of any license type of the catalog come out
of it exactly as they went in: the unresolved records of the result are, up to the order,
the unresolved records of the input, each with the `LicenseCount` (and every other field)
it had before the run. -/
theorem unresolved_hosts_untouched (srt : SortSlice) (hs : SortSliceContract srt)
    (licenseTypes : List OracleDatabaseLicenseType)
    (agrs : List OracleDatabaseAgreementFE) (hosts : List HostUsingOracleDatabaseLicenses)
    (hknown : licenseTypesKnown (buildLicenseTypesMap licenseTypes) agrs) :
    ∃ agrs' hosts',
      assignOracleDatabaseAgreementsToHosts srt licenseTypes agrs hosts =
        some (agrs', hosts') ∧
      (hosts'.filter fun h => decide (unresolved licenseTypes h)).Perm
        (hosts.filter fun h => decide (unresolved licenseTypes h)) := by
  obtain ⟨agrs', hosts', e⟩ := run_some_of_known srt hs licenseTypes agrs hosts hknown
  refine ⟨agrs', hosts', e, ?_⟩
  obtain ⟨agrsD, hostsD, agrsC, eD, eC, _⟩ := run_some_steps srt licenseTypes agrs agrs'
    hosts hosts' e
  have hD1 := (assignAgreementsLicenses_some srt hs _ _ _ _ _ _ eD).2
  have hD2 := assignAgreementsLicenses_untouched srt hs _ _ _ _ _ _ eD
    (pointersNamed_build _)
  have hC := (assignLicensesFromCatchAllAgreements_some _ _ _ _ _ eC).2
  have hC1 : List.Forall₂ hostCovered (sortHostsUsingLicenses srt hostsD) hosts' :=
    hC.imp fun _ _ h => h.1
  have hC2 : List.Forall₂
      (fun h h' => noAliasInMap (buildLicenseTypesMap licenseTypes) h.LicenseName → h' = h)
      (sortHostsUsingLicenses srt hostsD) hosts' := hC.imp fun _ _ h => h.2
  rw [filter_unresolved_of_passes licenseTypes hC1 hC2]
  refine ((hs.perm _ _ hostsD).filter _).trans ?_
  rw [filter_unresolved_of_passes licenseTypes hD1 hD2]
  refine ((hs.perm _ _ (hosts.map (resolveLicenseType licenseTypes))).filter _).trans ?_
  rw [filter_unresolved_resolve]

/-- C12 on the allocation scenario extended with a host usage of an unknown product. -/
theorem unresolved_hosts_untouched_witness :
    SortSliceContract insertionSortSlice ∧
    licenseTypesKnown (buildLicenseTypesMap scenarioLicenseTypes) scenarioAgreements ∧
    ∃ agrs' hosts',
      assignOracleDatabaseAgreementsToHosts insertionSortSlice scenarioLicenseTypes
        scenarioAgreements scenarioHostsWithUnresolved = some (agrs', hosts') ∧
      (hosts'.filter fun h => decide (unresolved scenarioLicenseTypes h)).Perm
        (scenarioHostsWithUnresolved.filter
          fun h => decide (unresolved scenarioLicenseTypes h)) :=
  ⟨insertionSortSlice_contract, by decide!,
    unresolved_hosts_untouched insertionSortSlice insertionSortSlice_contract
      scenarioLicenseTypes scenarioAgreements scenarioHostsWithUnresolved (by decide!)⟩

/-! ## Unlimited agreements in the direct pass -/

theorem forall₂_getElem_opt_right {α β : Type} {R : α → β → Prop}
    {l₁ : List α} {l₂ : List β} (h : List.Forall₂ R l₁ l₂)
    (i : Nat) (a : α) (ha : l₁[i]? = some a) : ∃ b, l₂[i]? = some b := by
  have hlen := h.length_eq
  rw [List.getElem?_eq_some_iff] at ha
  obtain ⟨hi, _⟩ := ha
  exact ⟨l₂[i], List.getElem?_eq_getElem (hlen ▸ hi)⟩

theorem usageRecord_covered {l l' : List HostUsingOracleDatabaseLicenses}
    (h : List.Forall₂ hostCovered l l') (hostsMap : HostsMap) (aliasName hostname : String)
    (r0 : HostUsingOracleDatabaseLicenses)
    (h0 : usageRecord l hostsMap aliasName hostname = some r0) :
    ∃ r, usageRecord l' hostsMap aliasName hostname = some r ∧ hostCovered r0 r := by
  rw [usageRecord_eq] at h0 ⊢
  cases hk : keysLookup hostsMap aliasName hostname with
  | none => rw [hk] at h0; cases h0
  | some p =>
    rw [hk] at h0
    simp only [Option.some_bind] at h0 ⊢
    obtain ⟨r, hr⟩ := forall₂_getElem_opt_right h p r0 h0
    exact ⟨r, hr, forall₂_getElem_opt h p r0 r h0 hr⟩

theorem zeroedIfNonneg_right {hostsMap : HostsMap} {aliasName hostname : String}
    {l l₁ l₂ : List HostUsingOracleDatabaseLicenses}
    (hz : zeroedIfNonneg hostsMap aliasName hostname l l₁)
    (hc : List.Forall₂ hostCovered l₁ l₂) :
    zeroedIfNonneg hostsMap aliasName hostname l l₂ := by
  intro r0 h0 hnn
  obtain ⟨r1, hr1, hz1⟩ := hz r0 h0 hnn
  obtain ⟨r2, hr2, hcov⟩ := usageRecord_covered hc hostsMap aliasName hostname r1 hr1
  refine ⟨r2, hr2, le_antisymm ?_ ?_⟩
  · rw [← hz1]; exact hcov.2.1
  · exact hcov.2.2 (by rw [hz1])

theorem zeroedIfNonneg_left {hostsMap : HostsMap} {aliasName hostname : String}
    {l l₁ l₂ : List HostUsingOracleDatabaseLicenses}
    (hc : List.Forall₂ hostCovered l l₁)
    (hz : zeroedIfNonneg hostsMap aliasName hostname l₁ l₂) :
    zeroedIfNonneg hostsMap aliasName hostname l l₂ := by
  intro r0 h0 hnn
  obtain ⟨r1, hr1, hcov⟩ := usageRecord_covered hc hostsMap aliasName hostname r0 h0
  exact hz r1 hr1 (hcov.2.2 hnn)

theorem doAssign_unlimited (agreement : OracleDatabaseAgreementFE)
    (host : HostUsingOracleDatabaseLicenses)
    (associatedHost : OracleDatabaseAgreementAssociatedHostFE)
    (hu : agreement.Unlimited = true) (hm : knownMetric agreement.Metric) :
    (doAssignAgreementLicensesToAssociatedHost agreement host
      associatedHost).1.AvailableCount = 0 ∧
    (doAssignAgreementLicensesToAssociatedHost agreement host
      associatedHost).2.1.LicenseCount = 0 := by
  unfold doAssignAgreementLicensesToAssociatedHost
  rcases hm with hm | hm | hm
  · rw [if_pos (Or.inl hm), if_pos hu]
    simp
  · rw [if_pos (Or.inr hm), if_pos hu]
    simp
  · rw [if_neg (by rw [hm]; rintro (h | h); exacts [namedUser_ne_processor h,
      namedUser_ne_computer h]), if_pos hm, if_pos hu]
    simp

theorem assignToAliases_unlimited (hostsMap : HostsMap) :
    ∀ (aliases : List String) (agreement : OracleDatabaseAgreementFE)
      (associatedHost : OracleDatabaseAgreementAssociatedHostFE)
      (hosts : List HostUsingOracleDatabaseLicenses),
      agreement.Unlimited = true → knownMetric agreement.Metric →
      ∀ aliasName ∈ aliases,
        zeroedIfNonneg hostsMap aliasName associatedHost.Hostname hosts
          (assignToAliases hostsMap aliases agreement associatedHost hosts).2.2
  | [], _, _, _, _, _ => by simp
  | aliasName :: aliases, agreement, associatedHost, hosts, hu, hm => by
    have ih := assignToAliases_unlimited hostsMap aliases
    have hspec := assignToAliases_spec hostsMap aliases
    unfold assignToAliases
    rw [if_neg (by rintro ⟨_, hf⟩; rw [hu] at hf; cases hf)]
    have key : ∀ (agreement' : OracleDatabaseAgreementFE)
        (associatedHost' : OracleDatabaseAgreementAssociatedHostFE)
        (hosts' : List HostUsingOracleDatabaseLicenses),
        agreement'.Unlimited = true → knownMetric agreement'.Metric →
        associatedHost'.Hostname = associatedHost.Hostname →
        List.Forall₂ hostCovered hosts hosts' →
        zeroedIfNonneg hostsMap aliasName associatedHost.Hostname hosts hosts' →
        ∀ a ∈ aliasName :: aliases,
          zeroedIfNonneg hostsMap a associatedHost.Hostname hosts
            (assignToAliases hostsMap aliases agreement' associatedHost' hosts').2.2 := by
      intro agreement' associatedHost' hosts' hu' hm' hname hcov hhead a ha
      obtain ⟨_, _, s3, _⟩ := hspec agreement' associatedHost' hosts'
      rw [List.mem_cons] at ha
      rcases ha with rfl | ha
      · exact zeroedIfNonneg_right hhead s3
      · have := ih agreement' associatedHost' hosts' hu' hm' a ha
        rw [hname] at this
        exact zeroedIfNonneg_left hcov this
    split
    · rename_i hnone
      refine key agreement associatedHost hosts hu hm rfl (forall₂_hostCovered_refl _) ?_
      intro r0 hrec
      simp [usageRecord, hnone] at hrec
    · rename_i m hm1
      split
      · rename_i hnone
        refine key agreement associatedHost hosts hu hm rfl (forall₂_hostCovered_refl _) ?_
        intro r0 hrec
        simp [usageRecord, hm1, hnone] at hrec
      · rename_i p hp
        split
        · rename_i hnone
          refine key agreement associatedHost hosts hu hm rfl (forall₂_hostCovered_refl _) ?_
          intro r0 hrec
          simp [usageRecord, hm1, hp, hnone] at hrec
        · rename_i hostUsingLicenses hget
          split_ifs with hle
          · refine key agreement associatedHost hosts hu hm rfl
              (forall₂_hostCovered_refl _) ?_
            intro r0 hrec hnn
            refine ⟨r0, hrec, ?_⟩
            simp only [usageRecord, hm1, hp, hget, Option.some.injEq] at hrec
            subst hrec
            exact le_antisymm hle hnn
          · have hpos' : 0 ≤ hostUsingLicenses.LicenseCount := (not_le.mp hle).le
            have hcap : ¬ (agreement.AvailableCount ≤ 0 ∧ agreement.Unlimited = false) := by
              rintro ⟨_, hf⟩; rw [hu] at hf; cases hf
            have hhc := doAssign_hostCovered agreement hostUsingLicenses associatedHost
              hpos' hcap
            have hfr := doAssign_agreement_frame agreement hostUsingLicenses associatedHost
            have hafr := doAssign_associatedHost_frame agreement hostUsingLicenses
              associatedHost
            have hplen : p < hosts.length := by
              rw [List.getElem?_eq_some_iff] at hget
              exact hget.1
            refine key _ _ _ ?_ ?_ ?_
              (forall₂_hostCovered_set hosts p hostUsingLicenses _ hget hhc) ?_
            · rw [hfr]; exact hu
            · rw [hfr]; exact hm
            · rw [hafr]
            · intro r0 hrec hnn
              refine ⟨_, ?_, (doAssign_unlimited agreement hostUsingLicenses associatedHost
                hu hm).2⟩
              simp only [usageRecord, hm1, hp, List.getElem?_set_self hplen]

theorem assignToAssociatedHosts_unlimited (hostsMap : HostsMap)
    (licenseTypes : LicenseTypesMap) (licenseType : OracleDatabaseLicenseType) :
    ∀ (associatedHosts associatedHosts' : List OracleDatabaseAgreementAssociatedHostFE)
      (agreement agreement' : OracleDatabaseAgreementFE)
      (hosts hosts' : List HostUsingOracleDatabaseLicenses),
      assignToAssociatedHosts hostsMap licenseTypes associatedHosts agreement hosts =
        some (associatedHosts', agreement', hosts') →
      licenseTypes agreement.LicenseTypeID = some licenseType →
      agreement.Unlimited = true → knownMetric agreement.Metric →
      ∀ associatedHost ∈ associatedHosts, ∀ aliasName ∈ licenseType.Aliases,
        zeroedIfNonneg hostsMap aliasName associatedHost.Hostname hosts hosts'
  | [], _, _, _, _, _, _, _, _, _ => by simp
  | associatedHost :: rest, associatedHosts', agreement, agreement', hosts, hosts', h, hlt,
      hu, hm => by
    unfold assignToAssociatedHosts at h
    rw [hlt] at h
    simp only at h
    obtain ⟨s1, _, s3, _⟩ := assignToAliases_spec hostsMap licenseType.Aliases agreement
      associatedHost hosts
    have hu1 : (assignToAliases hostsMap licenseType.Aliases agreement associatedHost
        hosts).1.Unlimited = true := by rw [s1]; exact hu
    have hm1 : knownMetric (assignToAliases hostsMap licenseType.Aliases agreement
        associatedHost hosts).1.Metric := by rw [s1]; exact hm
    have hlt1 : licenseTypes (assignToAliases hostsMap licenseType.Aliases agreement
        associatedHost hosts).1.LicenseTypeID = some licenseType := by rw [s1]; exact hlt
    rw [if_neg (by rintro ⟨_, hf⟩; rw [hu1] at hf; cases hf)] at h
    cases hr : assignToAssociatedHosts hostsMap licenseTypes rest
        (assignToAliases hostsMap licenseType.Aliases agreement associatedHost hosts).1
        (assignToAliases hostsMap licenseType.Aliases agreement associatedHost
          hosts).2.2 with
    | none => rw [hr] at h; cases h
    | some r =>
      obtain ⟨rest', agreement1, hosts1⟩ := r
      rw [hr] at h
      simp only [Option.some.injEq, Prod.mk.injEq] at h
      obtain ⟨_, _, rfl⟩ := h
      obtain ⟨_, _, _, e, _, _, hcov, _⟩ := assignToAssociatedHosts_spec hostsMap
        licenseTypes rest
        (assignToAliases hostsMap licenseType.Aliases agreement associatedHost hosts).1
        (assignToAliases hostsMap licenseType.Aliases agreement associatedHost hosts).2.2
        ⟨licenseType, hlt1⟩
      rw [hr] at e
      simp only [Option.some.injEq, Prod.mk.injEq] at e
      obtain ⟨_, _, rfl⟩ := e
      intro x hx aliasName ha
      rw [List.mem_cons] at hx
      rcases hx with rfl | hx
      · exact zeroedIfNonneg_right
          (assignToAliases_unlimited hostsMap licenseType.Aliases agreement x hosts hu hm
            aliasName ha) hcov
      · exact zeroedIfNonneg_left s3
          (assignToAssociatedHosts_unlimited hostsMap licenseTypes licenseType rest rest' _
            agreement1 _ hosts1 hr hlt1 hu1 hm1 x hx aliasName ha)

theorem assignAgreementLicenses_unlimited (srt : SortSlice) (hs : SortSliceContract srt)
    (hostsMap : HostsMap) (licenseTypes : LicenseTypesMap)
    (licenseType : OracleDatabaseLicenseType)
    (agreement agreement' : OracleDatabaseAgreementFE)
    (hosts hosts' : List HostUsingOracleDatabaseLicenses)
    (h : assignAgreementLicenses srt hostsMap licenseTypes agreement hosts =
      some (agreement', hosts'))
    (hlt : licenseTypes agreement.LicenseTypeID = some licenseType)
    (hu : agreement.Unlimited = true) (hm : knownMetric agreement.Metric) :
    ∀ associatedHost ∈ agreement.Hosts, ∀ aliasName ∈ licenseType.Aliases,
      zeroedIfNonneg hostsMap aliasName associatedHost.Hostname hosts hosts' := by
  unfold assignAgreementLicenses sortHostsInAgreementByLicenseCount at h
  rw [hlt] at h
  simp only at h
  split at h
  · cases h
  · rename_i associatedHosts agreement2 hosts2 hr
    simp only [Option.some.injEq, Prod.mk.injEq] at h
    obtain ⟨_, rfl⟩ := h
    intro x hx aliasName ha
    refine assignToAssociatedHosts_unlimited hostsMap licenseTypes licenseType _ _ _ _ _ _ hr
      hlt hu hm x ?_ aliasName ha
    exact (hs.perm _ _ _).mem_iff.mpr hx

/-- Whenever the direct pass returns: for every unlimited agreement with a known metric
and a known license type, the usage record the hosts map holds for an alias of the license
type and an associated host, if it started with `LicenseCount ≥ 0`, ends with
`LicenseCount = 0`. -/
theorem assignAgreementsLicenses_unlimited (srt : SortSlice) (hs : SortSliceContract srt)
    (hostsMap : HostsMap) (licenseTypes : LicenseTypesMap) :
    ∀ (agrs agrs' : List OracleDatabaseAgreementFE)
      (hosts hosts' : List HostUsingOracleDatabaseLicenses),
      assignAgreementsLicensesToItsAssociatedHosts srt agrs hosts hostsMap licenseTypes =
        some (agrs', hosts') →
      ∀ a ∈ agrs, a.Unlimited = true → knownMetric a.Metric →
      ∀ licenseType, licenseTypes a.LicenseTypeID = some licenseType →
      ∀ associatedHost ∈ a.Hosts, ∀ aliasName ∈ licenseType.Aliases,
        zeroedIfNonneg hostsMap aliasName associatedHost.Hostname hosts hosts'
  | [], _, _, _, _ => by simp
  | agreement :: agrs, agrs', hosts, hosts', h => by
    unfold assignAgreementsLicensesToItsAssociatedHosts at h
    cases e1 : assignAgreementLicenses srt hostsMap licenseTypes agreement hosts with
    | none => simp [e1] at h
    | some r1 =>
      obtain ⟨a', hosts1⟩ := r1
      simp only [e1] at h
      cases e2 : assignAgreementsLicensesToItsAssociatedHosts srt agrs hosts1 hostsMap
          licenseTypes with
      | none => simp [e2] at h
      | some r2 =>
        obtain ⟨agrs2, hosts2⟩ := r2
        simp only [e2, Option.some.injEq, Prod.mk.injEq] at h
        obtain ⟨_, rfl⟩ := h
        have hc1 := (assignAgreementLicenses_some srt hs hostsMap licenseTypes agreement a'
          hosts hosts1 e1).2
        have hc2 := (assignAgreementsLicenses_some srt hs hostsMap licenseTypes agrs agrs2
          hosts1 hosts2 e2).2
        intro a ha hu hm licenseType hlt x hx aliasName hal
        rw [List.mem_cons] at ha
        rcases ha with rfl | ha
        · exact zeroedIfNonneg_right
            (assignAgreementLicenses_unlimited srt hs hostsMap licenseTypes licenseType a a'
              hosts hosts1 e1 hlt hu hm x hx aliasName hal) hc2
        · exact zeroedIfNonneg_left hc1
            (assignAgreementsLicenses_unlimited srt hs hostsMap licenseTypes agrs agrs2
              hosts1 hosts2 e2 a ha hu hm licenseType hlt x hx aliasName hal)

theorem catchAllStep_unlimited (agreement : OracleDatabaseAgreementFE)
    (host : HostUsingOracleDatabaseLicenses)
    (hu : agreement.Unlimited = true) (hm : knownMetric agreement.Metric) :
    (doAssignLicenseFromCatchAllAgreement agreement host).1.AvailableCount = 0 ∧
    (doAssignLicenseFromCatchAllAgreement agreement host).2.LicenseCount = 0 := by
  have h := doAssign_unlimited agreement host ⟨"", 0, 0, 0⟩ hu hm
  have e := doAssign_eq_catchAll agreement host ⟨"", 0, 0, 0⟩
  rw [← e]
  exact h

/-- C14: for every unlimited agreement with a known metric (per-processor, per-computer or
named-user-plus) whose license type is in the map, after the direct pass the usage record
the hosts map holds for each of its associated hosts under any alias of its license type
has `LicenseCount = 0` if it started with `LicenseCount ≥ 0`, whatever `AvailableCount`
the agreement had; when the hosts map is the one built from the host usages and their
`(LicenseName, Name)` keys are pairwise distinct, this is every usage record with that host
name and license name.  The direct pass returns when every license type is known.  A
coverage step of either kind applied with an unlimited agreement with a known metric leaves
`AvailableCount = 0`. -/
theorem unlimited_agreement_covers_associated_hosts (srt : SortSlice)
    (hs : SortSliceContract srt) (hostsMap : HostsMap) (licenseTypes : LicenseTypesMap)
    (agrs : List OracleDatabaseAgreementFE) (hosts : List HostUsingOracleDatabaseLicenses) :
    (licenseTypesKnown licenseTypes agrs →
      ∃ agrs' hosts',
        assignAgreementsLicensesToItsAssociatedHosts srt agrs hosts hostsMap licenseTypes =
          some (agrs', hosts')) ∧
    (∀ agrs' hosts',
      assignAgreementsLicensesToItsAssociatedHosts srt agrs hosts hostsMap licenseTypes =
        some (agrs', hosts') →
      ∀ a ∈ agrs, a.Unlimited = true → knownMetric a.Metric →
      ∀ licenseType, licenseTypes a.LicenseTypeID = some licenseType →
      ∀ associatedHost ∈ a.Hosts, ∀ aliasName ∈ licenseType.Aliases,
        (∀ r0, usageRecord hosts hostsMap aliasName associatedHost.Hostname = some r0 →
          0 ≤ r0.LicenseCount →
          ∃ r, usageRecord hosts' hostsMap aliasName associatedHost.Hostname = some r ∧
            r.LicenseCount = 0) ∧
        (hostsMap = buildHostUsingLicensesMap hosts → (hostKeys hosts).Nodup →
          ∀ (i : Nat) (r0 r : HostUsingOracleDatabaseLicenses),
            hosts[i]? = some r0 → hosts'[i]? = some r →
            r0.Name = associatedHost.Hostname → r0.LicenseName = aliasName →
            0 ≤ r0.LicenseCount → r.LicenseCount = 0)) ∧
    (∀ (agreement : OracleDatabaseAgreementFE) (host : HostUsingOracleDatabaseLicenses)
        (associatedHost : OracleDatabaseAgreementAssociatedHostFE),
      agreement.Unlimited = true → knownMetric agreement.Metric →
      (doAssignAgreementLicensesToAssociatedHost agreement host
        associatedHost).1.AvailableCount = 0 ∧
      (doAssignLicenseFromCatchAllAgreement agreement host).1.AvailableCount = 0) := by
  refine ⟨?_, ?_, ?_⟩
  · intro hk
    obtain ⟨agrs', hosts', e, _⟩ := assignAgreementsLicenses_spec srt hs hostsMap
      licenseTypes agrs hosts hk
    exact ⟨agrs', hosts', e⟩
  · intro agrs' hosts' h a ha hu hm licenseType hlt x hx aliasName hal
    have hz := assignAgreementsLicenses_unlimited srt hs hostsMap licenseTypes agrs agrs'
      hosts hosts' h a ha hu hm licenseType hlt x hx aliasName hal
    refine ⟨hz, ?_⟩
    intro hmap hnd i r0 r hi0 hi hname hln hnn
    subst hmap
    have hcov := (assignAgreementsLicenses_some srt hs _ licenseTypes agrs agrs' hosts
      hosts' h).2
    have hc := forall₂_getElem_opt hcov i r0 r hi0 hi
    have hrec0 : usageRecord hosts (buildHostUsingLicensesMap hosts) aliasName x.Hostname =
        some r0 :=
      (usageRecord_iff hosts hosts rfl hnd aliasName x.Hostname r0).mpr
        ⟨List.getElem?_mem hi0, hln, hname⟩
    obtain ⟨r', hr', hz'⟩ := hz r0 hrec0 hnn
    have hrec : usageRecord hosts' (buildHostUsingLicensesMap hosts) aliasName x.Hostname =
        some r :=
      (usageRecord_iff hosts hosts' (hostKeys_of_covered hcov) hnd aliasName x.Hostname
        r).mpr ⟨List.getElem?_mem hi, by rw [hc.1]; exact hln, by rw [hc.1]; exact hname⟩
    rw [hrec] at hr'
    cases hr'
    exact hz'
  · intro agreement host associatedHost hu hm
    exact ⟨(doAssign_unlimited agreement host associatedHost hu hm).1,
      (catchAllStep_unlimited agreement host hu hm).1⟩

/-- C14 on an unlimited agreement with `AvailableCount = 0` for `alpha`. -/
theorem unlimited_agreement_covers_associated_hosts_witness :
    SortSliceContract insertionSortSlice ∧
    ∃ agrs' hosts',
      assignAgreementsLicensesToItsAssociatedHosts insertionSortSlice
        [sampleUnlimitedAgreement] sampleHosts (buildHostUsingLicensesMap sampleHosts)
        (buildLicenseTypesMap [sampleLicenseType]) = some (agrs', hosts') ∧
      ∀ r0, usageRecord sampleHosts (buildHostUsingLicensesMap sampleHosts) "Oracle ENT"
          "alpha" = some r0 →
        0 ≤ r0.LicenseCount →
        ∃ r, usageRecord hosts' (buildHostUsingLicensesMap sampleHosts) "Oracle ENT"
          "alpha" = some r ∧ r.LicenseCount = 0 := by
  have h := unlimited_agreement_covers_associated_hosts insertionSortSlice
    insertionSortSlice_contract (buildHostUsingLicensesMap sampleHosts)
    (buildLicenseTypesMap [sampleLicenseType]) [sampleUnlimitedAgreement] sampleHosts
  obtain ⟨agrs', hosts', e⟩ := h.1 (by decide!)
  exact ⟨insertionSortSlice_contract, agrs', hosts', e,
    (h.2.1 agrs' hosts' e sampleUnlimitedAgreement (List.mem_singleton.mpr rfl) rfl
      (Or.inl rfl) sampleLicenseType (by decide!) ⟨"alpha", 0, 0, 0⟩
      (List.mem_singleton.mpr rfl) "Oracle ENT" (by decide)).1⟩

/-! ## Unknown license types -/

theorem forall₂_mem_left {α β : Type} {R : α → β → Prop} {l₁ : List α} {l₂ : List β}
    (h : List.Forall₂ R l₁ l₂) : ∀ a ∈ l₁, ∃ b ∈ l₂, R a b := by
  induction h with
  | nil => simp
  | cons hab _ ih =>
    intro a ha
    rw [List.mem_cons] at ha
    rcases ha with rfl | ha
    · exact ⟨_, List.mem_cons_self _ _, hab⟩
    · obtain ⟨b, hb, hr⟩ := ih a ha
      exact ⟨b, List.mem_cons_of_mem _ hb, hr⟩

/-- Whenever the run returns, every agreement's license type is in the catalog. -/
theorem run_known_of_some (srt : SortSlice) (hs : SortSliceContract srt)
    (licenseTypes : List OracleDatabaseLicenseType)
    (agrs agrs' : List OracleDatabaseAgreementFE)
    (hosts hosts' : List HostUsingOracleDatabaseLicenses)
    (h : assignOracleDatabaseAgreementsToHosts srt licenseTypes agrs hosts =
      some (agrs', hosts')) :
    licenseTypesKnown (buildLicenseTypesMap licenseTypes) agrs := by
  obtain ⟨agrsD, hostsD, agrsC, eD, eC, eF⟩ := run_some_steps srt licenseTypes agrs agrs'
    hosts hosts' h
  have hfill := fillAgreementsInfo_frame (buildLicenseTypesMap licenseTypes)
    (sortOracleDatabaseAgreements srt agrs)
  have hD := (assignAgreementsLicenses_some srt hs _ _ _ _ _ _ eD).1
  have hC := (assignLicensesFromCatchAllAgreements_some _ _ _ _ _ eC).1
  have hF := calculateTotal_forall₂ _ _ _ _ _ eF
  intro a ha
  have ha' : a ∈ sortOracleDatabaseAgreements srt agrs := (hs.perm _ _ _).mem_iff.mpr ha
  obtain ⟨a', _, ⟨aC, ⟨aD, ⟨aF, hfr, hass⟩, hdr⟩, lt, hlt, _⟩⟩ :=
    forall₂_mem_left (forall₂_comp (forall₂_comp (forall₂_comp hfill hD) hC) hF) a ha'
  have e1 : aF.LicenseTypeID = a.LicenseTypeID := by rw [hfr]
  have e2 : aD.LicenseTypeID = aF.LicenseTypeID := by rw [hass.1]
  have e3 : aC.LicenseTypeID = aD.LicenseTypeID := by rw [hdr.1]
  exact ⟨lt, by rw [← e1, ← e2, ← e3]; exact hlt⟩

/-- C18 (refuted on the code): the run returns exactly when every agreement's license type
id is in the catalog; for an agreement with an unknown license type id the range expression
`licenseTypes[agreement.LicenseTypeID].Aliases` of the finalizer dereferences a nil
pointer, so the run panics instead of returning. -/
theorem run_returns_iff_license_types_known (srt : SortSlice) (hs : SortSliceContract srt)
    (licenseTypes : List OracleDatabaseLicenseType)
    (agrs : List OracleDatabaseAgreementFE) (hosts : List HostUsingOracleDatabaseLicenses) :
    (∃ agrs' hosts',
      assignOracleDatabaseAgreementsToHosts srt licenseTypes agrs hosts =
        some (agrs', hosts')) ↔
    licenseTypesKnown (buildLicenseTypesMap licenseTypes) agrs := by
  constructor
  · rintro ⟨agrs', hosts', h⟩
    exact run_known_of_some srt hs licenseTypes agrs agrs' hosts hosts' h
  · exact run_some_of_known srt hs licenseTypes agrs hosts

/-- C18 at the failing input: one agreement with license type `L9`, no host usages, the
catalog of the scenario; the run does not return. -/
theorem run_returns_iff_license_types_known_witness :
    SortSliceContract insertionSortSlice ∧
    assignOracleDatabaseAgreementsToHosts insertionSortSlice scenarioLicenseTypes
      [sampleAgreementUnknownLicenseType] [] = none := by
  refine ⟨insertionSortSlice_contract, ?_⟩
  have h := run_returns_iff_license_types_known insertionSortSlice
    insertionSortSlice_contract scenarioLicenseTypes [sampleAgreementUnknownLicenseType] []
  cases hr : assignOracleDatabaseAgreementsToHosts insertionSortSlice scenarioLicenseTypes
      [sampleAgreementUnknownLicenseType] [] with
  | none => rfl
  | some r =>
    have hn : ¬ licenseTypesKnown (buildLicenseTypesMap scenarioLicenseTypes)
        [sampleAgreementUnknownLicenseType] := by decide!
    exact absurd (h.mp ⟨r.1, r.2, hr⟩) hn

/-! ## The priority order of the agreements -/

theorem checkHostsLoop_eq_none (notInClusterHostnames : List String) :
    ∀ hosts : List String,
      checkHostsLoop notInClusterHostnames hosts = none ↔
        ∀ h ∈ hosts, h ∈ notInClusterHostnames
  | [] => by simp [checkHostsLoop]
  | host :: hosts => by
    unfold checkHostsLoop
    have hany : (notInClusterHostnames.any fun n => decide (host = n)) = true ↔
        host ∈ notInClusterHostnames := by
      simp only [List.any_eq_true, decide_eq_true_eq]
      constructor
      · rintro ⟨x, hx, rfl⟩
        exact hx
      · intro h
        exact ⟨host, h, rfl⟩
    split_ifs with hin
    · rw [checkHostsLoop_eq_none notInClusterHostnames hosts]
      simp only [List.mem_cons, forall_eq_or_imp]
      exact ⟨fun h => ⟨hany.mp hin, h⟩, fun h => h.2⟩
    · simp only [List.mem_cons, forall_eq_or_imp]
      constructor
      · intro h; cases h
      · intro h
        exact absurd (hany.mpr h.1) hin

theorem checkHostsLoop_eq_some (notInClusterHostnames : List String) :
    ∀ (hosts : List String) (err : AdvancedError),
      checkHostsLoop notInClusterHostnames hosts = some err →
        err = AdvancedError.AerrHostNotFound
  | [], err, h => by simp [checkHostsLoop] at h
  | host :: hosts, err, h => by
    unfold checkHostsLoop at h
    split_ifs at h with hin
    · exact checkHostsLoop_eq_some notInClusterHostnames hosts err h
    · cases h
      rfl

/-- C17: when the host search returns the inventory host names, `checkHosts` returns no
error exactly when every host name of the list is among them, and returns
`AerrHostNotFound` otherwise; the empty list is accepted.  For a request that names a host
absent from the inventory, `AddAssociatedLicenseTypeToOracleDbAgreement` and
`UpdateAssociatedLicenseTypeOfOracleDbAgreement` return `AerrHostNotFound` and leave the
store as it was, whatever the database operations do. -/
theorem checkHosts_rejects_absent_host {σ : Type} (as : APIService σ) (store : σ)
    (inventory : List String) (hsearch : as.SearchHosts store = Except.ok inventory) :
    (∀ hosts : List String,
      (checkHosts as store hosts = none ↔ ∀ h ∈ hosts, h ∈ inventory) ∧
      (¬ (∀ h ∈ hosts, h ∈ inventory) →
        checkHosts as store hosts = some AdvancedError.AerrHostNotFound)) ∧
    checkHosts as store [] = none ∧
    ∀ request : AssociatedLicenseTypeInOracleDbAgreementRequest,
      ¬ (∀ h ∈ request.Hosts, h ∈ inventory) →
      AddAssociatedLicenseTypeToOracleDbAgreement as store request =
        (store, Except.error AdvancedError.AerrHostNotFound) ∧
      UpdateAssociatedLicenseTypeOfOracleDbAgreement as store request =
        (store, some AdvancedError.AerrHostNotFound) := by
  have hcheck : ∀ hosts : List String,
      checkHosts as store hosts = checkHostsLoop inventory hosts := by
    intro hosts
    unfold checkHosts
    rw [hsearch]
  have hrej : ∀ hosts : List String, ¬ (∀ h ∈ hosts, h ∈ inventory) →
      checkHosts as store hosts = some AdvancedError.AerrHostNotFound := by
    intro hosts hn
    rw [hcheck]
    cases hc : checkHostsLoop inventory hosts with
    | none => exact absurd ((checkHostsLoop_eq_none inventory hosts).mp hc) hn
    | some err => rw [checkHostsLoop_eq_some inventory hosts err hc]
  refine ⟨fun hosts => ⟨?_, hrej hosts⟩, ?_, ?_⟩
  · rw [hcheck]
    exact checkHostsLoop_eq_none inventory hosts
  · rw [hcheck]
    rfl
  · intro request hn
    constructor
    · unfold AddAssociatedLicenseTypeToOracleDbAgreement
      rw [hrej request.Hosts hn]
    · unfold UpdateAssociatedLicenseTypeOfOracleDbAgreement
      rw [hrej request.Hosts hn]

/-- C17 on the in-memory store: a request naming `gamma`, which is not in the inventory,
is rejected by both functions and the store is left as it was. -/
theorem checkHosts_rejects_absent_host_witness :
    memoryService.SearchHosts sampleStore = Except.ok ["alpha", "beta"] ∧
    AddAssociatedLicenseTypeToOracleDbAgreement memoryService sampleStore
        sampleRequestAbsentHost =
      (sampleStore, Except.error AdvancedError.AerrHostNotFound) ∧
    UpdateAssociatedLicenseTypeOfOracleDbAgreement memoryService sampleStore
        sampleRequestAbsentHost =
      (sampleStore, some AdvancedError.AerrHostNotFound) :=
  ⟨rfl, (checkHosts_rejects_absent_host memoryService sampleStore ["alpha", "beta"] rfl).2.2
    sampleRequestAbsentHost (by decide)⟩

/-! ## Deleting an associated license type -/

theorem findIdx_append_first {α : Type} (p : α → Bool) :
    ∀ (pre : List α) (x : α) (rest : List α), (∀ y ∈ pre, p y = false) → p x = true →
      (pre ++ x :: rest).findIdx? p = some pre.length
  | [], x, rest, _, hx => by simp [List.findIdx?_cons, hx]
  | y :: pre, x, rest, hpre, hx => by
    have hy : p y = false := hpre y (List.mem_cons_self _ _)
    have ih := findIdx_append_first p pre x rest
      (fun z hz => hpre z (List.mem_cons_of_mem _ hz)) hx
    simp only [List.cons_append, List.findIdx?_cons, hy, List.length_cons]
    simp only [Bool.false_eq_true, if_false, List.findIdx?_succ, ih, Option.map_some']

/-- The loop of the deletion in closed form: with the associated license type `x` of the
given id at the first position where the id occurs, the list `pre ++ x :: rest` becomes
`pre` followed by the first element of `rest` only, and the loop panics when `rest` is
empty. -/
theorem deleteAssociatedLicenseTypeLoop_eq (pre : List AssociatedLicenseType)
    (x : AssociatedLicenseType) (rest : List AssociatedLicenseType) (id : String)
    (hx : x.ID = id) (hpre : ∀ y ∈ pre, y.ID ≠ id) :
    deleteAssociatedLicenseTypeLoop (pre ++ x :: rest) id =
      match rest with
      | [] => none
      | next :: _ => some (pre ++ [next]) := by
  unfold deleteAssociatedLicenseTypeLoop
  rw [findIdx_append_first (fun lt => decide (lt.ID = id)) pre x rest
    (fun y hy => by simpa using hpre y hy) (by simpa using hx)]
  simp only
  have hget : (pre ++ x :: rest)[pre.length + 1]? = rest[0]? := by
    rw [List.getElem?_append_right (by omega)]
    simp
  rw [hget]
  cases rest with
  | nil => rfl
  | cons next rest' =>
    simp only [List.getElem?_cons_zero]
    rw [List.take_left' rfl]

/-- C20 (refuted on the code): for a stored agreement with at least two associated license
types, `pre ++ x :: rest` with `x` the first one with the given id,
`DeleteAssociatedLicenseTypeFromOracleDatabaseAgreement` panics when `x` is the last one
(`rest` is empty), and otherwise updates the agreement with the license types `pre`
followed by the first element of `rest` only: every license type after that one is dropped
with `x`.  With at most one associated license type the whole agreement is removed. -/
theorem delete_keeps_one_following_license_type {σ : Type} (as : APIService σ) (store : σ)
    (id : String) (agreement : OracleDatabaseAgreement)
    (hget : as.Database.GetOracleDatabaseAgreementByAssociatedLicenseType store id =
      Except.ok agreement) :
    (agreement.LicenseTypes.length ≤ 1 →
      DeleteAssociatedLicenseTypeFromOracleDatabaseAgreement as store id =
        some (as.Database.RemoveOracleDatabaseAgreement store agreement.ID)) ∧
    ∀ (pre : List AssociatedLicenseType) (x : AssociatedLicenseType)
      (rest : List AssociatedLicenseType),
      agreement.LicenseTypes = pre ++ x :: rest → 2 ≤ agreement.LicenseTypes.length →
      x.ID = id → (∀ y ∈ pre, y.ID ≠ id) →
      DeleteAssociatedLicenseTypeFromOracleDatabaseAgreement as store id =
        match rest with
        | [] => none
        | next :: _ =>
          some (as.Database.UpdateOracleDatabaseAgreement store
            { agreement with LicenseTypes := pre ++ [next] }) := by
  constructor
  · intro hlen
    unfold DeleteAssociatedLicenseTypeFromOracleDatabaseAgreement
    rw [hget]
    simp only [if_pos hlen]
  · intro pre x rest hsplit hlen hx hpre
    unfold DeleteAssociatedLicenseTypeFromOracleDatabaseAgreement
    rw [hget]
    simp only [if_neg (by omega : ¬ agreement.LicenseTypes.length ≤ 1)]
    rw [hsplit, deleteAssociatedLicenseTypeLoop_eq pre x rest id hx hpre]
    cases rest <;> rfl

/-- C20 at the failing inputs, on the in-memory store whose agreement has the associated
license types `1`, `2`, `3`: deleting `1` persists the agreement with `2` only (`3` is
lost), and deleting `3` panics. -/
theorem delete_keeps_one_following_license_type_witness :
    memoryService.Database.GetOracleDatabaseAgreementByAssociatedLicenseType sampleStore
        "1" = Except.ok ⟨"aa", "AGR-1", "CSI-1", sampleAssociatedLicenseTypes⟩ ∧
    DeleteAssociatedLicenseTypeFromOracleDatabaseAgreement memoryService sampleStore "1" =
      some (⟨["alpha", "beta"], scenarioLicenseTypes,
        [⟨"aa", "AGR-1", "CSI-1", [⟨"2", "L2", "R2", false, 100, false, ["alpha"]⟩]⟩]⟩,
        none) ∧
    DeleteAssociatedLicenseTypeFromOracleDatabaseAgreement memoryService sampleStore "3" =
      none := by
  refine ⟨rfl, ?_, ?_⟩
  · exact ((delete_keeps_one_following_license_type memoryService sampleStore "1"
      ⟨"aa", "AGR-1", "CSI-1", sampleAssociatedLicenseTypes⟩ rfl).2 []
      ⟨"1", "L1", "R1", false, 10, false, ["alpha"]⟩
      [⟨"2", "L2", "R2", false, 100, false, ["alpha"]⟩, ⟨"3", "L1", "R3", false, 3, true, []⟩]
      rfl (by decide) rfl (by simp)).trans (by decide!)
  · decide!

/-! ## Named User Plus rounding -/

/-- A direct step of a limited agreement with named-user metric, in closed form. -/
theorem doAssign_namedUser_limited
    (agreement : OracleDatabaseAgreementFE) (host : HostUsingOracleDatabaseLicenses)
    (associatedHost : OracleDatabaseAgreementAssociatedHostFE)
    (hm : agreement.Metric = AgreementPartMetricNamedUserPlusPerpetual)
    (hu : agreement.Unlimited = false) :
    doAssignAgreementLicensesToAssociatedHost agreement host associatedHost =
      ({ agreement with AvailableCount := agreement.AvailableCount -
          ((⌊min agreement.AvailableCount (host.LicenseCount * 25) / 25⌋ : ℤ) : ℚ) * 25 },
       { host with LicenseCount := host.LicenseCount -
          ((⌊min agreement.AvailableCount (host.LicenseCount * 25) / 25⌋ : ℤ) : ℚ) },
       { associatedHost with CoveredLicensesCount := associatedHost.CoveredLicensesCount +
          ((⌊min agreement.AvailableCount (host.LicenseCount * 25) / 25⌋ : ℤ) : ℚ) * 25 }) := by
  unfold doAssignAgreementLicensesToAssociatedHost
  rw [if_neg (by rw [hm]; rintro (h | h); exacts [namedUser_ne_processor h,
    namedUser_ne_computer h]), if_pos hm, if_neg (by simp [hu])]

theorem floor_div25_small (a : ℚ) (h : ℕ) (ha : 0 < a) (hpos : 0 < h) (hlt : a < 25) :
    (⌊min a ((h : ℚ) * 25) / 25⌋ : ℤ) = 0 := by
  have h1 : (1 : ℚ) ≤ h := by exact_mod_cast hpos
  have hmin : min a ((h : ℚ) * 25) = a := min_eq_left (by linarith)
  rw [hmin, Int.floor_eq_zero_iff]
  constructor
  · positivity
  · rw [div_lt_one (by norm_num)]
    exact hlt

theorem floor_div25_rounding (a : ℚ) (h : ℕ) (ha : 0 < a) :
    ((h : ℚ) - ((⌊min a ((h : ℚ) * 25) / 25⌋ : ℤ) : ℚ) = 0 ∨
      a - ((⌊min a ((h : ℚ) * 25) / 25⌋ : ℤ) : ℚ) * 25 < 25) ∧
    ∃ k : ℕ, ((⌊min a ((h : ℚ) * 25) / 25⌋ : ℤ) : ℚ) = k := by
  constructor
  · rcases le_total ((h : ℚ) * 25) a with hle | hle
    · left
      rw [min_eq_right hle, mul_div_cancel_right₀ _ (by norm_num : (25 : ℚ) ≠ 0)]
      simp
    · right
      rw [min_eq_left hle]
      have := Int.lt_floor_add_one (a / 25)
      rw [div_lt_iff₀ (by norm_num : (0 : ℚ) < 25)] at this
      linarith
  · have h0 : (0 : ℚ) ≤ min a ((h : ℚ) * 25) / 25 := by
      apply div_nonneg _ (by norm_num)
      exact le_min ha.le (by positivity)
    have hnn : 0 ≤ (⌊min a ((h : ℚ) * 25) / 25⌋ : ℤ) := Int.floor_nonneg.mpr h0
    refine ⟨(⌊min a ((h : ℚ) * 25) / 25⌋ : ℤ).toNat, ?_⟩
    have := Int.toNat_of_nonneg hnn
    exact_mod_cast this.symm

/-- C29: for a limited Named User Plus agreement with `AvailableCount > 0` and a host usage
whose `LicenseCount` is a natural number `h > 0`, a coverage step of either kind covers
whole processor equivalents only: with `AvailableCount < 25` the step returns the agreement,
the host usage and the associated host as they were; in general, after the step the host's
`LicenseCount` is 0 or the agreement's `AvailableCount` is below 25, and `AvailableCount`
has decreased by 25 times a natural number. -/
theorem namedUser_step_covers_whole_processors
    (agreement : OracleDatabaseAgreementFE) (host : HostUsingOracleDatabaseLicenses)
    (associatedHost : OracleDatabaseAgreementAssociatedHostFE) (h : ℕ)
    (hm : agreement.Metric = AgreementPartMetricNamedUserPlusPerpetual)
    (hu : agreement.Unlimited = false) (hh : host.LicenseCount = (h : ℚ)) (hpos : 0 < h)
    (ha : 0 < agreement.AvailableCount) :
    (agreement.AvailableCount < 25 →
      doAssignAgreementLicensesToAssociatedHost agreement host associatedHost =
        (agreement, host, associatedHost) ∧
      doAssignLicenseFromCatchAllAgreement agreement host = (agreement, host)) ∧
    ((doAssignAgreementLicensesToAssociatedHost agreement host
        associatedHost).2.1.LicenseCount = 0 ∨
      (doAssignAgreementLicensesToAssociatedHost agreement host
        associatedHost).1.AvailableCount < 25) ∧
    (∃ k : ℕ, agreement.AvailableCount -
      (doAssignAgreementLicensesToAssociatedHost agreement host
        associatedHost).1.AvailableCount = 25 * (k : ℚ)) ∧
    ((doAssignLicenseFromCatchAllAgreement agreement host).2.LicenseCount = 0 ∨
      (doAssignLicenseFromCatchAllAgreement agreement host).1.AvailableCount < 25) ∧
    (∃ k : ℕ, agreement.AvailableCount -
      (doAssignLicenseFromCatchAllAgreement agreement host).1.AvailableCount =
        25 * (k : ℚ)) := by
  have hstep := doAssign_namedUser_limited agreement host associatedHost hm hu
  have hcatch := doAssign_eq_catchAll agreement host associatedHost
  rw [hstep] at hcatch
  simp only at hcatch
  rw [← hcatch, hstep]
  simp only [hh]
  obtain ⟨hr, k, hk⟩ := floor_div25_rounding agreement.AvailableCount h ha
  refine ⟨?_, hr, ⟨k, by rw [hk]; ring⟩, hr, ⟨k, by rw [hk]; ring⟩⟩
  intro hlt
  rw [floor_div25_small agreement.AvailableCount h ha hpos hlt]
  simp only [Int.cast_zero, zero_mul, sub_zero, add_zero]
  exact ⟨by rw [← hh], by rw [← hh]⟩

/-- C29 at `AvailableCount = 60` and `LicenseCount = 3`: two processor equivalents are
covered, 50 named users are drawn and 10 are left. -/
theorem namedUser_step_covers_whole_processors_witness :
    (doAssignAgreementLicensesToAssociatedHost
        ⟨"A2", "L2", "", AgreementPartMetricNamedUserPlusPerpetual, false, false, 100, 0, 100,
          60, [⟨"alpha", 0, 0, 0⟩]⟩
        ⟨"L2", "alpha", "Oracle STD", 3, 3⟩ ⟨"alpha", 0, 0, 0⟩).1.AvailableCount = 10 ∧
    ∃ k : ℕ, (60 : ℚ) -
      (doAssignAgreementLicensesToAssociatedHost
        ⟨"A2", "L2", "", AgreementPartMetricNamedUserPlusPerpetual, false, false, 100, 0, 100,
          60, [⟨"alpha", 0, 0, 0⟩]⟩
        ⟨"L2", "alpha", "Oracle STD", 3, 3⟩ ⟨"alpha", 0, 0, 0⟩).1.AvailableCount =
        25 * (k : ℚ) :=
  ⟨by decide!,
    (namedUser_step_covers_whole_processors
      ⟨"A2", "L2", "", AgreementPartMetricNamedUserPlusPerpetual, false, false, 100, 0, 100,
        60, [⟨"alpha", 0, 0, 0⟩]⟩
      ⟨"L2", "alpha", "Oracle STD", 3, 3⟩ ⟨"alpha", 0, 0, 0⟩ 3 rfl rfl (by norm_num)
      (by norm_num) (by norm_num)).2.2.1⟩

/-! ## The passes never overdraw -/

/-- C28: the two allocation passes never overdraw an agreement.  Whenever the direct pass
returns, every agreement that had `AvailableCount ≥ 0` still has it, whatever the metric,
the `Unlimited` flag and the host usages; the same holds for the catch-all pass; both
passes return when every license type is known.  The finalizer can make `AvailableCount`
negative: in the shortfall scenario it takes it from 0 to -4. -/
theorem passes_never_overdraw (srt : SortSlice) (hs : SortSliceContract srt)
    (hostsMap : HostsMap) (licenseTypes : LicenseTypesMap)
    (agrs : List OracleDatabaseAgreementFE) (hosts : List HostUsingOracleDatabaseLicenses) :
    (licenseTypesKnown licenseTypes agrs →
      (∃ agrs' hosts',
        assignAgreementsLicensesToItsAssociatedHosts srt agrs hosts hostsMap licenseTypes =
          some (agrs', hosts')) ∧
      ∃ agrs' hosts',
        assignLicensesFromCatchAllAgreements agrs hosts licenseTypes =
          some (agrs', hosts')) ∧
    (∀ agrs' hosts',
      assignAgreementsLicensesToItsAssociatedHosts srt agrs hosts hostsMap licenseTypes =
        some (agrs', hosts') →
      List.Forall₂ (fun a a' => 0 ≤ a.AvailableCount → 0 ≤ a'.AvailableCount) agrs agrs') ∧
    (∀ agrs' hosts',
      assignLicensesFromCatchAllAgreements agrs hosts licenseTypes = some (agrs', hosts') →
      List.Forall₂ (fun a a' => 0 ≤ a.AvailableCount → 0 ≤ a'.AvailableCount) agrs agrs') ∧
    calculateTotalCoveredLicensesAndAvailableCount shortfallAgreements shortfallHosts
      (buildHostUsingLicensesMap shortfallHosts) (buildLicenseTypesMap [sampleLicenseType]) =
      some shortfallAgreementsOnce := by
  refine ⟨?_, ?_, ?_, by decide!⟩
  · intro hk
    obtain ⟨a1, h1, e1, _⟩ := assignAgreementsLicenses_spec srt hs hostsMap licenseTypes
      agrs hosts hk
    obtain ⟨a2, h2, e2, _⟩ := assignLicensesFromCatchAllAgreements_spec licenseTypes hosts
      agrs hk
    exact ⟨⟨a1, h1, e1⟩, ⟨a2, h2, e2⟩⟩
  · intro agrs' hosts' h
    exact (assignAgreementsLicenses_some srt hs hostsMap licenseTypes agrs agrs' hosts
      hosts' h).1.imp fun a a' ha h0 => (ha.2.2.1 h0).1
  · intro agrs' hosts' h
    exact (assignLicensesFromCatchAllAgreements_some licenseTypes hosts hosts' agrs agrs'
      h).1.imp fun a a' ha h0 => (ha.2.2 h0).1

/-- C28 on the allocation scenario: after the direct pass every `AvailableCount` is
non-negative. -/
theorem passes_never_overdraw_witness :
    SortSliceContract insertionSortSlice ∧
    List.Forall₂ (fun a a' => 0 ≤ a.AvailableCount → 0 ≤ a'.AvailableCount)
      scenarioAgreements scenarioAgreementsAfterDirect :=
  ⟨insertionSortSlice_contract,
    (passes_never_overdraw insertionSortSlice insertionSortSlice_contract
      (buildHostUsingLicensesMap scenarioHosts) (buildLicenseTypesMap scenarioLicenseTypes)
      scenarioAgreements scenarioHosts).2.1 scenarioAgreementsAfterDirect
      scenarioHostsAfterDirect (by decide!)⟩

/-! ## The run keeps the records -/

theorem perm_forall₂_of_forall₂_perm {α β : Type} {r : α → β → Prop} {l : List α}
    {u v : List β} (h1 : List.Forall₂ r l u) (h2 : u.Perm v) :
    ∃ w, l.Perm w ∧ List.Forall₂ r w v := by
  have h : (Relation.Comp (List.Forall₂ r) List.Perm) l v := ⟨u, h1, h2⟩
  rw [List.forall₂_comp_perm_eq_perm_comp_forall₂] at h
  exact h

theorem forall₂_credited_hostnames {l l' : List OracleDatabaseAgreementAssociatedHostFE}
    (h : List.Forall₂ associatedHostCredited l l') :
    l'.map (fun x => x.Hostname) = l.map (fun x => x.Hostname) := by
  induction h with
  | @cons a b _ _ hab _ ih =>
    have hn : b.Hostname = a.Hostname := by rw [hab.1]
    rw [List.map_cons, List.map_cons, ih, hn]
  | nil => rfl

/-- C30: the run returns when every agreement's license type is in the catalog, and
whenever it returns it has neither added, dropped nor duplicated a record.  The resulting
host usages are, position by position, a permutation of the input host usages in which at
most `LicenseTypeID` and `LicenseCount` have changed (so `Name`, `LicenseName` and
`OriginalCount` are unchanged); the resulting agreements are, position by position, the
input agreements in the order of `sortOracleDatabaseAgreements`, a permutation of the input,
each with the same `AgreementID`, `LicenseTypeID`, `Count`, `Unlimited` and `CatchAll` and
with associated host names that are a permutation of the input ones. -/
theorem run_keeps_records (srt : SortSlice) (hs : SortSliceContract srt)
    (licenseTypes : List OracleDatabaseLicenseType)
    (agrs : List OracleDatabaseAgreementFE) (hosts : List HostUsingOracleDatabaseLicenses) :
    (licenseTypesKnown (buildLicenseTypesMap licenseTypes) agrs →
      ∃ agrs' hosts',
        assignOracleDatabaseAgreementsToHosts srt licenseTypes agrs hosts =
          some (agrs', hosts')) ∧
    ∀ agrs' hosts',
      assignOracleDatabaseAgreementsToHosts srt licenseTypes agrs hosts =
        some (agrs', hosts') →
      (∃ l : List HostUsingOracleDatabaseLicenses, l.Perm hosts ∧
        List.Forall₂
          (fun h h' => h' =
            { h with LicenseTypeID := h'.LicenseTypeID, LicenseCount := h'.LicenseCount })
          l hosts') ∧
      (sortOracleDatabaseAgreements srt agrs).Perm agrs ∧
      List.Forall₂
        (fun a a' =>
          a'.AgreementID = a.AgreementID ∧ a'.LicenseTypeID = a.LicenseTypeID ∧
          a'.Count = a.Count ∧ a'.Unlimited = a.Unlimited ∧ a'.CatchAll = a.CatchAll ∧
          (a'.Hosts.map fun x => x.Hostname).Perm (a.Hosts.map fun x => x.Hostname))
        (sortOracleDatabaseAgreements srt agrs) agrs' := by
  refine ⟨run_some_of_known srt hs licenseTypes agrs hosts, ?_⟩
  intro agrs' hosts' h
  obtain ⟨agrsD, hostsD, agrsC, eD, eC, eF⟩ := run_some_steps srt licenseTypes agrs agrs'
    hosts hosts' h
  have hfill := fillAgreementsInfo_frame (buildLicenseTypesMap licenseTypes)
    (sortOracleDatabaseAgreements srt agrs)
  obtain ⟨hDa, hDh⟩ := assignAgreementsLicenses_some srt hs _ _ _ _ _ _ eD
  obtain ⟨hCa, hCh⟩ := assignLicensesFromCatchAllAgreements_some _ _ _ _ _ eC
  have hF := calculateTotal_forall₂ _ _ _ _ _ eF
  refine ⟨?_, hs.perm _ _ _, ?_⟩
  · -- the host usages
    have hR0 : List.Forall₂
        (fun h h' : HostUsingOracleDatabaseLicenses => h' =
          { h with LicenseTypeID := h'.LicenseTypeID, LicenseCount := h'.LicenseCount })
        hosts (hosts.map (resolveLicenseType licenseTypes)) := by
      rw [List.forall₂_map_right_iff]
      refine List.forall₂_same.mpr fun x _ => ?_
      have := resolveLicenseType_frame licenseTypes x
      rw [this]
    have hRD : List.Forall₂
        (fun h h' : HostUsingOracleDatabaseLicenses => h' =
          { h with LicenseTypeID := h'.LicenseTypeID, LicenseCount := h'.LicenseCount })
        (sortHostsUsingLicenses srt (hosts.map (resolveLicenseType licenseTypes)))
        hostsD := hDh.imp fun x x' hc => by rw [hc.1]
    have hRC : List.Forall₂
        (fun h h' : HostUsingOracleDatabaseLicenses => h' =
          { h with LicenseTypeID := h'.LicenseTypeID, LicenseCount := h'.LicenseCount })
        (sortHostsUsingLicenses srt hostsD) hosts' := hCh.imp fun x x' hc => by rw [hc.1.1]
    have htrans : ∀ a b c : HostUsingOracleDatabaseLicenses,
        b = { a with LicenseTypeID := b.LicenseTypeID, LicenseCount := b.LicenseCount } →
        c = { b with LicenseTypeID := c.LicenseTypeID, LicenseCount := c.LicenseCount } →
        c = { a with LicenseTypeID := c.LicenseTypeID, LicenseCount := c.LicenseCount } := by
      intro a b c hab hbc
      rw [hbc, hab]
    obtain ⟨w1, hw1, hf1⟩ := perm_forall₂_of_forall₂_perm hR0
      (hs.perm _ hostLess (hosts.map (resolveLicenseType licenseTypes))).symm
    have hf2 := forall₂_trans_of htrans hf1 hRD
    obtain ⟨w2, hw2, hf3⟩ := perm_forall₂_of_forall₂_perm hf2
      (hs.perm _ hostLess hostsD).symm
    exact ⟨w2, (hw1.trans hw2).symm, forall₂_trans_of htrans hf3 hRC⟩
  · -- the agreements
    refine (forall₂_comp (forall₂_comp (forall₂_comp hfill hDa) hCa) hF).imp ?_
    rintro a a' ⟨aC, ⟨aD, ⟨aF, hfr, hass⟩, hdr⟩, lt, _, hfin⟩
    obtain ⟨sortedHosts, hperm, hcred⟩ := hass.2.1
    have hnames : (a'.Hosts.map fun x => x.Hostname) = aC.Hosts.map fun x => x.Hostname := by
      rw [hfin]
      simp only [List.map_map, Function.comp_def, applyCover_hostname]
    have hCD : aC.Hosts = aD.Hosts := by rw [hdr.1]
    have hFa : aF.Hosts = a.Hosts := by rw [hfr]
    refine ⟨?_, ?_, ?_, ?_, ?_, ?_⟩
    · rw [hfin, hdr.1, hass.1, hfr]
    · rw [hfin, hdr.1, hass.1, hfr]
    · rw [hfin, hdr.1, hass.1, hfr]
    · rw [hfin, hdr.1, hass.1, hfr]
    · rw [hfin, hdr.1, hass.1, hfr]
    · rw [hnames, hCD, forall₂_credited_hostnames hcred, ← hFa]
      exact hperm.map _

/-- C30 on the allocation scenario with insertion sort. -/
theorem run_keeps_records_witness :
    SortSliceContract insertionSortSlice ∧
    ∃ agrs' hosts',
      assignOracleDatabaseAgreementsToHosts insertionSortSlice scenarioLicenseTypes
        scenarioAgreements scenarioHosts = some (agrs', hosts') ∧
      ∃ l : List HostUsingOracleDatabaseLicenses, l.Perm scenarioHosts ∧
        List.Forall₂
          (fun h h' => h' =
            { h with LicenseTypeID := h'.LicenseTypeID, LicenseCount := h'.LicenseCount })
          l hosts' := by
  have h := run_keeps_records insertionSortSlice insertionSortSlice_contract
    scenarioLicenseTypes scenarioAgreements scenarioHosts
  obtain ⟨agrs', hosts', e⟩ := h.1 (by decide!)
  exact ⟨insertionSortSlice_contract, agrs', hosts', e, (h.2 agrs' hosts' e).1⟩

/-! ## The cover fields the finalizer writes -/

theorem lastCover_of_values (hosts : List HostUsingOracleDatabaseLicenses)
    (hostsMap : HostsMap) (metric hostname : String) (v : ℚ × ℚ) :
    ∀ (aliases : List String) (init : Option (ℚ × ℚ)),
      (∀ aliasName ∈ aliases,
        coverValues hosts hostsMap metric aliasName hostname = some v ∨
        coverValues hosts hostsMap metric aliasName hostname = none) →
      ((∃ aliasName ∈ aliases,
          coverValues hosts hostsMap metric aliasName hostname = some v) →
        lastCover hosts hostsMap metric hostname aliases init = some v) ∧
      ((∀ aliasName ∈ aliases,
          coverValues hosts hostsMap metric aliasName hostname = none) →
        lastCover hosts hostsMap metric hostname aliases init = init)
  | [], init, _ => by
    constructor
    · rintro ⟨a, ha, _⟩
      cases ha
    · intro _
      rfl
  | aliasName :: aliases, init, hall => by
    have hall' : ∀ a ∈ aliases,
        coverValues hosts hostsMap metric a hostname = some v ∨
        coverValues hosts hostsMap metric a hostname = none :=
      fun a ha => hall a (List.mem_cons_of_mem _ ha)
    unfold lastCover
    rcases hall aliasName (List.mem_cons_self _ _) with hv | hn
    · rw [hv]
      simp only
      obtain ⟨ih1, ih2⟩ := lastCover_of_values hosts hostsMap metric hostname v aliases
        (some v) hall'
      constructor
      · intro _
        by_cases hex : ∃ a ∈ aliases, coverValues hosts hostsMap metric a hostname = some v
        · exact ih1 hex
        · apply ih2
          intro a ha
          rcases hall' a ha with h | h
          · exact absurd ⟨a, ha, h⟩ hex
          · exact h
      · intro hnone
        have := hnone aliasName (List.mem_cons_self _ _)
        rw [hv] at this
        cases this
    · rw [hn]
      simp only
      obtain ⟨ih1, ih2⟩ := lastCover_of_values hosts hostsMap metric hostname v aliases
        init hall'
      constructor
      · rintro ⟨a, ha, hav⟩
        rw [List.mem_cons] at ha
        rcases ha with rfl | ha
        · rw [hn] at hav
          cases hav
        · exact ih1 ⟨a, ha, hav⟩
      · intro hnone
        exact ih2 fun a ha => hnone a (List.mem_cons_of_mem _ ha)

theorem coverValues_of_none (hosts : List HostUsingOracleDatabaseLicenses)
    (hostsMap : HostsMap) (metric aliasName hostname : String)
    (h : usageRecord hosts hostsMap aliasName hostname = none) :
    coverValues hosts hostsMap metric aliasName hostname = none := by
  unfold coverValues
  rw [h]

theorem coverValues_of_record (hosts : List HostUsingOracleDatabaseLicenses)
    (hostsMap : HostsMap) (metric aliasName hostname : String)
    (r : HostUsingOracleDatabaseLicenses)
    (h : usageRecord hosts hostsMap aliasName hostname = some r) :
    coverValues hosts hostsMap metric aliasName hostname =
      if metric = AgreementPartMetricProcessorPerpetual ∨
          metric = AgreementPartMetricComputerPerpetual then
        some (r.OriginalCount - r.LicenseCount, r.OriginalCount)
      else if metric = AgreementPartMetricNamedUserPlusPerpetual then
        some ((r.OriginalCount - r.LicenseCount) * 25, r.OriginalCount * 25)
      else none := by
  unfold coverValues
  rw [h]

/-- The associated host after the finalizer, when the usage records the hosts map holds for
it under the aliases are all the record `r` and there is one. -/
theorem applyCover_one_record (hosts : List HostUsingOracleDatabaseLicenses)
    (hostsMap : HostsMap) (metric : String) (aliases : List String)
    (x : OracleDatabaseAgreementAssociatedHostFE) (r : HostUsingOracleDatabaseLicenses)
    (hex : ∃ aliasName ∈ aliases, usageRecord hosts hostsMap aliasName x.Hostname = some r)
    (hall : ∀ aliasName ∈ aliases, ∀ r',
      usageRecord hosts hostsMap aliasName x.Hostname = some r' → r' = r) :
    ((metric = AgreementPartMetricProcessorPerpetual ∨
        metric = AgreementPartMetricComputerPerpetual) →
      applyCover x (lastCover hosts hostsMap metric x.Hostname aliases none) =
        { x with TotalCoveredLicensesCount := r.OriginalCount - r.LicenseCount,
                 ConsumedLicensesCount := r.OriginalCount }) ∧
    (metric = AgreementPartMetricNamedUserPlusPerpetual →
      applyCover x (lastCover hosts hostsMap metric x.Hostname aliases none) =
        { x with TotalCoveredLicensesCount := (r.OriginalCount - r.LicenseCount) * 25,
                 ConsumedLicensesCount := r.OriginalCount * 25 }) := by
  have hcases : ∀ v : ℚ × ℚ,
      (∀ aliasName r', usageRecord hosts hostsMap aliasName x.Hostname = some r' → r' = r →
        coverValues hosts hostsMap metric aliasName x.Hostname = some v) →
      lastCover hosts hostsMap metric x.Hostname aliases none = some v := by
    intro v hv
    refine (lastCover_of_values hosts hostsMap metric x.Hostname v aliases none ?_).1 ?_
    · intro a ha
      cases hu : usageRecord hosts hostsMap a x.Hostname with
      | none => exact Or.inr (coverValues_of_none _ _ _ _ _ hu)
      | some r' => exact Or.inl (hv a r' hu (hall a ha r' hu))
    · obtain ⟨a, ha, hu⟩ := hex
      exact ⟨a, ha, hv a r hu rfl⟩
  constructor
  · intro hm
    rw [hcases (r.OriginalCount - r.LicenseCount, r.OriginalCount)]
    · rfl
    · intro a r' hu hr
      rw [coverValues_of_record _ _ _ _ _ r' hu, if_pos hm, hr]
  · intro hm
    rw [hcases ((r.OriginalCount - r.LicenseCount) * 25, r.OriginalCount * 25)]
    · rfl
    · intro a r' hu hr
      rw [coverValues_of_record _ _ _ _ _ r' hu,
        if_neg (by rw [hm]; rintro (h | h); exacts [namedUser_ne_processor h,
          namedUser_ne_computer h]), if_pos hm, hr]

/-- C21: the finalizer returns when every license type is known, and whenever it returns,
for every agreement (position by position) with license type `licenseType` and every
associated host (position by position): the host name and `CoveredLicensesCount` are
unchanged; when the usage records the hosts map holds for the host under the aliases of
the license type are exactly one record `r`, `TotalCoveredLicensesCount` is
`r.OriginalCount - r.LicenseCount` and `ConsumedLicensesCount` is `r.OriginalCount` for
the processor and computer metrics, and both are multiplied by 25 for the Named User Plus
metric; when the hosts map holds no usage record for the host under any alias, the
associated host is unchanged.  When the hosts map was built from host usages with the same
pairwise distinct `(LicenseName, Name)` keys, the usage records the map holds for a host
name under the aliases are the host usages with that name and a license name among the
aliases. -/
theorem finalizer_writes_cover_fields (agrs : List OracleDatabaseAgreementFE)
    (hosts : List HostUsingOracleDatabaseLicenses) (hostsMap : HostsMap)
    (licenseTypes : LicenseTypesMap) :
    (licenseTypesKnown licenseTypes agrs →
      ∃ agrs', calculateTotalCoveredLicensesAndAvailableCount agrs hosts hostsMap
        licenseTypes = some agrs') ∧
    (∀ agrs', calculateTotalCoveredLicensesAndAvailableCount agrs hosts hostsMap
        licenseTypes = some agrs' →
      List.Forall₂
        (fun a a' => ∀ licenseType, licenseTypes a.LicenseTypeID = some licenseType →
          List.Forall₂
            (fun x x' =>
              x'.Hostname = x.Hostname ∧
              x'.CoveredLicensesCount = x.CoveredLicensesCount ∧
              (∀ r : HostUsingOracleDatabaseLicenses,
                (∃ aliasName ∈ licenseType.Aliases,
                  usageRecord hosts hostsMap aliasName x.Hostname = some r) →
                (∀ aliasName ∈ licenseType.Aliases, ∀ r',
                  usageRecord hosts hostsMap aliasName x.Hostname = some r' → r' = r) →
                ((a.Metric = AgreementPartMetricProcessorPerpetual ∨
                    a.Metric = AgreementPartMetricComputerPerpetual) →
                  x'.TotalCoveredLicensesCount = r.OriginalCount - r.LicenseCount ∧
                  x'.ConsumedLicensesCount = r.OriginalCount) ∧
                (a.Metric = AgreementPartMetricNamedUserPlusPerpetual →
                  x'.TotalCoveredLicensesCount =
                    (r.OriginalCount - r.LicenseCount) * 25 ∧
                  x'.ConsumedLicensesCount = r.OriginalCount * 25)) ∧
              ((∀ aliasName ∈ licenseType.Aliases,
                  usageRecord hosts hostsMap aliasName x.Hostname = none) → x' = x))
            a.Hosts a'.Hosts)
        agrs agrs') ∧
    ∀ hosts₀ : List HostUsingOracleDatabaseLicenses,
      hostsMap = buildHostUsingLicensesMap hosts₀ → hostKeys hosts = hostKeys hosts₀ →
      (hostKeys hosts₀).Nodup →
      ∀ (aliasName hostname : String) (r : HostUsingOracleDatabaseLicenses),
        usageRecord hosts hostsMap aliasName hostname = some r ↔
          r ∈ hosts ∧ r.LicenseName = aliasName ∧ r.Name = hostname := by
  refine ⟨calculateTotal_some_of_known agrs hosts hostsMap licenseTypes, ?_, ?_⟩
  swap
  · intro hosts₀ hmap hkeys hnd aliasName hostname r
    rw [hmap]
    exact usageRecord_iff hosts₀ hosts hkeys hnd aliasName hostname r
  intro agrs' h
  refine (calculateTotal_forall₂ agrs agrs' hosts hostsMap licenseTypes h).imp ?_
  rintro a a' ⟨lt, hlt, ha'⟩ licenseType hlt'
  rw [hlt] at hlt'
  cases hlt'
  have hH : a'.Hosts = a.Hosts.map fun x =>
      applyCover x (lastCover hosts hostsMap a.Metric x.Hostname lt.Aliases none) := by
    rw [ha']
  rw [hH, List.forall₂_map_right_iff]
  refine List.forall₂_same.mpr fun x _ => ⟨applyCover_hostname _ _, ?_, ?_, ?_⟩
  · cases lastCover hosts hostsMap a.Metric x.Hostname lt.Aliases none with
    | none => rfl
    | some v => rfl
  · intro r hex hall
    obtain ⟨h1, h2⟩ := applyCover_one_record hosts hostsMap a.Metric lt.Aliases x r hex hall
    constructor
    · intro hm
      rw [h1 hm]
      exact ⟨rfl, rfl⟩
    · intro hm
      rw [h2 hm]
      exact ⟨rfl, rfl⟩
  · intro hnone
    have : lastCover hosts hostsMap a.Metric x.Hostname lt.Aliases none = none := by
      refine (lastCover_of_values hosts hostsMap a.Metric x.Hostname (0, 0) lt.Aliases none
        ?_).2 ?_
      · intro al hal
        exact Or.inr (coverValues_of_none _ _ _ _ _ (hnone al hal))
      · intro al hal
        exact coverValues_of_none _ _ _ _ _ (hnone al hal)
    rw [this]
    rfl

/-! ## The anomaly of the finalizer -/

theorem calculateAgreementLogged_fst (hosts : List HostUsingOracleDatabaseLicenses)
    (hostsMap : HostsMap) (licenseTypes : LicenseTypesMap)
    (status : String → coverStatus) (agreement : OracleDatabaseAgreementFE) :
    (calculateAgreementLogged hosts hostsMap licenseTypes status agreement).map Prod.fst =
      calculateAgreement hosts hostsMap licenseTypes status agreement := by
  unfold calculateAgreementLogged calculateAgreement
  cases licenseTypes agreement.LicenseTypeID with
  | none => rfl
  | some licenseType =>
    simp only
    split_ifs <;> rfl

theorem mapM_option_map_fst {α β γ : Type} (f : α → Option (β × γ)) (g : α → Option β)
    (h : ∀ a, (f a).map Prod.fst = g a) :
    ∀ l : List α, (l.mapM f).map (List.map Prod.fst) = l.mapM g
  | [] => by
    simp only [List.mapM_nil]
    rfl
  | a :: l => by
    rw [List.mapM_cons, List.mapM_cons, ← h a, ← mapM_option_map_fst f g h l]
    cases f a with
    | none => rfl
    | some b =>
      cases l.mapM f with
      | none => rfl
      | some bs => rfl

theorem calculateAgreementLogged_eq (hosts : List HostUsingOracleDatabaseLicenses)
    (hostsMap : HostsMap) (licenseTypes : LicenseTypesMap)
    (status : String → coverStatus) (agreement : OracleDatabaseAgreementFE)
    (licenseType : OracleDatabaseLicenseType)
    (hlt : licenseTypes agreement.LicenseTypeID = some licenseType)
    (r : OracleDatabaseAgreementFE × Bool)
    (h : calculateAgreementLogged hosts hostsMap licenseTypes status agreement = some r) :
    (r.2 = true ↔
      0 < finalizerUncoveredLicenses hosts hostsMap status licenseType.Aliases agreement ∧
      ((0 < agreement.AvailableCount ∧
          agreement.Metric ≠ AgreementPartMetricNamedUserPlusPerpetual) ∨
        (25 < agreement.AvailableCount ∧
          agreement.Metric = AgreementPartMetricNamedUserPlusPerpetual))) ∧
    r.1.AvailableCount =
      if 0 < finalizerUncoveredLicenses hosts hostsMap status licenseType.Aliases
          agreement then
        agreement.AvailableCount -
          finalizerUncoveredLicenses hosts hostsMap status licenseType.Aliases agreement
      else agreement.AvailableCount := by
  unfold calculateAgreementLogged at h
  rw [hlt] at h
  simp only at h
  unfold finalizerUncoveredLicenses
  simp only
  by_cases hpos : 0 < (if agreement.CatchAll = true then
      (coverAliases hosts hostsMap status agreement.Metric licenseType.Aliases
        agreement.Hosts 0 0).2.2
    else (coverAliases hosts hostsMap status agreement.Metric licenseType.Aliases
        agreement.Hosts 0 0).2.1)
  · rw [if_pos hpos] at h
    simp only [Option.some.injEq] at h
    subst h
    simp only [hpos, true_and, if_true, decide_eq_true_eq, gt_iff_lt]
  · rw [if_neg hpos] at h
    simp only [Option.some.injEq] at h
    subst h
    simp only [hpos, false_and, if_false, Bool.false_eq_true, and_self]

/-- C23: the finalizer with its log returns the agreements the finalizer returns, so
logging the anomaly alters no output value.  It returns when every license type is known,
and whenever it returns, for every agreement (position by position) with a known license
type: the anomaly is logged if and only if `uncoveredLicenses > 0` and, before the
subtraction, `AvailableCount > 0` with a metric other than Named User Plus or
`AvailableCount > 25` with the Named User Plus metric; and the resulting `AvailableCount`
is `AvailableCount - uncoveredLicenses` when `uncoveredLicenses > 0`, logged or not, and
`AvailableCount` otherwise. -/
theorem anomaly_iff_available_and_uncovered (agrs : List OracleDatabaseAgreementFE)
    (hosts : List HostUsingOracleDatabaseLicenses) (hostsMap : HostsMap)
    (licenseTypes : LicenseTypesMap) :
    (calculateTotalCoveredLicensesAndAvailableCountLogged agrs hosts hostsMap
        licenseTypes).map (List.map Prod.fst) =
      calculateTotalCoveredLicensesAndAvailableCount agrs hosts hostsMap licenseTypes ∧
    (licenseTypesKnown licenseTypes agrs →
      ∃ res, calculateTotalCoveredLicensesAndAvailableCountLogged agrs hosts hostsMap
        licenseTypes = some res) ∧
    ∀ res, calculateTotalCoveredLicensesAndAvailableCountLogged agrs hosts hostsMap
        licenseTypes = some res →
      List.Forall₂
        (fun a (r : OracleDatabaseAgreementFE × Bool) =>
          ∀ licenseType, licenseTypes a.LicenseTypeID = some licenseType →
          (r.2 = true ↔
            0 < finalizerUncoveredLicenses hosts hostsMap
              (calculateCoverStatusByLicenseName hosts) licenseType.Aliases a ∧
            ((0 < a.AvailableCount ∧
                a.Metric ≠ AgreementPartMetricNamedUserPlusPerpetual) ∨
              (25 < a.AvailableCount ∧
                a.Metric = AgreementPartMetricNamedUserPlusPerpetual))) ∧
          r.1.AvailableCount =
            if 0 < finalizerUncoveredLicenses hosts hostsMap
                (calculateCoverStatusByLicenseName hosts) licenseType.Aliases a then
              a.AvailableCount -
                finalizerUncoveredLicenses hosts hostsMap
                  (calculateCoverStatusByLicenseName hosts) licenseType.Aliases a
            else a.AvailableCount)
        agrs res := by
  have hfst : (calculateTotalCoveredLicensesAndAvailableCountLogged agrs hosts hostsMap
        licenseTypes).map (List.map Prod.fst) =
      calculateTotalCoveredLicensesAndAvailableCount agrs hosts hostsMap licenseTypes :=
    mapM_option_map_fst _ _
      (calculateAgreementLogged_fst hosts hostsMap licenseTypes
        (calculateCoverStatusByLicenseName hosts)) agrs
  refine ⟨hfst, ?_, ?_⟩
  · intro hk
    obtain ⟨agrs', e⟩ := calculateTotal_some_of_known agrs hosts hostsMap licenseTypes hk
    rw [e] at hfst
    cases hres : calculateTotalCoveredLicensesAndAvailableCountLogged agrs hosts hostsMap
        licenseTypes with
    | none => rw [hres] at hfst; cases hfst
    | some res => exact ⟨res, rfl⟩
  · intro res h
    unfold calculateTotalCoveredLicensesAndAvailableCountLogged at h
    rw [mapM_option_eq_some] at h
    refine h.imp ?_
    intro a r hr licenseType hlt
    exact calculateAgreementLogged_eq hosts hostsMap licenseTypes _ a licenseType hlt r hr

/-! ## The shortfall of a catch-all agreement -/

theorem coverStatus_foldl (name : String) :
    ∀ (hosts : List HostUsingOracleDatabaseLicenses) (init : String → coverStatus),
      (hosts.foldl
        (fun licensesStatus host => fun n =>
          if n = host.LicenseName then
            { Consumed := (licensesStatus host.LicenseName).Consumed + host.OriginalCount,
              Covered := (licensesStatus host.LicenseName).Covered +
                (host.OriginalCount - host.LicenseCount) }
          else licensesStatus n)
        init) name =
      { Consumed := (init name).Consumed +
          ((hosts.filter fun h => decide (h.LicenseName = name)).map
            fun h => h.OriginalCount).sum,
        Covered := (init name).Covered +
          ((hosts.filter fun h => decide (h.LicenseName = name)).map
            fun h => h.OriginalCount - h.LicenseCount).sum }
  | [], init => by simp
  | host :: hosts, init => by
    rw [List.foldl_cons, coverStatus_foldl name hosts]
    by_cases hn : host.LicenseName = name
    · subst hn
      simp only [if_true, List.filter_cons, decide_True, List.map_cons, List.sum_cons,
        add_assoc]
    · have hn' : ¬ name = host.LicenseName := fun e => hn e.symm
      simp only [if_neg hn', List.filter_cons, hn, decide_False, Bool.false_eq_true,
        if_false]

/-- Function `calculateCoverStatusByLicenseName` in closed form: for every license name,
`Consumed` is the sum of `OriginalCount` and `Covered` the sum of
`OriginalCount - LicenseCount` over the host usages with that license name. -/
theorem calculateCoverStatusByLicenseName_eq (hosts : List HostUsingOracleDatabaseLicenses)
    (name : String) :
    calculateCoverStatusByLicenseName hosts name =
      { Consumed := ((hosts.filter fun h => decide (h.LicenseName = name)).map
          fun h => h.OriginalCount).sum,
        Covered := ((hosts.filter fun h => decide (h.LicenseName = name)).map
          fun h => h.OriginalCount - h.LicenseCount).sum } := by
  unfold calculateCoverStatusByLicenseName
  rw [coverStatus_foldl]
  simp

theorem sum_sub_map {α : Type} (f g : α → ℚ) :
    ∀ l : List α, (l.map fun x => f x - g x).sum = (l.map f).sum - (l.map g).sum
  | [] => by simp
  | x :: l => by
    simp only [List.map_cons, List.sum_cons, sum_sub_map f g l]
    ring

/-- The sum over the aliases of `Consumed - Covered` is the sum of `LicenseCount` over the
host usages whose license name is one of the aliases, when the aliases are pairwise
distinct. -/
theorem sum_consumed_sub_covered (hosts : List HostUsingOracleDatabaseLicenses)
    (aliases : List String) (hal : aliases.Nodup) :
    (aliases.map fun aliasName =>
      (calculateCoverStatusByLicenseName hosts aliasName).Consumed -
        (calculateCoverStatusByLicenseName hosts aliasName).Covered).sum =
      ((hosts.filter fun h => decide (h.LicenseName ∈ aliases)).map
        fun h => h.LicenseCount).sum := by
  have h1 : ∀ aliasName : String,
      (calculateCoverStatusByLicenseName hosts aliasName).Consumed -
        (calculateCoverStatusByLicenseName hosts aliasName).Covered =
      (hosts.map fun h => if h.LicenseName = aliasName then h.LicenseCount else 0).sum := by
    intro aliasName
    rw [calculateCoverStatusByLicenseName_eq]
    simp only
    rw [← sum_sub_map]
    have hf : (fun x : HostUsingOracleDatabaseLicenses =>
        x.OriginalCount - (x.OriginalCount - x.LicenseCount)) = fun x => x.LicenseCount := by
      funext x
      ring
    rw [hf]
    exact sum_filter_eq_sum_ite (fun h : HostUsingOracleDatabaseLicenses =>
      h.LicenseName = aliasName) (fun h => h.LicenseCount) hosts
  simp only [h1]
  rw [sum_map_sum_comm (fun (aliasName : String) (h : HostUsingOracleDatabaseLicenses) =>
    if h.LicenseName = aliasName then h.LicenseCount else 0) aliases hosts]
  rw [sum_filter_eq_sum_ite (fun h : HostUsingOracleDatabaseLicenses =>
    h.LicenseName ∈ aliases) (fun h => h.LicenseCount) hosts]
  congr 1
  apply List.map_congr_left
  intro h _
  exact sum_indicator_of_nodup h.LicenseName h.LicenseCount aliases hal

theorem finalizerUncoveredLicenses_eq (hosts : List HostUsingOracleDatabaseLicenses)
    (hostsMap : HostsMap) (aliases : List String) (a : OracleDatabaseAgreementFE) :
    finalizerUncoveredLicenses hosts hostsMap (calculateCoverStatusByLicenseName hosts)
      aliases a = uncoveredLicenses hosts hostsMap aliases a := by
  unfold finalizerUncoveredLicenses uncoveredLicenses
  rw [coverAliases_eq]
  simp only [zero_add]

theorem uncoveredLicenses_namedUser (hosts : List HostUsingOracleDatabaseLicenses)
    (hostsMap : HostsMap) (aliases : List String) (a : OracleDatabaseAgreementFE)
    (hc : a.CatchAll = false)
    (hm : a.Metric = AgreementPartMetricNamedUserPlusPerpetual) :
    uncoveredLicenses hosts hostsMap aliases a =
      remainingOfAssociatedHosts hosts hostsMap aliases a.Hosts * 25 := by
  unfold uncoveredLicenses remainingOfAssociatedHosts
  simp only [hc, Bool.false_eq_true, if_false]
  have hnp : ¬ (a.Metric = AgreementPartMetricProcessorPerpetual ∨
      a.Metric = AgreementPartMetricComputerPerpetual) := by
    rw [hm]; rintro (h | h); exacts [namedUser_ne_processor h, namedUser_ne_computer h]
  have hcontrib : ∀ aliasName hostname : String,
      uncoveredContribution hosts hostsMap a.Metric aliasName hostname =
        (match usageRecord hosts hostsMap aliasName hostname with
          | some host => host.LicenseCount
          | none => 0) * 25 := by
    intro aliasName hostname
    unfold uncoveredContribution
    cases usageRecord hosts hostsMap aliasName hostname with
    | none => simp
    | some host => simp only [if_neg hnp, if_pos hm]
  simp only [hcontrib]
  rw [← List.sum_map_mul_right]
  congr 1
  apply List.map_congr_left
  intro aliasName _
  rw [← List.sum_map_mul_right]

/-- C22 (amended): with the arithmetic taken as exact, for an agreement with a known
license type the finalizer subtracts `uncoveredLicenses` from `AvailableCount` when it is
positive.  The cover status of a license name has `Consumed` = the sum of `OriginalCount`
and `Covered` = the sum of `OriginalCount - LicenseCount` over all host usages with that
license name.  For a catch-all agreement `uncoveredLicenses` is the sum over the aliases
of `Consumed - Covered`, which for pairwise distinct aliases is the sum of `LicenseCount`
over all host usages whose license name is one of the aliases, whatever the associated
hosts and the metric (no factor 25); for a Named User Plus agreement that is not catch-all
it is 25 times the sum the finalizer takes over the aliases and the associated hosts of the
`LicenseCount` of their usage records. -/
theorem catchAll_shortfall_over_all_hosts (hosts : List HostUsingOracleDatabaseLicenses)
    (hostsMap : HostsMap) (licenseTypes : LicenseTypesMap)
    (a : OracleDatabaseAgreementFE) (licenseType : OracleDatabaseLicenseType)
    (hlt : licenseTypes a.LicenseTypeID = some licenseType) :
    (∃ a', calculateAgreement hosts hostsMap licenseTypes
        (calculateCoverStatusByLicenseName hosts) a = some a' ∧
      a'.AvailableCount =
        if 0 < finalizerUncoveredLicenses hosts hostsMap
            (calculateCoverStatusByLicenseName hosts) licenseType.Aliases a then
          a.AvailableCount - finalizerUncoveredLicenses hosts hostsMap
            (calculateCoverStatusByLicenseName hosts) licenseType.Aliases a
        else a.AvailableCount) ∧
    (∀ name : String,
      calculateCoverStatusByLicenseName hosts name =
        { Consumed := ((hosts.filter fun h => decide (h.LicenseName = name)).map
            fun h => h.OriginalCount).sum,
          Covered := ((hosts.filter fun h => decide (h.LicenseName = name)).map
            fun h => h.OriginalCount - h.LicenseCount).sum }) ∧
    (a.CatchAll = true →
      finalizerUncoveredLicenses hosts hostsMap (calculateCoverStatusByLicenseName hosts)
          licenseType.Aliases a =
        (licenseType.Aliases.map fun aliasName =>
          (calculateCoverStatusByLicenseName hosts aliasName).Consumed -
            (calculateCoverStatusByLicenseName hosts aliasName).Covered).sum) ∧
    (a.CatchAll = true → licenseType.Aliases.Nodup →
      finalizerUncoveredLicenses hosts hostsMap (calculateCoverStatusByLicenseName hosts)
          licenseType.Aliases a =
        ((hosts.filter fun h => decide (h.LicenseName ∈ licenseType.Aliases)).map
          fun h => h.LicenseCount).sum) ∧
    (a.CatchAll = false → a.Metric = AgreementPartMetricNamedUserPlusPerpetual →
      finalizerUncoveredLicenses hosts hostsMap (calculateCoverStatusByLicenseName hosts)
          licenseType.Aliases a =
        remainingOfAssociatedHosts hosts hostsMap licenseType.Aliases a.Hosts * 25) := by
  have hca : a.CatchAll = true →
      finalizerUncoveredLicenses hosts hostsMap (calculateCoverStatusByLicenseName hosts)
          licenseType.Aliases a =
        (licenseType.Aliases.map fun aliasName =>
          (calculateCoverStatusByLicenseName hosts aliasName).Consumed -
            (calculateCoverStatusByLicenseName hosts aliasName).Covered).sum := by
    intro hc
    rw [finalizerUncoveredLicenses_eq]
    unfold uncoveredLicenses
    rw [if_pos hc]
  refine ⟨?_, calculateCoverStatusByLicenseName_eq hosts, hca, ?_, ?_⟩
  · refine ⟨_, calculateAgreement_eq hosts hostsMap licenseTypes a licenseType hlt, ?_⟩
    rw [finalizerUncoveredLicenses_eq]
  · intro hc hnd
    rw [hca hc]
    exact sum_consumed_sub_covered hosts licenseType.Aliases hnd
  · intro hc hm
    rw [finalizerUncoveredLicenses_eq]
    exact uncoveredLicenses_namedUser hosts hostsMap licenseType.Aliases a hc hm

/-- C22 (amended) on a catch-all Named User Plus agreement and the host usages of the allocation
scenario after the direct pass: the only host usage of `Oracle STD` is fully covered, so
nothing is subtracted; and on one left with 2 of 3, where 2 (not 50) is subtracted. -/
theorem catchAll_shortfall_over_all_hosts_witness :
    buildLicenseTypesMap scenarioLicenseTypes sampleCatchAllNamedUser.LicenseTypeID =
      some sampleLicenseTypeNamedUser ∧
    (∃ a', calculateAgreement scenarioHostsAfterDirect
        (buildHostUsingLicensesMap scenarioHostsAfterDirect)
        (buildLicenseTypesMap scenarioLicenseTypes)
        (calculateCoverStatusByLicenseName scenarioHostsAfterDirect)
        sampleCatchAllNamedUser = some a' ∧
      a'.AvailableCount =
        if 0 < finalizerUncoveredLicenses scenarioHostsAfterDirect
            (buildHostUsingLicensesMap scenarioHostsAfterDirect)
            (calculateCoverStatusByLicenseName scenarioHostsAfterDirect)
            sampleLicenseTypeNamedUser.Aliases sampleCatchAllNamedUser then
          sampleCatchAllNamedUser.AvailableCount -
            finalizerUncoveredLicenses scenarioHostsAfterDirect
              (buildHostUsingLicensesMap scenarioHostsAfterDirect)
              (calculateCoverStatusByLicenseName scenarioHostsAfterDirect)
              sampleLicenseTypeNamedUser.Aliases sampleCatchAllNamedUser
        else sampleCatchAllNamedUser.AvailableCount) ∧
    calculateAgreement [⟨"L2", "alpha", "Oracle STD", 2, 3⟩]
        (buildHostUsingLicensesMap [⟨"L2", "alpha", "Oracle STD", 2, 3⟩])
        (buildLicenseTypesMap scenarioLicenseTypes)
        (calculateCoverStatusByLicenseName [⟨"L2", "alpha", "Oracle STD", 2, 3⟩])
        sampleCatchAllNamedUser =
      some { sampleCatchAllNamedUser with AvailableCount := 98 } :=
  ⟨by decide!,
    (catchAll_shortfall_over_all_hosts scenarioHostsAfterDirect
      (buildHostUsingLicensesMap scenarioHostsAfterDirect)
      (buildLicenseTypesMap scenarioLicenseTypes) sampleCatchAllNamedUser
      sampleLicenseTypeNamedUser (by decide!)).1,
    by decide!⟩

/-! ## Conservation of units -/

theorem totalLicenseCount_set :
    ∀ (hosts : List HostUsingOracleDatabaseLicenses) (p : Nat)
      (h h' : HostUsingOracleDatabaseLicenses), hosts[p]? = some h →
      totalLicenseCount (hosts.set p h') =
        totalLicenseCount hosts - h.LicenseCount + h'.LicenseCount
  | [], _, _, _, hp => by simp at hp
  | x :: l, 0, h, h', hp => by
    simp only [List.getElem?_cons_zero, Option.some.injEq] at hp
    subst hp
    simp only [totalLicenseCount, List.set_cons_zero, List.map_cons, List.sum_cons]
    ring
  | x :: l, p + 1, h, h', hp => by
    simp only [List.getElem?_cons_succ] at hp
    have ih := totalLicenseCount_set l p h h' hp
    simp only [totalLicenseCount, List.set_cons_succ, List.map_cons, List.sum_cons] at ih ⊢
    rw [ih]
    ring

theorem limitedProcessor_of_frame {a a' : OracleDatabaseAgreementFE}
    (h : a'.Unlimited = a.Unlimited ∧ a'.Metric = a.Metric) (hl : limitedProcessor a) :
    limitedProcessor a' := by
  unfold limitedProcessor
  rw [h.1, h.2]
  exact hl

theorem assignToAliases_conserves (hostsMap : HostsMap) :
    ∀ (aliases : List String) (agreement : OracleDatabaseAgreementFE)
      (associatedHost : OracleDatabaseAgreementAssociatedHostFE)
      (hosts : List HostUsingOracleDatabaseLicenses), limitedProcessor agreement →
      (assignToAliases hostsMap aliases agreement associatedHost hosts).1.AvailableCount -
        totalLicenseCount (assignToAliases hostsMap aliases agreement associatedHost
          hosts).2.2 =
      agreement.AvailableCount - totalLicenseCount hosts
  | [], _, _, _, _ => rfl
  | aliasName :: aliases, agreement, associatedHost, hosts, hl => by
    have ih := assignToAliases_conserves hostsMap aliases
    unfold assignToAliases
    split_ifs with hcap
    · rfl
    · split
      · exact ih _ _ _ hl
      · split
        · exact ih _ _ _ hl
        · rename_i p _
          split
          · exact ih _ _ _ hl
          · rename_i hostUsingLicenses hget
            split_ifs with hle
            · exact ih _ _ _ hl
            · have hstep := doAssign_processor_limited agreement hostUsingLicenses
                associatedHost hl.2 hl.1
              simp only
              rw [ih _ _ _ (by rw [hstep]; exact hl),
                totalLicenseCount_set hosts p hostUsingLicenses _ hget, hstep]
              simp only
              ring

theorem assignToAssociatedHosts_conserves (hostsMap : HostsMap)
    (licenseTypes : LicenseTypesMap) :
    ∀ (associatedHosts associatedHosts' : List OracleDatabaseAgreementAssociatedHostFE)
      (agreement agreement' : OracleDatabaseAgreementFE)
      (hosts hosts' : List HostUsingOracleDatabaseLicenses),
      assignToAssociatedHosts hostsMap licenseTypes associatedHosts agreement hosts =
        some (associatedHosts', agreement', hosts') →
      limitedProcessor agreement →
      agreement'.AvailableCount - totalLicenseCount hosts' =
        agreement.AvailableCount - totalLicenseCount hosts
  | [], _, _, _, _, _, h, _ => by
    simp only [assignToAssociatedHosts, Option.some.injEq, Prod.mk.injEq] at h
    obtain ⟨_, rfl, rfl⟩ := h
    rfl
  | associatedHost :: rest, associatedHosts', agreement, agreement', hosts, hosts', h, hl => by
    unfold assignToAssociatedHosts at h
    cases hlt : licenseTypes agreement.LicenseTypeID with
    | none => rw [hlt] at h; cases h
    | some licenseType =>
      rw [hlt] at h
      simp only at h
      have h1 := assignToAliases_conserves hostsMap licenseType.Aliases agreement
        associatedHost hosts hl
      obtain ⟨s1, _⟩ := assignToAliases_spec hostsMap licenseType.Aliases agreement
        associatedHost hosts
      have hl1 : limitedProcessor (assignToAliases hostsMap licenseType.Aliases agreement
          associatedHost hosts).1 :=
        limitedProcessor_of_frame ⟨by rw [s1], by rw [s1]⟩ hl
      split_ifs at h with hcap
      · simp only [Option.some.injEq, Prod.mk.injEq] at h
        obtain ⟨_, rfl, rfl⟩ := h
        exact h1
      · cases hr : assignToAssociatedHosts hostsMap licenseTypes rest
            (assignToAliases hostsMap licenseType.Aliases agreement associatedHost hosts).1
            (assignToAliases hostsMap licenseType.Aliases agreement associatedHost
              hosts).2.2 with
        | none => rw [hr] at h; cases h
        | some r =>
          obtain ⟨rest', agreement1, hosts1⟩ := r
          rw [hr] at h
          simp only [Option.some.injEq, Prod.mk.injEq] at h
          obtain ⟨_, rfl, rfl⟩ := h
          rw [assignToAssociatedHosts_conserves hostsMap licenseTypes rest rest' _ agreement1
            _ hosts1 hr hl1, h1]

theorem assignAgreementLicenses_conserves (srt : SortSlice) (hostsMap : HostsMap)
    (licenseTypes : LicenseTypesMap) (agreement agreement' : OracleDatabaseAgreementFE)
    (hosts hosts' : List HostUsingOracleDatabaseLicenses)
    (h : assignAgreementLicenses srt hostsMap licenseTypes agreement hosts =
      some (agreement', hosts'))
    (hl : limitedProcessor agreement) :
    agreement'.AvailableCount - totalLicenseCount hosts' =
      agreement.AvailableCount - totalLicenseCount hosts := by
  unfold assignAgreementLicenses at h
  cases hs : sortHostsInAgreementByLicenseCount srt agreement hosts hostsMap licenseTypes with
  | none => rw [hs] at h; cases h
  | some agreement1 =>
    rw [hs] at h
    simp only at h
    have hfr : agreement1.AvailableCount = agreement.AvailableCount ∧
        agreement1.Unlimited = agreement.Unlimited ∧ agreement1.Metric = agreement.Metric := by
      unfold sortHostsInAgreementByLicenseCount at hs
      cases hlt : licenseTypes agreement.LicenseTypeID with
      | none =>
        rw [hlt] at hs
        simp only at hs
        split_ifs at hs
        cases hs
        exact ⟨rfl, rfl, rfl⟩
      | some lt =>
        rw [hlt] at hs
        simp only [Option.some.injEq] at hs
        subst hs
        exact ⟨rfl, rfl, rfl⟩
    cases hr : assignToAssociatedHosts hostsMap licenseTypes agreement1.Hosts agreement1
        hosts with
    | none => rw [hr] at h; cases h
    | some r =>
      obtain ⟨associatedHosts, agreement2, hosts2⟩ := r
      rw [hr] at h
      simp only [Option.some.injEq, Prod.mk.injEq] at h
      obtain ⟨rfl, rfl⟩ := h
      have := assignToAssociatedHosts_conserves hostsMap licenseTypes _ _ _ _ _ _ hr
        (limitedProcessor_of_frame ⟨hfr.2.1, hfr.2.2⟩ hl)
      simp only
      rw [this, hfr.1]

/-- The direct pass of limited processor or computer agreements, whenever it returns: the
total `AvailableCount` minus the total `LicenseCount` is unchanged. -/
theorem assignAgreementsLicenses_conserves (srt : SortSlice) (hostsMap : HostsMap)
    (licenseTypes : LicenseTypesMap) :
    ∀ (agrs agrs' : List OracleDatabaseAgreementFE)
      (hosts hosts' : List HostUsingOracleDatabaseLicenses),
      assignAgreementsLicensesToItsAssociatedHosts srt agrs hosts hostsMap licenseTypes =
        some (agrs', hosts') →
      (∀ a ∈ agrs, limitedProcessor a) →
      totalAvailableCount agrs' - totalLicenseCount hosts' =
        totalAvailableCount agrs - totalLicenseCount hosts
  | [], agrs', hosts, hosts', h, _ => by
    simp only [assignAgreementsLicensesToItsAssociatedHosts, Option.some.injEq,
      Prod.mk.injEq] at h
    obtain ⟨rfl, rfl⟩ := h
    rfl
  | agreement :: agrs, agrs', hosts, hosts', h, hall => by
    unfold assignAgreementsLicensesToItsAssociatedHosts at h
    cases e1 : assignAgreementLicenses srt hostsMap licenseTypes agreement hosts with
    | none => simp [e1] at h
    | some r1 =>
      obtain ⟨a', hosts1⟩ := r1
      simp only [e1] at h
      cases e2 : assignAgreementsLicensesToItsAssociatedHosts srt agrs hosts1 hostsMap
          licenseTypes with
      | none => simp [e2] at h
      | some r2 =>
        obtain ⟨agrs2, hosts2⟩ := r2
        simp only [e2, Option.some.injEq, Prod.mk.injEq] at h
        obtain ⟨rfl, rfl⟩ := h
        have h1 := assignAgreementLicenses_conserves srt hostsMap licenseTypes agreement a'
          hosts hosts1 e1 (hall _ (List.mem_cons_self _ _))
        have h2 := assignAgreementsLicenses_conserves srt hostsMap licenseTypes agrs agrs2
          hosts1 hosts2 e2 (fun a ha => hall a (List.mem_cons_of_mem _ ha))
        simp only [totalAvailableCount, List.map_cons, List.sum_cons] at h2 ⊢
        linarith

theorem catchAllAliases_conserves :
    ∀ (aliases : List String) (agr : OracleDatabaseAgreementFE)
      (host : HostUsingOracleDatabaseLicenses), limitedProcessor agr →
      (catchAllAliases aliases agr host).1.AvailableCount -
        (catchAllAliases aliases agr host).2.LicenseCount =
      agr.AvailableCount - host.LicenseCount
  | [], _, _, _ => rfl
  | aliasName :: aliases, agr, host, hl => by
    unfold catchAllAliases
    split_ifs with hcap hne
    · rfl
    · exact catchAllAliases_conserves aliases agr host hl
    · have hstep := catchAllStep_processor agr host hl.2 hl.1
      simp only
      rw [catchAllAliases_conserves aliases _ _ (by rw [hstep]; exact hl), hstep]
      simp only
      ring

theorem catchAllAgreements_conserves (licenseTypes : LicenseTypesMap) :
    ∀ (agrs agrs' : List OracleDatabaseAgreementFE)
      (host host' : HostUsingOracleDatabaseLicenses),
      catchAllAgreements licenseTypes agrs host = some (agrs', host') →
      (∀ a ∈ agrs, limitedProcessor a) →
      totalAvailableCount agrs' - host'.LicenseCount =
        totalAvailableCount agrs - host.LicenseCount
  | [], agrs', host, host', h, _ => by
    simp only [catchAllAgreements, Option.some.injEq, Prod.mk.injEq] at h
    obtain ⟨rfl, rfl⟩ := h
    rfl
  | agr :: agrs, agrs', host, host', h, hall => by
    have hall' : ∀ a ∈ agrs, limitedProcessor a :=
      fun a ha => hall a (List.mem_cons_of_mem _ ha)
    unfold catchAllAgreements at h
    have skip : ∀ (r : Option (List OracleDatabaseAgreementFE ×
        HostUsingOracleDatabaseLicenses)),
        r = catchAllAgreements licenseTypes agrs host →
        (match r with
          | none => none
          | some (agrs', host') => some (agr :: agrs', host')) = some (agrs', host') →
        totalAvailableCount agrs' - host'.LicenseCount =
          totalAvailableCount (agr :: agrs) - host.LicenseCount := by
      intro r hr h
      cases r with
      | none => cases h
      | some r =>
        obtain ⟨agrs1, host1⟩ := r
        simp only [Option.some.injEq, Prod.mk.injEq] at h
        obtain ⟨rfl, rfl⟩ := h
        have := catchAllAgreements_conserves licenseTypes agrs agrs1 host host1 hr.symm hall'
        simp only [totalAvailableCount, List.map_cons, List.sum_cons] at this ⊢
        linarith
    split_ifs at h with hca hcap
    · exact skip _ rfl h
    · exact skip _ rfl h
    · cases hlt : licenseTypes agr.LicenseTypeID with
      | none => rw [hlt] at h; cases h
      | some licenseType =>
        rw [hlt] at h
        simp only at h
        cases hr : catchAllAgreements licenseTypes agrs
            (catchAllAliases licenseType.Aliases agr host).2 with
        | none => rw [hr] at h; cases h
        | some r =>
          obtain ⟨agrs1, host1⟩ := r
          rw [hr] at h
          simp only [Option.some.injEq, Prod.mk.injEq] at h
          obtain ⟨rfl, rfl⟩ := h
          have h1 := catchAllAliases_conserves licenseType.Aliases agr host
            (hall _ (List.mem_cons_self _ _))
          have h2 := catchAllAgreements_conserves licenseTypes agrs agrs1 _ host1 hr hall'
          simp only [totalAvailableCount, List.map_cons, List.sum_cons] at h2 ⊢
          linarith

theorem limitedProcessor_of_drawn {l l' : List OracleDatabaseAgreementFE}
    (h : List.Forall₂ agreementDrawn l l') (hall : ∀ a ∈ l, limitedProcessor a) :
    ∀ a ∈ l', limitedProcessor a := by
  intro a' ha'
  obtain ⟨a, ha, hd⟩ := forall₂_mem_right h a' ha'
  exact limitedProcessor_of_frame ⟨by rw [hd.1], by rw [hd.1]⟩ (hall a ha)

theorem limitedProcessor_of_assigned {l l' : List OracleDatabaseAgreementFE}
    (h : List.Forall₂ agreementAssigned l l') (hall : ∀ a ∈ l, limitedProcessor a) :
    ∀ a ∈ l', limitedProcessor a := by
  intro a' ha'
  obtain ⟨a, ha, hd⟩ := forall₂_mem_right h a' ha'
  exact limitedProcessor_of_frame ⟨by rw [hd.1], by rw [hd.1]⟩ (hall a ha)

/-- The catch-all pass of limited processor or computer agreements, whenever it returns:
the total `AvailableCount` minus the total `LicenseCount` is unchanged. -/
theorem assignLicensesFromCatchAllAgreements_conserves (licenseTypes : LicenseTypesMap) :
    ∀ (hosts hosts' : List HostUsingOracleDatabaseLicenses)
      (agrs agrs' : List OracleDatabaseAgreementFE),
      assignLicensesFromCatchAllAgreements agrs hosts licenseTypes = some (agrs', hosts') →
      (∀ a ∈ agrs, limitedProcessor a) →
      totalAvailableCount agrs' - totalLicenseCount hosts' =
        totalAvailableCount agrs - totalLicenseCount hosts
  | [], hosts', agrs, agrs', h, _ => by
    rw [assignLicensesFromCatchAllAgreements_nil] at h
    simp only [Option.some.injEq, Prod.mk.injEq] at h
    obtain ⟨rfl, rfl⟩ := h
    rfl
  | host :: hosts, hosts', agrs, agrs', h, hall => by
    unfold assignLicensesFromCatchAllAgreements at h
    split_ifs at h with hpos
    · cases hr : assignLicensesFromCatchAllAgreements agrs hosts licenseTypes with
      | none => rw [hr] at h; cases h
      | some r =>
        obtain ⟨agrs1, hosts1⟩ := r
        rw [hr] at h
        simp only [Option.some.injEq, Prod.mk.injEq] at h
        obtain ⟨rfl, rfl⟩ := h
        have := assignLicensesFromCatchAllAgreements_conserves licenseTypes hosts hosts1
          agrs agrs1 hr hall
        simp only [totalLicenseCount, List.map_cons, List.sum_cons] at this ⊢
        linarith
    · cases hc : catchAllAgreements licenseTypes agrs host with
      | none => rw [hc] at h; cases h
      | some c =>
        obtain ⟨agrsC, hostC⟩ := c
        rw [hc] at h
        simp only at h
        cases hr : assignLicensesFromCatchAllAgreements agrsC hosts licenseTypes with
        | none => rw [hr] at h; cases h
        | some r =>
          obtain ⟨agrs1, hosts1⟩ := r
          rw [hr] at h
          simp only [Option.some.injEq, Prod.mk.injEq] at h
          obtain ⟨rfl, rfl⟩ := h
          have h1 := catchAllAgreements_conserves licenseTypes agrs agrsC host hostC hc hall
          have hd := (catchAllAgreements_some licenseTypes agrs agrsC host hostC
            (not_le.mp hpos).le hc).1
          have h2 := assignLicensesFromCatchAllAgreements_conserves licenseTypes hosts
            hosts1 agrsC agrs1 hr (limitedProcessor_of_drawn hd hall)
          simp only [totalLicenseCount, List.map_cons, List.sum_cons] at h2 ⊢
          linarith

theorem forall₂_imp_of_mem {α β : Type} {R S : α → β → Prop} :
    ∀ {l₁ : List α} {l₂ : List β}, List.Forall₂ R l₁ l₂ →
      (∀ a ∈ l₁, ∀ b ∈ l₂, R a b → S a b) → List.Forall₂ S l₁ l₂
  | _, _, List.Forall₂.nil, _ => List.Forall₂.nil
  | _, _, List.Forall₂.cons hab ht, h =>
    List.Forall₂.cons (h _ (List.mem_cons_self _ _) _ (List.mem_cons_self _ _) hab)
      (forall₂_imp_of_mem ht fun a ha b hb =>
        h a (List.mem_cons_of_mem _ ha) b (List.mem_cons_of_mem _ hb))

/-- C27 (amended): with the arithmetic taken as exact, when every agreement is limited
with the processor or the computer metric and a known license type, the direct pass and
then (after the hosts are sorted again) the catch-all pass return, the total decrease of
`AvailableCount` over all agreements equals the total decrease of `LicenseCount` over all
host usages, and over the direct pass alone the decrease of `AvailableCount` of every
agreement equals the increase of the total `CoveredLicensesCount` of its associated
hosts. -/
theorem passes_conserve_units (srt : SortSlice) (hs : SortSliceContract srt)
    (hostsMap : HostsMap) (licenseTypes : LicenseTypesMap)
    (agrs : List OracleDatabaseAgreementFE) (hosts : List HostUsingOracleDatabaseLicenses)
    (hall : ∀ a ∈ agrs, a.Unlimited = false ∧
      (a.Metric = AgreementPartMetricProcessorPerpetual ∨
        a.Metric = AgreementPartMetricComputerPerpetual))
    (hk : licenseTypesKnown licenseTypes agrs) :
    ∃ agrsD hostsD agrsC hostsC,
      assignAgreementsLicensesToItsAssociatedHosts srt agrs hosts hostsMap licenseTypes =
        some (agrsD, hostsD) ∧
      assignLicensesFromCatchAllAgreements agrsD (sortHostsUsingLicenses srt hostsD)
        licenseTypes = some (agrsC, hostsC) ∧
      totalAvailableCount agrs - totalAvailableCount agrsC =
        totalLicenseCount hosts - totalLicenseCount hostsC ∧
      List.Forall₂
        (fun a aD => a.AvailableCount - aD.AvailableCount =
          totalCredited aD.Hosts - totalCredited a.Hosts)
        agrs agrsD := by
  obtain ⟨agrsD, hostsD, eD, hDa, _⟩ := assignAgreementsLicenses_spec srt hs hostsMap
    licenseTypes agrs hosts hk
  have hkD := licenseTypesKnown_of_assigned licenseTypes hDa hk
  obtain ⟨agrsC, hostsC, eC, _, _⟩ := assignLicensesFromCatchAllAgreements_spec licenseTypes
    (sortHostsUsingLicenses srt hostsD) agrsD hkD
  have h1 := assignAgreementsLicenses_conserves srt hostsMap licenseTypes agrs agrsD hosts
    hostsD eD hall
  have h2 := assignLicensesFromCatchAllAgreements_conserves licenseTypes
    (sortHostsUsingLicenses srt hostsD) hostsC agrsD agrsC eC
    (limitedProcessor_of_assigned hDa hall)
  have hperm : totalLicenseCount (sortHostsUsingLicenses srt hostsD) =
      totalLicenseCount hostsD :=
    ((hs.perm _ hostLess hostsD).map _).sum_eq
  refine ⟨agrsD, hostsD, agrsC, hostsC, eD, eC, ?_, ?_⟩
  · rw [hperm] at h2
    linarith
  · refine forall₂_imp_of_mem hDa ?_
    intro a ha aD _ hass
    have := hass.2.2.2 (hall a ha).1
    linarith

/-- C27 on the processor agreements of the allocation scenario. -/
theorem passes_conserve_units_witness :
    SortSliceContract insertionSortSlice ∧
    (∀ a ∈ scenarioProcessorAgreements, a.Unlimited = false ∧
      (a.Metric = AgreementPartMetricProcessorPerpetual ∨
        a.Metric = AgreementPartMetricComputerPerpetual)) ∧
    licenseTypesKnown (buildLicenseTypesMap scenarioLicenseTypes)
      scenarioProcessorAgreements ∧
    ∃ agrsD hostsD agrsC hostsC,
      assignAgreementsLicensesToItsAssociatedHosts insertionSortSlice
        scenarioProcessorAgreements scenarioHosts (buildHostUsingLicensesMap scenarioHosts)
        (buildLicenseTypesMap scenarioLicenseTypes) = some (agrsD, hostsD) ∧
      assignLicensesFromCatchAllAgreements agrsD
        (sortHostsUsingLicenses insertionSortSlice hostsD)
        (buildLicenseTypesMap scenarioLicenseTypes) = some (agrsC, hostsC) ∧
      totalAvailableCount scenarioProcessorAgreements - totalAvailableCount agrsC =
        totalLicenseCount scenarioHosts - totalLicenseCount hostsC ∧
      List.Forall₂
        (fun a aD => a.AvailableCount - aD.AvailableCount =
          totalCredited aD.Hosts - totalCredited a.Hosts)
        scenarioProcessorAgreements agrsD :=
  ⟨insertionSortSlice_contract, by decide!, by decide!,
    passes_conserve_units insertionSortSlice insertionSortSlice_contract
      (buildHostUsingLicensesMap scenarioHosts) (buildLicenseTypesMap scenarioLicenseTypes)
      scenarioProcessorAgreements scenarioHosts (by decide!) (by decide!)⟩

/-! ## The order of the catch-all pass -/

theorem catchAllAgreements_cons (licenseTypes : LicenseTypesMap)
    (agr : OracleDatabaseAgreementFE) (agrs : List OracleDatabaseAgreementFE)
    (host : HostUsingOracleDatabaseLicenses) :
    catchAllAgreements licenseTypes (agr :: agrs) host =
      if agr.CatchAll = false ∨ (agr.AvailableCount ≤ 0 ∧ agr.Unlimited = false) then
        (catchAllAgreements licenseTypes agrs host).map fun r => (agr :: r.1, r.2)
      else
        (licenseTypes agr.LicenseTypeID).bind fun licenseType =>
          (catchAllAgreements licenseTypes agrs
            (catchAllAliases licenseType.Aliases agr host).2).map
            fun r => ((catchAllAliases licenseType.Aliases agr host).1 :: r.1, r.2) := by
  rw [catchAllAgreements]
  split_ifs with h1 h2 h3 h4 h5
  · cases catchAllAgreements licenseTypes agrs host <;> rfl
  · exact absurd (Or.inl h1) h2
  · cases catchAllAgreements licenseTypes agrs host <;> rfl
  · exact absurd (Or.inr h3) h4
  · rcases h5 with h | h
    · exact absurd h h1
    · exact absurd h h3
  · cases licenseTypes agr.LicenseTypeID with
    | none => rfl
    | some licenseType =>
      simp only [Option.some_bind]
      cases catchAllAgreements licenseTypes agrs
        (catchAllAliases licenseType.Aliases agr host).2 <;> rfl

theorem catchAllAgreements_append (licenseTypes : LicenseTypesMap) :
    ∀ (l₁ l₂ : List OracleDatabaseAgreementFE) (host : HostUsingOracleDatabaseLicenses),
      catchAllAgreements licenseTypes (l₁ ++ l₂) host =
        (catchAllAgreements licenseTypes l₁ host).bind fun r1 =>
          (catchAllAgreements licenseTypes l₂ r1.2).map fun r2 => (r1.1 ++ r2.1, r2.2)
  | [], l₂, host => by
    have : catchAllAgreements licenseTypes [] host = some ([], host) := by
      rw [catchAllAgreements]
    rw [this]
    simp only [List.nil_append, Option.some_bind]
    cases catchAllAgreements licenseTypes l₂ host with
    | none => rfl
    | some r => rfl
  | agr :: l₁, l₂, host => by
    have ih := catchAllAgreements_append licenseTypes l₁ l₂
    rw [List.cons_append, catchAllAgreements_cons licenseTypes agr (l₁ ++ l₂) host,
      catchAllAgreements_cons licenseTypes agr l₁ host]
    split_ifs with hskip
    · rw [ih host]
      cases catchAllAgreements licenseTypes l₁ host with
      | none => rfl
      | some r1 =>
        simp only [Option.some_bind, Option.map_some']
        cases catchAllAgreements licenseTypes l₂ r1.2 with
        | none => rfl
        | some r2 => rfl
    · cases licenseTypes agr.LicenseTypeID with
      | none => rfl
      | some licenseType =>
        simp only [Option.some_bind]
        rw [ih]
        cases catchAllAgreements licenseTypes l₁
            (catchAllAliases licenseType.Aliases agr host).2 with
        | none => rfl
        | some r1 =>
          simp only [Option.some_bind, Option.map_some']
          cases catchAllAgreements licenseTypes l₂ r1.2 with
          | none => rfl
          | some r2 => rfl

/-- The turn of a host with `LicenseCount ≥ 0` in the catch-all pass when the only
catch-all agreement is a limited one with processor or computer metric: the agreement is
debited and the host covered by the minimum of `AvailableCount` and `LicenseCount` when
the license name is an alias and `AvailableCount > 0`, and nothing changes otherwise. -/
theorem catchAllAgreements_single_eq (licenseTypes : LicenseTypesMap)
    (licenseType : OracleDatabaseLicenseType) (agr : OracleDatabaseAgreementFE)
    (A₁ A₂ : List OracleDatabaseAgreementFE)
    (hA₁ : ∀ a ∈ A₁, a.CatchAll = false) (hA₂ : ∀ a ∈ A₂, a.CatchAll = false)
    (hlt : licenseTypes agr.LicenseTypeID = some licenseType) (hc : agr.CatchAll = true)
    (hl : limitedProcessor agr) (host : HostUsingOracleDatabaseLicenses)
    (hh : 0 ≤ host.LicenseCount) :
    catchAllAgreements licenseTypes (A₁ ++ agr :: A₂) host =
      if host.LicenseName ∈ licenseType.Aliases ∧ 0 < agr.AvailableCount then
        some (A₁ ++ { agr with AvailableCount :=
            agr.AvailableCount - min agr.AvailableCount host.LicenseCount } :: A₂,
          { host with LicenseCount :=
            host.LicenseCount - min agr.AvailableCount host.LicenseCount })
      else some (A₁ ++ agr :: A₂, host) := by
  split_ifs with hcond
  · exact catchAllAgreements_single licenseTypes licenseType agr A₂ hA₂ hlt hc _ A₁ host hA₁
      (fun hcap => absurd hcap.1 (not_le.mpr hcond.2))
      (catchAllAliases_match licenseType.Aliases agr host hl.2 hl.1 hcond.2 hh hcond.1)
  · have hr : catchAllAliases licenseType.Aliases agr host = (agr, host) := by
      by_cases hmem : host.LicenseName ∈ licenseType.Aliases
      · have : agr.AvailableCount ≤ 0 := not_lt.mp fun h => hcond ⟨hmem, h⟩
        exact catchAllAliases_saturated licenseType.Aliases agr host hl.2 hl.1 (Or.inl this)
      · exact catchAllAliases_no_match licenseType.Aliases agr host hmem
    exact catchAllAgreements_single licenseTypes licenseType agr A₂ hA₂ hlt hc (agr, host) A₁
      host hA₁ (fun _ => rfl) hr

/-- The catch-all pass when the only catch-all agreement is a limited one with nothing
available: nothing changes. -/
theorem catchAll_pass_exhausted (licenseTypes : LicenseTypesMap)
    (licenseType : OracleDatabaseLicenseType) (agr : OracleDatabaseAgreementFE)
    (A₁ A₂ : List OracleDatabaseAgreementFE)
    (hA₁ : ∀ a ∈ A₁, a.CatchAll = false) (hA₂ : ∀ a ∈ A₂, a.CatchAll = false)
    (hlt : licenseTypes agr.LicenseTypeID = some licenseType) (hc : agr.CatchAll = true)
    (hl : limitedProcessor agr) (h0 : agr.AvailableCount ≤ 0) :
    ∀ hosts : List HostUsingOracleDatabaseLicenses,
      assignLicensesFromCatchAllAgreements (A₁ ++ agr :: A₂) hosts licenseTypes =
        some (A₁ ++ agr :: A₂, hosts)
  | [] => assignLicensesFromCatchAllAgreements_nil _ _
  | host :: hosts => by
    rw [assignLicensesFromCatchAllAgreements_cons,
      catchAll_pass_exhausted licenseTypes licenseType agr A₁ A₂ hA₁ hA₂ hlt hc hl h0 hosts]
    split_ifs with hpos
    · rfl
    · rw [catchAllAgreements_single_eq licenseTypes licenseType agr A₁ A₂ hA₁ hA₂ hlt hc hl
        host (not_le.mp hpos).le, if_neg (fun h => absurd h0 (not_le.mpr h.2))]
      simp only [Option.some_bind]
      rw [catchAll_pass_exhausted licenseTypes licenseType agr A₁ A₂ hA₁ hA₂ hlt hc hl h0
        hosts]
      rfl

theorem catchAll_single_order (licenseTypes : LicenseTypesMap)
    (licenseType : OracleDatabaseLicenseType)
    (A₁ A₂ : List OracleDatabaseAgreementFE)
    (hA₁ : ∀ a ∈ A₁, a.CatchAll = false) (hA₂ : ∀ a ∈ A₂, a.CatchAll = false) :
    ∀ (hosts : List HostUsingOracleDatabaseLicenses) (agr : OracleDatabaseAgreementFE),
      licenseTypes agr.LicenseTypeID = some licenseType → agr.CatchAll = true →
      limitedProcessor agr → 0 ≤ agr.AvailableCount →
      ∃ agr' hosts',
        assignLicensesFromCatchAllAgreements (A₁ ++ agr :: A₂) hosts licenseTypes =
          some (A₁ ++ agr' :: A₂, hosts') ∧
        agr' = { agr with AvailableCount := agr'.AvailableCount } ∧
        0 ≤ agr'.AvailableCount ∧
        ∀ (i : Nat) (h' : HostUsingOracleDatabaseLicenses), hosts'[i]? = some h' →
          h'.LicenseName ∈ licenseType.Aliases → 0 < h'.LicenseCount →
          agr'.AvailableCount = 0 ∧ ∀ j, i < j → hosts'[j]? = hosts[j]?
  | [], agr, _, _, _, h0 =>
    ⟨agr, [], assignLicensesFromCatchAllAgreements_nil _ _, rfl, h0,
      fun i h' hi => by simp at hi⟩
  | host :: hosts, agr, hlt, hc, hl, h0 => by
    rw [assignLicensesFromCatchAllAgreements_cons]
    have tail : ∀ (i : Nat) (h' x : HostUsingOracleDatabaseLicenses)
        (agr' : OracleDatabaseAgreementFE) (hosts' : List HostUsingOracleDatabaseLicenses),
        (∀ (i : Nat) (h' : HostUsingOracleDatabaseLicenses), hosts'[i]? = some h' →
          h'.LicenseName ∈ licenseType.Aliases → 0 < h'.LicenseCount →
          agr'.AvailableCount = 0 ∧ ∀ j, i < j → hosts'[j]? = hosts[j]?) →
        (x :: hosts')[i + 1]? = some h' →
        h'.LicenseName ∈ licenseType.Aliases → 0 < h'.LicenseCount →
        agr'.AvailableCount = 0 ∧ ∀ j, i + 1 < j → (x :: hosts')[j]? = (host :: hosts)[j]? := by
      intro i h' x agr' hosts' ih hi hmem hpos
      rw [List.getElem?_cons_succ] at hi
      obtain ⟨e0, hlater⟩ := ih i h' hi hmem hpos
      refine ⟨e0, ?_⟩
      intro j hj
      obtain ⟨j', rfl⟩ : ∃ j', j = j' + 1 := ⟨j - 1, by omega⟩
      rw [List.getElem?_cons_succ, List.getElem?_cons_succ]
      exact hlater j' (by omega)
    have unchanged : ∀ (agr0 : OracleDatabaseAgreementFE),
        licenseTypes agr0.LicenseTypeID = some licenseType → agr0.CatchAll = true →
        limitedProcessor agr0 → 0 ≤ agr0.AvailableCount →
        (host.LicenseName ∈ licenseType.Aliases → 0 < host.LicenseCount →
          agr0.AvailableCount = 0) →
        ∃ agr' hosts',
          (assignLicensesFromCatchAllAgreements (A₁ ++ agr0 :: A₂) hosts licenseTypes).map
            (fun r => (r.1, host :: r.2)) = some (A₁ ++ agr' :: A₂, hosts') ∧
          agr' = { agr0 with AvailableCount := agr'.AvailableCount } ∧
          0 ≤ agr'.AvailableCount ∧
          ∀ (i : Nat) (h' : HostUsingOracleDatabaseLicenses), hosts'[i]? = some h' →
            h'.LicenseName ∈ licenseType.Aliases → 0 < h'.LicenseCount →
            agr'.AvailableCount = 0 ∧ ∀ j, i < j → hosts'[j]? = (host :: hosts)[j]? := by
      intro agr0 hlt0 hc0 hl0 h00 hzero
      obtain ⟨agr', hosts', e, hfr, hnn, hord⟩ := catchAll_single_order licenseTypes
        licenseType A₁ A₂ hA₁ hA₂ hosts agr0 hlt0 hc0 hl0 h00
      refine ⟨agr', host :: hosts', by rw [e]; rfl, hfr, hnn, ?_⟩
      intro i h' hi hmem hpos
      cases i with
      | succ i => exact tail i h' host agr' hosts' hord hi hmem hpos
      | zero =>
        simp only [List.getElem?_cons_zero, Option.some.injEq] at hi
        subst hi
        have hz := hzero hmem hpos
        have hex := catchAll_pass_exhausted licenseTypes licenseType agr0 A₁ A₂ hA₁ hA₂ hlt0
          hc0 hl0 hz.le hosts
        rw [hex] at e
        simp only [Option.some.injEq, Prod.mk.injEq] at e
        obtain ⟨e1, e2⟩ := e
        have e3 := List.append_cancel_left e1
        simp only [List.cons.injEq, and_true] at e3
        subst e3 e2
        refine ⟨hz, ?_⟩
        intro j _
        rfl
    split_ifs with hpos
    · exact unchanged agr hlt hc hl h0 (fun _ hp => absurd hpos (not_le.mpr hp))
    · have hh : 0 ≤ host.LicenseCount := (not_le.mp hpos).le
      rw [catchAllAgreements_single_eq licenseTypes licenseType agr A₁ A₂ hA₁ hA₂ hlt hc hl
        host hh]
      split_ifs with hcond
      · simp only [Option.some_bind]
        have hl1 : limitedProcessor { agr with AvailableCount :=
              (agr.AvailableCount - min agr.AvailableCount host.LicenseCount) } := hl
        have h01 : 0 ≤ agr.AvailableCount - min agr.AvailableCount host.LicenseCount :=
          sub_nonneg.mpr (min_le_left _ _)
        obtain ⟨agr', hosts', e, hfr, hnn, hord⟩ := catchAll_single_order licenseTypes
          licenseType A₁ A₂ hA₁ hA₂ hosts
          { agr with AvailableCount :=
              (agr.AvailableCount - min agr.AvailableCount host.LicenseCount) } hlt hc hl1 h01
        refine ⟨agr',
          { host with LicenseCount :=
              (host.LicenseCount - min agr.AvailableCount host.LicenseCount) } :: hosts',
          by rw [e]; rfl, by rw [hfr], hnn, ?_⟩
        intro i h' hi hmem hpos'
        cases i with
        | succ i => exact tail i h' _ agr' hosts' hord hi hmem hpos'
        | zero =>
          simp only [List.getElem?_cons_zero, Option.some.injEq] at hi
          subst hi
          simp only at hpos'
          have hlt' : agr.AvailableCount < host.LicenseCount := by
            by_contra hn
            rw [min_eq_right (not_lt.mp hn)] at hpos'
            simp at hpos'
          have hz : agr.AvailableCount - min agr.AvailableCount host.LicenseCount = 0 := by
            rw [min_eq_left hlt'.le]
            simp
          have hex := catchAll_pass_exhausted licenseTypes licenseType
            { agr with AvailableCount :=
                (agr.AvailableCount - min agr.AvailableCount host.LicenseCount) } A₁ A₂ hA₁ hA₂
            hlt hc hl1 hz.le hosts
          rw [hex] at e
          simp only [Option.some.injEq, Prod.mk.injEq] at e
          obtain ⟨e1, e2⟩ := e
          have e3 := List.append_cancel_left e1
          simp only [List.cons.injEq, and_true] at e3
          subst e3 e2
          refine ⟨hz, ?_⟩
          intro j hj
          obtain ⟨j', rfl⟩ : ∃ j', j = j' + 1 := ⟨j - 1, by omega⟩
          rw [List.getElem?_cons_succ, List.getElem?_cons_succ]
      · simp only [Option.some_bind]
        refine unchanged agr hlt hc hl h0 ?_
        intro hmem _
        exact le_antisymm (not_lt.mp fun h => hcond ⟨hmem, h⟩) h0

/-- C26: the catch-all pass serves the hosts in the given order (the first host is served
by all the agreements before the next host) and, for each host, draws on the agreements in
the given order (a list of agreements `l₁ ++ l₂` serves the host with `l₁`, then with
`l₂`).  With the other agreements not catch-all: a host usage with `LicenseCount = h > 0`
whose license name is an alias of the license types of two limited catch-all agreements
with processor or computer metric, `P` before `Q`, with `AvailableCount` `p > 0` and
`q > 0`, debits `P` by `min p h` and `Q` by `min q (h - min p h)`; and for a single such
agreement with `AvailableCount > 0`, the pass returns and, if a host usage whose license
name is an alias is left with `LicenseCount > 0`, the agreement is left with
`AvailableCount = 0` and every host usage later in the order is returned as it was. -/
theorem catchAll_pass_order (licenseTypes : LicenseTypesMap)
    (A₁ A₂ A₃ : List OracleDatabaseAgreementFE)
    (hA₁ : ∀ a ∈ A₁, a.CatchAll = false) (hA₂ : ∀ a ∈ A₂, a.CatchAll = false)
    (hA₃ : ∀ a ∈ A₃, a.CatchAll = false) :
    (∀ (agrs : List OracleDatabaseAgreementFE) (host : HostUsingOracleDatabaseLicenses)
        (hosts : List HostUsingOracleDatabaseLicenses),
      assignLicensesFromCatchAllAgreements agrs (host :: hosts) licenseTypes =
        if host.LicenseCount ≤ 0 then
          (assignLicensesFromCatchAllAgreements agrs hosts licenseTypes).map
            (fun r => (r.1, host :: r.2))
        else
          (catchAllAgreements licenseTypes agrs host).bind fun r1 =>
            (assignLicensesFromCatchAllAgreements r1.1 hosts licenseTypes).map
              (fun r => (r.1, r1.2 :: r.2))) ∧
    (∀ (l₁ l₂ : List OracleDatabaseAgreementFE) (host : HostUsingOracleDatabaseLicenses),
      catchAllAgreements licenseTypes (l₁ ++ l₂) host =
        (catchAllAgreements licenseTypes l₁ host).bind fun r1 =>
          (catchAllAgreements licenseTypes l₂ r1.2).map fun r2 => (r1.1 ++ r2.1, r2.2)) ∧
    (∀ (P Q : OracleDatabaseAgreementFE) (licenseTypeP licenseTypeQ : OracleDatabaseLicenseType)
        (host : HostUsingOracleDatabaseLicenses),
      licenseTypes P.LicenseTypeID = some licenseTypeP →
      licenseTypes Q.LicenseTypeID = some licenseTypeQ →
      P.CatchAll = true → Q.CatchAll = true → limitedProcessor P → limitedProcessor Q →
      0 < P.AvailableCount → 0 < Q.AvailableCount → 0 < host.LicenseCount →
      host.LicenseName ∈ licenseTypeP.Aliases → host.LicenseName ∈ licenseTypeQ.Aliases →
      assignLicensesFromCatchAllAgreements (A₁ ++ P :: A₂ ++ Q :: A₃) [host] licenseTypes =
        some
          (A₁ ++ { P with AvailableCount :=
              (P.AvailableCount - min P.AvailableCount host.LicenseCount) } ::
            A₂ ++ { Q with AvailableCount :=
              (Q.AvailableCount - min Q.AvailableCount
                (host.LicenseCount - min P.AvailableCount host.LicenseCount)) } :: A₃,
           [{ host with LicenseCount :=
              (host.LicenseCount - min P.AvailableCount host.LicenseCount -
                min Q.AvailableCount
                  (host.LicenseCount - min P.AvailableCount host.LicenseCount)) }])) ∧
    (∀ (A : OracleDatabaseAgreementFE) (licenseType : OracleDatabaseLicenseType)
        (hosts : List HostUsingOracleDatabaseLicenses),
      licenseTypes A.LicenseTypeID = some licenseType → A.CatchAll = true →
      limitedProcessor A → 0 < A.AvailableCount →
      ∃ A' hosts',
        assignLicensesFromCatchAllAgreements (A₁ ++ A :: A₂) hosts licenseTypes =
          some (A₁ ++ A' :: A₂, hosts') ∧
        ∀ (i : Nat) (h' : HostUsingOracleDatabaseLicenses), hosts'[i]? = some h' →
          h'.LicenseName ∈ licenseType.Aliases → 0 < h'.LicenseCount →
          A'.AvailableCount = 0 ∧ ∀ j, i < j → hosts'[j]? = hosts[j]?) := by
  refine ⟨fun agrs host hosts =>
      assignLicensesFromCatchAllAgreements_cons agrs host hosts licenseTypes,
    catchAllAgreements_append licenseTypes, ?_, ?_⟩
  · intro P Q ltP ltQ host hltP hltQ hcP hcQ hlP hlQ hp hq hh hmP hmQ
    have hP := catchAllAgreements_single_eq licenseTypes ltP P A₁ [] hA₁ (by simp) hltP hcP
      hlP host hh.le
    rw [if_pos ⟨hmP, hp⟩] at hP
    have hh1 : 0 ≤ host.LicenseCount - min P.AvailableCount host.LicenseCount :=
      sub_nonneg.mpr (min_le_right _ _)
    have hQ := catchAllAgreements_single_eq licenseTypes ltQ Q A₂ A₃ hA₂ hA₃ hltQ hcQ hlQ
      { host with LicenseCount :=
          (host.LicenseCount - min P.AvailableCount host.LicenseCount) } hh1
    rw [if_pos ⟨hmQ, hq⟩] at hQ
    have hsplit : A₁ ++ P :: A₂ ++ Q :: A₃ = (A₁ ++ [P]) ++ (A₂ ++ Q :: A₃) := by simp
    rw [assignLicensesFromCatchAllAgreements_cons, if_neg (not_le.mpr hh), hsplit,
      catchAllAgreements_append, hP]
    simp only [Option.some_bind]
    rw [hQ]
    simp only [Option.map_some', Option.some_bind, assignLicensesFromCatchAllAgreements_nil,
      List.append_assoc, List.singleton_append, List.cons_append, List.nil_append]
  · intro A licenseType hosts hlt hc hl ha
    obtain ⟨A', hosts', e, _, _, hord⟩ := catchAll_single_order licenseTypes licenseType A₁ A₂
      hA₁ hA₂ hosts A hlt hc hl ha.le
    exact ⟨A', hosts', e, hord⟩

/-- C26 on two catch-all processor agreements with 3 and 4 licenses available and a host
usage with 5 licenses to cover: 3 are drawn from the first and 2 from the second. -/
theorem catchAll_pass_order_witness :
    assignLicensesFromCatchAllAgreements
        [⟨"A3", "L1", "", AgreementPartMetricProcessorPerpetual, false, true, 3, 3, 0, 3, []⟩,
         ⟨"A5", "L1", "", AgreementPartMetricProcessorPerpetual, false, true, 4, 4, 0, 4, []⟩]
        [⟨"L1", "gamma", "Oracle ENT", 5, 5⟩] (buildLicenseTypesMap scenarioLicenseTypes) =
      some
        ([⟨"A3", "L1", "", AgreementPartMetricProcessorPerpetual, false, true, 3, 3, 0, 0, []⟩,
          ⟨"A5", "L1", "", AgreementPartMetricProcessorPerpetual, false, true, 4, 4, 0, 2, []⟩],
         [⟨"L1", "gamma", "Oracle ENT", 0, 5⟩]) :=
  ((catchAll_pass_order (buildLicenseTypesMap scenarioLicenseTypes) [] [] []
      (by simp) (by simp) (by simp)).2.2.1
    ⟨"A3", "L1", "", AgreementPartMetricProcessorPerpetual, false, true, 3, 3, 0, 3, []⟩
    ⟨"A5", "L1", "", AgreementPartMetricProcessorPerpetual, false, true, 4, 4, 0, 4, []⟩
    sampleLicenseType sampleLicenseType ⟨"L1", "gamma", "Oracle ENT", 5, 5⟩
    (by decide!) (by decide!) rfl rfl (by decide!) (by decide!) (by decide!) (by decide!)
    (by decide!) (by decide!) (by decide!)).trans (by decide!)

/-! ## The order of the associated hosts -/

theorem maxLicenseCount_step (hosts : List HostUsingOracleDatabaseLicenses)
    (hostsMap : HostsMap) (hostname : String) (maxCount : ℚ) (aliasName : String) :
    (match hostsMap aliasName with
      | some mapHostnamesLicenses =>
        match mapHostnamesLicenses hostname with
        | some p =>
          match hosts[p]? with
          | some hostUsingLicenses => max maxCount hostUsingLicenses.LicenseCount
          | none => maxCount
        | none => maxCount
      | none => maxCount) =
    match usageRecord hosts hostsMap aliasName hostname with
    | some r => max maxCount r.LicenseCount
    | none => maxCount := by
  unfold usageRecord
  cases hostsMap aliasName with
  | none => rfl
  | some m =>
    simp only
    cases m hostname with
    | none => rfl
    | some p => rfl

theorem maxLicenseCount_foldl (hosts : List HostUsingOracleDatabaseLicenses)
    (hostsMap : HostsMap) (hostname : String) :
    ∀ (aliases : List String) (init : ℚ),
      init ≤ aliases.foldl
        (fun maxCount aliasName =>
          match usageRecord hosts hostsMap aliasName hostname with
          | some r => max maxCount r.LicenseCount
          | none => maxCount) init ∧
      (∀ aliasName ∈ aliases, ∀ r,
        usageRecord hosts hostsMap aliasName hostname = some r →
        r.LicenseCount ≤ aliases.foldl
          (fun maxCount aliasName =>
            match usageRecord hosts hostsMap aliasName hostname with
            | some r => max maxCount r.LicenseCount
            | none => maxCount) init) ∧
      (aliases.foldl
          (fun maxCount aliasName =>
            match usageRecord hosts hostsMap aliasName hostname with
            | some r => max maxCount r.LicenseCount
            | none => maxCount) init = init ∨
        ∃ aliasName ∈ aliases, ∃ r,
          usageRecord hosts hostsMap aliasName hostname = some r ∧
          r.LicenseCount = aliases.foldl
            (fun maxCount aliasName =>
              match usageRecord hosts hostsMap aliasName hostname with
              | some r => max maxCount r.LicenseCount
              | none => maxCount) init)
  | [], init => ⟨le_refl _, fun _ h => absurd h (List.not_mem_nil _), Or.inl rfl⟩
  | a :: aliases, init => by
    simp only [List.foldl_cons]
    cases hu : usageRecord hosts hostsMap a hostname with
    | none =>
      simp only
      obtain ⟨h1, h2, h3⟩ := maxLicenseCount_foldl hosts hostsMap hostname aliases init
      refine ⟨h1, ?_, ?_⟩
      · intro x hx r hr
        rw [List.mem_cons] at hx
        rcases hx with rfl | hx
        · rw [hu] at hr; cases hr
        · exact h2 x hx r hr
      · rcases h3 with h3 | ⟨x, hx, r, hr, he⟩
        · exact Or.inl h3
        · exact Or.inr ⟨x, List.mem_cons_of_mem _ hx, r, hr, he⟩
    | some r0 =>
      simp only
      obtain ⟨h1, h2, h3⟩ := maxLicenseCount_foldl hosts hostsMap hostname aliases
        (max init r0.LicenseCount)
      refine ⟨(le_max_left _ _).trans h1, ?_, ?_⟩
      · intro x hx r hr
        rw [List.mem_cons] at hx
        rcases hx with rfl | hx
        · rw [hu] at hr
          cases hr
          exact (le_max_right _ _).trans h1
        · exact h2 x hx r hr
      · rcases h3 with h3 | ⟨x, hx, r, hr, he⟩
        · rcases le_total init r0.LicenseCount with hle | hle
          · right
            refine ⟨a, List.mem_cons_self _ _, r0, hu, ?_⟩
            rw [h3, max_eq_right hle]
          · left
            rw [h3, max_eq_left hle]
        · exact Or.inr ⟨x, List.mem_cons_of_mem _ hx, r, hr, he⟩

/-- The key of `sortHostsInAgreementByLicenseCount` is the maximum of 0 and the
`LicenseCount` of the usage records the hosts map holds for the host name under the
aliases. -/
theorem maxLicenseCount_spec (hosts : List HostUsingOracleDatabaseLicenses)
    (hostsMap : HostsMap) (aliases : List String) (hostname : String) :
    0 ≤ maxLicenseCount hosts hostsMap aliases hostname ∧
    (∀ aliasName ∈ aliases, ∀ r,
      usageRecord hosts hostsMap aliasName hostname = some r →
      r.LicenseCount ≤ maxLicenseCount hosts hostsMap aliases hostname) ∧
    (maxLicenseCount hosts hostsMap aliases hostname = 0 ∨
      ∃ aliasName ∈ aliases, ∃ r,
        usageRecord hosts hostsMap aliasName hostname = some r ∧
        r.LicenseCount = maxLicenseCount hosts hostsMap aliases hostname) := by
  have h : maxLicenseCount hosts hostsMap aliases hostname =
      aliases.foldl
        (fun maxCount aliasName =>
          match usageRecord hosts hostsMap aliasName hostname with
          | some r => max maxCount r.LicenseCount
          | none => maxCount) 0 := by
    unfold maxLicenseCount
    congr 1
    funext maxCount aliasName
    exact maxLicenseCount_step hosts hostsMap hostname maxCount aliasName
  rw [h]
  exact maxLicenseCount_foldl hosts hostsMap hostname aliases 0

theorem maxLicenseCountLess_strictWeakOrder (key : OracleDatabaseAgreementAssociatedHostFE → ℚ) :
    StrictWeakOrder (fun a b => decide (key a > key b)) :=
  strictWeakOrder_of_key (fun x => -key x) _ (fun a b => by
    simp only [decide_eq_true_eq, gt_iff_lt, neg_lt_neg_iff])

/-- The associated hosts as `sortHostsInAgreementByLicenseCount` leaves them, for a known
license type: a permutation of the associated hosts ordered by non-increasing key. -/
theorem sortHostsInAgreementByLicenseCount_spec (srt : SortSlice)
    (hs : SortSliceContract srt) (agr : OracleDatabaseAgreementFE)
    (hosts : List HostUsingOracleDatabaseLicenses) (hostsMap : HostsMap)
    (licenseTypes : LicenseTypesMap) (licenseType : OracleDatabaseLicenseType)
    (hlt : licenseTypes agr.LicenseTypeID = some licenseType) :
    ∃ sortedHosts,
      sortHostsInAgreementByLicenseCount srt agr hosts hostsMap licenseTypes =
        some { agr with Hosts := sortedHosts } ∧
      sortedHosts.Perm agr.Hosts ∧
      sortedHosts.Pairwise (fun x y =>
        maxLicenseCount hosts hostsMap licenseType.Aliases y.Hostname ≤
          maxLicenseCount hosts hostsMap licenseType.Aliases x.Hostname) := by
  unfold sortHostsInAgreementByLicenseCount
  rw [hlt]
  refine ⟨_, rfl, hs.perm _ _ _, ?_⟩
  have := hs.sorted _ (fun a b : OracleDatabaseAgreementAssociatedHostFE =>
    decide (maxLicenseCount hosts hostsMap licenseType.Aliases a.Hostname >
      maxLicenseCount hosts hostsMap licenseType.Aliases b.Hostname)) agr.Hosts
    (maxLicenseCountLess_strictWeakOrder fun x =>
      maxLicenseCount hosts hostsMap licenseType.Aliases x.Hostname)
  refine this.imp ?_
  intro x y hxy
  simpa using hxy


/-- The loop over the aliases for an associated host all of whose pointers are `p` changes
nothing when the limited agreement is exhausted or the usage record at `p` has nothing left
to cover. -/
theorem assignToAliases_noop (hostsMap : HostsMap) (p : Nat)
    (r : HostUsingOracleDatabaseLicenses) :
    ∀ (aliases : List String) (agreement : OracleDatabaseAgreementFE)
      (associatedHost : OracleDatabaseAgreementAssociatedHostFE)
      (hosts : List HostUsingOracleDatabaseLicenses),
      (∀ aliasName ∈ aliases, ∀ q,
        keysLookup hostsMap aliasName associatedHost.Hostname = some q → q = p) →
      hosts[p]? = some r → agreement.Unlimited = false →
      (agreement.AvailableCount ≤ 0 ∨ r.LicenseCount ≤ 0) →
      assignToAliases hostsMap aliases agreement associatedHost hosts =
        (agreement, associatedHost, hosts)
  | [], _, _, _, _, _, _, _ => rfl
  | aliasName :: aliases, agreement, associatedHost, hosts, hall, hp, hu, hz => by
    have ih := assignToAliases_noop hostsMap p r aliases agreement associatedHost hosts
      (fun a ha => hall a (List.mem_cons_of_mem _ ha)) hp hu hz
    unfold assignToAliases
    split_ifs with hcap
    · rfl
    · have hr : r.LicenseCount ≤ 0 := by
        rcases hz with hz | hz
        · exact absurd ⟨hz, hu⟩ hcap
        · exact hz
      split
      · exact ih
      · rename_i m hm1
        split
        · exact ih
        · rename_i q hq
          have hqp : q = p := hall aliasName (List.mem_cons_self _ _) q
            (by simp only [keysLookup, hm1, hq])
          subst hqp
          rw [hp]
          simp only [if_pos hr]
          exact ih

/-- The loop over the aliases for an associated host all of whose pointers are `p`, with a
limited processor agreement with `AvailableCount > 0` and a usage record with
`LicenseCount > 0`: one step at `p`. -/
theorem assignToAliases_one_pointer (hostsMap : HostsMap) (p : Nat)
    (r : HostUsingOracleDatabaseLicenses) :
    ∀ (aliases : List String) (agreement : OracleDatabaseAgreementFE)
      (associatedHost : OracleDatabaseAgreementAssociatedHostFE)
      (hosts : List HostUsingOracleDatabaseLicenses),
      (∀ aliasName ∈ aliases, ∀ q,
        keysLookup hostsMap aliasName associatedHost.Hostname = some q → q = p) →
      (∃ aliasName ∈ aliases,
        keysLookup hostsMap aliasName associatedHost.Hostname = some p) →
      hosts[p]? = some r → limitedProcessor agreement →
      0 < agreement.AvailableCount → 0 < r.LicenseCount →
      assignToAliases hostsMap aliases agreement associatedHost hosts =
        ({ agreement with AvailableCount :=
            (agreement.AvailableCount - min agreement.AvailableCount r.LicenseCount) },
         { associatedHost with CoveredLicensesCount :=
            (associatedHost.CoveredLicensesCount +
              min agreement.AvailableCount r.LicenseCount) },
         hosts.set p { r with LicenseCount :=
            (r.LicenseCount - min agreement.AvailableCount r.LicenseCount) })
  | [], _, _, _, _, hex, _, _, _, _ => by
    obtain ⟨a, ha, _⟩ := hex
    cases ha
  | aliasName :: aliases, agreement, associatedHost, hosts, hall, hex, hp, hl, ha, hr => by
    have hall' : ∀ a ∈ aliases, ∀ q,
        keysLookup hostsMap a associatedHost.Hostname = some q → q = p :=
      fun a ha => hall a (List.mem_cons_of_mem _ ha)
    have ih : keysLookup hostsMap aliasName associatedHost.Hostname = none →
        assignToAliases hostsMap aliases agreement associatedHost hosts = _ := fun hnone =>
      assignToAliases_one_pointer hostsMap p r aliases agreement associatedHost hosts hall'
        (by
          obtain ⟨a, ha', hk⟩ := hex
          rw [List.mem_cons] at ha'
          rcases ha' with rfl | ha'
          · rw [hnone] at hk; cases hk
          · exact ⟨a, ha', hk⟩) hp hl ha hr
    have hplen : p < hosts.length := by
      rw [List.getElem?_eq_some_iff] at hp
      exact hp.1
    unfold assignToAliases
    rw [if_neg (fun hcap => absurd hcap.1 (not_le.mpr ha))]
    split
    · rename_i hnone
      exact ih (by simp only [keysLookup, hnone])
    · rename_i m hm1
      split
      · rename_i hnone
        exact ih (by simp only [keysLookup, hm1, hnone])
      · rename_i q hq
        have hqp : q = p := hall aliasName (List.mem_cons_self _ _) q
          (by simp only [keysLookup, hm1, hq])
        subst hqp
        rw [hp]
        simp only [if_neg (not_le.mpr hr)]
        have hstep := doAssign_processor_limited agreement r associatedHost hl.2 hl.1
        rw [hstep]
        simp only
        apply assignToAliases_noop hostsMap q
          { r with LicenseCount :=
              (r.LicenseCount - min agreement.AvailableCount r.LicenseCount) }
        · exact hall'
        · exact List.getElem?_set_self hplen
        · exact hl.1
        · simp only
          rcases le_total agreement.AvailableCount r.LicenseCount with h | h
          · left; rw [min_eq_left h]; simp
          · right; rw [min_eq_right h]; simp


theorem maxLicenseCount_one_pointer (hosts : List HostUsingOracleDatabaseLicenses)
    (hostsMap : HostsMap) (aliases : List String) (hostname : String) (p : Nat)
    (r : HostUsingOracleDatabaseLicenses)
    (hall : ∀ aliasName ∈ aliases, ∀ q,
      keysLookup hostsMap aliasName hostname = some q → q = p)
    (hex : ∃ aliasName ∈ aliases, keysLookup hostsMap aliasName hostname = some p)
    (hp : hosts[p]? = some r) (hr : 0 ≤ r.LicenseCount) :
    maxLicenseCount hosts hostsMap aliases hostname = r.LicenseCount := by
  obtain ⟨_, h2, h3⟩ := maxLicenseCount_spec hosts hostsMap aliases hostname
  have hrec : ∀ aliasName ∈ aliases, ∀ r',
      usageRecord hosts hostsMap aliasName hostname = some r' → r' = r := by
    intro a ha r' hu
    rw [usageRecord_eq] at hu
    cases hk : keysLookup hostsMap a hostname with
    | none => rw [hk] at hu; cases hu
    | some q =>
      rw [hk] at hu
      simp only [Option.some_bind] at hu
      rw [hall a ha q hk, hp] at hu
      exact (Option.some.inj hu).symm
  obtain ⟨a, ha, hk⟩ := hex
  have hu : usageRecord hosts hostsMap a hostname = some r := by
    rw [usageRecord_eq, hk]
    exact hp
  have hle := h2 a ha r hu
  rcases h3 with h0 | ⟨b, hb, r', hr', he⟩
  · rw [h0] at hle ⊢
    exact (le_antisymm hle hr).symm
  · rw [← he, hrec b hb r' hr']

/-- The turn in the direct pass of a limited processor agreement with two associated hosts
whose usage records have `LicenseCount` `h1 > h2 > 0`, with `h1 ≤ AvailableCount < h1 + h2`:
whatever the order of the two associated hosts, the first record is fully covered and the
second is left with `h1 + h2 - AvailableCount`. -/
theorem assignAgreementLicenses_two_hosts (srt : SortSlice) (hs : SortSliceContract srt)
    (hostsMap : HostsMap) (licenseTypes : LicenseTypesMap)
    (licenseType : OracleDatabaseLicenseType) (agr : OracleDatabaseAgreementFE)
    (hosts : List HostUsingOracleDatabaseLicenses)
    (X1 X2 : OracleDatabaseAgreementAssociatedHostFE) (p1 p2 : Nat)
    (r1 r2 : HostUsingOracleDatabaseLicenses)
    (hlt : licenseTypes agr.LicenseTypeID = some licenseType)
    (hl : limitedProcessor agr) (hperm : agr.Hosts.Perm [X1, X2]) (hne : p1 ≠ p2)
    (hp1 : hosts[p1]? = some r1) (hp2 : hosts[p2]? = some r2)
    (hall1 : ∀ aliasName ∈ licenseType.Aliases, ∀ q,
      keysLookup hostsMap aliasName X1.Hostname = some q → q = p1)
    (hex1 : ∃ aliasName ∈ licenseType.Aliases,
      keysLookup hostsMap aliasName X1.Hostname = some p1)
    (hall2 : ∀ aliasName ∈ licenseType.Aliases, ∀ q,
      keysLookup hostsMap aliasName X2.Hostname = some q → q = p2)
    (hex2 : ∃ aliasName ∈ licenseType.Aliases,
      keysLookup hostsMap aliasName X2.Hostname = some p2)
    (h2pos : 0 < r2.LicenseCount) (h12 : r2.LicenseCount < r1.LicenseCount)
    (ha1 : r1.LicenseCount ≤ agr.AvailableCount)
    (ha2 : agr.AvailableCount < r1.LicenseCount + r2.LicenseCount) :
    ∃ agr' hosts',
      assignAgreementLicenses srt hostsMap licenseTypes agr hosts = some (agr', hosts') ∧
      agr'.AvailableCount = 0 ∧
      (∃ r1', hosts'[p1]? = some r1' ∧ r1'.LicenseCount = 0) ∧
      (∃ r2', hosts'[p2]? = some r2' ∧
        r2'.LicenseCount = r1.LicenseCount + r2.LicenseCount - agr.AvailableCount) ∧
      ∀ q, q ≠ p1 → q ≠ p2 → hosts'[q]? = hosts[q]? := by
  have h1pos : 0 < r1.LicenseCount := h2pos.trans h12
  have hk1 := maxLicenseCount_one_pointer hosts hostsMap licenseType.Aliases X1.Hostname p1
    r1 hall1 hex1 hp1 h1pos.le
  have hk2 := maxLicenseCount_one_pointer hosts hostsMap licenseType.Aliases X2.Hostname p2
    r2 hall2 hex2 hp2 h2pos.le
  -- the associated hosts are sorted as X1, X2
  have hless12 : decide (maxLicenseCount hosts hostsMap licenseType.Aliases X1.Hostname >
      maxLicenseCount hosts hostsMap licenseType.Aliases X2.Hostname) = true := by
    rw [hk1, hk2]
    exact decide_eq_true h12
  have hless21 : decide (maxLicenseCount hosts hostsMap licenseType.Aliases X2.Hostname >
      maxLicenseCount hosts hostsMap licenseType.Aliases X1.Hostname) = false := by
    rw [hk1, hk2]
    exact decide_eq_false (not_lt.mpr h12.le)
  have hsorted : srt _
      (fun a b : OracleDatabaseAgreementAssociatedHostFE =>
        decide (maxLicenseCount hosts hostsMap licenseType.Aliases a.Hostname >
          maxLicenseCount hosts hostsMap licenseType.Aliases b.Hostname))
      agr.Hosts = [X1, X2] := by
    refine (sorted_perm_unique _ [X1, X2] _ ((hs.perm _ _ _).trans hperm).symm ?_
      (hs.sorted _ _ agr.Hosts (maxLicenseCountLess_strictWeakOrder fun x =>
        maxLicenseCount hosts hostsMap licenseType.Aliases x.Hostname)) ?_).symm
    · simp only [List.pairwise_cons, List.mem_singleton, forall_eq, List.not_mem_nil,
        false_implies, implies_true, List.Pairwise.nil, and_true]
      exact hless21
    · intro a ha b hb hab hba
      simp only [List.mem_cons, List.mem_singleton, List.not_mem_nil, or_false] at ha hb
      rcases ha with rfl | rfl <;> rcases hb with rfl | rfl
      · rfl
      · rw [hless12] at hab; cases hab
      · rw [hless12] at hba; cases hba
      · rfl
  have hplen1 : p1 < hosts.length := by
    rw [List.getElem?_eq_some_iff] at hp1
    exact hp1.1
  have hplen2 : p2 < hosts.length := by
    rw [List.getElem?_eq_some_iff] at hp2
    exact hp2.1
  have hmin1 : min agr.AvailableCount r1.LicenseCount = r1.LicenseCount := min_eq_right ha1
  -- the turn of X1
  have hstep1 := assignToAliases_one_pointer hostsMap p1 r1 licenseType.Aliases
    { agr with Hosts := [X1, X2] } X1 hosts hall1 hex1 hp1 hl (h1pos.trans_le ha1) h1pos
  simp only [hmin1, sub_self] at hstep1
  unfold assignAgreementLicenses sortHostsInAgreementByLicenseCount
  rw [hlt]
  simp only [hsorted]
  unfold assignToAssociatedHosts
  simp only [hlt, hstep1]
  by_cases hexh : agr.AvailableCount - r1.LicenseCount ≤ 0
  · -- nothing is left for X2
    have heq : agr.AvailableCount = r1.LicenseCount := le_antisymm (by linarith) ha1
    rw [if_pos ⟨hexh, hl.1⟩]
    refine ⟨_, _, rfl, ?_, ⟨_, List.getElem?_set_self hplen1, rfl⟩, ⟨r2, ?_, ?_⟩, ?_⟩
    · simp only
      linarith
    · rw [List.getElem?_set_ne hne]
      exact hp2
    · rw [heq]
      ring
    · intro q hq1 _
      rw [List.getElem?_set_ne (Ne.symm hq1)]
  · rw [if_neg (fun h => hexh h.1)]
    have hp2' : (hosts.set p1 { r1 with LicenseCount := 0 })[p2]? = some r2 := by
      rw [List.getElem?_set_ne hne]
      exact hp2
    have hl1 : limitedProcessor
        { agr with AvailableCount := (agr.AvailableCount - r1.LicenseCount),
                   Hosts := [X1, X2] } := hl
    have hstep2 := assignToAliases_one_pointer hostsMap p2 r2 licenseType.Aliases
      { agr with AvailableCount := (agr.AvailableCount - r1.LicenseCount),
                 Hosts := [X1, X2] } X2
      (hosts.set p1 { r1 with LicenseCount := 0 }) hall2 hex2 hp2' hl1
      (not_le.mp hexh) h2pos
    have hmin2 : min (agr.AvailableCount - r1.LicenseCount) r2.LicenseCount =
        agr.AvailableCount - r1.LicenseCount := min_eq_left (by linarith)
    simp only [hmin2, sub_self] at hstep2
    unfold assignToAssociatedHosts
    simp only [hlt, hstep2]
    have hlen' : p2 < (hosts.set p1 { r1 with LicenseCount := 0 }).length := by
      rw [List.length_set]
      exact hplen2
    rw [if_pos ⟨le_refl _, hl.1⟩]
    refine ⟨_, _, rfl, rfl, ⟨{ r1 with LicenseCount := 0 }, ?_, rfl⟩,
      ⟨_, List.getElem?_set_self hlen', ?_⟩, ?_⟩
    · rw [List.getElem?_set_ne (Ne.symm hne)]
      exact List.getElem?_set_self hplen1
    · simp only
      ring
    · intro q hq1 hq2
      rw [List.getElem?_set_ne (Ne.symm hq2), List.getElem?_set_ne (Ne.symm hq1)]


/-- C25: for a known license type, `sortHostsInAgreementByLicenseCount` returns the
agreement with its associated hosts permuted and ordered by non-increasing key; the key of
a host is at least 0, at least the `LicenseCount` of each of its usage records under the
aliases of the license type, and equal to 0 or to one of them. Consequently, in the turn
of a limited processor agreement whose associated hosts are `X1` and `X2` in either order,
with usage records `r1` and `r2` such that `r1.LicenseCount > r2.LicenseCount > 0` and
`r1.LicenseCount ≤ AvailableCount < r1.LicenseCount + r2.LicenseCount`, the record of `X1`
ends with `LicenseCount = 0`, the record of `X2` with
`r1.LicenseCount + r2.LicenseCount - AvailableCount`, and the agreement is exhausted. -/
theorem hosts_in_agreement_served_by_license_count (srt : SortSlice)
    (hs : SortSliceContract srt) (hostsMap : HostsMap) (licenseTypes : LicenseTypesMap)
    (licenseType : OracleDatabaseLicenseType) (agr : OracleDatabaseAgreementFE)
    (hosts : List HostUsingOracleDatabaseLicenses)
    (hlt : licenseTypes agr.LicenseTypeID = some licenseType) :
    (∃ sortedHosts,
      sortHostsInAgreementByLicenseCount srt agr hosts hostsMap licenseTypes =
        some { agr with Hosts := sortedHosts } ∧
      sortedHosts.Perm agr.Hosts ∧
      sortedHosts.Pairwise (fun x y =>
        maxLicenseCount hosts hostsMap licenseType.Aliases y.Hostname ≤
          maxLicenseCount hosts hostsMap licenseType.Aliases x.Hostname)) ∧
    (∀ hostname : String,
      0 ≤ maxLicenseCount hosts hostsMap licenseType.Aliases hostname ∧
      (∀ aliasName ∈ licenseType.Aliases, ∀ r : HostUsingOracleDatabaseLicenses,
        usageRecord hosts hostsMap aliasName hostname = some r →
        r.LicenseCount ≤ maxLicenseCount hosts hostsMap licenseType.Aliases hostname) ∧
      (maxLicenseCount hosts hostsMap licenseType.Aliases hostname = 0 ∨
        ∃ aliasName ∈ licenseType.Aliases, ∃ r : HostUsingOracleDatabaseLicenses,
          usageRecord hosts hostsMap aliasName hostname = some r ∧
          r.LicenseCount = maxLicenseCount hosts hostsMap licenseType.Aliases hostname)) ∧
    (∀ (X1 X2 : OracleDatabaseAgreementAssociatedHostFE) (p1 p2 : Nat)
        (r1 r2 : HostUsingOracleDatabaseLicenses),
      agr.Unlimited = false →
      (agr.Metric = AgreementPartMetricProcessorPerpetual ∨
        agr.Metric = AgreementPartMetricComputerPerpetual) →
      (agr.Hosts = [X1, X2] ∨ agr.Hosts = [X2, X1]) →
      p1 ≠ p2 → hosts[p1]? = some r1 → hosts[p2]? = some r2 →
      (∀ aliasName ∈ licenseType.Aliases,
        keysLookup hostsMap aliasName X1.Hostname = none ∨
          keysLookup hostsMap aliasName X1.Hostname = some p1) →
      (∃ aliasName ∈ licenseType.Aliases,
        keysLookup hostsMap aliasName X1.Hostname = some p1) →
      (∀ aliasName ∈ licenseType.Aliases,
        keysLookup hostsMap aliasName X2.Hostname = none ∨
          keysLookup hostsMap aliasName X2.Hostname = some p2) →
      (∃ aliasName ∈ licenseType.Aliases,
        keysLookup hostsMap aliasName X2.Hostname = some p2) →
      0 < r2.LicenseCount → r2.LicenseCount < r1.LicenseCount →
      r1.LicenseCount ≤ agr.AvailableCount →
      agr.AvailableCount < r1.LicenseCount + r2.LicenseCount →
      ∃ agr' hosts',
        assignAgreementLicenses srt hostsMap licenseTypes agr hosts = some (agr', hosts') ∧
        agr'.AvailableCount = 0 ∧
        (∃ r1', hosts'[p1]? = some r1' ∧ r1'.LicenseCount = 0) ∧
        (∃ r2', hosts'[p2]? = some r2' ∧
          r2'.LicenseCount = r1.LicenseCount + r2.LicenseCount - agr.AvailableCount) ∧
        ∀ q, q ≠ p1 → q ≠ p2 → hosts'[q]? = hosts[q]?) := by
  refine ⟨sortHostsInAgreementByLicenseCount_spec srt hs agr hosts hostsMap licenseTypes
    licenseType hlt, fun hostname => maxLicenseCount_spec hosts hostsMap licenseType.Aliases
    hostname, ?_⟩
  intro X1 X2 p1 p2 r1 r2 hu hm hord hne hp1 hp2 hall1 hex1 hall2 hex2 h2pos h12 ha1 ha2
  have hperm : agr.Hosts.Perm [X1, X2] := by
    rcases hord with h | h
    · rw [h]
    · rw [h]
      exact List.Perm.swap X1 X2 []
  have conv : ∀ (hostname : String) (p : Nat),
      (∀ aliasName ∈ licenseType.Aliases,
        keysLookup hostsMap aliasName hostname = none ∨
          keysLookup hostsMap aliasName hostname = some p) →
      ∀ aliasName ∈ licenseType.Aliases, ∀ q,
        keysLookup hostsMap aliasName hostname = some q → q = p := by
    intro hostname p h a ha q hq
    rcases h a ha with hn | hsome
    · rw [hn] at hq
      cases hq
    · rw [hsome] at hq
      exact (Option.some.inj hq).symm
  exact assignAgreementLicenses_two_hosts srt hs hostsMap licenseTypes licenseType agr hosts
    X1 X2 p1 p2 r1 r2 hlt ⟨hu, hm⟩ hperm hne hp1 hp2 (conv _ _ hall1) hex1 (conv _ _ hall2)
    hex2 h2pos h12 ha1 ha2

theorem hosts_in_agreement_served_by_license_count_witness :
    SortSliceContract insertionSortSlice ∧
    buildLicenseTypesMap scenarioLicenseTypes sampleTwoHostsAgreement.LicenseTypeID =
      some sampleLicenseType ∧
    ∃ agr' hosts',
      assignAgreementLicenses insertionSortSlice (buildHostUsingLicensesMap sampleTwoHosts)
        (buildLicenseTypesMap scenarioLicenseTypes) sampleTwoHostsAgreement sampleTwoHosts =
        some (agr', hosts') ∧
      agr'.AvailableCount = 0 ∧
      (∃ r1', hosts'[1]? = some r1' ∧ r1'.LicenseCount = 0) ∧
      (∃ r2', hosts'[0]? = some r2' ∧ r2'.LicenseCount = 4 + 2 - 5) ∧
      ∀ q, q ≠ 1 → q ≠ 0 → hosts'[q]? = sampleTwoHosts[q]? :=
  ⟨insertionSortSlice_contract, by decide!,
    (hosts_in_agreement_served_by_license_count insertionSortSlice
      insertionSortSlice_contract (buildHostUsingLicensesMap sampleTwoHosts)
      (buildLicenseTypesMap scenarioLicenseTypes) sampleLicenseType sampleTwoHostsAgreement
      sampleTwoHosts (by decide!)).2.2 ⟨"beta", 0, 0, 0⟩ ⟨"alpha", 0, 0, 0⟩ 1 0
      ⟨"L1", "beta", "Oracle ENT", 4, 4⟩ ⟨"L1", "alpha", "Oracle EXE", 2, 2⟩
      (by decide!) (by decide!) (by decide!) (by decide!) (by decide!) (by decide!)
      (by decide!) (by decide!) (by decide!) (by decide!) (by decide!) (by decide!)
      (by decide!) (by decide!)⟩

/-! ## The anomaly on a consistent snapshot -/

/-- A catch-all step of an agreement with processor or computer metric that leaves
capacity has covered the host fully. -/
theorem catchAllStep_spent (agr : OracleDatabaseAgreementFE)
    (host : HostUsingOracleDatabaseLicenses)
    (hm : agr.Metric = AgreementPartMetricProcessorPerpetual ∨
      agr.Metric = AgreementPartMetricComputerPerpetual)
    (hpos : 0 < (doAssignLicenseFromCatchAllAgreement agr host).1.AvailableCount) :
    (doAssignLicenseFromCatchAllAgreement agr host).2.LicenseCount = 0 := by
  unfold doAssignLicenseFromCatchAllAgreement at hpos ⊢
  rw [if_pos hm] at hpos ⊢
  split_ifs at hpos ⊢ with hu
  · simp
  · simp only at hpos ⊢
    rcases le_total agr.AvailableCount host.LicenseCount with h | h
    · rw [min_eq_left h, sub_self] at hpos
      exact absurd hpos (lt_irrefl _)
    · rw [min_eq_right h, sub_self]

/-- The catch-all loop over the aliases of an agreement with processor or computer metric,
for a host whose license name is one of the aliases: if the agreement is left with
capacity, the host is fully covered. -/
theorem catchAllAliases_spent :
    ∀ (aliases : List String) (agr : OracleDatabaseAgreementFE)
      (host : HostUsingOracleDatabaseLicenses),
      (agr.Metric = AgreementPartMetricProcessorPerpetual ∨
        agr.Metric = AgreementPartMetricComputerPerpetual) →
      0 ≤ agr.AvailableCount → 0 ≤ host.LicenseCount →
      (host.LicenseName ∈ aliases ∨ host.LicenseCount = 0) →
      0 < (catchAllAliases aliases agr host).1.AvailableCount →
      (catchAllAliases aliases agr host).2.LicenseCount = 0
  | [], agr, host, _, _, _, hmem, _ => by
    rcases hmem with h | h
    · cases h
    · exact h
  | aliasName :: aliases, agr, host, hm, h0, hh, hmem, hpos => by
    unfold catchAllAliases at hpos ⊢
    split_ifs at hpos ⊢ with hcap hne
    · exact absurd hpos (not_lt.mpr hcap.1)
    · refine catchAllAliases_spent aliases agr host hm h0 hh ?_ hpos
      rcases hmem with h | h
      · rw [List.mem_cons] at h
        exact Or.inl (h.resolve_left hne)
      · exact Or.inr h
    · simp only at hpos ⊢
      have hfa := catchAllStep_agreement_frame agr host
      have hav := catchAllStep_available agr host hh hcap h0
      have hhb := catchAllStep_host_bounds agr host hh hcap
      have hm1 : (doAssignLicenseFromCatchAllAgreement agr host).1.Metric =
            AgreementPartMetricProcessorPerpetual ∨
          (doAssignLicenseFromCatchAllAgreement agr host).1.Metric =
            AgreementPartMetricComputerPerpetual := by
        rw [hfa]
        exact hm
      have hspec := catchAllAliases_spec aliases
        (doAssignLicenseFromCatchAllAgreement agr host).1
        (doAssignLicenseFromCatchAllAgreement agr host).2 hhb.1
      have hpos1 : 0 < (doAssignLicenseFromCatchAllAgreement agr host).1.AvailableCount :=
        hpos.trans_le (hspec.2.2 hav.1).2
      exact catchAllAliases_spent aliases _ _ hm1 hav.1 hhb.1
        (Or.inr (catchAllStep_spent agr host hm hpos1)) hpos

/-- The catch-all loop over the agreements for one host: a catch-all agreement with
processor or computer metric that is left with capacity, and whose license type has the
license name of the host among its aliases, leaves the host fully covered. -/
theorem catchAllAgreements_spent (licenseTypes : LicenseTypesMap) :
    ∀ (agrs agrs' : List OracleDatabaseAgreementFE)
      (host host' : HostUsingOracleDatabaseLicenses), 0 ≤ host.LicenseCount →
      catchAllAgreements licenseTypes agrs host = some (agrs', host') →
      List.Forall₂
        (fun a a' => a.CatchAll = true →
          (a.Metric = AgreementPartMetricProcessorPerpetual ∨
            a.Metric = AgreementPartMetricComputerPerpetual) →
          0 ≤ a.AvailableCount →
          ∀ licenseType, licenseTypes a.LicenseTypeID = some licenseType →
          host.LicenseName ∈ licenseType.Aliases →
          0 < a'.AvailableCount → host'.LicenseCount = 0)
        agrs agrs'
  | [], agrs', host, host', _, h => by
    simp only [catchAllAgreements, Option.some.injEq, Prod.mk.injEq] at h
    obtain ⟨rfl, rfl⟩ := h
    exact List.Forall₂.nil
  | agr :: agrs, agrs', host, host', hh, h => by
    unfold catchAllAgreements at h
    have skip : (agr.CatchAll = false ∨ (agr.AvailableCount ≤ 0 ∧ agr.Unlimited = false)) →
        ∀ (r : Option (List OracleDatabaseAgreementFE × HostUsingOracleDatabaseLicenses)),
        r = catchAllAgreements licenseTypes agrs host →
        (match r with
          | none => none
          | some (agrs', host') => some (agr :: agrs', host')) = some (agrs', host') →
        List.Forall₂
          (fun a a' => a.CatchAll = true →
            (a.Metric = AgreementPartMetricProcessorPerpetual ∨
              a.Metric = AgreementPartMetricComputerPerpetual) →
            0 ≤ a.AvailableCount →
            ∀ licenseType, licenseTypes a.LicenseTypeID = some licenseType →
            host.LicenseName ∈ licenseType.Aliases →
            0 < a'.AvailableCount → host'.LicenseCount = 0)
          (agr :: agrs) agrs' := by
      intro hskip r hr h
      cases r with
      | none => cases h
      | some r =>
        obtain ⟨agrs1, host1⟩ := r
        simp only [Option.some.injEq, Prod.mk.injEq] at h
        obtain ⟨rfl, rfl⟩ := h
        refine List.Forall₂.cons ?_
          (catchAllAgreements_spent licenseTypes agrs agrs1 host host1 hh hr.symm)
        intro hca _ _ _ _ _ hpos
        rcases hskip with hs | hs
        · rw [hs] at hca
          cases hca
        · exact absurd hpos (not_lt.mpr hs.1)
    split_ifs at h with hca hcap
    · exact skip (Or.inl hca) _ rfl h
    · exact skip (Or.inr hcap) _ rfl h
    · cases hlt : licenseTypes agr.LicenseTypeID with
      | none => rw [hlt] at h; cases h
      | some licenseType =>
        rw [hlt] at h
        simp only at h
        obtain ⟨_, s2, _⟩ := catchAllAliases_spec licenseType.Aliases agr host hh
        cases hr : catchAllAgreements licenseTypes agrs
            (catchAllAliases licenseType.Aliases agr host).2 with
        | none => rw [hr] at h; cases h
        | some r =>
          obtain ⟨agrs1, host1⟩ := r
          rw [hr] at h
          simp only [Option.some.injEq, Prod.mk.injEq] at h
          obtain ⟨rfl, rfl⟩ := h
          obtain ⟨_, h2, _⟩ := catchAllAgreements_some licenseTypes agrs agrs1 _ host1
            (s2.2.2 hh) hr
          have hln : (catchAllAliases licenseType.Aliases agr host).2.LicenseName =
              host.LicenseName := by
            rw [s2.1]
          refine List.Forall₂.cons ?_ ?_
          · intro _ hm h0 lt' hlt' hmem hpos
            rw [hlt] at hlt'
            cases hlt'
            have hz := catchAllAliases_spent licenseType.Aliases agr host hm h0 hh
              (Or.inl hmem) hpos
            have h1 := h2.2.1
            have h3 := h2.2.2 (s2.2.2 hh)
            rw [hz] at h1
            exact le_antisymm h1 h3
          · have ih := catchAllAgreements_spent licenseTypes agrs agrs1 _ host1
              (s2.2.2 hh) hr
            rw [hln] at ih
            exact ih

theorem agreementDrawn_fields {a a' : OracleDatabaseAgreementFE} (h : agreementDrawn a a') :
    a'.CatchAll = a.CatchAll ∧ a'.Metric = a.Metric ∧ a'.LicenseTypeID = a.LicenseTypeID ∧
    a'.Unlimited = a.Unlimited ∧ a'.Hosts = a.Hosts := by
  refine ⟨?_, ?_, ?_, ?_, ?_⟩ <;> rw [h.1]

/-- After the catch-all pass, a catch-all agreement with processor or computer metric that
started with `AvailableCount ≥ 0` and is left with capacity has every host usage under an
alias of its license type fully covered. -/
theorem assignLicensesFromCatchAllAgreements_spent (licenseTypes : LicenseTypesMap) :
    ∀ (hosts hosts' : List HostUsingOracleDatabaseLicenses)
      (agrs agrs' : List OracleDatabaseAgreementFE),
      (∀ h ∈ hosts, 0 ≤ h.LicenseCount) →
      assignLicensesFromCatchAllAgreements agrs hosts licenseTypes = some (agrs', hosts') →
      List.Forall₂
        (fun a a' => a.CatchAll = true →
          (a.Metric = AgreementPartMetricProcessorPerpetual ∨
            a.Metric = AgreementPartMetricComputerPerpetual) →
          0 ≤ a.AvailableCount →
          ∀ licenseType, licenseTypes a.LicenseTypeID = some licenseType →
          0 < a'.AvailableCount →
          ∀ h' ∈ hosts', h'.LicenseName ∈ licenseType.Aliases → h'.LicenseCount = 0)
        agrs agrs'
  | [], hosts', agrs, agrs', _, h => by
    have : assignLicensesFromCatchAllAgreements agrs [] licenseTypes = some (agrs, []) := by
      unfold assignLicensesFromCatchAllAgreements; rfl
    rw [this] at h
    simp only [Option.some.injEq, Prod.mk.injEq] at h
    obtain ⟨rfl, rfl⟩ := h
    refine (forall₂_agreementDrawn_refl agrs).imp ?_
    intro a b _ _ _ _ _ _ _ h' hh'
    cases hh'
  | host :: hosts, hosts', agrs, agrs', hnn, h => by
    have hnn' : ∀ h ∈ hosts, 0 ≤ h.LicenseCount :=
      fun x hx => hnn x (List.mem_cons_of_mem _ hx)
    have hh : 0 ≤ host.LicenseCount := hnn host (List.mem_cons_self _ _)
    unfold assignLicensesFromCatchAllAgreements at h
    split_ifs at h with hpos
    · cases hr : assignLicensesFromCatchAllAgreements agrs hosts licenseTypes with
      | none => rw [hr] at h; cases h
      | some r =>
        obtain ⟨agrs1, hosts1⟩ := r
        rw [hr] at h
        simp only [Option.some.injEq, Prod.mk.injEq] at h
        obtain ⟨rfl, rfl⟩ := h
        refine (assignLicensesFromCatchAllAgreements_spent licenseTypes hosts hosts1 agrs
          agrs1 hnn' hr).imp ?_
        intro a a' ih hca hm h0 lt hlt hp h' hh' hmem
        rw [List.mem_cons] at hh'
        rcases hh' with rfl | hh'
        · exact le_antisymm hpos hh
        · exact ih hca hm h0 lt hlt hp h' hh' hmem
    · cases hc : catchAllAgreements licenseTypes agrs host with
      | none => rw [hc] at h; cases h
      | some c =>
        obtain ⟨agrsC, hostC⟩ := c
        rw [hc] at h
        simp only at h
        cases hr : assignLicensesFromCatchAllAgreements agrsC hosts licenseTypes with
        | none => rw [hr] at h; cases h
        | some r =>
          obtain ⟨agrs1, hosts1⟩ := r
          rw [hr] at h
          simp only [Option.some.injEq, Prod.mk.injEq] at h
          obtain ⟨rfl, rfl⟩ := h
          obtain ⟨c1, c2, _⟩ := catchAllAgreements_some licenseTypes agrs agrsC host hostC
            hh hc
          have c4 := catchAllAgreements_spent licenseTypes agrs agrsC host hostC hh hc
          obtain ⟨h1, _⟩ := assignLicensesFromCatchAllAgreements_some licenseTypes hosts
            hosts1 agrsC agrs1 hr
          have ih := assignLicensesFromCatchAllAgreements_spent licenseTypes hosts hosts1
            agrsC agrs1 hnn' hr
          refine (forall₂_comp (forall₂_conj c1 c4) (forall₂_conj h1 ih)).imp ?_
          rintro a a' ⟨aC, ⟨d1, s1⟩, d2, s2⟩ hca hm h0 lt hlt hp h' hh' hmem
          obtain ⟨f1, f2, f3, _, _⟩ := agreementDrawn_fields d1
          have h0C := (d1.2.2 h0).1
          rw [List.mem_cons] at hh'
          rcases hh' with rfl | hh'
          · have hln : h'.LicenseName = host.LicenseName := by rw [c2.1]
            exact s1 hca hm h0 lt hlt (hln ▸ hmem) (hp.trans_le (d2.2.2 h0C).2)
          · exact s2 (f1.trans hca) (f2 ▸ hm) h0C lt (f3 ▸ hlt) hp h' hh' hmem


/-- Function `fillAgreementsInfo` gives an agreement with a known license type the metric
of the license type. -/
theorem fillAgreementsInfo_metric (licenseTypes : LicenseTypesMap) :
    ∀ (agrs : List OracleDatabaseAgreementFE),
      List.Forall₂
        (fun a a' => ∀ licenseType, licenseTypes a.LicenseTypeID = some licenseType →
          a'.Metric = licenseType.Metric)
        agrs (fillAgreementsInfo agrs licenseTypes)
  | [] => List.Forall₂.nil
  | a :: agrs => by
    unfold fillAgreementsInfo
    rw [List.map_cons]
    refine List.Forall₂.cons ?_ (fillAgreementsInfo_metric licenseTypes agrs)
    intro licenseType hlt
    rw [hlt]
    simp only
    split_ifs <;> rfl

/-- After the direct pass every agreement with processor or computer metric, limited or
not, that started with a non-negative `AvailableCount` is saturated with respect to the
hosts as the pass leaves them. -/
theorem assignAgreementsLicenses_saturated_all (srt : SortSlice)
    (hs : SortSliceContract srt) (hostsMap : HostsMap) (licenseTypes : LicenseTypesMap)
    (agrs agrs' : List OracleDatabaseAgreementFE)
    (hosts hosts' : List HostUsingOracleDatabaseLicenses)
    (hnn : ∀ h ∈ hosts, 0 ≤ h.LicenseCount)
    (hrun : assignAgreementsLicensesToItsAssociatedHosts srt agrs hosts hostsMap
      licenseTypes = some (agrs', hosts')) :
    List.Forall₂
      (fun a a' => ∀ licenseType, licenseTypes a.LicenseTypeID = some licenseType →
        (a.Metric = AgreementPartMetricProcessorPerpetual ∨
          a.Metric = AgreementPartMetricComputerPerpetual) →
        0 ≤ a.AvailableCount → saturated hostsMap licenseType.Aliases a' hosts')
      agrs agrs' := by
  have s := assignAgreementsLicenses_some srt hs hostsMap licenseTypes _ _ _ _ hrun
  have hsat := assignAgreementsLicenses_saturated srt hs hostsMap licenseTypes _ _ _ _ hnn
    hrun
  have hun := assignAgreementsLicenses_unlimited srt hs hostsMap licenseTypes _ _ _ _ hrun
  refine forall₂_imp_of_mem (forall₂_conj s.1 hsat) ?_
  rintro a ha a' _ ⟨hass, hlim⟩ licenseType hlt hm h0
  cases hu : a.Unlimited with
  | false => exact hlim licenseType hlt hm hu h0
  | true =>
    intro _ x' hx' aliasName hal r0 hrec
    obtain ⟨sortedHosts, hperm, hcred⟩ := hass.2.1
    obtain ⟨x, hx, hname⟩ := forall₂_credited_hostname hcred x' hx'
    have hxa : x ∈ a.Hosts := hperm.mem_iff.mp hx
    have hkm : knownMetric a.Metric := by
      rcases hm with h | h
      · exact Or.inl h
      · exact Or.inr (Or.inl h)
    have hz := hun a ha hu hkm licenseType hlt x hxa aliasName hal
    rw [hname] at hrec
    rw [usageRecord_eq] at hrec
    cases hk : keysLookup hostsMap aliasName x.Hostname with
    | none => rw [hk] at hrec; cases hrec
    | some p =>
      rw [hk] at hrec
      simp only [Option.some_bind] at hrec
      obtain ⟨r00, hr00⟩ := forall₂_getElem_opt_right s.2.flip p r0 hrec
      have hrec0 : usageRecord hosts hostsMap aliasName x.Hostname = some r00 := by
        rw [usageRecord_eq, hk]
        exact hr00
      obtain ⟨r, hr, hr0⟩ := hz r00 hrec0 (hnn r00 (List.mem_iff_getElem?.mpr ⟨p, hr00⟩))
      rw [usageRecord_eq, hk] at hr
      simp only [Option.some_bind] at hr
      rw [hrec] at hr
      cases hr
      exact hr0

/-- The shortfall the finalizer computes for an agreement that is not catch-all, has
processor or computer metric, is saturated after the direct pass and has capacity left,
is 0. -/
theorem uncoveredLicenses_zero_of_saturated (hostsMapD hostsMapC : HostsMap)
    (aliases : List String) (hostsD hostsS2 hostsC : List HostUsingOracleDatabaseLicenses)
    (aD : OracleDatabaseAgreementFE)
    (hmapD : ∀ (aliasName hostname : String) (r : HostUsingOracleDatabaseLicenses),
      r ∈ hostsD → r.LicenseName = aliasName → r.Name = hostname →
      usageRecord hostsD hostsMapD aliasName hostname = some r)
    (hmapC : ∀ (aliasName hostname : String) (r : HostUsingOracleDatabaseLicenses),
      usageRecord hostsC hostsMapC aliasName hostname = some r →
      r ∈ hostsC ∧ r.LicenseName = aliasName ∧ r.Name = hostname)
    (hperm : hostsS2.Perm hostsD)
    (hcov : List.Forall₂ hostCovered hostsS2 hostsC)
    (hsat : saturated hostsMapD aliases aD hostsD)
    (hpos : 0 < aD.AvailableCount) (hca : aD.CatchAll = false)
    (hm : aD.Metric = AgreementPartMetricProcessorPerpetual ∨
      aD.Metric = AgreementPartMetricComputerPerpetual) :
    uncoveredLicenses hostsC hostsMapC aliases aD = 0 := by
  rw [uncoveredLicenses_processor _ _ _ _ hca hm]
  unfold remainingOfAssociatedHosts
  apply List.sum_eq_zero
  intro v hv
  obtain ⟨aliasName, hal, rfl⟩ := List.mem_map.mp hv
  apply List.sum_eq_zero
  intro w hw
  obtain ⟨x, hx, rfl⟩ := List.mem_map.mp hw
  cases hrec : usageRecord hostsC hostsMapC aliasName x.Hostname with
  | none => rfl
  | some r =>
    simp only
    obtain ⟨hr, hln, hn⟩ := hmapC aliasName x.Hostname r hrec
    obtain ⟨r0, hr0, hc⟩ := forall₂_mem_right hcov r hr
    have hr0D : r0 ∈ hostsD := hperm.mem_iff.mp hr0
    have hkey1 : r0.LicenseName = r.LicenseName := by rw [hc.1]
    have hkey2 : r0.Name = r.Name := by rw [hc.1]
    have hz : r0.LicenseCount = 0 :=
      hsat hpos x hx aliasName hal r0
        (hmapD aliasName x.Hostname r0 hr0D (hkey1.trans hln) (hkey2.trans hn))
    have h1 := hc.2.1
    have h2 := hc.2.2 hz.ge
    rw [hz] at h1
    exact le_antisymm h1 h2

/-- The shortfall the finalizer computes for a catch-all agreement is 0 when every host
usage under one of the aliases is fully covered. -/
theorem uncoveredLicenses_zero_of_spent (hostsMap : HostsMap) (aliases : List String)
    (hosts : List HostUsingOracleDatabaseLicenses) (a : OracleDatabaseAgreementFE)
    (hca : a.CatchAll = true)
    (hsp : ∀ h ∈ hosts, h.LicenseName ∈ aliases → h.LicenseCount = 0) :
    uncoveredLicenses hosts hostsMap aliases a = 0 := by
  unfold uncoveredLicenses
  rw [if_pos hca]
  apply List.sum_eq_zero
  intro v hv
  obtain ⟨aliasName, hal, rfl⟩ := List.mem_map.mp hv
  rw [calculateCoverStatusByLicenseName_eq]
  simp only
  rw [← sum_sub_map]
  apply List.sum_eq_zero
  intro w hw
  obtain ⟨h, hh, rfl⟩ := List.mem_map.mp hw
  rw [List.mem_filter] at hh
  have hln : h.LicenseName = aliasName := of_decide_eq_true hh.2
  have := hsp h hh.1 (hln ▸ hal)
  rw [this]
  ring


/-- C24: on a consistent snapshot (host usages pairwise distinct by license name and
name, with `LicenseCount ≥ 0`; every agreement with `AvailableCount ≥ 0` and a license type
in the catalog with processor or computer metric) the run returns, and the anomaly of the
finalizer is never logged: no agreement, catch-all or not, enters the finalizer with both
`AvailableCount > 0` and `uncoveredLicenses > 0`. Neither `LicenseCount = OriginalCount`
nor pairwise distinct aliases are needed for this. -/
theorem anomaly_never_raised_on_consistent_snapshot (srt : SortSlice)
    (hs : SortSliceContract srt) (licenseTypes : List OracleDatabaseLicenseType)
    (agrs : List OracleDatabaseAgreementFE) (hosts : List HostUsingOracleDatabaseLicenses)
    (hkeys : (hostKeys hosts).Nodup)
    (hnn : ∀ h ∈ hosts, 0 ≤ h.LicenseCount)
    (hagr : ∀ a ∈ agrs, 0 ≤ a.AvailableCount ∧
      ∃ licenseType ∈ buildLicenseTypesMap licenseTypes a.LicenseTypeID,
        licenseType.Metric = AgreementPartMetricProcessorPerpetual ∨
          licenseType.Metric = AgreementPartMetricComputerPerpetual) :
    ∃ agrsD hostsD agrsC hostsC logged,
      assignAgreementsLicensesToItsAssociatedHosts srt
        (fillAgreementsInfo (sortOracleDatabaseAgreements srt agrs)
          (buildLicenseTypesMap licenseTypes))
        (sortHostsUsingLicenses srt (hosts.map (resolveLicenseType licenseTypes)))
        (buildHostUsingLicensesMap
          (sortHostsUsingLicenses srt (hosts.map (resolveLicenseType licenseTypes))))
        (buildLicenseTypesMap licenseTypes) = some (agrsD, hostsD) ∧
      assignLicensesFromCatchAllAgreements agrsD (sortHostsUsingLicenses srt hostsD)
        (buildLicenseTypesMap licenseTypes) = some (agrsC, hostsC) ∧
      calculateTotalCoveredLicensesAndAvailableCountLogged agrsC hostsC
        (buildHostUsingLicensesMap (sortHostsUsingLicenses srt hostsD))
        (buildLicenseTypesMap licenseTypes) = some logged ∧
      assignOracleDatabaseAgreementsToHosts srt licenseTypes agrs hosts =
        some (logged.map Prod.fst, hostsC) ∧
      (∀ r ∈ logged, r.2 = false) ∧
      ∀ a ∈ agrsC, ∀ licenseType,
        buildLicenseTypesMap licenseTypes a.LicenseTypeID = some licenseType →
        ¬ (0 < a.AvailableCount ∧
          0 < finalizerUncoveredLicenses hostsC
            (buildHostUsingLicensesMap (sortHostsUsingLicenses srt hostsD))
            (calculateCoverStatusByLicenseName hostsC) licenseType.Aliases a) := by
  -- the state before the direct pass
  have hpermA : (sortOracleDatabaseAgreements srt agrs).Perm agrs := hs.perm _ _ _
  have hfill := fillAgreementsInfo_frame (buildLicenseTypesMap licenseTypes)
    (sortOracleDatabaseAgreements srt agrs)
  have hfillM := fillAgreementsInfo_metric (buildLicenseTypesMap licenseTypes)
    (sortOracleDatabaseAgreements srt agrs)
  have hF : ∀ a ∈ fillAgreementsInfo (sortOracleDatabaseAgreements srt agrs)
      (buildLicenseTypesMap licenseTypes),
      0 ≤ a.AvailableCount ∧
      (a.Metric = AgreementPartMetricProcessorPerpetual ∨
        a.Metric = AgreementPartMetricComputerPerpetual) ∧
      ∃ lt, buildLicenseTypesMap licenseTypes a.LicenseTypeID = some lt := by
    intro a ha
    obtain ⟨a0, ha0, hfr, hme⟩ := forall₂_mem_right (forall₂_conj hfill hfillM) a ha
    have ha0' := hpermA.mem_iff.mp ha0
    obtain ⟨h0, lt, hlt, hm⟩ := hagr a0 ha0'
    have e1 : a.AvailableCount = a0.AvailableCount := by rw [hfr]
    have e2 : a.LicenseTypeID = a0.LicenseTypeID := by rw [hfr]
    rw [e1, e2, hme lt hlt]
    exact ⟨h0, hm, lt, hlt⟩
  have hpermS : (sortHostsUsingLicenses srt
      (hosts.map (resolveLicenseType licenseTypes))).Perm
      (hosts.map (resolveLicenseType licenseTypes)) := hs.perm _ _ _
  have hkeysS : (hostKeys (sortHostsUsingLicenses srt
      (hosts.map (resolveLicenseType licenseTypes)))).Nodup := by
    rw [(hostKeys_perm hpermS).nodup_iff, hostKeys_resolve]
    exact hkeys
  have hnnS : ∀ h ∈ sortHostsUsingLicenses srt
      (hosts.map (resolveLicenseType licenseTypes)), 0 ≤ h.LicenseCount := by
    intro h hh
    obtain ⟨h0, hh0, rfl⟩ := List.mem_map.mp (hpermS.mem_iff.mp hh)
    have e : (resolveLicenseType licenseTypes h0).LicenseCount = h0.LicenseCount := by
      rw [resolveLicenseType_frame]
    rw [e]
    exact hnn h0 hh0
  -- the direct pass
  obtain ⟨agrsD, hostsD, eD, hDa, hDh⟩ := assignAgreementsLicenses_spec srt hs
    (buildHostUsingLicensesMap (sortHostsUsingLicenses srt
      (hosts.map (resolveLicenseType licenseTypes))))
    (buildLicenseTypesMap licenseTypes) _
    (sortHostsUsingLicenses srt (hosts.map (resolveLicenseType licenseTypes)))
    (fun a ha => (hF a ha).2.2)
  have hDsat := assignAgreementsLicenses_saturated_all srt hs _ _ _ _ _ _ hnnS eD
  have hkeysD := hostKeys_of_covered hDh
  have hnnD := forall₂_hostCovered_nonneg hDh hnnS
  have hknownD := licenseTypesKnown_of_assigned (buildLicenseTypesMap licenseTypes) hDa
    (fun a ha => (hF a ha).2.2)
  -- the catch-all pass
  have hpermS2 : (sortHostsUsingLicenses srt hostsD).Perm hostsD := hs.perm _ _ _
  have hkeysS2 : (hostKeys (sortHostsUsingLicenses srt hostsD)).Nodup := by
    rw [(hostKeys_perm hpermS2).nodup_iff, hkeysD]
    exact hkeysS
  have hnnS2 : ∀ h ∈ sortHostsUsingLicenses srt hostsD, 0 ≤ h.LicenseCount :=
    fun h hh => hnnD h (hpermS2.mem_iff.mp hh)
  obtain ⟨agrsC, hostsC, eC, hCa, hCh⟩ := assignLicensesFromCatchAllAgreements_spec
    (buildLicenseTypesMap licenseTypes) (sortHostsUsingLicenses srt hostsD) agrsD hknownD
  have hCsp := assignLicensesFromCatchAllAgreements_spent (buildLicenseTypesMap licenseTypes)
    _ _ _ _ hnnS2 eC
  have hkeysC := hostKeys_of_covered hCh
  have hknownC := licenseTypesKnown_of_drawn (buildLicenseTypesMap licenseTypes) hCa hknownD
  -- the finalizer
  obtain ⟨agrs', eF⟩ := calculateTotal_some_of_known agrsC hostsC
    (buildHostUsingLicensesMap (sortHostsUsingLicenses srt hostsD))
    (buildLicenseTypesMap licenseTypes) hknownC
  have hfst := mapM_option_map_fst _ _
    (calculateAgreementLogged_fst hostsC
      (buildHostUsingLicensesMap (sortHostsUsingLicenses srt hostsD))
      (buildLicenseTypesMap licenseTypes) (calculateCoverStatusByLicenseName hostsC)) agrsC
  have eF' : agrsC.mapM (calculateAgreement hostsC
      (buildHostUsingLicensesMap (sortHostsUsingLicenses srt hostsD))
      (buildLicenseTypesMap licenseTypes) (calculateCoverStatusByLicenseName hostsC)) =
      some agrs' := eF
  rw [eF'] at hfst
  cases eL : agrsC.mapM (calculateAgreementLogged hostsC
      (buildHostUsingLicensesMap (sortHostsUsingLicenses srt hostsD))
      (buildLicenseTypesMap licenseTypes) (calculateCoverStatusByLicenseName hostsC)) with
  | none => rw [eL] at hfst; cases hfst
  | some logged =>
    rw [eL] at hfst
    simp only [Option.map_some', Option.some.injEq] at hfst
    have hL := (mapM_option_eq_some _ _ _).mp eL
    -- no shortfall where capacity is left
    have hzero : ∀ a ∈ agrsC, ∀ licenseType,
        buildLicenseTypesMap licenseTypes a.LicenseTypeID = some licenseType →
        0 < a.AvailableCount →
        uncoveredLicenses hostsC
          (buildHostUsingLicensesMap (sortHostsUsingLicenses srt hostsD))
          licenseType.Aliases a = 0 := by
      intro a ha licenseType hlt hpos
      obtain ⟨aF, haF, aD, ⟨hass, hsat⟩, hdrawn, hsp⟩ :=
        forall₂_mem_right (forall₂_comp (forall₂_conj hDa hDsat) (forall₂_conj hCa hCsp)) a ha
      obtain ⟨f1, f2, f3, _, _⟩ := agreementDrawn_fields hdrawn
      have g2 : aD.Metric = aF.Metric := by rw [hass.1]
      have g3 : aD.LicenseTypeID = aF.LicenseTypeID := by rw [hass.1]
      obtain ⟨h0F, hmF, _⟩ := hF aF haF
      have h0D := (hass.2.2.1 h0F).1
      have hmD : aD.Metric = AgreementPartMetricProcessorPerpetual ∨
          aD.Metric = AgreementPartMetricComputerPerpetual := g2 ▸ hmF
      have hltD : buildLicenseTypesMap licenseTypes aD.LicenseTypeID = some licenseType :=
        f3 ▸ hlt
      cases hca : a.CatchAll with
      | false =>
        have hcaD : aD.CatchAll = false := f1 ▸ hca
        have hCD : a = aD := hdrawn.2.1 hcaD
        subst hCD
        exact uncoveredLicenses_zero_of_saturated _ _ licenseType.Aliases hostsD
          (sortHostsUsingLicenses srt hostsD) hostsC a
          (fun aliasName hostname r hr h1 h2 =>
            (usageRecord_iff _ hostsD hkeysD hkeysS aliasName hostname r).mpr ⟨hr, h1, h2⟩)
          (fun aliasName hostname r hr =>
            (usageRecord_iff _ hostsC hkeysC hkeysS2 aliasName hostname r).mp hr)
          hpermS2 hCh (hsat licenseType (g3 ▸ hltD) hmF h0F) hpos hca hmD
      | true =>
        exact uncoveredLicenses_zero_of_spent _ licenseType.Aliases hostsC a hca
          (hsp (f1 ▸ hca) hmD h0D licenseType hltD hpos)
    refine ⟨agrsD, hostsD, agrsC, hostsC, logged, eD, eC, eL, ?_, ?_, ?_⟩
    · rw [assignOracleDatabaseAgreementsToHosts_eq, eD]
      simp only [Option.some_bind]
      rw [eC]
      simp only [Option.some_bind]
      rw [eF, hfst]
      rfl
    · intro r hr
      obtain ⟨a, ha, har⟩ := forall₂_mem_right hL r hr
      obtain ⟨licenseType, hlt⟩ := hknownC a ha
      have hiff := (calculateAgreementLogged_eq hostsC _ _ _ a licenseType hlt r har).1
      cases hr2 : r.2 with
      | false => rfl
      | true =>
        obtain ⟨hu, hav⟩ := hiff.mp hr2
        have hpos : 0 < a.AvailableCount := by
          rcases hav with h | h
          · exact h.1
          · linarith [h.1]
        rw [finalizerUncoveredLicenses_eq, hzero a ha licenseType hlt hpos] at hu
        exact absurd hu (lt_irrefl _)
    · rintro a ha licenseType hlt ⟨hpos, hu⟩
      rw [finalizerUncoveredLicenses_eq, hzero a ha licenseType hlt hpos] at hu
      exact absurd hu (lt_irrefl _)

theorem anomaly_never_raised_on_consistent_snapshot_witness :
    SortSliceContract insertionSortSlice ∧
    (hostKeys scenarioHosts).Nodup ∧
    (∀ h ∈ scenarioHosts, 0 ≤ h.LicenseCount) ∧
    (∀ a ∈ scenarioProcessorAgreements, 0 ≤ a.AvailableCount ∧
      ∃ licenseType ∈ buildLicenseTypesMap scenarioLicenseTypes a.LicenseTypeID,
        licenseType.Metric = AgreementPartMetricProcessorPerpetual ∨
          licenseType.Metric = AgreementPartMetricComputerPerpetual) ∧
    ∃ agrsD hostsD agrsC hostsC logged,
      assignAgreementsLicensesToItsAssociatedHosts insertionSortSlice
        (fillAgreementsInfo
          (sortOracleDatabaseAgreements insertionSortSlice scenarioProcessorAgreements)
          (buildLicenseTypesMap scenarioLicenseTypes))
        (sortHostsUsingLicenses insertionSortSlice
          (scenarioHosts.map (resolveLicenseType scenarioLicenseTypes)))
        (buildHostUsingLicensesMap
          (sortHostsUsingLicenses insertionSortSlice
            (scenarioHosts.map (resolveLicenseType scenarioLicenseTypes))))
        (buildLicenseTypesMap scenarioLicenseTypes) = some (agrsD, hostsD) ∧
      assignLicensesFromCatchAllAgreements agrsD
        (sortHostsUsingLicenses insertionSortSlice hostsD)
        (buildLicenseTypesMap scenarioLicenseTypes) = some (agrsC, hostsC) ∧
      calculateTotalCoveredLicensesAndAvailableCountLogged agrsC hostsC
        (buildHostUsingLicensesMap (sortHostsUsingLicenses insertionSortSlice hostsD))
        (buildLicenseTypesMap scenarioLicenseTypes) = some logged ∧
      assignOracleDatabaseAgreementsToHosts insertionSortSlice scenarioLicenseTypes
        scenarioProcessorAgreements scenarioHosts = some (logged.map Prod.fst, hostsC) ∧
      (∀ r ∈ logged, r.2 = false) ∧
      ∀ a ∈ agrsC, ∀ licenseType,
        buildLicenseTypesMap scenarioLicenseTypes a.LicenseTypeID = some licenseType →
        ¬ (0 < a.AvailableCount ∧
          0 < finalizerUncoveredLicenses hostsC
            (buildHostUsingLicensesMap (sortHostsUsingLicenses insertionSortSlice hostsD))
            (calculateCoverStatusByLicenseName hostsC) licenseType.Aliases a) :=
  ⟨insertionSortSlice_contract, by decide!, by decide!, by decide!,
    anomaly_never_raised_on_consistent_snapshot insertionSortSlice
      insertionSortSlice_contract scenarioLicenseTypes scenarioProcessorAgreements
      scenarioHosts (by decide!) (by decide!) (by decide!)⟩

/-! ## The arithmetic of `float64` -/

theorem natLog2Loop_eq : ∀ (fuel n : Nat), n ≤ fuel → natLog2Loop fuel n = Nat.log2 n
  | 0, n, h => by
    have : n = 0 := Nat.le_zero.mp h
    subst this
    rw [Nat.log2]
    simp [natLog2Loop]
  | fuel + 1, n, h => by
    unfold natLog2Loop
    rw [Nat.log2]
    by_cases h2 : n < 2
    · rw [if_pos h2, if_neg (by omega)]
    · rw [if_neg h2, if_pos (by omega)]
      rw [natLog2Loop_eq fuel (n / 2) (by omega)]

/-- The halving loop computes `Nat.log2`. -/
theorem natLog2_eq (n : Nat) : natLog2 n = Nat.log2 n :=
  natLog2Loop_eq n n (le_refl n)

/-- The definition of `pow2` is the power of two. -/
theorem pow2_eq (e : ℤ) : pow2 e = (2 : ℚ) ^ e := by
  unfold pow2
  split_ifs with h
  · obtain ⟨n, rfl⟩ := Int.eq_ofNat_of_zero_le h
    simp
  · have hneg : 0 ≤ -e := by omega
    obtain ⟨n, hn⟩ := Int.eq_ofNat_of_zero_le hneg
    have he : e = -(n : ℤ) := by omega
    subst he
    simp

theorem natLog2_bounds (n : Nat) (hn : 0 < n) :
    2 ^ natLog2 n ≤ n ∧ n < 2 ^ (natLog2 n + 1) := by
  rw [natLog2_eq]
  exact ⟨Nat.log2_self_le (by omega), Nat.lt_log2_self⟩

theorem zpow_two_quotient_bounds (n d : ℚ) (A B : ℤ) (hd : 0 < d)
    (a1 : (2 : ℚ) ^ A ≤ n) (a2 : n < (2 : ℚ) ^ (A + 1))
    (b1 : (2 : ℚ) ^ B ≤ d) (b2 : d < (2 : ℚ) ^ (B + 1)) :
    (2 : ℚ) ^ (A - B - 1) < n / d ∧ n / d < (2 : ℚ) ^ (A - B + 1) := by
  have h2pos : ∀ z : ℤ, (0 : ℚ) < (2 : ℚ) ^ z := fun z => zpow_pos (by norm_num) z
  constructor
  · have e : A - B - 1 = A - (B + 1) := by ring
    rw [e, zpow_sub₀ (by norm_num : (2 : ℚ) ≠ 0)]
    calc (2 : ℚ) ^ A / (2 : ℚ) ^ (B + 1) < (2 : ℚ) ^ A / d :=
          div_lt_div_of_pos_left (h2pos _) hd b2
      _ ≤ n / d := div_le_div_of_nonneg_right a1 hd.le
  · have e : A - B + 1 = A + 1 - B := by ring
    rw [e, zpow_sub₀ (by norm_num : (2 : ℚ) ≠ 0)]
    calc n / d < (2 : ℚ) ^ (A + 1) / d := div_lt_div_of_pos_right a2 hd
      _ ≤ (2 : ℚ) ^ (A + 1) / (2 : ℚ) ^ B :=
          div_le_div_of_nonneg_left (h2pos _).le (h2pos _) b1

/-- For `q > 0`, `floorLog2 q` is `⌊log₂ q⌋`. -/
theorem floorLog2_spec (q : ℚ) (hq : 0 < q) :
    (2 : ℚ) ^ floorLog2 q ≤ q ∧ q < (2 : ℚ) ^ (floorLog2 q + 1) := by
  have hnum : 0 < q.num := Rat.num_pos.mpr hq
  have hn0 : 0 < q.num.natAbs := Int.natAbs_pos.mpr hnum.ne'
  have hd0 : 0 < q.den := q.den_pos
  obtain ⟨a1, a2⟩ := natLog2_bounds q.num.natAbs hn0
  obtain ⟨b1, b2⟩ := natLog2_bounds q.den hd0
  have hqe : (q.num.natAbs : ℚ) / (q.den : ℚ) = q := by
    have h1 : (q.num.natAbs : ℤ) = q.num := Int.natAbs_of_nonneg hnum.le
    have h2 : ((q.num.natAbs : ℕ) : ℚ) = ((q.num.natAbs : ℤ) : ℚ) :=
      (Int.cast_natCast _).symm
    rw [h2, h1]
    exact Rat.num_div_den q
  have hdq : (0 : ℚ) < (q.den : ℚ) := by exact_mod_cast hd0
  have a1' : (2 : ℚ) ^ (natLog2 q.num.natAbs : ℤ) ≤ (q.num.natAbs : ℚ) := by
    rw [zpow_natCast]; exact_mod_cast a1
  have a2' : (q.num.natAbs : ℚ) < (2 : ℚ) ^ ((natLog2 q.num.natAbs : ℤ) + 1) := by
    have : ((natLog2 q.num.natAbs : ℤ) + 1) = ((natLog2 q.num.natAbs + 1 : ℕ) : ℤ) := by
      push_cast; ring
    rw [this, zpow_natCast]; exact_mod_cast a2
  have b1' : (2 : ℚ) ^ (natLog2 q.den : ℤ) ≤ (q.den : ℚ) := by
    rw [zpow_natCast]; exact_mod_cast b1
  have b2' : (q.den : ℚ) < (2 : ℚ) ^ ((natLog2 q.den : ℤ) + 1) := by
    have : ((natLog2 q.den : ℤ) + 1) = ((natLog2 q.den + 1 : ℕ) : ℤ) := by
      push_cast; ring
    rw [this, zpow_natCast]; exact_mod_cast b2
  have hb := zpow_two_quotient_bounds _ _ _ _ hdq a1' a2' b1' b2'
  rw [hqe] at hb
  unfold floorLog2
  simp only [pow2_eq]
  split_ifs with h
  · exact ⟨h, hb.2⟩
  · refine ⟨hb.1.le, ?_⟩
    rw [sub_add_cancel]
    exact not_le.mp h

/-- Rounding to the nearest integer is off by at most one half. -/
theorem roundHalfEven_spec (m : ℚ) : |((roundHalfEven m : ℤ) : ℚ) - m| ≤ 1 / 2 := by
  unfold roundHalfEven
  have h1 := Int.floor_le m
  have h2 := Int.lt_floor_add_one m
  simp only
  split_ifs with c1 c2 c3
  · rw [abs_le]; constructor <;> linarith
  · rw [abs_le]; push_cast; constructor <;> linarith
  · rw [abs_le]; constructor <;> linarith
  · rw [abs_le]; push_cast
    have := not_lt.mp c1
    have := not_lt.mp c2
    constructor <;> linarith

/-- The value `roundFloat64 q` is an integer multiple of the spacing `2 ^ e` of the
`float64` values around `q`, where `e = max (⌊log₂ |q|⌋ - 52) (-1074)`, and it is within
half a spacing of `q`. -/
theorem roundFloat64_spec (q : ℚ) (hq : q ≠ 0) :
    ∃ m : ℤ, roundFloat64 q = (m : ℚ) * (2 : ℚ) ^ (max (floorLog2 |q| - 52) (-1074)) ∧
      |roundFloat64 q - q| ≤ (2 : ℚ) ^ (max (floorLog2 |q| - 52) (-1074)) / 2 := by
  have hpos : ∀ z : ℤ, (0 : ℚ) < (2 : ℚ) ^ z := fun z => zpow_pos (by norm_num) z
  have key : ∀ a : ℚ, 0 < a →
      |((roundHalfEven (a / (2 : ℚ) ^ (max (floorLog2 a - 52) (-1074))) : ℤ) : ℚ) *
        (2 : ℚ) ^ (max (floorLog2 a - 52) (-1074)) - a| ≤
        (2 : ℚ) ^ (max (floorLog2 a - 52) (-1074)) / 2 := by
    intro a _
    have hp := hpos (max (floorLog2 a - 52) (-1074))
    have hs := roundHalfEven_spec (a / (2 : ℚ) ^ (max (floorLog2 a - 52) (-1074)))
    have e : ((roundHalfEven (a / (2 : ℚ) ^ (max (floorLog2 a - 52) (-1074))) : ℤ) : ℚ) *
        (2 : ℚ) ^ (max (floorLog2 a - 52) (-1074)) - a =
        (((roundHalfEven (a / (2 : ℚ) ^ (max (floorLog2 a - 52) (-1074))) : ℤ) : ℚ) -
          a / (2 : ℚ) ^ (max (floorLog2 a - 52) (-1074))) *
          (2 : ℚ) ^ (max (floorLog2 a - 52) (-1074)) := by
      field_simp
    rw [e, abs_mul, abs_of_pos hp]
    calc _ ≤ (1 / 2) * (2 : ℚ) ^ (max (floorLog2 a - 52) (-1074)) :=
          mul_le_mul_of_nonneg_right hs hp.le
      _ = _ := by ring
  unfold roundFloat64
  rw [if_neg hq]
  simp only [pow2_eq]
  by_cases hneg : q < 0
  · simp only [hneg, if_true]
    rw [abs_of_neg hneg]
    refine ⟨-roundHalfEven (-q / (2 : ℚ) ^ (max (floorLog2 (-q) - 52) (-1074))), ?_, ?_⟩
    · push_cast; ring
    · have := key (-q) (by linarith)
      rw [← abs_neg]
      have e : -(-(((roundHalfEven (-q / (2 : ℚ) ^ (max (floorLog2 (-q) - 52) (-1074))) : ℤ) : ℚ) *
          (2 : ℚ) ^ (max (floorLog2 (-q) - 52) (-1074))) - q) =
          ((roundHalfEven (-q / (2 : ℚ) ^ (max (floorLog2 (-q) - 52) (-1074))) : ℤ) : ℚ) *
          (2 : ℚ) ^ (max (floorLog2 (-q) - 52) (-1074)) - -q := by ring
      rw [e]
      exact this
  · have hq0 : 0 < q := lt_of_le_of_ne (not_lt.mp hneg) (Ne.symm hq)
    simp only [hneg, if_false]
    rw [abs_of_pos hq0]
    exact ⟨_, rfl, key q hq0⟩

/-! ## Counterexamples in `float64` arithmetic -/


theorem roundFloat64_tenth : roundFloat64 (1 / 10) = 3602879701896397 / 36028797018963968 := by
  decide!

theorem float64Add_tenths :
    float64Add (roundFloat64 (1 / 10)) (roundFloat64 (2 / 10)) =
      1351079888211149 / 4503599627370496 := by
  decide!

/-- C2 as stated fails in `float64` arithmetic.  In the scenario of three tenths the
agreement is limited and not catch-all, starts with `AvailableCount = Count = 2.4` and no
credit; the direct pass covers the three hosts fully, crediting 0.9, 0.8 and 0.7, and the
sum of these credits exceeds `Count`, both as an exact sum and added in `float64`
(2.4000000000000004). -/
theorem credited_total_le_count_counterexample :
    (∀ a ∈ tenthsAgreements,
      a.Unlimited = false ∧ a.CatchAll = false ∧ a.AvailableCount = a.Count ∧
      0 ≤ a.Count ∧ ∀ h ∈ a.Hosts, h.CoveredLicensesCount = 0) ∧
    assignAgreementsLicensesToItsAssociatedHostsFloat64 insertionSortSlice tenthsAgreements
      tenthsHosts (buildHostUsingLicensesMap tenthsHosts)
      (buildLicenseTypesMap scenarioLicenseTypes) =
      some (tenthsAgreementsAfterDirect, tenthsHostsAfterDirect) ∧
    (∀ a ∈ tenthsAgreementsAfterDirect,
      a.Count < totalCredited a.Hosts ∧
      a.Count < float64Sum (a.Hosts.map fun h => h.CoveredLicensesCount)) := by
  decide!

/-- C27 as stated fails in `float64` arithmetic.  In the scenario of two units the
agreement is limited with processor metric and a known license type; the direct pass covers
the three hosts fully and leaves `AvailableCount = 2 ^ (-54)`, the catch-all pass changes
nothing, and the decrease of `AvailableCount` (`2 - 2 ^ (-54)`) is neither the decrease of
`LicenseCount` over the hosts nor the increase of `CoveredLicensesCount` (both the exact
sum of the `float64` values 0.9, 0.8 and 0.3). -/
theorem passes_conserve_units_counterexample :
    (∀ a ∈ twoUnitsAgreements, a.Unlimited = false ∧
      (a.Metric = AgreementPartMetricProcessorPerpetual ∨
        a.Metric = AgreementPartMetricComputerPerpetual)) ∧
    licenseTypesKnown (buildLicenseTypesMap scenarioLicenseTypes) twoUnitsAgreements ∧
    assignAgreementsLicensesToItsAssociatedHostsFloat64 insertionSortSlice twoUnitsAgreements
      twoUnitsHosts (buildHostUsingLicensesMap twoUnitsHosts)
      (buildLicenseTypesMap scenarioLicenseTypes) =
      some (twoUnitsAgreementsAfterDirect, twoUnitsHostsAfterDirect) ∧
    sortHostsUsingLicenses insertionSortSlice twoUnitsHostsAfterDirect =
      [⟨"L1", "gamma", "Oracle ENT", 0, roundFloat64 (3 / 10)⟩,
       ⟨"L1", "beta", "Oracle ENT", 0, roundFloat64 (8 / 10)⟩,
       ⟨"L1", "alpha", "Oracle ENT", 0, roundFloat64 (9 / 10)⟩] ∧
    assignLicensesFromCatchAllAgreementsFloat64 twoUnitsAgreementsAfterDirect
      (sortHostsUsingLicenses insertionSortSlice twoUnitsHostsAfterDirect)
      (buildLicenseTypesMap scenarioLicenseTypes) =
      some (twoUnitsAgreementsAfterDirect,
        sortHostsUsingLicenses insertionSortSlice twoUnitsHostsAfterDirect) ∧
    totalAvailableCount twoUnitsAgreements -
        totalAvailableCount twoUnitsAgreementsAfterDirect ≠
      totalLicenseCount twoUnitsHosts -
        totalLicenseCount (sortHostsUsingLicenses insertionSortSlice
          twoUnitsHostsAfterDirect) ∧
    ¬ List.Forall₂
      (fun a aD => a.AvailableCount - aD.AvailableCount =
        totalCredited aD.Hosts - totalCredited a.Hosts)
      twoUnitsAgreements twoUnitsAgreementsAfterDirect := by
  decide!

/-- C22 as stated fails in `float64` arithmetic.  For a catch-all agreement whose license
type has two distinct aliases, with one host usage of 0.1 left uncovered and one of 0.2
fully covered under the same alias, the finalizer computes `Consumed = 0.1 + 0.2`,
`Covered = 0.2` and subtracts `(0.1 + 0.2) - 0.2` = 0.10000000000000003, which is not the
sum 0.1 of the remaining `LicenseCount`; nor is `Consumed` the sum of `OriginalCount`. -/
theorem catchAll_shortfall_counterexample :
    sampleCatchAllExhausted.CatchAll = true ∧
    buildLicenseTypesMap scenarioLicenseTypes sampleCatchAllExhausted.LicenseTypeID =
      some sampleLicenseType ∧
    sampleLicenseType.Aliases.Nodup ∧
    calculateTotalCoveredLicensesAndAvailableCountFloat64 [sampleCatchAllExhausted]
      sampleHostsOneUncovered (buildHostUsingLicensesMap sampleHostsOneUncovered)
      (buildLicenseTypesMap scenarioLicenseTypes) =
      some [{ sampleCatchAllExhausted with
        AvailableCount :=
          -(float64Sub (float64Add (roundFloat64 (1 / 10)) (roundFloat64 (2 / 10)))
            (roundFloat64 (2 / 10))) }] ∧
    float64Sub (float64Add (roundFloat64 (1 / 10)) (roundFloat64 (2 / 10)))
        (roundFloat64 (2 / 10)) ≠
      ((sampleHostsOneUncovered.filter fun h =>
        decide (h.LicenseName ∈ sampleLicenseType.Aliases)).map fun h => h.LicenseCount).sum ∧
    (calculateCoverStatusByLicenseNameFloat64 sampleHostsOneUncovered "Oracle ENT").Consumed ≠
      ((sampleHostsOneUncovered.filter fun h =>
        decide (h.LicenseName = "Oracle ENT")).map fun h => h.OriginalCount).sum := by
  decide!

end Ercole
